import Mathlib

/-!
# energy-profiler: RAPL reader and debug-info query layer

A shallow embedding of `nrg/src/reader_rapl.cpp` (socket discovery, event
registration, wraparound-safe counter decoding) and of the line and
compilation-unit queries of `src/dbg/utility_funcs.cpp`, followed by the
properties proved about them.

Conventions of the embedding:
* machine integers are natural numbers or integers, reduced explicitly where
  the source type is finite (`uint64_t` sums are taken modulo `2 ^ 64`,
  conversions to `int32_t` and `uint8_t` are explicit);
* what the operating system answers (contents of sysfs files, results of
  `open`, `access`, `pread`) is an explicit argument;
* out-parameters and mutated objects are returned next to the result;
* a C++ iterator into a container is the index of the element, and the
  past-the-end iterator is the length of the container.
-/

set_option autoImplicit false

deriving instance DecidableEq for Except

namespace nrgprf

/-! ## Constants and errors -/

/-- Number of values of `uint64_t`. -/
def UINT64_RANGE : Nat := 2 ^ 64

/-- Conversion of a container size to `int32_t`, as done by the assignment
`_event_map[skt][didx.value()] = _active_events.size()`. -/
def to_int32 (n : Nat) : Int := ((n + 2 ^ 31) % 2 ^ 32 : Nat) - 2 ^ 31

/-- Conversion of a `size_t` to `uint8_t`, as done when `read(sample&)` passes
its loop counter to `read(sample&, uint8_t)`. -/
def to_uint8 (n : Nat) : Nat := n % 256

/-- Modelled from the spec: `max_sockets` is declared in a header that is not
part of the sources at hand; the maximum supported number of sockets is the
platform constant 8 (also quoted by the too-many-sockets message). -/
def max_sockets : Nat := 8

/-- The constant `detail::rapl_domains` of `nrg/arch/constants.hpp` (x86-64). -/
def rapl_domains : Nat := 4

/-- The values of `error_code` that `reader_rapl.cpp`, `hybrid_reader_tp.inl` and
`error.cpp` use. -/
inductive error_code where
  | SUCCESS
  | UNKNOWN_ERROR
  | SYSTEM
  | TOO_MANY_SOCKETS
  | NO_SOCKETS
  | INVALID_DOMAIN_NAME
  | NO_EVENT
  | NOT_IMPL
  deriving DecidableEq, Repr

/-- The class `error`; only the code is kept, the message text is dropped. -/
structure error where
  code : error_code
  deriving DecidableEq, Repr

/-- The function `error::success()`. -/
def error.success : error := ⟨error_code.SUCCESS⟩

/-- The conversion `error::operator bool()`: true when the object holds an error. -/
def error.to_bool (e : error) : Bool := e.code != error_code.SUCCESS

/-- The template `result<T>`: a value or an error. -/
abbrev result (α : Type) := Except error α

/-! ## Domain tags and names -/

/-- Modelled from the spec: the tag types are declared in `reader_rapl.hpp`,
which is not part of the sources at hand; the four RAPL domains are numbered
in the order package, cores, uncore, dram. This is `reader_rapl::package::value`. -/
def package_value : Int := 0

/-- Modelled from the spec: `reader_rapl::cores::value` (see `package_value`). -/
def cores_value : Int := 1

/-- Modelled from the spec: `reader_rapl::uncore::value` (see `package_value`). -/
def uncore_value : Int := 2

/-- Modelled from the spec: `reader_rapl::dram::value` (see `package_value`). -/
def dram_value : Int := 3

/-- The string constant `EVENT_PKG_PREFIX`. -/
def EVENT_PKG_PREFIX : List Char := "package".toList

/-- The string constant `EVENT_PP0`. -/
def EVENT_PP0 : List Char := "core".toList

/-- The string constant `EVENT_PP1`. -/
def EVENT_PP1 : List Char := "uncore".toList

/-- The string constant `EVENT_DRAM`. -/
def EVENT_DRAM : List Char := "dram".toList

/-- The test `!strncmp(pre, name, sizeof(pre) - 1)`: the first `sizeof(pre) - 1`
characters of `name` are those of `pre`. -/
def strncmp_eq (pre name : List Char) : Bool := pre.isPrefixOf name

/-- The function `domain_index_from_name`. -/
def domain_index_from_name (name : List Char) : Int :=
  if strncmp_eq EVENT_PKG_PREFIX name then package_value
  else if strncmp_eq EVENT_PP0 name then cores_value
  else if strncmp_eq EVENT_PP1 name then uncore_value
  else if strncmp_eq EVENT_DRAM name then dram_value
  else -1

/-! ## What sysfs answers -/

/-- One file `cpu{N}/topology/physical_package_id` that exists: opening it may
fail, reading a number from it may fail, or it yields a package id. -/
inductive cpu_topology_file where
  | open_failed
  | read_failed
  | package_id (pkg : Nat)
  deriving DecidableEq, Repr

/-- One powercap zone directory, as `get_domain_idx` and `get_event_data` see it:
`name` is the content of the `name` file, the bytes that `pread` delivers
(`none` when the file cannot be opened or `pread` fails; an empty file
delivers no byte), `max_energy_range_uj` the number read from that file (`none`
when it cannot be opened or parsed), `energy_uj` the descriptor obtained by
opening `energy_uj` (`none` when `open` fails). The local array `name[64]` of
`get_domain_idx` is not initialised: `name_buffer` is what the array holds
when the function is called on the zone, which is any sequence of bytes. -/
structure powercap_zone where
  name : Option (List Char)
  max_energy_range_uj : Option Nat
  energy_uj : Option Nat
  name_buffer : List Char := []

/-- The part of sysfs the constructor of `reader_rapl` looks at: the topology
files `cpu0, cpu1, ...` up to the first missing one, the zone `intel-rapl:s` of
every socket and the zones `intel-rapl:s:d` (`none` when `access` fails). -/
structure sysfs where
  cpus : List cpu_topology_file
  package_zone : Nat → powercap_zone
  sub_zone : Nat → Nat → Option powercap_zone

/-! ## Socket discovery -/

/-- The loop of `count_sockets`: `pkg_found` and `ret` are the local variables,
the list holds the topology files not yet visited. -/
def count_sockets_loop : List cpu_topology_file → (Nat → Bool) → Nat → result Nat
  | [], _, ret =>
    if ret = 0 then .error ⟨error_code.NO_SOCKETS⟩ else .ok ret
  | cpu_topology_file.open_failed :: _, _, _ => .error ⟨error_code.SYSTEM⟩
  | cpu_topology_file.read_failed :: _, _, _ => .error ⟨error_code.SYSTEM⟩
  | cpu_topology_file.package_id pkg :: rest, pkg_found, ret =>
    if pkg ≥ max_sockets then .error ⟨error_code.TOO_MANY_SOCKETS⟩
    else if !pkg_found pkg then
      count_sockets_loop rest (fun i => if i = pkg then true else pkg_found i) (to_uint8 (ret + 1))
    else count_sockets_loop rest pkg_found ret

/-- The function `count_sockets`. -/
def count_sockets (cpus : List cpu_topology_file) : result Nat :=
  count_sockets_loop cpus (fun _ => false) 0

/-! ## Events -/

/-- The structure `detail::event_data`; `fd` is the value of the descriptor. -/
structure event_data where
  fd : Nat
  max : Nat
  prev : Nat
  curr_max : Nat
  deriving DecidableEq, Repr

/-- The constructors `detail::event_data::event_data(fd, max)`. -/
def event_data.create (fd max : Nat) : event_data :=
  { fd := fd, max := max, prev := 0, curr_max := 0 }

/-- The string that a `const char*` designates: the characters of the buffer
before its first null character. -/
def c_str (buffer : List Char) : List Char :=
  buffer.takeWhile (fun c => c != Char.ofNat 0)

/-- The function `read_buff` on a file that delivers the bytes `file` (`none`
when `pread` fails): the value returned and the buffer after the call. A call
that reads no byte leaves the buffer as it was. -/
def read_buff (file : Option (List Char)) (buffer : List Char) (buffsz : Nat) :
    Int × List Char :=
  match file with
  | none => (-1, buffer)
  | some text =>
    let ret := (text.take (buffsz - 1)).length
    if ret > 0 then (ret, text.take (buffsz - 1) ++ Char.ofNat 0 :: buffer.drop (ret + 1))
    else (ret, buffer)

/-- The function `get_domain_idx`. The failure of `file_descriptor::create` and
that of `pread` both return a system error and are both the case
`base.name = none`. The test of the source is `read_buff(...) < 0`, so that a
name file that delivers no byte passes the array `name` on as it was. -/
def get_domain_idx (base : powercap_zone) : result Int :=
  let res := read_buff base.name base.name_buffer 64
  if res.1 < 0 then .error ⟨error_code.SYSTEM⟩
  else
    let didx := domain_index_from_name (c_str res.2)
    if didx < 0 then .error ⟨error_code.INVALID_DOMAIN_NAME⟩ else .ok didx

/-- The function `get_event_data`. -/
def get_event_data (base : powercap_zone) : result event_data :=
  match base.max_energy_range_uj with
  | none => .error ⟨error_code.SYSTEM⟩
  | some max_value =>
    match base.energy_uj with
    | none => .error ⟨error_code.SYSTEM⟩
    | some filed => .ok (event_data.create filed max_value)

/-- Modelled from the spec: `sample.hpp` is not part of the sources at hand; a
sample is a fixed-arity array of raw counter slots, here a map from the slot
index to the 64-bit value of the slot. -/
abbrev sample := Nat → Nat

/-- Modelled from the spec: the write access `s.at_cpu(idx) = v` of `sample`. -/
def sample.set_cpu (s : sample) (idx v : Nat) : sample :=
  fun i => if i = idx then v else s i

/-- Modelled from the spec: the read access `s.at_cpu(idx)` of a constant
`sample`, which yields the value of slot `idx`. -/
def sample.at_cpu (s : sample) (idx : Nat) : result Nat := .ok (s idx)

/-- The class `reader_rapl`: the event map, indexed by socket and domain, and
the vector of active events. -/
structure reader_rapl where
  _event_map : Nat → Nat → Int
  _active_events : List event_data

/-- The function `reader_rapl::num_events`. -/
def reader_rapl.num_events (r : reader_rapl) : Nat := r._active_events.length

/-- The function `reader_rapl::event_idx<Tag>(skt)`, with `tag = Tag::value`. -/
def reader_rapl.event_idx (r : reader_rapl) (tag : Int) (skt : Nat) : Int :=
  r._event_map skt tag.toNat

/-- The function `reader_rapl::add_event`: the error returned and the reader
after the call. -/
def reader_rapl.add_event (r : reader_rapl) (base : powercap_zone) (dmask : Nat) (skt : Nat) :
    error × reader_rapl :=
  match get_domain_idx base with
  | .error e => (e, r)
  | .ok didx =>
    if dmask.testBit didx.toNat then
      match get_event_data base with
      | .error e => (e, r)
      | .ok ev =>
        (error.success,
          { _event_map := fun s d =>
              if s = skt ∧ d = didx.toNat then to_int32 r._active_events.length
              else r._event_map s d,
            _active_events := r._active_events ++ [ev] })
    else (error.success, r)

/-- The inner loop of the constructor over `domain_count`; the list holds the
values of `domain_count` not yet visited. -/
def reader_rapl.add_subdomains (sys : sysfs) (dmask skt : Nat) :
    List Nat → reader_rapl → error × reader_rapl
  | [], r => (error.success, r)
  | domain_count :: rest, r =>
    match sys.sub_zone skt domain_count with
    | none => reader_rapl.add_subdomains sys dmask skt rest r
    | some base =>
      let res := r.add_event base dmask skt
      if res.1.to_bool then res
      else reader_rapl.add_subdomains sys dmask skt rest res.2

/-- The outer loop of the constructor over `skt`; the list holds the sockets not
yet visited. -/
def reader_rapl.add_sockets (sys : sysfs) (dmask skt_mask : Nat) :
    List Nat → reader_rapl → error × reader_rapl
  | [], r => (error.success, r)
  | skt :: rest, r =>
    if !skt_mask.testBit skt then reader_rapl.add_sockets sys dmask skt_mask rest r
    else
      let res := r.add_event (sys.package_zone skt) dmask skt
      if res.1.to_bool then res
      else
        let res2 := reader_rapl.add_subdomains sys dmask skt (List.range (rapl_domains - 1)) res.2
        if res2.1.to_bool then res2
        else reader_rapl.add_sockets sys dmask skt_mask rest res2.2

/-- The constructor `reader_rapl::reader_rapl(dmask, skt_mask, ec)`: the value
left in `ec` (success when the constructor does not assign it) and the object
constructed. -/
def reader_rapl.construct (sys : sysfs) (dmask skt_mask : Nat) : error × reader_rapl :=
  let r0 : reader_rapl := { _event_map := fun _ _ => -1, _active_events := [] }
  match count_sockets sys.cpus with
  | .error e => (e, r0)
  | .ok num_skts => reader_rapl.add_sockets sys dmask skt_mask (List.range num_skts) r0

/-- The function `reader_rapl::read(sample&, uint8_t)`. The argument `io` gives,
for a descriptor, what `read_uint64` parses from it at the time of the call
(`none` when it fails). The result is `none` when `idx` is not the index of an
active event (the source then indexes the vector out of bounds); otherwise it
is the error returned, the sample and the reader after the call. -/
def reader_rapl.read (r : reader_rapl) (io : Nat → Option Nat) (s : sample) (idx : Nat) :
    Option (error × sample × reader_rapl) :=
  match r._active_events[idx]? with
  | none => none
  | some ev =>
    match io ev.fd with
    | none => some (⟨error_code.SYSTEM⟩, s, r)
    | some curr =>
      let curr_max :=
        if curr < ev.prev then (ev.curr_max + ev.max) % UINT64_RANGE else ev.curr_max
      some (error.success,
        s.set_cpu idx ((curr + curr_max) % UINT64_RANGE),
        { r with _active_events :=
            r._active_events.set idx { ev with prev := curr, curr_max := curr_max } })

/-- The loop of `reader_rapl::read(sample&)`, from `ix` on; `fuel` is the number
of iterations left, the loop counter is converted to `uint8_t` at the call. -/
def reader_rapl.read_all_loop (io : Nat → Option Nat) :
    Nat → Nat → sample → reader_rapl → Option (error × sample × reader_rapl)
  | 0, _, s, r => some (error.success, s, r)
  | fuel + 1, ix, s, r =>
    match r.read io s (to_uint8 ix) with
    | none => none
    | some (err, s1, r1) =>
      if err.to_bool then some (err, s1, r1)
      else reader_rapl.read_all_loop io fuel (ix + 1) s1 r1

/-- The function `reader_rapl::read(sample&)`, the `read_all` of the reader. -/
def reader_rapl.read_all (r : reader_rapl) (io : Nat → Option Nat) (s : sample) :
    Option (error × sample × reader_rapl) :=
  reader_rapl.read_all_loop io r._active_events.length 0 s r

/-- The function `get_value`. -/
def get_value (s : sample) (map : Nat → Nat → Int) (skt idx : Nat) : result Nat :=
  if map skt idx < 0 then .error ⟨error_code.NO_EVENT⟩
  else
    match s.at_cpu idx with
    | .error e => .error e
    | .ok v => .ok v

/-- The function `reader_rapl::get_energy<Tag>(s, skt)`, with `tag = Tag::value`. -/
def reader_rapl.get_energy (r : reader_rapl) (tag : Int) (s : sample) (skt : Nat) : result Nat :=
  get_value s r._event_map skt tag.toNat

/-- Successive calls of `read(sample&, uint8_t)` on event `idx`, the k-th call
finding the k-th reading in the counter file; returns the values found in slot
`idx` after each call, with the final sample and reader. The result is `none`
when a call fails. -/
def reader_rapl.read_stream (idx : Nat) :
    List Nat → sample → reader_rapl → Option (List Nat × sample × reader_rapl)
  | [], s, r => some ([], s, r)
  | raw :: rest, s, r =>
    match r.read (fun _ => some raw) s idx with
    | none => none
    | some (err, s1, r1) =>
      if err.to_bool then none
      else
        match reader_rapl.read_stream idx rest s1 r1 with
        | none => none
        | some (vs, s2, r2) => some (s1 idx :: vs, s2, r2)

/-- The energies the wraparound rule prescribes for a stream of raw readings,
without the limits of machine integers: `prev` is the previous raw reading,
`acc` the accumulated maximum; a reading below its predecessor adds `max`. -/
def decoded_energies (max : Nat) : Nat → Nat → List Nat → List Nat
  | _, _, [] => []
  | prev, acc, raw :: rest =>
    let acc1 := if raw < prev then acc + max else acc
    (raw + acc1) :: decoded_energies max raw acc1 rest

/-- Number of wraps in a stream of raw readings: the positions whose reading is
below the preceding one, `prev` preceding the first. -/
def wrap_count : Nat → List Nat → Nat
  | _, [] => 0
  | prev, raw :: rest => (if raw < prev then 1 else 0) + wrap_count raw rest

/-! ## Hybrid reader -/

/-- Number of values of `size_t`. -/
def SIZE_RANGE : Nat := 2 ^ 64

/-- Modelled from the spec: the class `reader` is declared in `reader.hpp`,
which is not part of the sources at hand. A sub-reader of a hybrid reader is
any object with a `read_all` and a `num_events`: it has a state of its own,
`read` gives the error returned, the sample and the state after a call of
`read(sample&)`, and `num_events` the count it reports in that state. -/
structure reader where
  σ : Type
  state : σ
  read : σ → sample → error × sample × σ
  num_events : σ → Nat

/-- The call `first.read(_sample)` on a sub-reader: the error, the sample
after the call and the sub-reader after the call. -/
def reader.call (r : reader) (s : sample) : error × sample × reader :=
  let res := r.read r.state s
  (res.1, res.2.1, { r with state := res.2.2 })

/-- The class template `hybrid_reader_tp<Ts...>`: the tuple `_readers` of its
sub-readers, in the order of declaration. -/
structure hybrid_reader_tp where
  _readers : List reader

/-- The function `hybrid_reader_tp::caller::operator()(first, rest...)`, `s`
being the sample the caller holds: the error returned, the sample and the
sub-readers after the call. -/
def hybrid_reader_tp.caller (s : sample) (first : reader) :
    List reader → error × sample × List reader
  | [] =>
    let res := first.call s
    if res.1.to_bool then (res.1, res.2.1, [res.2.2])
    else (error.success, res.2.1, [res.2.2])
  | next :: rest =>
    let res := first.call s
    if res.1.to_bool then (res.1, res.2.1, res.2.2 :: next :: rest)
    else
      let res1 := hybrid_reader_tp.caller res.2.1 next rest
      if res1.1.to_bool then (res1.1, res1.2.1, res.2.2 :: res1.2.2)
      else (error.success, res1.2.1, res.2.2 :: res1.2.2)

/-- The function `hybrid_reader_tp::read(sample&)`, the `read_all` of the
hybrid reader. The template has no instance without sub-readers; the model
gives success there. -/
def hybrid_reader_tp.read_all (h : hybrid_reader_tp) (s : sample) :
    error × sample × hybrid_reader_tp :=
  match h._readers with
  | [] => (error.success, s, h)
  | first :: rest =>
    let res := hybrid_reader_tp.caller s first rest
    (res.1, res.2.1, { _readers := res.2.2 })

/-- The function `hybrid_reader_tp::read(sample&, uint8_t)`. -/
def hybrid_reader_tp.read (h : hybrid_reader_tp) (s : sample) (_idx : Nat) :
    error × sample × hybrid_reader_tp :=
  (⟨error_code.NOT_IMPL⟩, s, h)

/-- The function `hybrid_reader_tp::read(uint8_t)`. -/
def hybrid_reader_tp.read_result (h : hybrid_reader_tp) (_idx : Nat) :
    result sample × hybrid_reader_tp :=
  (.error ⟨error_code.NOT_IMPL⟩, h)

/-- The fold `(args.num_events() + ...)` of `hybrid_reader_tp::num_events`: a
right fold of sums of `size_t` values. -/
def hybrid_reader_tp.num_events_fold : List reader → Nat
  | [] => 0
  | [last] => last.num_events last.state % SIZE_RANGE
  | first :: next :: rest =>
    (first.num_events first.state % SIZE_RANGE +
      hybrid_reader_tp.num_events_fold (next :: rest)) % SIZE_RANGE

/-- The function `hybrid_reader_tp::num_events`. -/
def hybrid_reader_tp.num_events (h : hybrid_reader_tp) : Nat :=
  hybrid_reader_tp.num_events_fold h._readers

/-! ## Error codes and their causes -/

/-- Modelled from the spec: the enumeration `errc` is declared in
`nrg/error.hpp`, which is not part of the sources at hand; its enumerators are
those that the switch statements of `error.cpp` name. -/
inductive errc where
  | not_implemented
  | no_events_added
  | no_such_event
  | no_sockets_found
  | no_devices_found
  | too_many_sockets
  | too_many_devices
  | invalid_domain_name
  | file_format_version_error
  | operation_not_supported
  | energy_readings_not_supported
  | power_readings_not_supported
  | readings_not_supported
  | readings_not_valid
  | package_num_error
  | package_num_wrong_domain
  | invalid_socket_mask
  | invalid_device_mask
  | invalid_location_mask
  | unknown_error
  deriving DecidableEq, Repr

/-- Modelled from the spec: the enumeration `error_cause` is declared in
`nrg/error.hpp`; its enumerators are those that
`error_cause_category_t::message` names. -/
inductive error_cause where
  | gpu_lib_error
  | setup_error
  | query_error
  | read_error
  | system_error
  | invalid_argument
  | readings_support_error
  | other
  | unknown
  deriving DecidableEq, Repr

/-- The function `generic_category_t::default_error_condition`. The argument is
the enumerator that `static_cast<errc>(ev)` equals, `none` when `ev` is the
value of no enumerator, in which case the switch is left without a match. -/
def generic_category_t.default_error_condition : Option errc → error_cause
  | some errc.no_events_added => error_cause.setup_error
  | some errc.no_sockets_found => error_cause.setup_error
  | some errc.no_devices_found => error_cause.setup_error
  | some errc.too_many_sockets => error_cause.setup_error
  | some errc.too_many_devices => error_cause.setup_error
  | some errc.invalid_domain_name => error_cause.setup_error
  | some errc.file_format_version_error => error_cause.setup_error
  | some errc.package_num_error => error_cause.setup_error
  | some errc.package_num_wrong_domain => error_cause.setup_error
  | some errc.energy_readings_not_supported => error_cause.readings_support_error
  | some errc.power_readings_not_supported => error_cause.readings_support_error
  | some errc.readings_not_supported => error_cause.readings_support_error
  | some errc.not_implemented => error_cause.other
  | some errc.operation_not_supported => error_cause.other
  | some errc.unknown_error => error_cause.unknown
  | some errc.no_such_event => error_cause.query_error
  | some errc.readings_not_valid => error_cause.read_error
  | some errc.invalid_socket_mask => error_cause.invalid_argument
  | some errc.invalid_device_mask => error_cause.invalid_argument
  | some errc.invalid_location_mask => error_cause.invalid_argument
  | none => error_cause.unknown

/-- A `std::error_code`, by its category: `std::system_category()`,
`nrgprf::gpu_category()`, `nrgprf::generic_category()` (the value is kept as the
enumerator of `errc` it equals, `none` when it equals none), or a category that
is none of the three. -/
inductive std_error_code where
  | system (value : Int)
  | gpu (value : Int)
  | generic (code : Option errc)
  | foreign (value : Int)
  deriving DecidableEq, Repr

/-- The function `make_error_code(errc)`. -/
def make_error_code (x : errc) : std_error_code := std_error_code.generic (some x)

/-- The function `error_cause_category_t::equivalent`, with `cond` the
enumerator that `static_cast<error_cause>(cv)` equals. -/
def error_cause_category_t.equivalent (ec : std_error_code) (cond : error_cause) : Bool :=
  match ec with
  | std_error_code.system _ => cond == error_cause.system_error
  | std_error_code.gpu _ => cond == error_cause.gpu_lib_error
  | std_error_code.generic code => cond == generic_category_t.default_error_condition code
  | std_error_code.foreign _ => false

end nrgprf

namespace tep.dbg

/-! ## Debug-info query layer: data model -/

/-- A `std::filesystem::path`, as the sequence of the elements that iterating
over the path yields; the empty path has no element, and two paths are equal
when their elements are. -/
abbrev path := List String

/-- The enumeration `util_errc`. -/
inductive util_errc where
  | cu_not_found
  | cu_ambiguous
  | file_not_found
  | line_not_found
  | column_not_found
  | symbol_not_found
  | symbol_ambiguous
  | symbol_ambiguous_static
  | symbol_ambiguous_weak
  | symbol_ambiguous_suffix
  | no_matches
  | function_not_found
  | function_ambiguous
  | decl_location_not_found
  | address_not_found
  deriving DecidableEq, Repr

/-- A `std::error_code` as the query layer produces it: a `util_errc` of the
category of the layer, `std::errc::invalid_argument`, or the code that the
demangler left in its out-parameter, identified by a status. -/
inductive error_code where
  | util (c : util_errc)
  | invalid_argument
  | demangle (status : Int)
  deriving DecidableEq, Repr

/-- The template `result<T>`: `nonstd::expected<T, std::error_code>`. -/
abbrev result (α : Type) := Except error_code α

/-- The enumeration `new_statement_flag`. -/
inductive new_statement_flag where
  | no
  | yes
  deriving DecidableEq, Repr

/-- The enumeration `exact_line_value_flag`. -/
inductive exact_line_value_flag where
  | no
  | yes
  deriving DecidableEq, Repr

/-- The enumeration `exact_column_value_flag`. -/
inductive exact_column_value_flag where
  | no
  | yes
  deriving DecidableEq, Repr

/-- Modelled from the spec: `object_info.hpp` is not part of the sources at
hand; a line entry carries the fields the queries read: its file, line number,
column, address and whether it starts a new statement. -/
structure source_line where
  file : path
  number : Nat
  column : Nat
  address : Nat
  new_statement : Bool
  deriving DecidableEq, Repr, Inhabited

/-- Modelled from the spec: `object_info.hpp` is not part of the sources at
hand; the binding of an ELF symbol. The value `local` is written `local_`. -/
inductive symbol_binding where
  | local_
  | global
  | weak
  deriving DecidableEq, Repr, Inhabited

/-- Modelled from the spec: `object_info.hpp` is not part of the sources at
hand; an ELF function symbol carries the fields the queries read: its
(mangled) name, its address and its binding. -/
structure function_symbol where
  name : List Char
  address : Nat
  binding : symbol_binding
  deriving DecidableEq, Repr, Inhabited

/-- Modelled from the spec: `object_info.hpp` is not part of the sources at
hand; a range of addresses `[low_pc, high_pc)`. -/
structure contiguous_range where
  low_pc : Nat
  high_pc : Nat
  deriving DecidableEq, Repr, Inhabited

/-- Modelled from the spec: `object_info.hpp` is not part of the sources at
hand; a source location carries the fields the queries read: its file, its
line number and its column. -/
structure source_location where
  file : path
  line_number : Nat
  line_column : Nat
  deriving DecidableEq, Repr, Inhabited

/-- Modelled from the spec: `object_info.hpp` is not part of the sources at
hand; a function of the debug information carries the fields the queries
read: its linkage name, present for extern functions only, its address
ranges (`addresses->values`), absent when the function has no code of its
own, and its declaration location, which is optional. -/
structure function where
  linkage_name : Option (List Char)
  addresses : Option (List contiguous_range)
  decl_loc : Option source_location := none
  deriving DecidableEq, Repr, Inhabited

/-- Modelled from the spec: `function::is_static()`; a static function is one
without linkage name. -/
def function.is_static (f : function) : Bool := f.linkage_name.isNone

/-- Modelled from the spec: `function::is_extern()`. -/
def function.is_extern (f : function) : Bool := f.linkage_name.isSome

/-- Modelled from the spec: `object_info.hpp` is not part of the sources at
hand; a compilation unit carries its path, its line entries, in the order
of the container `lines`, its functions, in the order of the container
`funcs`, and its address ranges, in the order of the container `addresses`. -/
structure compilation_unit where
  path : path
  lines : List source_line
  funcs : List function := []
  addresses : List contiguous_range := []
  deriving DecidableEq, Repr, Inhabited

/-- Modelled from the spec: `object_info.hpp` is not part of the sources at
hand; the object info gives the container of its compilation units and the
container of its function symbols. -/
structure object_info where
  compilation_units : List compilation_unit
  function_symbols : List function_symbol := []
  deriving DecidableEq, Repr

/-! ## Standard algorithms -/

/-- The algorithm `std::find_if(first, last, p)` on the container `l`, iterators
being indices: the first index in `[first, last)` whose element satisfies `p`,
or `last`. -/
def find_if {α : Type} (p : α → Bool) (l : List α) (first last : Nat) : Nat :=
  first + ((l.drop first).take (last - first)).findIdx p

/-- The algorithm `std::find_if_not(first, last, p)`. -/
def find_if_not {α : Type} (p : α → Bool) (l : List α) (first last : Nat) : Nat :=
  find_if (fun x => !p x) l first last

/-- The outcome of comparing the needle of `std::search` at one position. -/
inductive search_step where
  | found
  | exhausted
  | mismatch
  deriving DecidableEq, Repr

/-- The inner loop of `std::search`: compares the needle with the elements of
the haystack from the current position on; `found` when the needle ends,
`exhausted` when the haystack ends first, `mismatch` at the first difference. -/
def search_at {α : Type} [DecidableEq α] : List α → List α → search_step
  | _, [] => search_step.found
  | [], _ :: _ => search_step.exhausted
  | x :: xs, y :: ys => if x = y then search_at xs ys else search_step.mismatch

/-- The algorithm `std::search(first, last, s_first, s_last)` over the whole
haystack `l`: the index at which the first occurrence of `needle` starts, or
the length of `l` when there is none. -/
def search {α : Type} [DecidableEq α] : List α → List α → Nat
  | [], _ => 0
  | x :: xs, needle =>
    match search_at (x :: xs) needle with
    | search_step.found => 0
    | search_step.exhausted => (x :: xs).length
    | search_step.mismatch => 1 + search xs needle

/-! ## Queries -/

/-- The function `is_sub_path`. -/
def is_sub_path (sub p : path) : Bool :=
  !sub.isEmpty && (sub == p || search p sub != p.length)

/-- The function `find_compilation_unit(oi, cu)` for a path; the pointer it
returns is the index of the compilation unit in the container. -/
def find_compilation_unit (oi : object_info) (cu : path) : result Nat :=
  let find := fun (first last : Nat) =>
    find_if (fun (x : compilation_unit) => is_sub_path cu x.path) oi.compilation_units first last
  let end_it := oi.compilation_units.length
  let it := find 0 end_it
  if it = end_it then .error (error_code.util util_errc.cu_not_found)
  else if find (it + 1) end_it ≠ end_it then .error (error_code.util util_errc.cu_ambiguous)
  else .ok it

/-- The lambda `line_match` of `find_lines`. -/
def line_match (line : source_line) (lineno : Nat) (exact_line : exact_line_value_flag) : Bool :=
  lineno == 0 || (if exact_line = exact_line_value_flag.yes then line.number == lineno
    else decide (line.number ≥ lineno))

/-- The lambda `column_match` of `find_lines`. -/
def column_match (line : source_line) (colno : Nat) (exact_col : exact_column_value_flag) :
    Bool :=
  colno == 0 || (if exact_col = exact_column_value_flag.yes then line.column == colno
    else decide (line.column ≥ colno))

/-- The local `effective_file` of `find_lines`: the file asked for, or the path
of the compilation unit when that is empty. -/
def effective_file (cu : compilation_unit) (file : path) : path :=
  if file.isEmpty then cu.path else file

/-- The predicate of the searches of `find_lines` that compare the file and
the line of an entry: `effective_file == line.file && line_match(...)`. -/
def file_line_match (effective_file : path) (lineno : Nat) (exact_line : exact_line_value_flag)
    (line : source_line) : Bool :=
  effective_file == line.file && line_match line lineno exact_line

/-- The predicate of the searches of `find_lines` that compare the file, the
exact line and the column of an entry. -/
def file_line_column_match (effective_file : path) (lineno colno : Nat)
    (exact_col : exact_column_value_flag) (line : source_line) : Bool :=
  effective_file == line.file && line_match line lineno exact_line_value_flag.yes &&
    column_match line colno exact_col

/-- The last part of `find_lines`: from the start of the range, the two
`std::find_if_not` searches that give its end. -/
def find_lines_range (lines : List source_line) (effective_file : path) (start_it : Nat) :
    Nat × Nat :=
  let end_it0 := lines.length
  let start_number := (lines.getD start_it default).number
  let start_column := (lines.getD start_it default).column
  let end_it := find_if_not
    (file_line_match effective_file start_number exact_line_value_flag.yes)
    lines start_it end_it0
  let end_it1 := find_if_not
    (file_line_column_match effective_file start_number start_column exact_column_value_flag.yes)
    lines end_it end_it0
  (start_it, end_it1)

/-- The function `find_lines`; the pair of iterators it returns is a pair of
indices into `cu.lines`. The flag `file_found` is set by the predicate of the
first search on every entry it visits that has the effective file; the
entries visited are those up to the one found. -/
def find_lines (cu : compilation_unit) (file : path) (lineno : Nat)
    (exact_line : exact_line_value_flag) (colno : Nat) (exact_col : exact_column_value_flag) :
    result (Nat × Nat) :=
  if lineno = 0 ∧ colno ≠ 0 then .error error_code.invalid_argument
  else
    let effective_file := effective_file cu file
    let end_it := cu.lines.length
    let start_it := find_if (file_line_match effective_file lineno exact_line) cu.lines 0 end_it
    let file_found := (cu.lines.take (start_it + 1)).any (fun line => effective_file == line.file)
    if start_it = end_it then
      if !file_found then .error (error_code.util util_errc.file_not_found)
      else .error (error_code.util util_errc.line_not_found)
    else
      let start_number := (cu.lines.getD start_it default).number
      let colno1 :=
        if start_number > lineno ∧ exact_col = exact_column_value_flag.no then 0 else colno
      let start_it1 := find_if
        (file_line_column_match effective_file start_number colno1 exact_col)
        cu.lines start_it end_it
      if start_it1 = end_it then .error (error_code.util util_errc.column_not_found)
      else .ok (find_lines_range cu.lines effective_file start_it1)

/-- The function `lowest_address_line` on the range `[first, last)` of the
container `lines`; the pointer it returns is the index of the entry. -/
def lowest_address_line (lines : List source_line) (first last : Nat)
    (new_stmt : new_statement_flag) : result Nat :=
  if new_stmt = new_statement_flag.no then .ok first
  else
    let it := find_if (fun line => line.new_statement) lines first last
    if it = last then .error (error_code.util util_errc.line_not_found)
    else .ok it

/-- The function `highest_address_line` on the range `[first, last)` of the
container `lines`; the pointer it returns is the index of the entry. The loop
over the range keeps in `found` the last entry seen that starts a statement. -/
def highest_address_line (lines : List source_line) (first last : Nat)
    (new_stmt : new_statement_flag) : result Nat :=
  if new_stmt = new_statement_flag.no then .ok (first + (last - first) - 1)
  else
    let found := (List.range' first (last - first)).foldl
      (fun found it => if (lines.getD it default).new_statement then it else found) last
    if found = last then .error (error_code.util util_errc.line_not_found)
    else .ok found

/-! ## Symbol lookup -/

/-- The enumeration `exact_symbol_name_flag`. -/
inductive exact_symbol_name_flag where
  | no
  | yes
  deriving DecidableEq, Repr

/-- The enumeration `ignore_symbol_suffix_flag`. -/
inductive ignore_symbol_suffix_flag where
  | no
  | yes
  deriving DecidableEq, Repr

/-- Modelled from the spec: `demangle.hpp` is not part of the sources at
hand; the demangler is a pure function of the name that yields the demangled
form, or no form and an error code in its out-parameter. -/
abbrev demangler := List Char → Except error_code (List Char)

/-- The function `std::isspace` in the C locale: space, tab, line feed,
vertical tab, form feed and carriage return. -/
def isspace (c : Char) : Bool :=
  c == Char.ofNat 32 || c == Char.ofNat 9 || c == Char.ofNat 10 || c == Char.ofNat 11 ||
    c == Char.ofNat 12 || c == Char.ofNat 13

/-- The function `remove_spaces`. -/
def remove_spaces (str : List Char) : List Char :=
  str.filter (fun c => !isspace c)

/-- The predicate `pred` of `find_function_symbol_exact_impl`, as a truth
value: a symbol that fails to demangle satisfies it. -/
def exact_pred (demangle : demangler) (name : List Char) (sym : function_symbol) : Bool :=
  match demangle sym.name with
  | .error _ => true
  | .ok demangled => remove_spaces demangled == remove_spaces name

/-- The first search of `find_function_symbol_exact_impl`,
`std::find_if(first, last, pred)`, together with the error code that `pred`
leaves in `ec`: the index found (the length of the container when there is
none) and the content of `ec`. -/
def find_if_exact (demangle : demangler) (name : List Char) :
    List function_symbol → Nat → Nat × Option error_code
  | [], it => (it, none)
  | sym :: rest, it =>
    match demangle sym.name with
    | .error ec => (it, some ec)
    | .ok demangled =>
      if remove_spaces demangled == remove_spaces name then (it, none)
      else find_if_exact demangle name rest (it + 1)

/-- The `for` loop of `find_function_symbol_exact_impl` over the further
matches, from the match `next_it` on: the flags `has_static`, `has_weak` and
`has_ambiguity` at the end. The first argument bounds the number of
iterations. -/
def ambiguity_loop (pred : function_symbol → Bool) (syms : List function_symbol) :
    Nat → Nat → Bool → Bool → Bool → Bool × Bool × Bool
  | 0, _, has_static, has_weak, has_ambiguity => (has_static, has_weak, has_ambiguity)
  | fuel + 1, next_it, has_static, has_weak, has_ambiguity =>
    if next_it = syms.length then (has_static, has_weak, has_ambiguity)
    else
      ambiguity_loop pred syms fuel (find_if pred syms (next_it + 1) syms.length)
        (has_static || (syms.getD next_it default).binding == symbol_binding.local_)
        (has_weak || (syms.getD next_it default).binding == symbol_binding.weak)
        true

/-- The function template `find_function_symbol_exact_impl` on a container of
symbols; the pointer it returns is the index of the symbol in the container. -/
def find_function_symbol_exact_impl (demangle : demangler) (syms : List function_symbol)
    (name : List Char) : result Nat :=
  let last := syms.length
  let found := find_if_exact demangle name syms 0
  match found.2 with
  | some ec => .error ec
  | none =>
    let it := found.1
    if it = last then .error (error_code.util util_errc.symbol_not_found)
    else
      let has_static := (syms.getD it default).binding == symbol_binding.local_
      let has_weak := (syms.getD it default).binding == symbol_binding.weak
      let flags := ambiguity_loop (exact_pred demangle name) syms last
        (find_if (exact_pred demangle name) syms (it + 1) last) has_static has_weak false
      if flags.2.2 then
        if flags.2.1 then .error (error_code.util util_errc.symbol_ambiguous_weak)
        else if flags.1 then .error (error_code.util util_errc.symbol_ambiguous_static)
        else .error (error_code.util util_errc.symbol_ambiguous)
      else .ok it

/-- The function `find_function_symbol_exact`. -/
def find_function_symbol_exact (demangle : demangler) (oi : object_info) (name : List Char) :
    result Nat :=
  find_function_symbol_exact_impl demangle oi.function_symbols name

/-- The function `is_match_demangled`: `to_match`, spaces removed, is a prefix
of `name`, spaces removed. -/
def is_match_demangled (to_match name : List Char) : Bool :=
  (remove_spaces name).take (remove_spaces to_match).length == remove_spaces to_match

/-- The function `is_match`; the name it hands to `is_match_demangled` is its
argument `name`, as in the source. -/
def is_match (demangle : demangler) (to_match name : List Char) : result Bool :=
  match demangle name with
  | .error ec => .error ec
  | .ok _ => .ok (is_match_demangled to_match name)

/-- The function `is_equal`. -/
def is_equal (demangle : demangler) (name mangled : List Char) : result Bool :=
  match demangle mangled with
  | .error ec => .error ec
  | .ok demangled => .ok (remove_spaces demangled == remove_spaces name)

/-- The lambda `get_suffix` of `find_function_symbol_matched`: the part of the
name from its first dot on, empty when there is no dot. -/
def get_suffix (x : List Char) : List Char :=
  x.dropWhile (fun c => c != '.')

/-- The lambda `get_all_matches` of `find_function_symbol_matched`, from the
symbol of index `i` on: the indices of the matches collected and the content
of `ec`; the loop ends at the first symbol that leaves an error in `ec`. -/
def get_all_matches (demangle : demangler) (name : List Char) :
    List function_symbol → Nat → List Nat × Option error_code
  | [], _ => ([], none)
  | sym :: rest, i =>
    match is_match demangle name sym.name with
    | .error ec => ([], some ec)
    | .ok matched =>
      let res := get_all_matches demangle name rest (i + 1)
      (if matched then i :: res.1 else res.1, res.2)

/-- The function `find_function_symbol_matched`; pointers to symbols are
indices into `oi.function_symbols`. The call of `std::partition` is modelled
by the two groups it separates, the matches with a suffix and those without,
of which the source reads the size of the second and its only element. -/
def find_function_symbol_matched (demangle : demangler) (oi : object_info) (name : List Char)
    (no_suffix : Bool) : result Nat :=
  let syms := oi.function_symbols
  let res := get_all_matches demangle name syms 0
  match res.2 with
  | some ec => .error ec
  | none =>
    let found := res.1
    if found.isEmpty then .error (error_code.util util_errc.no_matches)
    else if found.length = 1 then .ok (found.headD 0)
    else
      match find_function_symbol_exact_impl demangle
          (found.map (fun i => syms.getD i default)) name with
      | .ok j => .ok (found.getD j 0)
      | .error e =>
        if e ≠ error_code.util util_errc.symbol_not_found then .error e
        else if !no_suffix then .error (error_code.util util_errc.symbol_ambiguous_suffix)
        else
          let without := found.filter (fun i => (get_suffix (syms.getD i default).name).isEmpty)
          if without.isEmpty then .error (error_code.util util_errc.symbol_ambiguous_suffix)
          else if without.length > 1 then .error (error_code.util util_errc.symbol_ambiguous)
          else .ok (without.headD 0)

/-- The function `find_function_symbol(oi, name, exact_name, no_suffix)`. -/
def find_function_symbol (demangle : demangler) (oi : object_info) (name : List Char)
    (exact_name : exact_symbol_name_flag) (no_suffix : ignore_symbol_suffix_flag) :
    result Nat :=
  if name.isEmpty then .error error_code.invalid_argument
  else if exact_name = exact_symbol_name_flag.yes then find_function_symbol_exact demangle oi name
  else find_function_symbol_matched demangle oi name
    (decide (no_suffix = ignore_symbol_suffix_flag.yes))

/-! ## Function lookup -/

/-- The function `find_function_by_linkage_name(mangled_name, cu, name)`; the
pointer it returns is the index of the function in `cu.funcs`. -/
def find_function_by_linkage_name_mangled (cu : compilation_unit) (name : List Char) :
    result Nat :=
  let pred := fun (af : function) =>
    if af.is_static then false else af.linkage_name == some name
  let it := find_if pred cu.funcs 0 cu.funcs.length
  if it = cu.funcs.length then .error (error_code.util util_errc.function_not_found)
  else .ok it

/-- The function `find_function(cu, f)` for a compilation unit and a function
symbol; the pointer it returns is the index of the function in `cu.funcs`. -/
def find_function_cu_sym (cu : compilation_unit) (f : function_symbol) : result Nat :=
  if f.binding = symbol_binding.local_ then
    let pred := fun (fn : function) =>
      if !fn.is_static then false
      else
        match fn.addresses with
        | none => false
        | some rngs =>
          find_if (fun (rng : contiguous_range) => rng.low_pc == f.address) rngs 0 rngs.length
            != rngs.length
    let it := find_if pred cu.funcs 0 cu.funcs.length
    if it = cu.funcs.length then .error (error_code.util util_errc.function_not_found)
    else .ok it
  else find_function_by_linkage_name_mangled cu f.name

/-- The entry of index `j` exists and starts a statement. -/
def marked_at (lines : List source_line) (j : Nat) : Prop :=
  ∃ y : source_line, lines[j]? = some y ∧ y.new_statement = true

/-- The whitespace characters: space, horizontal tab, line feed, vertical tab,
form feed and carriage return. -/
def whitespace_characters : List Char :=
  [Char.ofNat 32, Char.ofNat 9, Char.ofNat 10, Char.ofNat 11, Char.ofNat 12, Char.ofNat 13]

/-- A string with its whitespace characters removed: the other characters, in
their order. -/
def without_whitespace : List Char → List Char
  | [] => []
  | c :: rest =>
    if c ∈ whitespace_characters then without_whitespace rest
    else c :: without_whitespace rest

/-- The demangled name of the symbol equals the name looked for, whitespace
removed from both; a symbol that does not demangle is not equal to any name. -/
def demangled_equal (demangle : demangler) (name : List Char) (sym : function_symbol) : Bool :=
  match demangle sym.name with
  | .ok demangled => without_whitespace demangled == without_whitespace name
  | .error _ => false

/-- The name looked for, whitespace removed, is a prefix of the demangled name
of the symbol, whitespace removed; a symbol that does not demangle has no
prefix. -/
def demangled_starts_with (demangle : demangler) (name : List Char) (sym : function_symbol) :
    Bool :=
  match demangle sym.name with
  | .ok demangled => (remove_spaces name).isPrefixOf (remove_spaces demangled)
  | .error _ => false

/-- The error code that reports an ambiguity among the matching symbols `ms` by
priority: weak if one of them is weak, else static if one of them is local,
else the plain ambiguity. -/
def ambiguity_cause (ms : List function_symbol) : util_errc :=
  if ms.any (fun sym => sym.binding == symbol_binding.weak) then util_errc.symbol_ambiguous_weak
  else if ms.any (fun sym => sym.binding == symbol_binding.local_) then
    util_errc.symbol_ambiguous_static
  else util_errc.symbol_ambiguous

/-- The function matches the symbol in the sense of `find_function(cu, sym)`:
for a symbol of local binding, a static function one of whose address ranges
starts at the address of the symbol; for any other symbol, a non-static
function whose linkage name is the name of the symbol. -/
def symbol_matches_function (sym : function_symbol) (f : function) : Bool :=
  if sym.binding = symbol_binding.local_ then
    f.is_static && (f.addresses.getD []).any (fun rng => rng.low_pc == sym.address)
  else !f.is_static && f.linkage_name == some sym.name

/-! ## Error codes and their causes -/

/-- The value of an enumerator of `util_errc`: the first is given the value 1
and the others follow. -/
def util_errc.value : util_errc → Int
  | util_errc.cu_not_found => 1
  | util_errc.cu_ambiguous => 2
  | util_errc.file_not_found => 3
  | util_errc.line_not_found => 4
  | util_errc.column_not_found => 5
  | util_errc.symbol_not_found => 6
  | util_errc.symbol_ambiguous => 7
  | util_errc.symbol_ambiguous_static => 8
  | util_errc.symbol_ambiguous_weak => 9
  | util_errc.symbol_ambiguous_suffix => 10
  | util_errc.no_matches => 11
  | util_errc.function_not_found => 12
  | util_errc.function_ambiguous => 13
  | util_errc.decl_location_not_found => 14
  | util_errc.address_not_found => 15

/-- The cast `static_cast<util_errc>(ev)` as a switch over the enumerators sees
it: the enumerator whose value is `ev`, `none` when `ev` is the value of no
enumerator. -/
def util_errc.of_int (ev : Int) : Option util_errc :=
  if ev = 1 then some util_errc.cu_not_found
  else if ev = 2 then some util_errc.cu_ambiguous
  else if ev = 3 then some util_errc.file_not_found
  else if ev = 4 then some util_errc.line_not_found
  else if ev = 5 then some util_errc.column_not_found
  else if ev = 6 then some util_errc.symbol_not_found
  else if ev = 7 then some util_errc.symbol_ambiguous
  else if ev = 8 then some util_errc.symbol_ambiguous_static
  else if ev = 9 then some util_errc.symbol_ambiguous_weak
  else if ev = 10 then some util_errc.symbol_ambiguous_suffix
  else if ev = 11 then some util_errc.no_matches
  else if ev = 12 then some util_errc.function_not_found
  else if ev = 13 then some util_errc.function_ambiguous
  else if ev = 14 then some util_errc.decl_location_not_found
  else if ev = 15 then some util_errc.address_not_found
  else none

/-- Modelled from the spec: the enumeration `util_errcause` is used by
`utility_funcs.cpp` and declared in none of the sources at hand; failures are
classified into `{not_found, ambiguous, other}`, the enumerators that
`util_cause_category_t::message` names. -/
inductive util_errcause where
  | not_found
  | ambiguous
  | other
  deriving DecidableEq, Repr

/-- The function `util_category_t::default_error_condition`; the result is
`none` when the switch is left without a match, where the source has
`assert(false)` and then returns an empty `std::error_condition`, which is the
condition of no cause. -/
def util_category_t.default_error_condition (ev : Int) : Option util_errcause :=
  match util_errc.of_int ev with
  | some util_errc.cu_not_found => some util_errcause.not_found
  | some util_errc.file_not_found => some util_errcause.not_found
  | some util_errc.line_not_found => some util_errcause.not_found
  | some util_errc.column_not_found => some util_errcause.not_found
  | some util_errc.symbol_not_found => some util_errcause.not_found
  | some util_errc.no_matches => some util_errcause.not_found
  | some util_errc.function_not_found => some util_errcause.not_found
  | some util_errc.decl_location_not_found => some util_errcause.not_found
  | some util_errc.address_not_found => some util_errcause.not_found
  | some util_errc.cu_ambiguous => some util_errcause.ambiguous
  | some util_errc.symbol_ambiguous => some util_errcause.ambiguous
  | some util_errc.symbol_ambiguous_static => some util_errcause.ambiguous
  | some util_errc.symbol_ambiguous_weak => some util_errcause.ambiguous
  | some util_errc.symbol_ambiguous_suffix => some util_errcause.ambiguous
  | some util_errc.function_ambiguous => some util_errcause.ambiguous
  | none => none

/-- The category of a `std::error_code`: `util_category()`,
`std::generic_category()`, or another one, told apart by a number. -/
inductive error_category where
  | util
  | generic
  | foreign (id : Nat)
  deriving DecidableEq, Repr

/-- A `std::error_code`: a category and a value. -/
structure std_error_code where
  category : error_category
  value : Int
  deriving DecidableEq, Repr

/-- The `std::error_code` of a failure of the query layer: `make_error_code` of
a `util_errc`, `std::errc::invalid_argument` (the value of `EINVAL` in the
generic category), or the code that the demangler left, of a category of its
own. -/
def error_code.to_std : error_code → std_error_code
  | error_code.util c => ⟨error_category.util, c.value⟩
  | error_code.invalid_argument => ⟨error_category.generic, 22⟩
  | error_code.demangle status => ⟨error_category.foreign 0, status⟩

/-- The function `util_cause_category_t::equivalent`, with `cond` the
enumerator that `static_cast<util_errcause>(cv)` equals. -/
def util_cause_category_t.equivalent (ec : std_error_code) (cond : util_errcause) : Bool :=
  if ec.category = error_category.util then
    match util_category_t.default_error_condition ec.value with
    | some cause => cond == cause
    | none => false
  else cond == util_errcause.other

/-! ## Function lookup by declaration location -/

/-- The flags `file_found`, `line_found`, `col_found` and `decl_loc_found` of
`find_function(cu, file, lineno, colno)`, all false at the start. -/
structure decl_flags where
  file_found : Bool := false
  line_found : Bool := false
  col_found : Bool := false
  decl_loc_found : Bool := false
  deriving DecidableEq, Repr

/-- The lambda `pred` of `find_function(cu, file, lineno, colno)` on one
function: its truth value and the flags after the call. The conjunction is
evaluated from left to right and stops at its first false operand, so that a
flag is set only when every test before its assignment succeeded. -/
def find_function_pred (file : path) (lineno colno : Nat) (flags : decl_flags) (f : function) :
    Bool × decl_flags :=
  match f.decl_loc with
  | none => (false, flags)
  | some loc =>
    let flags := { flags with decl_loc_found := true }
    if loc.file != file then (false, flags)
    else
      let flags := { flags with file_found := true }
      if loc.line_number != lineno then (false, flags)
      else
        let flags := { flags with line_found := true }
        if colno == 0 then (true, flags)
        else if loc.line_column != colno then (false, flags)
        else (true, { flags with col_found := true })

/-- The first search of `find_function(cu, file, lineno, colno)`,
`std::find_if(cu.funcs.begin(), cu.funcs.end(), pred)`, on the functions from
the index `it` on: the index found (the length of the container when there is
none) and the flags that the calls of `pred` leave. -/
def find_if_pred (file : path) (lineno colno : Nat) :
    List function → Nat → decl_flags → Nat × decl_flags
  | [], it, flags => (it, flags)
  | f :: rest, it, flags =>
    let r := find_function_pred file lineno colno flags f
    if r.1 then (it, r.2) else find_if_pred file lineno colno rest (it + 1) r.2

/-- The function `find_function(cu, file, lineno, colno)`; the pointer it
returns is the index of the function in `cu.funcs`. The flags are not read
after the second search, of which only the index is kept. -/
def find_function_cu_decl (cu : compilation_unit) (file : path) (lineno colno : Nat) :
    result Nat :=
  let found := find_if_pred file lineno colno cu.funcs 0 {}
  let it := found.1
  let flags := found.2
  if it = cu.funcs.length then
    let ec := util_errc.function_not_found
    let ec :=
      if !flags.decl_loc_found then util_errc.decl_location_not_found
      else if !flags.file_found then util_errc.file_not_found
      else if !flags.line_found then util_errc.line_not_found
      else if !flags.col_found then util_errc.column_not_found
      else ec
    .error (error_code.util ec)
  else if find_if (fun f => (find_function_pred file lineno colno flags f).1) cu.funcs (it + 1)
      cu.funcs.length ≠ cu.funcs.length then
    .error (error_code.util util_errc.function_ambiguous)
  else .ok it

/-- The function has a declaration location in the file. -/
def declared_in_file (file : path) (f : function) : Bool :=
  match f.decl_loc with
  | none => false
  | some loc => decide (loc.file = file)

/-- The function has a declaration location in the file at the line. -/
def declared_at_line (file : path) (lineno : Nat) (f : function) : Bool :=
  match f.decl_loc with
  | none => false
  | some loc => decide (loc.file = file ∧ loc.line_number = lineno)

/-- The function has a declaration location that matches the file, the line
and, when `colno` is not zero, the column. -/
def declaration_matches (file : path) (lineno colno : Nat) (f : function) : Bool :=
  match f.decl_loc with
  | none => false
  | some loc =>
    decide (loc.file = file ∧ loc.line_number = lineno ∧ (colno ≠ 0 → loc.line_column = colno))

/-! ## Function lookup by name in a compilation unit -/

/-- The comparison `ec == cond` of a `std::error_code` with an enumerator of
`util_errcause`, which the standard library defines as
`ec.category().equivalent(ec.value(), cond) ||
cond.category().equivalent(ec, cond.value())`. No category overrides the
first operand, which compares the default error condition of the code with
`cond`: it holds for a code of `util_category()` only, the default condition
of any other code being of another category than `cond`. -/
def std_error_code.eq_cause (ec : std_error_code) (cond : util_errcause) : Bool :=
  (ec.category == error_category.util &&
      util_category_t.default_error_condition ec.value == some cond) ||
    util_cause_category_t.equivalent ec cond

/-- The function `has_suffix`. -/
def has_suffix (x : List Char) : Bool :=
  let pos := x.findIdx (fun c => c == '.')
  if pos = x.length then false
  else !(x.drop pos).isEmpty

/-- The function `find_compilation_unit(oi, sym)` for a function symbol; the
pointer it returns is the index of the compilation unit in the container. -/
def find_compilation_unit_sym (oi : object_info) (sym : function_symbol) : result Nat :=
  let it := find_if
    (fun (cu : compilation_unit) =>
      cu.addresses.length != find_if
        (fun (rng : contiguous_range) =>
          decide (sym.address ≥ rng.low_pc) && decide (sym.address < rng.high_pc))
        cu.addresses 0 cu.addresses.length)
    oi.compilation_units 0 oi.compilation_units.length
  if it = oi.compilation_units.length then .error (error_code.util util_errc.cu_not_found)
  else .ok it

/-- The lambda `find_exact` of `find_function_symbol(oi, cu, name, exact_name,
no_suffix)`, from the symbol of index `i` on; the pointer it returns is the
index of the symbol in `oi.function_symbols`. -/
def find_exact (demangle : demangler) (oi : object_info) (cu : compilation_unit)
    (name : List Char) : List function_symbol → Nat → result Nat
  | [], _ => .error (error_code.util util_errc.symbol_not_found)
  | sym :: rest, i =>
    match is_equal demangle name sym.name with
    | .error ec => .error ec
    | .ok false => find_exact demangle oi cu name rest (i + 1)
    | .ok true =>
      match find_compilation_unit_sym oi sym with
      | .ok cu_res =>
        if (oi.compilation_units.getD cu_res default).path == cu.path then .ok i
        else find_exact demangle oi cu name rest (i + 1)
      | .error _ => find_exact demangle oi cu name rest (i + 1)

/-- The lambda `ambiguous_error` of `find_function_symbol(oi, cu, name,
exact_name, no_suffix)`. -/
def ambiguous_error (b1 b2 : symbol_binding) : error_code :=
  if b1 = symbol_binding.weak ∨ b2 = symbol_binding.weak then
    error_code.util util_errc.symbol_ambiguous_weak
  else if b1 = symbol_binding.local_ ∨ b2 = symbol_binding.local_ then
    error_code.util util_errc.symbol_ambiguous_static
  else error_code.util util_errc.symbol_ambiguous

/-- The lambda `find_matched` of `find_function_symbol(oi, cu, name,
exact_name, no_suffix)`, from the symbol of index `i` on, with the pointer
`found` as the index of a symbol, absent for `nullptr`. -/
def find_matched (demangle : demangler) (oi : object_info) (cu : compilation_unit)
    (name : List Char) (no_suffix : Bool) :
    List function_symbol → Nat → Option Nat → result Nat
  | [], _, found =>
    match found with
    | some fnd => .ok fnd
    | none => .error (error_code.util util_errc.symbol_not_found)
  | sym :: rest, i, found =>
    match is_match demangle name sym.name with
    | .error ec => .error ec
    | .ok false => find_matched demangle oi cu name no_suffix rest (i + 1) found
    | .ok true =>
      let other_unit :=
        match find_compilation_unit_sym oi sym with
        | .error _ => true
        | .ok cu_res => (oi.compilation_units.getD cu_res default).path != cu.path
      if other_unit then find_matched demangle oi cu name no_suffix rest (i + 1) found
      else
        match is_equal demangle name sym.name with
        | .error ec => .error ec
        | .ok true => .ok i
        | .ok false =>
          match found with
          | none => find_matched demangle oi cu name no_suffix rest (i + 1) (some i)
          | some fnd =>
            let found_sym := oi.function_symbols.getD fnd default
            if !no_suffix then
              if has_suffix sym.name || has_suffix found_sym.name then
                .error (error_code.util util_errc.symbol_ambiguous_suffix)
              else .error (ambiguous_error sym.binding found_sym.binding)
            else if !has_suffix sym.name then
              find_matched demangle oi cu name no_suffix rest (i + 1) (some i)
            else if has_suffix found_sym.name then
              if has_suffix sym.name then
                .error (error_code.util util_errc.symbol_ambiguous_suffix)
              else .error (ambiguous_error sym.binding found_sym.binding)
            else find_matched demangle oi cu name no_suffix rest (i + 1) found

/-- The function `find_function_symbol(oi, cu, name, exact_name, no_suffix)`. -/
def find_function_symbol_cu (demangle : demangler) (oi : object_info) (cu : compilation_unit)
    (name : List Char) (exact_name : exact_symbol_name_flag)
    (no_suffix : ignore_symbol_suffix_flag) : result Nat :=
  if name.isEmpty then .error error_code.invalid_argument
  else if exact_name = exact_symbol_name_flag.yes then
    find_exact demangle oi cu name oi.function_symbols 0
  else
    find_matched demangle oi cu name (decide (no_suffix = ignore_symbol_suffix_flag.yes))
      oi.function_symbols 0 none

/-- The function `find_function(oi, cu, name, exact_name)`; the pair it
returns holds the index of the function in `cu.funcs` and the index of the
symbol in `oi.function_symbols`. The result is `none` where the source
evaluates `**sym` on a `sym` that holds an error: `operator*` of
`nonstd::expected` has the precondition `has_value()`, outside of which the
behaviour is undefined. -/
def find_function_cu_name (demangle : demangler) (oi : object_info) (cu : compilation_unit)
    (name : List Char) (exact_name : exact_symbol_name_flag) :
    Option (result (Nat × Option Nat)) :=
  match find_function_symbol_cu demangle oi cu name exact_name ignore_symbol_suffix_flag.yes with
  | .error e =>
    if !e.to_std.eq_cause util_errcause.not_found then some (.error e)
    else none
  | .ok sym =>
    let symbol := oi.function_symbols.getD sym default
    let pred := fun (f : function) =>
      (f.is_extern && f.linkage_name == some symbol.name) ||
        (f.is_static &&
          match f.addresses with
          | none => false
          | some values =>
            find_if (fun (rng : contiguous_range) => rng.low_pc == symbol.address) values 0
              values.length != values.length)
    let it := find_if pred cu.funcs 0 cu.funcs.length
    if it = cu.funcs.length then some (.error (error_code.util util_errc.function_not_found))
    else some (.ok (it, some sym))

/-! ## Concrete compilation units -/

/-- A compilation unit `a.c` with one line entry: line 12, column 1. -/
def one_line_unit : compilation_unit :=
  { path := ["a.c"],
    lines := [{ file := ["a.c"], number := 12, column := 1, address := 100,
                new_statement := true }] }

/-- A compilation unit `a.c` with one line entry: line 20, column 2. -/
def late_line_unit : compilation_unit :=
  { path := ["a.c"],
    lines := [{ file := ["a.c"], number := 20, column := 2, address := 64,
                new_statement := true }] }

/-- A compilation unit `a.c` with two line entries of line 10, the first at
column 5 and the second at column 1. -/
def two_column_unit : compilation_unit :=
  { path := ["a.c"],
    lines := [{ file := ["a.c"], number := 10, column := 5, address := 100,
                new_statement := true },
              { file := ["a.c"], number := 10, column := 1, address := 104,
                new_statement := true }] }

/-- Two line entries whose addresses decrease. -/
def decreasing_lines : List source_line :=
  [{ file := ["a.c"], number := 7, column := 1, address := 5, new_statement := true },
   { file := ["a.c"], number := 7, column := 9, address := 3, new_statement := true }]

/-- Three line entries of one line whose addresses increase; the first is not
the start of a statement. -/
def increasing_lines : List source_line :=
  [{ file := ["a.c"], number := 7, column := 1, address := 16, new_statement := false },
   { file := ["a.c"], number := 7, column := 5, address := 20, new_statement := true },
   { file := ["a.c"], number := 7, column := 9, address := 28, new_statement := true }]

/-! ## Concrete symbol tables -/

/-- A demangler that turns the mangled name of `foo()` into its demangled form
and leaves every other name as it is. -/
def example_demangler : demangler :=
  fun name => if name = "_Z3foov".toList then .ok "foo()".toList else .ok name

/-- An object whose only function symbol is the mangled name of `foo()`. -/
def mangled_symbol_info : object_info :=
  { compilation_units := [],
    function_symbols := [{ name := "_Z3foov".toList, address := 100,
                           binding := symbol_binding.global }] }

/-- An object whose symbols are named `f(int, int)`, global, `g()`, global, and
`f (int,int)`, weak. -/
def spaced_symbol_info : object_info :=
  { compilation_units := [],
    function_symbols :=
      [{ name := "f(int, int)".toList, address := 100, binding := symbol_binding.global },
       { name := "g()".toList, address := 150, binding := symbol_binding.global },
       { name := "f (int,int)".toList, address := 200, binding := symbol_binding.weak }] }

/-- A compilation unit with a static function at address 64 and an extern
function of linkage name `bar`. -/
def two_function_unit : compilation_unit :=
  { path := ["a.c"],
    lines := [],
    funcs := [{ linkage_name := none, addresses := some [{ low_pc := 64, high_pc := 96 }] },
              { linkage_name := some "bar".toList,
                addresses := some [{ low_pc := 150, high_pc := 170 }] }] }

/-- An object with the one compilation unit `cu` and no function symbol. -/
def no_symbol_info (cu : compilation_unit) : object_info :=
  { compilation_units := [cu], function_symbols := [] }

end tep.dbg

namespace nrgprf

/-! ## Notions used to state the properties -/

/-- The set of package ids below `max_sockets` marked in `pkg_found`. -/
def found_set (pkg_found : Nat → Bool) : Finset Nat :=
  (Finset.range max_sockets).filter (fun i => pkg_found i = true)

/-- Every entry of the event map is `-1` or lies in `[0, num_events())`. -/
def reader_rapl.map_in_range (r : reader_rapl) : Prop :=
  ∀ skt d : Nat, r._event_map skt d = -1 ∨
    (0 ≤ r._event_map skt d ∧ r._event_map skt d < (r.num_events : Int))

/-- Two distinct (socket, domain) pairs never share a non-negative entry of the
event map. -/
def reader_rapl.map_injective (r : reader_rapl) : Prop :=
  ∀ s1 d1 s2 d2 : Nat, 0 ≤ r._event_map s1 d1 → r._event_map s1 d1 = r._event_map s2 d2 →
    s1 = s2 ∧ d1 = d2

/-- Every slot index below `num_events()` is an entry of the event map. -/
def reader_rapl.map_covers (r : reader_rapl) : Prop :=
  ∀ i : Nat, i < r.num_events → ∃ skt d : Nat, r._event_map skt d = (i : Int)

/-- The domain index `get_domain_idx` finds for a zone, if it finds one. -/
def zone_domain (base : powercap_zone) : Option Int :=
  match get_domain_idx base with
  | .ok didx => some didx
  | .error _ => none

/-- The zones of socket `skt` that exist: `intel-rapl:skt` and those of its
children `intel-rapl:skt:0`, `intel-rapl:skt:1`, `intel-rapl:skt:2` that
`access` finds, in the order in which the constructor visits them. -/
def sysfs.zones (sys : sysfs) (skt : Nat) : List powercap_zone :=
  sys.package_zone skt :: (List.range (rapl_domains - 1)).filterMap (sys.sub_zone skt)

/-- The domain indices of the zones of socket `skt` that carry a valid name. -/
def sysfs.domains (sys : sysfs) (skt : Nat) : List Int :=
  (sys.zones skt).filterMap zone_domain

/-- Every entry of the event map other than `-1` belongs to a domain selected
by `dmask` that is the domain of one of the zones of its socket. -/
def reader_rapl.map_justified (r : reader_rapl) (sys : sysfs) (dmask : Nat) : Prop :=
  ∀ skt d : Nat, r._event_map skt d ≠ -1 → dmask.testBit d = true ∧ (d : Int) ∈ sys.domains skt

/-- The event map and the vector of events agree: the entries are in range,
no two pairs share a slot, every slot below `num_events()` belongs to a pair,
and only selected domains that exist on their socket have a slot. -/
def reader_rapl.dense (r : reader_rapl) (sys : sysfs) (dmask : Nat) : Prop :=
  r.map_in_range ∧ r.map_injective ∧ r.map_covers ∧ r.map_justified sys dmask

/-- The domain indices of the children `intel-rapl:skt:d`, for `d` in `ds`, that
exist and carry a valid name. -/
def sysfs.sub_domains (sys : sysfs) (skt : Nat) (ds : List Nat) : List Int :=
  (ds.filterMap (sys.sub_zone skt)).filterMap zone_domain

/-- The wraparound state of an event after a reading `curr`, in the words of
the spec: a reading below the previous one adds the maximum range of the domain
to the accumulated maximum (a 64-bit sum). -/
def event_data.after_read (ev : event_data) (curr : Nat) : event_data :=
  { ev with
    prev := curr,
    curr_max := if curr < ev.prev then (ev.curr_max + ev.max) % UINT64_RANGE else ev.curr_max }

/-- The energy reported for a reading `curr`, in the words of the spec: the raw
reading plus the accumulated maximum (a 64-bit sum). -/
def event_data.decoded (ev : event_data) (curr : Nat) : Nat :=
  (curr + (ev.after_read curr).curr_max) % UINT64_RANGE

/-- Reading the events of a list in turn, the first of them into slot `ix`,
up to the first one whose counter file cannot be read: the error, the sample
and the events afterwards. -/
def read_events (io : Nat → Option Nat) :
    Nat → sample → List event_data → error × sample × List event_data
  | _, s, [] => (error.success, s, [])
  | ix, s, ev :: rest =>
    match io ev.fd with
    | none => (⟨error_code.SYSTEM⟩, s, ev :: rest)
    | some curr =>
      let res := read_events io (ix + 1) (s.set_cpu ix (ev.decoded curr)) rest
      (res.1, res.2.1, ev.after_read curr :: res.2.2)

/-- Reading the sub-readers of a list in turn on one sample, as long as each
of them succeeds: the sample and the sub-readers after the last call, or
`none` when one of the calls fails. -/
def read_in_order : List reader → sample → Option (sample × List reader)
  | [], s => some (s, [])
  | r :: rest, s =>
    if (r.call s).1.to_bool then none
    else
      match read_in_order rest (r.call s).2.1 with
      | none => none
      | some res => some (res.1, (r.call s).2.2 :: res.2)

/-- The sum of the counts that the sub-readers of a list report. -/
def total_events : List reader → Nat
  | [] => 0
  | r :: rest => r.num_events r.state + total_events rest

/-- A sub-reader whose state is the number `calls` of calls made to it; a call
writes the new number of calls into slot `slot` and fails when `fails` is set;
the sub-reader reports `count` events. -/
def example_reader (slot count : Nat) (fails : Bool) (calls : Nat) : reader :=
  { σ := Nat,
    state := calls,
    read := fun st s =>
      (if fails then ⟨error_code.SYSTEM⟩ else error.success, s.set_cpu slot (st + 1), st + 1),
    num_events := fun _ => count }

/-- The four tests of `domain_index_from_name` with the values they return, in
the order of the source. -/
def domain_tests : List (List Char × Int) :=
  [(EVENT_PKG_PREFIX, package_value), (EVENT_PP0, cores_value), (EVENT_PP1, uncore_value),
    (EVENT_DRAM, dram_value)]

/-- The value of the first test of `tests` that `name` passes, -1 when it
passes none: `domain_index_from_name` with its tests made in the order of
`tests`. -/
def first_test : List (List Char × Int) → List Char → Int
  | [], _ => -1
  | (pre, value) :: rest, name => if strncmp_eq pre name then value else first_test rest name

/-- A zone directory whose counter files `max_energy_range_uj` and `energy_uj`
cannot be opened. -/
def powercap_zone.closed (base : powercap_zone) : powercap_zone :=
  { base with max_energy_range_uj := none, energy_uj := none }

/-- A zone directory whose counter files cannot be opened unless `dmask`
selects the domain that the name of the zone gives. -/
def powercap_zone.hide (dmask : Nat) (base : powercap_zone) : powercap_zone :=
  match get_domain_idx base with
  | .ok didx => if dmask.testBit didx.toNat then base else base.closed
  | .error _ => base

/-- The system in which the counter files of every domain that `dmask` does
not select cannot be opened. -/
def sysfs.hide (sys : sysfs) (dmask : Nat) : sysfs :=
  { cpus := sys.cpus,
    package_zone := fun skt => (sys.package_zone skt).hide dmask,
    sub_zone := fun skt d => (sys.sub_zone skt d).map (powercap_zone.hide dmask) }

/-! ## Concrete systems -/

/-- A zone directory with the given name, whose `max_energy_range_uj` holds
1000 and whose `energy_uj` opens as descriptor `fd`. -/
def example_zone (name : String) (fd : Nat) : powercap_zone :=
  { name := some name.toList, max_energy_range_uj := some 1000, energy_uj := some fd }

/-- A zone directory whose `name` file is empty, visited while the array `name`
of `get_domain_idx` still holds the name `dram` that an earlier call read. -/
def stale_name_zone (fd : Nat) : powercap_zone :=
  { name := some [], max_energy_range_uj := some 1000, energy_uj := some fd,
    name_buffer := "dram\n".toList ++ [Char.ofNat 0] }

/-- A machine with one socket and the four domains package, core, uncore, dram. -/
def one_socket_sysfs : sysfs :=
  { cpus := [cpu_topology_file.package_id 0, cpu_topology_file.package_id 0],
    package_zone := fun _ => example_zone "package-0" 3,
    sub_zone := fun _ d =>
      if d = 0 then some (example_zone "core" 4)
      else if d = 1 then some (example_zone "uncore" 5)
      else if d = 2 then some (example_zone "dram" 6)
      else none }

/-- A machine with one socket whose zones are named package-0 and dram and
whose third zone has an empty `name` file, visited while the array `name` of
`get_domain_idx` still holds the name of the second. -/
def stale_name_sysfs : sysfs :=
  { cpus := [cpu_topology_file.package_id 0],
    package_zone := fun _ => example_zone "package-0" 3,
    sub_zone := fun _ d =>
      if d = 0 then some (example_zone "dram" 4)
      else if d = 1 then some (stale_name_zone 5)
      else none }

/-- A machine with one socket two of whose child zones are both named core. -/
def repeated_domain_sysfs : sysfs :=
  { cpus := [cpu_topology_file.package_id 0],
    package_zone := fun _ => example_zone "package-0" 3,
    sub_zone := fun _ d =>
      if d = 0 then some (example_zone "core" 4)
      else if d = 1 then some (example_zone "core" 5)
      else none }

/-- A machine with two sockets, each with a package zone and no child zone. -/
def two_socket_sysfs : sysfs :=
  { cpus := [cpu_topology_file.package_id 0, cpu_topology_file.package_id 1],
    package_zone := fun skt => example_zone "package" (3 + skt),
    sub_zone := fun _ _ => none }

/-- The counter files of `two_socket_sysfs`: descriptor 3 holds 111, descriptor
4 holds 222. -/
def two_socket_counters (fd : Nat) : Option Nat :=
  if fd = 3 then some 111 else if fd = 4 then some 222 else none

end nrgprf

namespace tep

/-! ## Configuration: machine numbers -/

/-- Conversion of an `unsigned int` to `int`, as done by the initialisation
`int samples = nsamp.text().as_uint(0)`. -/
def to_int (n : Nat) : Int := ((n + 2 ^ 31) % 2 ^ 32 : Nat) - 2 ^ 31

/-- Conversion of a signed integer to `uint32_t`. -/
def to_uint32 (i : Int) : Nat := (i % 2 ^ 32).toNat

/-- A value of type `double`: a finite number (the sign of zero is not kept),
an infinity or a NaN. -/
inductive double where
  | finite (q : ℚ)
  | inf (negative : Bool)
  | nan
  deriving DecidableEq

/-- Rounding of a rational to the nearest integer, a tie going to the even
one. -/
def round_half_even (x : ℚ) : Int :=
  if x - ⌊x⌋ < 1 / 2 then ⌊x⌋
  else if 1 / 2 < x - ⌊x⌋ then ⌊x⌋ + 1
  else if ⌊x⌋ % 2 = 0 then ⌊x⌋ else ⌊x⌋ + 1

/-- The `double` that the arithmetic of `double` yields for an exact result `q`:
the nearest number with a significand of 53 bits and an exponent of at least
`-1022`, a tie going to the even significand, and an infinity from `2 ^ 1024`
on. -/
def double.round (q : ℚ) : double :=
  if q = 0 then double.finite 0
  else
    let e : Int := max (Int.log 2 |q|) (-1022)
    let r : ℚ := round_half_even (|q| / 2 ^ (e - 52)) * 2 ^ (e - 52)
    if (2 : ℚ) ^ (1024 : Nat) ≤ r then double.inf (decide (q < 0))
    else double.finite (if q < 0 then -r else r)

/-- The quotient `a / y` of the arithmetic of `double`, for a finite `a` other
than zero; a zero divisor is taken as `+0.0`. -/
def double.div (a : ℚ) : double → double
  | double.finite q => if q = 0 then double.inf (decide (a < 0)) else double.round (a / q)
  | double.inf _ => double.finite 0
  | double.nan => double.nan

/-- The comparison `x <= c` of a `double` with a finite constant; it is false
of a NaN. -/
def double.le (x : double) (c : ℚ) : Bool :=
  match x with
  | double.finite q => decide (q ≤ c)
  | double.inf negative => negative
  | double.nan => false

/-- The conversion `static_cast<unsigned int>(x)`: the fractional part is
dropped; the result is `none` when the value so obtained is not a value of
`unsigned int` (also for an infinity and a NaN), where the conversion is
undefined. -/
def double.to_unsigned : double → Option Nat
  | double.finite q => if -1 < q ∧ q < 2 ^ 32 then some ⌊q⌋.toNat else none
  | double.inf _ => none
  | double.nan => none

/-! ## Configuration: what pugixml answers -/

/-- A position node, `<start>` or `<end>`: for the children `<cu>` and
`<line>`, when they exist, what `child_value()` and `text().as_int(0)` give. -/
structure xml_position where
  cu : Option (List Char)
  line : Option Int
  deriving DecidableEq

/-- A `<bounds>` node: its children `<start>` and `<end>`, when they exist. -/
structure xml_bounds where
  start_node : Option xml_position
  end_node : Option xml_position
  deriving DecidableEq

/-- A section node, as `get_section` queries it: the value of the attribute
`target` when it exists, and for each child that exists what the accessor
applied to it gives: `child_value()` for `<name>`, `<extra>` and `<method>`,
`text().as_double(0.0)` for `<freq>`, `text().as_int(0)` (a value of `int`) for
`<interval>`, `<execs>` and `<duration>`, `text().as_uint(0)` (a value of
`unsigned int`) for `<samples>`. -/
structure xml_section where
  target : Option (List Char)
  name : Option (List Char)
  extra : Option (List Char)
  freq : Option double
  interval : Option Int
  method : Option (List Char)
  execs : Option Int
  samples : Option Nat
  duration : Option Int
  bounds : Option xml_bounds
  deriving DecidableEq

/-- A `<params>` node: what `text().as_uint(0)` gives for each of the children
`<domain_mask>`, `<socket_mask>` and `<device_mask>` that exists. -/
structure xml_params where
  domain_mask : Option Nat
  socket_mask : Option Nat
  device_mask : Option Nat
  deriving DecidableEq

/-- A `<config>` node: `text().as_int(0)` of `<threads>`, the node `<params>`
and the children of `<sections>`, in document order, each when it exists. -/
structure xml_config where
  threads : Option Int
  params : Option xml_params
  sections : Option (List xml_section)
  deriving DecidableEq

/-- The status of `xml_document::load_file`; `status_other` stands for every
failure that `load_config` does not tell apart. -/
inductive xml_parse_status where
  | status_ok
  | status_file_not_found
  | status_io_error
  | status_out_of_memory
  | status_other
  deriving DecidableEq, Repr

/-- What loading the file gives: the status of the parse and the node
`<config>` of the document, when it exists. -/
structure xml_document where
  status : xml_parse_status
  config : Option xml_config
  deriving DecidableEq

/-! ## Configuration: data -/

/-- The enumeration `cfg_error_code`. -/
inductive cfg_error_code where
  | SUCCESS
  | CONFIG_IO_ERROR
  | CONFIG_NOT_FOUND
  | CONFIG_OUT_OF_MEM
  | CONFIG_BAD_FORMAT
  | CONFIG_NO_CONFIG
  | INVALID_THREAD_CNT
  | SEC_LIST_EMPTY
  | SEC_NO_BOUNDS
  | SEC_NO_FREQ
  | SEC_INVALID_TARGET
  | SEC_INVALID_NAME
  | SEC_INVALID_EXTRA
  | SEC_INVALID_FREQ
  | SEC_INVALID_INTERVAL
  | SEC_INVALID_METHOD
  | SEC_INVALID_EXECS
  | SEC_INVALID_SAMPLES
  | SEC_INVALID_DURATION
  | PARAM_INVALID_DOMAIN_MASK
  | PARAM_INVALID_SOCKET_MASK
  | PARAM_INVALID_DEVICE_MASK
  | BOUNDS_NO_START
  | BOUNDS_NO_END
  | POS_NO_COMP_UNIT
  | POS_NO_LINE
  | POS_INVALID_COMP_UNIT
  | POS_INVALID_LINE
  deriving DecidableEq, Repr

/-- The class `cfg_error`. -/
structure cfg_error where
  _code : cfg_error_code
  deriving DecidableEq, Repr

/-- The template `cfg_expected<R>`: a value or a `cfg_error`. -/
abbrev cfg_expected (α : Type) := Except cfg_error α

/-- The enumeration `config_data::profiling_method`. -/
inductive config_data.profiling_method where
  | energy_profile
  | energy_total
  deriving DecidableEq, Repr

/-- The enumeration `config_data::target`. -/
inductive config_data.target where
  | cpu
  | gpu
  deriving DecidableEq, Repr

/-- The class `config_data::position`. -/
structure config_data.position where
  _cu : List Char
  _line : Nat
  deriving DecidableEq, Repr

/-- The class `config_data::bounds`. -/
structure config_data.bounds where
  _start : config_data.position
  _end : config_data.position
  deriving DecidableEq, Repr

/-- The class `config_data::params`. -/
structure config_data.params where
  _domain_mask : Nat
  _socket_mask : Nat
  _device_mask : Nat
  deriving DecidableEq, Repr

/-- The default constructor `config_data::params::params()`: the three masks
are `~0x0`. -/
def config_data.params.default : config_data.params :=
  { _domain_mask := 2 ^ 32 - 1, _socket_mask := 2 ^ 32 - 1, _device_mask := 2 ^ 32 - 1 }

/-- The class `config_data::section`; the interval is its count of
milliseconds. -/
structure config_data.section where
  _name : List Char
  _extra : List Char
  _target : config_data.target
  _method : config_data.profiling_method
  _bounds : config_data.bounds
  _interval : Int
  _executions : Nat
  _samples : Nat
  deriving DecidableEq, Repr

/-- The class `config_data`. -/
structure config_data where
  _threads : Nat
  _parameters : config_data.params
  _sections : List config_data.section
  deriving DecidableEq, Repr

/-! ## Configuration: loading -/

/-- The function `get_target`. -/
def get_target (nsection : xml_section) : cfg_expected config_data.target :=
  match nsection.target with
  | none => .ok config_data.target.cpu
  | some tgt_str =>
    if tgt_str = "cpu".toList then .ok config_data.target.cpu
    else if tgt_str = "gpu".toList then .ok config_data.target.gpu
    else .error ⟨cfg_error_code.SEC_INVALID_TARGET⟩

/-- The function `get_params`. -/
def get_params (nparams : xml_params) : cfg_expected config_data.params :=
  let dommask := match nparams.domain_mask with
    | some v => v
    | none => 2 ^ 32 - 1
  if dommask = 0 then .error ⟨cfg_error_code.PARAM_INVALID_DOMAIN_MASK⟩
  else
    let sktmask := match nparams.socket_mask with
      | some v => v
      | none => 2 ^ 32 - 1
    if sktmask = 0 then .error ⟨cfg_error_code.PARAM_INVALID_SOCKET_MASK⟩
    else
      let devmask := match nparams.device_mask with
        | some v => v
        | none => 2 ^ 32 - 1
      if devmask = 0 then .error ⟨cfg_error_code.PARAM_INVALID_DEVICE_MASK⟩
      else .ok ⟨dommask, sktmask, devmask⟩

/-- The function `get_interval`; the value returned is the count of
milliseconds. The result is `none` when the quotient `1000.0 / freq` is
converted to `unsigned int` although it has no value of that type, which the
language leaves undefined. -/
def get_interval (nsection : xml_section) : Option (cfg_expected Int) :=
  match nsection.interval with
  | some interval =>
    if interval ≤ 0 then some (.error ⟨cfg_error_code.SEC_INVALID_INTERVAL⟩)
    else some (.ok interval)
  | none =>
    match nsection.freq with
    | some freq =>
      if freq.le 0 then some (.error ⟨cfg_error_code.SEC_INVALID_FREQ⟩)
      else
        let interval := double.div 1000 freq
        if interval.le 1 then some (.ok 1)
        else
          match interval.to_unsigned with
          | some v => some (.ok (v : Int))
          | none => none
    | none => some (.error ⟨cfg_error_code.SEC_NO_FREQ⟩)

/-- The function `get_samples`, with `interval` the count of milliseconds of
its second argument. The division and the remainder are those of the language,
which round toward zero; the result is `none` when the divisor is zero, which
the language leaves undefined. -/
def get_samples (nsection : xml_section) (interval : Int) : Option (cfg_expected Nat) :=
  match nsection.duration with
  | some duration =>
    if duration ≤ 0 then some (.error ⟨cfg_error_code.SEC_INVALID_DURATION⟩)
    else if interval = 0 then none
    else
      some (.ok (to_uint32
        (Int.tdiv duration interval + (if Int.tmod duration interval ≠ 0 then 1 else 0))))
  | none =>
    match nsection.samples with
    | some value =>
      let samples := to_int value
      if samples ≤ 0 then some (.error ⟨cfg_error_code.SEC_INVALID_SAMPLES⟩)
      else some (.ok (to_uint32 samples))
    | none => some (.ok 0)

/-- The function `get_position`. -/
def get_position (pos_node : xml_position) : cfg_expected config_data.position :=
  match pos_node.cu with
  | none => .error ⟨cfg_error_code.POS_NO_COMP_UNIT⟩
  | some cu =>
    if cu = [] then .error ⟨cfg_error_code.POS_INVALID_COMP_UNIT⟩
    else
      match pos_node.line with
      | none => .error ⟨cfg_error_code.POS_NO_LINE⟩
      | some lineno =>
        if lineno ≤ 0 then .error ⟨cfg_error_code.POS_INVALID_LINE⟩
        else .ok ⟨cu, to_uint32 lineno⟩

/-- The function `get_bounds`. -/
def get_bounds (bounds : xml_bounds) : cfg_expected config_data.bounds :=
  match bounds.start_node with
  | none => .error ⟨cfg_error_code.BOUNDS_NO_START⟩
  | some start =>
    match bounds.end_node with
    | none => .error ⟨cfg_error_code.BOUNDS_NO_END⟩
    | some end_node =>
      match get_position start with
      | .error e => .error e
      | .ok pstart =>
        match get_position end_node with
        | .error e => .error e
        | .ok pend => .ok ⟨pstart, pend⟩

/-- The function `get_method`, on the `child_value()` of the node. -/
def get_method (method_str : List Char) : cfg_expected config_data.profiling_method :=
  if method_str = "profile".toList then .ok config_data.profiling_method.energy_profile
  else if method_str = "total".toList then .ok config_data.profiling_method.energy_total
  else .error ⟨cfg_error_code.SEC_INVALID_METHOD⟩

/-- The function `get_section`. The result of `get_samples` is kept without a
test and its `value()` is read when the section is built; the result is `none`
when `value()` is read from a result that holds an error, which the sources at
hand do not define (`expected.hpp` is not part of them), and when `get_interval`
or `get_samples` is undefined. -/
def get_section (nsection : xml_section) : Option (cfg_expected config_data.section) :=
  match get_target nsection with
  | .error e => some (.error e)
  | .ok target =>
    if nsection.name = some [] then some (.error ⟨cfg_error_code.SEC_INVALID_NAME⟩)
    else if nsection.extra = some [] then some (.error ⟨cfg_error_code.SEC_INVALID_EXTRA⟩)
    else
      match get_interval nsection with
      | none => none
      | some (.error e) => some (.error e)
      | some (.ok interval) =>
        let method_result : cfg_expected config_data.profiling_method :=
          match nsection.method with
          | none => .ok config_data.profiling_method.energy_profile
          | some method_str =>
            match get_method method_str with
            | .error e => .error e
            | .ok result =>
              if target = config_data.target.cpu then .ok result
              else .ok config_data.profiling_method.energy_profile
        match method_result with
        | .error e => some (.error e)
        | .ok method =>
          let execs : Int := match nsection.execs with
            | some v => v
            | none => 0
          if nsection.execs.isSome ∧ execs ≤ 0 then
            some (.error ⟨cfg_error_code.SEC_INVALID_EXECS⟩)
          else
            match get_samples nsection interval with
            | none => none
            | some samples =>
              match nsection.bounds with
              | none => some (.error ⟨cfg_error_code.SEC_NO_BOUNDS⟩)
              | some nbounds =>
                match get_bounds nbounds with
                | .error e => some (.error e)
                | .ok bounds =>
                  match samples with
                  | .error _ => none
                  | .ok samples_value =>
                    some (.ok
                      { _name := nsection.name.getD [],
                        _extra := nsection.extra.getD [],
                        _target := target,
                        _method := method,
                        _bounds := bounds,
                        _interval := interval,
                        _executions := to_uint32 execs,
                        _samples := samples_value })

/-- The loop of `load_config` over the children of `<sections>`; `sections`
holds the sections pushed so far. -/
def load_sections :
    List xml_section → List config_data.section → Option (cfg_expected (List config_data.section))
  | [], sections => some (.ok sections)
  | nsection :: rest, sections =>
    match get_section nsection with
    | none => none
    | some (.error e) => some (.error e)
    | some (.ok section_value) => load_sections rest (sections ++ [section_value])

/-- The function `load_config`, on what loading the file gives. -/
def load_config (doc : xml_document) : Option (cfg_expected config_data) :=
  match doc.status with
  | xml_parse_status.status_file_not_found =>
    some (.error ⟨cfg_error_code.CONFIG_NOT_FOUND⟩)
  | xml_parse_status.status_io_error => some (.error ⟨cfg_error_code.CONFIG_IO_ERROR⟩)
  | xml_parse_status.status_out_of_memory => some (.error ⟨cfg_error_code.CONFIG_OUT_OF_MEM⟩)
  | xml_parse_status.status_other => some (.error ⟨cfg_error_code.CONFIG_BAD_FORMAT⟩)
  | xml_parse_status.status_ok =>
    match doc.config with
    | none => some (.error ⟨cfg_error_code.CONFIG_NO_CONFIG⟩)
    | some nconfig =>
      let threads : Int := match nconfig.threads with
        | some v => v
        | none => 0
      if nconfig.threads.isSome ∧ threads ≤ 0 then
        some (.error ⟨cfg_error_code.INVALID_THREAD_CNT⟩)
      else
        let params_result : cfg_expected config_data.params :=
          match nconfig.params with
          | none => .ok config_data.params.default
          | some nparams => get_params nparams
        match params_result with
        | .error e => some (.error e)
        | .ok parameters =>
          match nconfig.sections with
          | none => some (.ok ⟨to_uint32 threads, parameters, []⟩)
          | some children =>
            match load_sections children [] with
            | none => none
            | some (.error e) => some (.error e)
            | some (.ok sections) =>
              if children.length = 0 then some (.error ⟨cfg_error_code.SEC_LIST_EMPTY⟩)
              else some (.ok ⟨to_uint32 threads, parameters, sections⟩)

/-! ## Concrete configurations -/

/-- The bounds of the scenarios of the spec: from line 10 to line 20 of
`main.c`. -/
def example_bounds : xml_bounds :=
  { start_node := some { cu := some "main.c".toList, line := some 10 },
    end_node := some { cu := some "main.c".toList, line := some 20 } }

/-- A section node with `<interval>` of value `n`, `<method>profile</method>`,
`<samples>` of value `k` and the bounds of the scenarios, with no attribute and
no other child. -/
def interval_section (n : Int) (k : Nat) : xml_section :=
  { target := none, name := none, extra := none, freq := none, interval := some n,
    method := some "profile".toList, execs := none, samples := some k, duration := none,
    bounds := some example_bounds }

/-- The same section node with `<freq>` of value `freq` instead of
`<interval>`. -/
def freq_section (freq : double) (k : Nat) : xml_section :=
  { target := none, name := none, extra := none, freq := some freq, interval := none,
    method := some "profile".toList, execs := none, samples := some k, duration := none,
    bounds := some example_bounds }

/-- A document that parses and holds the given section nodes, with no
`<threads>` and no `<params>`. -/
def sections_document (children : List xml_section) : xml_document :=
  { status := xml_parse_status.status_ok,
    config := some { threads := none, params := none, sections := some children } }

/-- A section node with `<interval>` of value `n`, `<duration>` of value `d`
and the bounds of the scenarios, `<samples>` being as given. -/
def duration_section (n d : Int) (samples : Option Nat) : xml_section :=
  { target := none, name := none, extra := none, freq := none, interval := some n,
    method := some "profile".toList, execs := none, samples := samples, duration := some d,
    bounds := some example_bounds }

/-- The line values of the bounds of a section node are values of `int`, the
type of what `text().as_int(0)` returns. -/
def xml_section.lines_are_int (nsection : xml_section) : Prop :=
  ∀ (nbounds : xml_bounds) (pos_node : xml_position) (lineno : Int),
    nsection.bounds = some nbounds →
    (nbounds.start_node = some pos_node ∨ nbounds.end_node = some pos_node) →
    pos_node.line = some lineno → lineno < 2 ^ 31

/-- A section node for a GPU target: `<interval>` of value `n`, no `<samples>`
and the bounds of the scenarios, `<method>` being as given. -/
def gpu_section (n : Int) (method : Option (List Char)) : xml_section :=
  { target := some "gpu".toList, name := none, extra := none, freq := none,
    interval := some n, method := method, execs := none, samples := none, duration := none,
    bounds := some example_bounds }

/-! ## Wait statuses -/

/-- The signal number `SIGTRAP` of `<signal.h>` on Linux. -/
def SIGTRAP : Nat := 5

/-- The constant `PTRACE_EVENT_FORK` of `<sys/ptrace.h>`. -/
def PTRACE_EVENT_FORK : Nat := 1

/-- The constant `PTRACE_EVENT_VFORK` of `<sys/ptrace.h>`. -/
def PTRACE_EVENT_VFORK : Nat := 2

/-- The constant `PTRACE_EVENT_CLONE` of `<sys/ptrace.h>`. -/
def PTRACE_EVENT_CLONE : Nat := 3

/-- The function `is_clone_event`; the shift of the `int` is arithmetic. -/
def is_clone_event (wait_status : Int) : Bool :=
  wait_status >>> (8 : Nat) == ((SIGTRAP ||| (PTRACE_EVENT_CLONE <<< 8) : Nat) : Int)

/-- The function `is_vfork_event`. -/
def is_vfork_event (wait_status : Int) : Bool :=
  wait_status >>> (8 : Nat) == ((SIGTRAP ||| (PTRACE_EVENT_VFORK <<< 8) : Nat) : Int)

/-- The function `is_fork_event`. -/
def is_fork_event (wait_status : Int) : Bool :=
  wait_status >>> (8 : Nat) == ((SIGTRAP ||| (PTRACE_EVENT_FORK <<< 8) : Nat) : Int)

/-! ## Output of the results -/

/-- Modelled from the spec: `timed_sample.hpp` is not part of the sources at
hand; a timed sample is a timestamp, in nanoseconds since the epoch of the
clock, and a sample of the readers. -/
structure timed_sample where
  timepoint : Int
  smp : nrgprf.sample

/-- The type `timed_execution`: `std::vector<timed_sample>`. -/
abbrev timed_execution := List timed_sample

mutual
/-- Modelled from the spec: `output.hpp` is not part of the sources at hand;
the classes derived from `readings_output` that `output.cpp` defines:
`readings_output_dev<nrgprf::reader_rapl>`,
`readings_output_dev<nrgprf::reader_gpu>` and `readings_output_holder`, which
owns the outputs of its container `_outputs`. -/
inductive readings_output where
  | dev_rapl
  | dev_gpu
  | holder (_outputs : readings_outputs)

/-- The container `_outputs` of a `readings_output_holder`. -/
inductive readings_outputs where
  | nil
  | cons (out : readings_output) (rest : readings_outputs)
end

/-- Modelled from the spec: `output.hpp` is not part of the sources at hand;
an interval of positions is written as its two ends, `start()` and `end()`;
the latter is named `stop`. -/
structure position_interval where
  start : String
  stop : String

/-- Modelled from the spec: `output.hpp` is not part of the sources at hand;
an execution of a section is its interval and the timed samples taken during
it. -/
structure position_exec where
  interval : position_interval
  exec : timed_execution

/-- Modelled from the spec: `output.hpp` is not part of the sources at hand;
the members of `idle_output` that its constructor in `output.cpp`
initialises. -/
structure idle_output where
  _rout : readings_output
  _exec : timed_execution

/-- Modelled from the spec: `output.hpp` is not part of the sources at hand;
the members of `section_output` that `output.cpp` reads. -/
structure section_output where
  _rout : readings_output
  _label : String
  _extra : String
  _executions : List position_exec

/-- Modelled from the spec: `output.hpp` is not part of the sources at hand;
the members of `group_output` that `output.cpp` reads. -/
structure group_output where
  _label : String
  _extra : String
  _sections : List section_output

/-- Modelled from the spec: `output.hpp` is not part of the sources at hand;
the members of `profiling_results` that `output.cpp` reads. -/
structure profiling_results where
  _idle : List idle_output
  _results : List group_output

/-- The functions `readings_output_dev<nrgprf::reader_rapl>::output` and
`readings_output_dev<nrgprf::reader_gpu>::output`, as far as their assertion
`exec.size() > 1` goes: the result tells whether the assertion holds, in
which case the function runs to its end. The JSON value that it writes is
not modelled. -/
def readings_output_dev.output (exec : timed_execution) : Bool :=
  decide (exec.length > 1)

mutual
/-- The virtual function `readings_output::output`: whether every assertion
evaluated during the call holds. -/
def readings_output.output : readings_output → timed_execution → Bool
  | readings_output.dev_rapl, exec => readings_output_dev.output exec
  | readings_output.dev_gpu, exec => readings_output_dev.output exec
  | readings_output.holder _outputs, exec => readings_outputs.output _outputs exec

/-- The loop of `readings_output_holder::output` over `_outputs`. -/
def readings_outputs.output : readings_outputs → timed_execution → Bool
  | readings_outputs.nil, _ => true
  | readings_outputs.cons out rest, exec =>
    readings_output.output out exec && readings_outputs.output rest exec
end

/-- The function `to_json(j, io)` for an `idle_output`: whether every
assertion evaluated during the call holds. -/
def to_json_idle_output (io : idle_output) : Bool :=
  if !io._exec.isEmpty then io._rout.output io._exec
  else true

/-- The function `to_json(j, so)` for a `section_output`: whether every
assertion evaluated during the call holds. -/
def to_json_section_output (so : section_output) : Bool :=
  so._executions.all (fun pe => so._rout.output pe.exec)

/-- The function `to_json(j, go)` for a `group_output`. -/
def to_json_group_output (go : group_output) : Bool :=
  go._sections.all to_json_section_output

/-- The function `to_json(j, io)` for a `std::vector<idle_output>`. -/
def to_json_idle (io : List idle_output) : Bool :=
  io.all to_json_idle_output

/-- The function `to_json(j, groups)` for a `profiling_results::container`. -/
def to_json_groups (groups : List group_output) : Bool :=
  groups.all to_json_group_output

/-- The function `to_json(j, pr)` for a `profiling_results`: whether every
assertion evaluated during the serialisation holds. -/
def to_json_profiling_results (pr : profiling_results) : Bool :=
  to_json_idle pr._idle && to_json_groups pr._results

/-! ## Execution control loop -/

/-- Modelled from the spec: the tracer that runs the execution control loop
is not part of the sources at hand, which hold of it only the type-erased
wrapper `trap_context`. A trap of the loop is the entry-breakpoint event of a
region (`function_call`) or the exit-breakpoint event of a region
(`function_return`), with the id of the region. -/
inductive trap where
  | entry (id : Nat)
  | exit (id : Nat)
  deriving DecidableEq, Repr

/-- Modelled from the spec: the tracer is not part of the sources at hand. An
execution record is made per region entry and holds the region id, the start
time and the end time; time is counted in traps, the time of a trap being its
position in the sequence of traps. The timed samples of the record, which the
sampler promise yields, are left out. -/
structure execution_record where
  region_id : Nat
  start_time : Nat
  end_time : Nat
  deriving DecidableEq, Repr

/-- Modelled from the spec: the tracer is not part of the sources at hand. The
state of the loop between `Running` and `InRegion(id)`: the stack of
`(region_id, sampler_promise)` and the execution records made so far. The
promise of a sampler is identified by the time at which the sampler was
started; the state is `Running` when the stack is empty and `InRegion(id)`
when `id` is on its top. -/
structure control_state where
  stack : List (Nat × Nat)
  records : List execution_record
  deriving DecidableEq, Repr

/-- Modelled from the spec: the tracer is not part of the sources at hand. One
transition of the loop, on the trap that occurs at time `t`: an entry starts
a fresh sampler and pushes it with the region id; a matching exit, one for
the region on the top of the stack, pops one, awaits its promise and records
the execution; the spec gives no transition for another exit, which leaves
the state as it is. -/
def control_step (s : control_state) (t : Nat) : trap → control_state
  | trap.entry id => { s with stack := (id, t) :: s.stack }
  | trap.exit id =>
    match s.stack with
    | [] => s
    | (top, started) :: rest =>
      if top = id then { stack := rest, records := s.records ++ [⟨id, started, t⟩] }
      else s

/-- Modelled from the spec: the tracer is not part of the sources at hand. The
loop on a sequence of traps, the first of which occurs at time `t`. -/
def control_run_from (s : control_state) (t : Nat) : List trap → control_state
  | [] => s
  | x :: rest => control_run_from (control_step s t x) (t + 1) rest

/-- Modelled from the spec: the tracer is not part of the sources at hand. The
loop on a sequence of traps, from the state `Running` with no record. -/
def control_run (traps : List trap) : control_state :=
  control_run_from ⟨[], []⟩ 0 traps

/-- The execution records of a region. -/
def records_of (id : Nat) (records : List execution_record) : List execution_record :=
  records.filter (fun r => r.region_id == id)

/-- A sequence of traps that can occur between an entry of the region `id` and
the exit that matches it: a sequence of matched executions of regions, each
an entry, a sequence of the same kind for its region and the exit of the
region, and of exits of other regions than `id`, which match no entry. -/
inductive inner_segment : Nat → List trap → Prop where
  | nil (id : Nat) : inner_segment id []
  | unmatched_exit (id j : Nat) (w : List trap) :
    inner_segment id w → j ≠ id → inner_segment id (w ++ [trap.exit j])
  | nested (id k : Nat) (w v : List trap) :
    inner_segment id w → inner_segment k v →
    inner_segment id (w ++ trap.entry k :: v ++ [trap.exit k])

/-- The traps at the positions `p` and `q` of the sequence are a matched
entry/exit pair for the region `id`: an entry of `id` at `p`, an exit of `id`
at `q`, and between them a sequence that leaves the entry open and innermost. -/
def matched_pair (traps : List trap) (id p q : Nat) : Prop :=
  ∃ u v w : List trap, traps = u ++ trap.entry id :: v ++ trap.exit id :: w ∧
    u.length = p ∧ p + 1 + v.length = q ∧ inner_segment id v

/-- A well-nested sequence of traps: every entry is followed by the exit of
its region, with a well-nested sequence between them. -/
inductive well_nested : List trap → Prop where
  | nil : well_nested []
  | append (w v : List trap) : well_nested w → well_nested v → well_nested (w ++ v)
  | region (id : Nat) (w : List trap) :
    well_nested w → well_nested (trap.entry id :: w ++ [trap.exit id])

/-- The stack agrees with the sequence of traps processed so far: each of its
elements is the entry of its region at its start time, what follows the entry
leaves it open and innermost up to the next element, and what precedes it
agrees with the rest of the stack. -/
def stack_agrees : List trap → List (Nat × Nat) → Prop
  | _, [] => True
  | u, top :: rest =>
    ∃ u0 v : List trap, u = u0 ++ trap.entry top.1 :: v ∧ u0.length = top.2 ∧
      inner_segment top.1 v ∧ stack_agrees u0 rest

end tep

/-! # Properties -/

namespace nrgprf

/-! ## Wraparound decoding -/

theorem getElem?_mid {α : Type} (pre post : List α) (x : α) :
    (pre ++ x :: post)[pre.length]? = some x := by
  rw [List.getElem?_append_right (le_refl _)]
  simp

theorem set_mid {α : Type} (pre post : List α) (x y : α) :
    (pre ++ x :: post).set pre.length y = pre ++ y :: post := by
  simp

/-- One call of `read` on the event in the middle of the vector. -/
theorem read_mid (map : Nat → Nat → Int) (pre post : List event_data) (ev : event_data)
    (s : sample) (raw : Nat) :
    reader_rapl.read ⟨map, pre ++ ev :: post⟩ (fun _ => some raw) s pre.length =
      some (error.success,
        s.set_cpu pre.length
          ((raw + (if raw < ev.prev then (ev.curr_max + ev.max) % UINT64_RANGE else ev.curr_max))
            % UINT64_RANGE),
        ⟨map, pre ++ { ev with prev := raw,
                               curr_max := if raw < ev.prev then (ev.curr_max + ev.max) % UINT64_RANGE
                                           else ev.curr_max } :: post⟩) := by
  simp only [reader_rapl.read, getElem?_mid, set_mid]

/-- A stream of reads stores the prescribed energies reduced modulo `2 ^ 64`. -/
theorem read_stream_mid (map : Nat → Nat → Int) (pre post : List event_data) (fd M : Nat)
    (rs : List Nat) :
    ∀ (prev acc : Nat) (s : sample),
      ∃ s1 r1, reader_rapl.read_stream pre.length rs s
          ⟨map, pre ++ ⟨fd, M, prev, acc % UINT64_RANGE⟩ :: post⟩ =
        some ((decoded_energies M prev acc rs).map (· % UINT64_RANGE), s1, r1) := by
  induction rs with
  | nil => intro prev acc s; exact ⟨_, _, rfl⟩
  | cons raw rest ih =>
    intro prev acc s
    simp only [reader_rapl.read_stream, read_mid, decoded_energies]
    by_cases h : raw < prev
    · simp only [h, if_true, Nat.mod_add_mod, Nat.add_mod_mod]
      obtain ⟨s1, r1, h1⟩ := ih raw (acc + M)
        (s.set_cpu pre.length ((raw + (acc + M)) % UINT64_RANGE))
      simp [error.to_bool, error.success, h1, sample.set_cpu]
    · simp only [h, if_false, Nat.mod_add_mod, Nat.add_mod_mod]
      obtain ⟨s1, r1, h1⟩ := ih raw acc
        (s.set_cpu pre.length ((raw + acc) % UINT64_RANGE))
      simp [error.to_bool, error.success, h1, sample.set_cpu]

theorem decoded_energies_length (M : Nat) (rs : List Nat) :
    ∀ prev acc, (decoded_energies M prev acc rs).length = rs.length := by
  induction rs with
  | nil => intro _ _; rfl
  | cons raw rest ih => intro prev acc; simp [decoded_energies, ih]

/-- The k-th prescribed energy is the k-th reading plus `max` times the number
of wraps seen so far. -/
theorem decoded_energies_getElem? (M : Nat) (rs : List Nat) :
    ∀ (prev acc k : Nat) (hk : k < rs.length),
      (decoded_energies M prev acc rs)[k]? =
        some (rs[k] + (acc + M * wrap_count prev (rs.take (k + 1)))) := by
  induction rs with
  | nil => intro _ _ k hk; simp at hk
  | cons raw rest ih =>
    intro prev acc k hk
    cases k with
    | zero =>
      by_cases h : raw < prev <;> simp [decoded_energies, wrap_count, h]
    | succ k =>
      have hk1 : k < rest.length := by simpa using hk
      simp only [decoded_energies, List.getElem?_cons_succ, ih _ _ k hk1, List.take_succ_cons,
        wrap_count, List.getElem_cons_succ]
      by_cases h : raw < prev
      · simp [h]; ring
      · simp [h]

theorem decoded_energies_chain (M : Nat) (rs : List Nat) :
    ∀ prev acc, prev ≤ M → (∀ x ∈ rs, x ≤ M) →
      List.Chain (· ≤ ·) (prev + acc) (decoded_energies M prev acc rs) := by
  induction rs with
  | nil => intro _ _ _ _; exact List.Chain.nil
  | cons raw rest ih =>
    intro prev acc hp hall
    have hraw : raw ≤ M := hall raw (List.mem_cons_self _ _)
    simp only [decoded_energies]
    refine List.Chain.cons ?_ (ih raw _ hraw (fun x hx => hall x (List.mem_cons_of_mem _ hx)))
    by_cases h : raw < prev
    · simp only [h, if_true]; omega
    · simp only [h, if_false]; omega

theorem decoded_energies_eq_range (M : Nat) (rs : List Nat) :
    decoded_energies M 0 0 rs =
      (List.range rs.length).map
        (fun k => rs.getD k 0 + M * wrap_count 0 (rs.take (k + 1))) := by
  apply List.ext_getElem?
  intro k
  by_cases hk : k < rs.length
  · rw [decoded_energies_getElem? M rs 0 0 k hk]
    simp [hk, List.getD_eq_getElem?_getD]
  · have h1 : (decoded_energies M 0 0 rs).length ≤ k := by
      rw [decoded_energies_length]; omega
    rw [List.getElem?_eq_none h1, List.getElem?_eq_none]
    simp; omega

/-- C1 (amended): on a freshly constructed event of maximum range `M`, at any
position of the vector of events, the value found in the slot of the event
after the k-th of a series of successive `read` calls is `r_k + M * w_k`
reduced modulo `2 ^ 64`, where `w_k` counts the readings up to the k-th that
are below their predecessor (the first one being preceded by 0). With
`M = 100` the readings 90, 95, 20, 30 are decoded as 90, 95, 120, 130. -/
theorem rapl_read_decodes_modulo :
    (∀ (map : Nat → Nat → Int) (pre post : List event_data) (fd M : Nat) (s : sample)
        (rs : List Nat),
      ∃ s1 r1,
        reader_rapl.read_stream pre.length rs s ⟨map, pre ++ event_data.create fd M :: post⟩ =
          some ((List.range rs.length).map
              (fun k => (rs.getD k 0 + M * wrap_count 0 (rs.take (k + 1))) % UINT64_RANGE),
            s1, r1)) ∧
    (∀ (map : Nat → Nat → Int) (fd : Nat) (s : sample),
      ∃ s1 r1,
        reader_rapl.read_stream 0 [90, 95, 20, 30] s ⟨map, [event_data.create fd 100]⟩ =
          some ([90, 95, 120, 130], s1, r1)) := by
  have key : ∀ (map : Nat → Nat → Int) (pre post : List event_data) (fd M : Nat) (s : sample)
      (rs : List Nat),
      ∃ s1 r1,
        reader_rapl.read_stream pre.length rs s ⟨map, pre ++ event_data.create fd M :: post⟩ =
          some ((List.range rs.length).map
              (fun k => (rs.getD k 0 + M * wrap_count 0 (rs.take (k + 1))) % UINT64_RANGE),
            s1, r1) := by
    intro map pre post fd M s rs
    obtain ⟨s1, r1, h⟩ := read_stream_mid map pre post fd M rs 0 0 s
    refine ⟨s1, r1, ?_⟩
    have h0 : (⟨fd, M, 0, 0 % UINT64_RANGE⟩ : event_data) = event_data.create fd M := rfl
    rw [h0] at h
    rw [h, decoded_energies_eq_range, List.map_map]
    rfl
  refine ⟨key, ?_⟩
  intro map fd s
  obtain ⟨s1, r1, h⟩ := key map [] [] fd 100 s [90, 95, 20, 30]
  exact ⟨s1, r1, h⟩

/-- C1, as stated, fails: with `M = 2 ^ 64 - 2` and the readings 5, 3 the second
reading is a wrap, the claim prescribes `3 + M * 1 = 2 ^ 64 + 1` for the slot,
and the 64-bit sum stored by `read` is 1. -/
theorem rapl_read_exact_sum_counterexample :
    (reader_rapl.read_stream 0 [5, 3] (fun _ => 0)
        ⟨fun _ _ => -1, [event_data.create 3 (2 ^ 64 - 2)]⟩).map (fun x => x.1) = some [5, 1] ∧
      3 + (2 ^ 64 - 2) * wrap_count 0 [5, 3] = 2 ^ 64 + 1 := by
  decide

/-- C2 (amended): for readings that all lie in `[0, M]`, as long as none of the
prescribed energies `r_k + M * w_k` reaches `2 ^ 64`, the energies found in the
slot after successive `read` calls are the prescribed ones and form a
non-decreasing sequence. -/
theorem rapl_read_non_decreasing (map : Nat → Nat → Int) (pre post : List event_data)
    (fd M : Nat) (s : sample) (rs : List Nat)
    (hrange : ∀ x ∈ rs, x ≤ M)
    (hfit : ∀ v ∈ decoded_energies M 0 0 rs, v < UINT64_RANGE) :
    ∃ vs s1 r1,
      reader_rapl.read_stream pre.length rs s ⟨map, pre ++ event_data.create fd M :: post⟩ =
        some (vs, s1, r1) ∧
      vs = decoded_energies M 0 0 rs ∧ List.Sorted (· ≤ ·) vs := by
  obtain ⟨s1, r1, h⟩ := read_stream_mid map pre post fd M rs 0 0 s
  have h0 : (⟨fd, M, 0, 0 % UINT64_RANGE⟩ : event_data) = event_data.create fd M := rfl
  rw [h0] at h
  have hmap : (decoded_energies M 0 0 rs).map (· % UINT64_RANGE) = decoded_energies M 0 0 rs := by
    conv_rhs => rw [← List.map_id (decoded_energies M 0 0 rs)]
    apply List.map_congr_left
    intro v hv
    exact Nat.mod_eq_of_lt (hfit v hv)
  rw [hmap] at h
  refine ⟨_, s1, r1, h, rfl, ?_⟩
  have hc := decoded_energies_chain M rs 0 0 (Nat.zero_le _) hrange
  have hc2 : List.Chain' (· ≤ ·) (decoded_energies M 0 0 rs) := by
    cases hd : decoded_energies M 0 0 rs with
    | nil => exact List.chain'_nil
    | cons a l => rw [hd] at hc; exact (List.chain_cons.mp hc).2
  exact List.chain'_iff_pairwise.mp hc2

/-- The preceding property for the second of two events, with maximum range
100 and the readings 90, 95, 20, 30. -/
theorem rapl_read_non_decreasing_witness :
    ∃ vs s1 r1,
      reader_rapl.read_stream 1 [90, 95, 20, 30] (fun _ => 0)
          ⟨fun _ _ => -1, [event_data.create 7 5] ++ event_data.create 3 100 :: []⟩ =
        some (vs, s1, r1) ∧
      vs = decoded_energies 100 0 0 [90, 95, 20, 30] ∧ List.Sorted (· ≤ ·) vs :=
  rapl_read_non_decreasing (fun _ _ => -1) [event_data.create 7 5] [] 3 100 (fun _ => 0)
    [90, 95, 20, 30] (by decide) (by decide)

/-- C2, as stated, fails: with `M = 2 ^ 63` the readings 1, 0, 1, 0 all lie in
`[0, M]` and wrap twice; the accumulated maximum overflows 64 bits at the second
wrap and the decoded energies end with a decrease. -/
theorem rapl_read_monotonic_counterexample :
    (reader_rapl.read_stream 0 [1, 0, 1, 0] (fun _ => 0)
        ⟨fun _ _ => -1, [event_data.create 3 (2 ^ 63)]⟩).map (fun x => x.1) =
      some [1, 2 ^ 63, 2 ^ 63 + 1, 0] ∧
    (∀ x ∈ [1, 0, 1, 0], x ≤ 2 ^ 63) ∧
    ¬ List.Sorted (· ≤ ·) [1, 2 ^ 63, 2 ^ 63 + 1, 0] := by
  decide

/-! ## Socket discovery -/

theorem found_set_card_le (pkg_found : Nat → Bool) : (found_set pkg_found).card ≤ max_sockets := by
  unfold found_set
  calc ((Finset.range max_sockets).filter (fun i => pkg_found i = true)).card
      ≤ (Finset.range max_sockets).card := Finset.card_filter_le _ _
    _ = max_sockets := Finset.card_range _

theorem found_set_update (pkg_found : Nat → Bool) (pkg : Nat) (hlt : pkg < max_sockets)
    (hnew : pkg_found pkg = false) :
    (found_set (fun i => if i = pkg then true else pkg_found i)).card =
      (found_set pkg_found).card + 1 := by
  have hins : found_set (fun i => if i = pkg then true else pkg_found i) =
      insert pkg (found_set pkg_found) := by
    ext i
    simp only [found_set, Finset.mem_filter, Finset.mem_range, Finset.mem_insert]
    by_cases hi : i = pkg
    · subst hi; simp [hlt]
    · simp [hi]
  rw [hins, Finset.card_insert_of_not_mem]
  simp [found_set, hnew]

/-- The counter of `count_sockets` never leaves the range of `uint8_t`: it is
the number of marked package ids, which is at most `max_sockets`. -/
theorem count_sockets_loop_le (cpus : List cpu_topology_file) :
    ∀ (pkg_found : Nat → Bool) (ret n : Nat),
      ret = (found_set pkg_found).card →
      count_sockets_loop cpus pkg_found ret = .ok n → n ≤ max_sockets := by
  induction cpus with
  | nil =>
    intro pkg_found ret n hret h
    simp only [count_sockets_loop] at h
    split at h
    · cases h
    · cases h
      rw [hret]; exact found_set_card_le _
  | cons f rest ih =>
    intro pkg_found ret n hret h
    cases f with
    | open_failed => simp [count_sockets_loop] at h
    | read_failed => simp [count_sockets_loop] at h
    | package_id pkg =>
      simp only [count_sockets_loop] at h
      split at h
      · cases h
      · rename_i hge
        have hlt : pkg < max_sockets := by omega
        split at h
        · rename_i hnf
          have hnew : pkg_found pkg = false := by simpa using hnf
          have hc := found_set_update pkg_found pkg hlt hnew
          have hle := found_set_card_le (fun i => if i = pkg then true else pkg_found i)
          refine ih _ _ n ?_ h
          rw [hc, ← hret] at *
          simp only [to_uint8, max_sockets] at *
          omega
        · exact ih _ _ n hret h

theorem count_sockets_le (cpus : List cpu_topology_file) (n : Nat)
    (h : count_sockets cpus = .ok n) : n ≤ max_sockets :=
  count_sockets_loop_le cpus _ 0 n (by simp [found_set]) h

/-! ## The event map -/

theorem to_int32_of_lt (n : Nat) (h : n < 2 ^ 31) : to_int32 n = (n : Int) := by
  unfold to_int32
  have h1 : (n + 2 ^ 31) % 2 ^ 32 = n + 2 ^ 31 := Nat.mod_eq_of_lt (by omega)
  rw [h1]
  push_cast
  ring

/-- What a call of `add_event` does: either it leaves the reader as it is, or
it appends one event and enters its index at `(skt, didx)`. -/
theorem add_event_cases (r : reader_rapl) (base : powercap_zone) (dmask skt : Nat) :
    (r.add_event base dmask skt).2 = r ∨
    ∃ (didx : Int) (ev : event_data),
      get_domain_idx base = .ok didx ∧ dmask.testBit didx.toNat = true ∧
      get_event_data base = .ok ev ∧
      r.add_event base dmask skt = (error.success,
        { _event_map := fun s d =>
            if s = skt ∧ d = didx.toNat then to_int32 r._active_events.length
            else r._event_map s d,
          _active_events := r._active_events ++ [ev] }) := by
  unfold reader_rapl.add_event
  cases hd : get_domain_idx base with
  | error e => left; rfl
  | ok didx =>
    by_cases hm : dmask.testBit didx.toNat = true
    · cases he : get_event_data base with
      | error e => left; simp [hm]
      | ok ev => right; exact ⟨didx, ev, rfl, hm, rfl, by simp [hm]⟩
    · left; simp [hm]

/-- A call of `add_event` keeps the entries of the event map in range and the
map injective, and adds at most one event. -/
theorem add_event_preserves (r : reader_rapl) (base : powercap_zone) (dmask skt : Nat)
    (hsize : r.num_events < 2 ^ 31) (hr : r.map_in_range) (hi : r.map_injective) :
    (r.add_event base dmask skt).2.map_in_range ∧ (r.add_event base dmask skt).2.map_injective ∧
      (r.add_event base dmask skt).2.num_events ≤ r.num_events + 1 := by
  rcases add_event_cases r base dmask skt with h | ⟨didx, ev, _, _, _, h⟩
  · rw [h]; exact ⟨hr, hi, Nat.le_succ _⟩
  · rw [h]
    have hn : to_int32 r._active_events.length = (r._active_events.length : Int) :=
      to_int32_of_lt _ hsize
    refine ⟨?_, ?_, ?_⟩
    · intro s d
      simp only [reader_rapl.num_events, List.length_append, List.length_singleton]
      by_cases hc : s = skt ∧ d = didx.toNat
      · right; simp only [hc, and_self, if_true, hn]; constructor <;> omega
      · simp only [hc, if_false]
        rcases hr s d with h1 | ⟨h1, h2⟩
        · left; exact h1
        · right; simp only [reader_rapl.num_events] at h2; constructor <;> omega
    · intro s1 d1 s2 d2 hpos heq
      simp only at hpos heq
      by_cases hc1 : s1 = skt ∧ d1 = didx.toNat <;> by_cases hc2 : s2 = skt ∧ d2 = didx.toNat
      · exact ⟨hc1.1.trans hc2.1.symm, hc1.2.trans hc2.2.symm⟩
      · simp only [hc1, hc2, and_self, if_true, if_false, hn] at heq
        rcases hr s2 d2 with h1 | ⟨_, h2⟩
        · omega
        · simp only [reader_rapl.num_events] at h2; omega
      · simp only [hc1, hc2, and_self, if_true, if_false, hn] at heq
        rcases hr s1 d1 with h1 | ⟨_, h2⟩
        · omega
        · simp only [reader_rapl.num_events] at h2; omega
      · simp only [hc1, hc2, if_false] at heq hpos
        exact hi s1 d1 s2 d2 hpos heq
    · simp [reader_rapl.num_events]

theorem add_subdomains_preserves (sys : sysfs) (dmask skt : Nat) (ds : List Nat) :
    ∀ r : reader_rapl, r.num_events + ds.length < 2 ^ 31 → r.map_in_range → r.map_injective →
      (reader_rapl.add_subdomains sys dmask skt ds r).2.map_in_range ∧
      (reader_rapl.add_subdomains sys dmask skt ds r).2.map_injective ∧
      (reader_rapl.add_subdomains sys dmask skt ds r).2.num_events ≤ r.num_events + ds.length := by
  induction ds with
  | nil => intro r _ hr hi; exact ⟨hr, hi, le_refl _⟩
  | cons d rest ih =>
    intro r hsize hr hi
    simp only [List.length_cons] at hsize ⊢
    unfold reader_rapl.add_subdomains
    cases hz : sys.sub_zone skt d with
    | none =>
      dsimp only
      obtain ⟨h1, h2, h3⟩ := ih r (by omega) hr hi
      exact ⟨h1, h2, by omega⟩
    | some base =>
      obtain ⟨h1, h2, h3⟩ := add_event_preserves r base dmask skt (by omega) hr hi
      dsimp only
      split
      · exact ⟨h1, h2, by omega⟩
      · obtain ⟨k1, k2, k3⟩ := ih _ (by omega) h1 h2
        exact ⟨k1, k2, by omega⟩

theorem add_sockets_preserves (sys : sysfs) (dmask skt_mask : Nat) (skts : List Nat) :
    ∀ r : reader_rapl, r.num_events + rapl_domains * skts.length < 2 ^ 31 →
      r.map_in_range → r.map_injective →
      (reader_rapl.add_sockets sys dmask skt_mask skts r).2.map_in_range ∧
      (reader_rapl.add_sockets sys dmask skt_mask skts r).2.map_injective ∧
      (reader_rapl.add_sockets sys dmask skt_mask skts r).2.num_events ≤
        r.num_events + rapl_domains * skts.length := by
  induction skts with
  | nil => intro r _ hr hi; exact ⟨hr, hi, le_refl _⟩
  | cons skt rest ih =>
    intro r hsize hr hi
    simp only [List.length_cons, rapl_domains] at hsize ih ⊢
    unfold reader_rapl.add_sockets
    split
    · obtain ⟨h1, h2, h3⟩ := ih r (by omega) hr hi
      exact ⟨h1, h2, by omega⟩
    · obtain ⟨h1, h2, h3⟩ :=
        add_event_preserves r (sys.package_zone skt) dmask skt (by omega) hr hi
      simp only
      split
      · exact ⟨h1, h2, by omega⟩
      · have hlen : (List.range (rapl_domains - 1)).length = 3 := by simp [rapl_domains]
        obtain ⟨k1, k2, k3⟩ := add_subdomains_preserves sys dmask skt
          (List.range (rapl_domains - 1)) _ (by omega) h1 h2
        split
        · exact ⟨k1, k2, by omega⟩
        · obtain ⟨m1, m2, m3⟩ := ih _ (by omega) k1 k2
          exact ⟨m1, m2, by omega⟩

/-- After construction the entries of the event map are in range, the map is
injective and there are at most `rapl_domains * max_sockets` events. -/
theorem construct_preserves (sys : sysfs) (dmask skt_mask : Nat) :
    (reader_rapl.construct sys dmask skt_mask).2.map_in_range ∧
    (reader_rapl.construct sys dmask skt_mask).2.map_injective ∧
    (reader_rapl.construct sys dmask skt_mask).2.num_events ≤ rapl_domains * max_sockets := by
  have h0r : reader_rapl.map_in_range ⟨fun _ _ => -1, []⟩ := fun _ _ => Or.inl rfl
  have h0i : reader_rapl.map_injective ⟨fun _ _ => -1, []⟩ := by
    intro s1 d1 s2 d2 hpos _
    simp at hpos
  unfold reader_rapl.construct
  cases hc : count_sockets sys.cpus with
  | error e => exact ⟨h0r, h0i, Nat.zero_le _⟩
  | ok n =>
    have hn : n ≤ max_sockets := count_sockets_le _ _ hc
    simp only [max_sockets, rapl_domains] at hn ⊢
    obtain ⟨h1, h2, h3⟩ := add_sockets_preserves sys dmask skt_mask (List.range n)
      ⟨fun _ _ => -1, []⟩ (by simp [reader_rapl.num_events, rapl_domains]; omega) h0r h0i
    refine ⟨h1, h2, ?_⟩
    simp only [reader_rapl.num_events, List.length_range, rapl_domains, List.length_nil] at h3 ⊢
    omega

/-- C3: after construction, whatever sysfs holds (the topology files that
give the socket count, the zones and their names) and whatever the domain mask
and the socket mask are, every entry of the event map is `-1` or lies in
`[0, num_events())`, and two distinct (socket, domain) pairs never share a
non-negative entry; every call of `add_event` on a reader whose number of
events fits `int32_t` (the constructor never registers more than 32) preserves
both. -/
theorem event_map_in_range_and_injective :
    (∀ (sys : sysfs) (dmask skt_mask : Nat),
      (reader_rapl.construct sys dmask skt_mask).2.map_in_range ∧
      (reader_rapl.construct sys dmask skt_mask).2.map_injective ∧
      (reader_rapl.construct sys dmask skt_mask).2.num_events ≤ rapl_domains * max_sockets) ∧
    (∀ (r : reader_rapl) (base : powercap_zone) (dmask skt : Nat),
      r.num_events < 2 ^ 31 → r.map_in_range → r.map_injective →
      (r.add_event base dmask skt).2.map_in_range ∧
      (r.add_event base dmask skt).2.map_injective) := by
  refine ⟨construct_preserves, ?_⟩
  intro r base dmask skt hsize hr hi
  obtain ⟨h1, h2, _⟩ := add_event_preserves r base dmask skt hsize hr hi
  exact ⟨h1, h2⟩

/-- The preservation by `add_event` on the empty reader and a package zone. -/
theorem event_map_in_range_and_injective_witness :
    (reader_rapl.num_events ⟨fun _ _ => -1, []⟩ < 2 ^ 31 ∧
      reader_rapl.map_in_range ⟨fun _ _ => -1, []⟩ ∧
      reader_rapl.map_injective ⟨fun _ _ => -1, []⟩) ∧
    (reader_rapl.add_event ⟨fun _ _ => -1, []⟩ (example_zone "package-0" 3) 15 0).2.map_in_range ∧
    (reader_rapl.add_event ⟨fun _ _ => -1, []⟩
        (example_zone "package-0" 3) 15 0).2.map_injective :=
  have h1 : reader_rapl.num_events ⟨fun _ _ => -1, []⟩ < 2 ^ 31 := by decide
  have h2 : reader_rapl.map_in_range ⟨fun _ _ => -1, []⟩ := fun _ _ => Or.inl rfl
  have h3 : reader_rapl.map_injective ⟨fun _ _ => -1, []⟩ :=
    fun _ _ _ _ hpos _ => absurd (show (0 : Int) ≤ -1 from hpos) (by decide)
  ⟨⟨h1, h2, h3⟩,
    event_map_in_range_and_injective.2 ⟨fun _ _ => -1, []⟩
      (example_zone "package-0" 3) 15 0 h1 h2 h3⟩

/-! ## Contiguity of the slot indices -/

/-- What `get_domain_idx` returns, in terms of the value that `read_buff`
returns and of the string that the array `name` holds after the call. -/
theorem get_domain_idx_eq (base : powercap_zone) :
    get_domain_idx base =
      if (read_buff base.name base.name_buffer 64).1 < 0 then .error ⟨error_code.SYSTEM⟩
      else if domain_index_from_name (c_str (read_buff base.name base.name_buffer 64).2) < 0 then
        .error ⟨error_code.INVALID_DOMAIN_NAME⟩
      else .ok (domain_index_from_name (c_str (read_buff base.name base.name_buffer 64).2)) :=
  rfl

/-- A domain index that `get_domain_idx` finds is the index of the string that
the array `name` holds after the read. -/
theorem get_domain_idx_ok (base : powercap_zone) (didx : Int)
    (h : get_domain_idx base = .ok didx) :
    ∃ name : List Char, didx = domain_index_from_name name ∧ 0 ≤ didx := by
  rw [get_domain_idx_eq] at h
  split at h
  · cases h
  · split at h
    · cases h
    · exact ⟨_, (Except.ok.inj h).symm, by have := Except.ok.inj h; omega⟩

theorem get_domain_idx_nonneg (base : powercap_zone) (didx : Int)
    (h : get_domain_idx base = .ok didx) : 0 ≤ didx :=
  (get_domain_idx_ok base didx h).choose_spec.2

theorem zone_domain_eq_some (base : powercap_zone) (didx : Int) :
    zone_domain base = some didx ↔ get_domain_idx base = .ok didx := by
  unfold zone_domain
  cases get_domain_idx base <;> simp

/-- The cells of the event map that a call of `add_event` can change. -/
theorem add_event_frame (r : reader_rapl) (base : powercap_zone) (dmask skt : Nat) (s d : Nat) :
    (r.add_event base dmask skt).2._event_map s d = r._event_map s d ∨
      (s = skt ∧ zone_domain base = some (d : Int) ∧ dmask.testBit d = true) := by
  rcases add_event_cases r base dmask skt with h | ⟨didx, ev, hd, hm, _, h⟩
  · rw [h]; left; rfl
  · rw [h]
    by_cases hc : s = skt ∧ d = didx.toNat
    · right
      have hpos := get_domain_idx_nonneg base didx hd
      have hcast : ((d : Nat) : Int) = didx := by rw [hc.2]; exact Int.toNat_of_nonneg hpos
      refine ⟨hc.1, ?_, ?_⟩
      · rw [zone_domain_eq_some, hcast]; exact hd
      · rw [hc.2]; exact hm
    · left; simp only [hc, if_false]

/-- A call of `add_event` that finds the cell of its domain free keeps every
slot index below `num_events()` in the event map. -/
theorem add_event_covers (r : reader_rapl) (base : powercap_zone) (dmask skt : Nat)
    (hsize : r.num_events < 2 ^ 31) (hc : r.map_covers)
    (hfree : ∀ didx : Int, zone_domain base = some didx → r._event_map skt didx.toNat = -1) :
    (r.add_event base dmask skt).2.map_covers := by
  rcases add_event_cases r base dmask skt with h | ⟨didx, ev, hd, hm, _, h⟩
  · rw [h]; exact hc
  · rw [h]
    have hn : to_int32 r._active_events.length = (r._active_events.length : Int) :=
      to_int32_of_lt _ hsize
    have hcell := hfree didx ((zone_domain_eq_some base didx).mpr hd)
    intro i hi
    simp only [reader_rapl.num_events, List.length_append, List.length_singleton] at hi
    by_cases hlast : i = r._active_events.length
    · refine ⟨skt, didx.toNat, ?_⟩
      simp [hn, hlast]
    · obtain ⟨s, d, hsd⟩ := hc i (by simp only [reader_rapl.num_events]; omega)
      refine ⟨s, d, ?_⟩
      have hne : ¬ (s = skt ∧ d = didx.toNat) := by
        rintro ⟨h1, h2⟩
        rw [h1, h2, hcell] at hsd
        omega
      simp only [hne, if_false]
      exact hsd

theorem add_event_justified (r : reader_rapl) (sys : sysfs) (base : powercap_zone)
    (dmask skt : Nat) (hz : base ∈ sys.zones skt) (hj : r.map_justified sys dmask) :
    (r.add_event base dmask skt).2.map_justified sys dmask := by
  intro s d hne
  rcases add_event_frame r base dmask skt s d with h | ⟨h1, h2, h3⟩
  · rw [h] at hne; exact hj s d hne
  · refine ⟨h3, ?_⟩
    rw [h1]
    exact List.mem_filterMap.mpr ⟨base, hz, h2⟩

theorem zone_domain_nonneg (base : powercap_zone) (didx : Int)
    (h : zone_domain base = some didx) : 0 ≤ didx :=
  get_domain_idx_nonneg base didx ((zone_domain_eq_some base didx).mp h)

theorem sub_domains_nonneg (sys : sysfs) (skt : Nat) (ds : List Nat) (d : Int)
    (h : d ∈ sys.sub_domains skt ds) : 0 ≤ d := by
  obtain ⟨z, _, hz⟩ := List.mem_filterMap.mp h
  exact zone_domain_nonneg z d hz

/-- One call of `add_event` on a zone of socket `skt` whose domain cell is free. -/
theorem add_event_dense (r : reader_rapl) (sys : sysfs) (base : powercap_zone)
    (dmask skt : Nat) (hsize : r.num_events < 2 ^ 31) (hz : base ∈ sys.zones skt)
    (hfree : ∀ didx : Int, zone_domain base = some didx → r._event_map skt didx.toNat = -1)
    (hd : r.dense sys dmask) :
    (r.add_event base dmask skt).2.dense sys dmask ∧
      (r.add_event base dmask skt).2.num_events ≤ r.num_events + 1 := by
  obtain ⟨h1, h2, h3, h4⟩ := hd
  obtain ⟨k1, k2, k3⟩ := add_event_preserves r base dmask skt hsize h1 h2
  exact ⟨⟨k1, k2, add_event_covers r base dmask skt hsize h3 hfree,
    add_event_justified r sys base dmask skt hz h4⟩, k3⟩

/-- A free cell of socket `skt` stays free across `add_event` when its domain
is not the domain of the zone. -/
theorem add_event_keeps_free (r : reader_rapl) (base : powercap_zone) (dmask skt : Nat)
    (d : Int) (hpos : 0 ≤ d) (hne : zone_domain base ≠ some d)
    (hfree : r._event_map skt d.toNat = -1) :
    (r.add_event base dmask skt).2._event_map skt d.toNat = -1 := by
  rcases add_event_frame r base dmask skt skt d.toNat with h | ⟨_, h2, _⟩
  · rw [h]; exact hfree
  · rw [Int.toNat_of_nonneg hpos] at h2
    exact absurd h2 hne

theorem add_event_other_socket (r : reader_rapl) (base : powercap_zone) (dmask skt s d : Nat)
    (hs : s ≠ skt) :
    (r.add_event base dmask skt).2._event_map s d = r._event_map s d := by
  rcases add_event_frame r base dmask skt s d with h | ⟨h1, _, _⟩
  · exact h
  · exact absurd h1 hs

theorem add_subdomains_dense (sys : sysfs) (dmask skt : Nat) (ds : List Nat) :
    ∀ r : reader_rapl, (∀ d ∈ ds, d < rapl_domains - 1) →
      r.num_events + ds.length < 2 ^ 31 →
      (sys.sub_domains skt ds).Nodup →
      (∀ d ∈ sys.sub_domains skt ds, r._event_map skt d.toNat = -1) →
      r.dense sys dmask →
      (reader_rapl.add_subdomains sys dmask skt ds r).2.dense sys dmask ∧
      (reader_rapl.add_subdomains sys dmask skt ds r).2.num_events ≤ r.num_events + ds.length ∧
      (∀ s d : Nat, s ≠ skt →
        (reader_rapl.add_subdomains sys dmask skt ds r).2._event_map s d = r._event_map s d) := by
  induction ds with
  | nil => intro r _ _ _ _ hd; exact ⟨hd, le_refl _, fun _ _ _ => rfl⟩
  | cons d0 rest ih =>
    intro r hds hsize hnd hfree hd
    simp only [List.length_cons] at hsize ⊢
    have hrest : ∀ d ∈ rest, d < rapl_domains - 1 := fun d hd => hds d (List.mem_cons_of_mem _ hd)
    unfold reader_rapl.add_subdomains
    cases hz : sys.sub_zone skt d0 with
    | none =>
      dsimp only
      have hsub : sys.sub_domains skt (d0 :: rest) = sys.sub_domains skt rest := by
        simp [sysfs.sub_domains, List.filterMap_cons, hz]
      rw [hsub] at hnd hfree
      obtain ⟨h1, h2, h3⟩ := ih r hrest (by omega) hnd hfree hd
      exact ⟨h1, by omega, h3⟩
    | some base =>
      dsimp only
      have hmem : base ∈ sys.zones skt := by
        unfold sysfs.zones
        refine List.mem_cons_of_mem _ (List.mem_filterMap.mpr ⟨d0, ?_, hz⟩)
        exact List.mem_range.mpr (hds d0 (List.mem_cons_self _ _))
      have hsub : sys.sub_domains skt (d0 :: rest) =
          (match zone_domain base with
            | some x => x :: sys.sub_domains skt rest
            | none => sys.sub_domains skt rest) := by
        simp only [sysfs.sub_domains, List.filterMap_cons, hz]
        cases zone_domain base <;> rfl
      have hfree0 : ∀ didx : Int, zone_domain base = some didx →
          r._event_map skt didx.toNat = -1 := by
        intro didx hdz
        apply hfree
        rw [hsub, hdz]
        exact List.mem_cons_self _ _
      obtain ⟨k1, k2⟩ := add_event_dense r sys base dmask skt (by omega) hmem hfree0 hd
      have hnd1 : (sys.sub_domains skt rest).Nodup := by
        rw [hsub] at hnd
        cases hzd : zone_domain base with
        | none => rw [hzd] at hnd; exact hnd
        | some x => rw [hzd] at hnd; exact (List.nodup_cons.mp hnd).2
      have hfree1 : ∀ d ∈ sys.sub_domains skt rest,
          (r.add_event base dmask skt).2._event_map skt d.toNat = -1 := by
        intro d hdm
        apply add_event_keeps_free r base dmask skt d (sub_domains_nonneg sys skt rest d hdm)
        · intro hzd
          rw [hsub, hzd] at hnd
          exact (List.nodup_cons.mp hnd).1 hdm
        · apply hfree
          rw [hsub]
          cases zone_domain base with
          | none => exact hdm
          | some x => exact List.mem_cons_of_mem _ hdm
      split
      · exact ⟨k1, by omega, fun s d hs => add_event_other_socket r base dmask skt s d hs⟩
      · obtain ⟨m1, m2, m3⟩ := ih _ hrest (by omega) hnd1 hfree1 k1
        refine ⟨m1, by omega, ?_⟩
        intro s d hs
        rw [m3 s d hs, add_event_other_socket r base dmask skt s d hs]

theorem domains_eq (sys : sysfs) (skt : Nat) :
    sys.domains skt =
      (match zone_domain (sys.package_zone skt) with
        | some x => x :: sys.sub_domains skt (List.range (rapl_domains - 1))
        | none => sys.sub_domains skt (List.range (rapl_domains - 1))) := by
  simp only [sysfs.domains, sysfs.zones, sysfs.sub_domains, List.filterMap_cons]
  cases zone_domain (sys.package_zone skt) <;> rfl

theorem add_sockets_dense (sys : sysfs) (dmask skt_mask : Nat)
    (hdistinct : ∀ skt, (sys.domains skt).Nodup) (skts : List Nat) :
    ∀ r : reader_rapl, skts.Nodup →
      r.num_events + rapl_domains * skts.length < 2 ^ 31 →
      (∀ s ∈ skts, ∀ d : Nat, r._event_map s d = -1) →
      r.dense sys dmask →
      (reader_rapl.add_sockets sys dmask skt_mask skts r).2.dense sys dmask := by
  induction skts with
  | nil => intro r _ _ _ hd; exact hd
  | cons skt rest ih =>
    intro r hnd hsize hfree hd
    simp only [List.length_cons, rapl_domains] at hsize ih
    obtain ⟨hnotin, hndrest⟩ := List.nodup_cons.mp hnd
    have hfreerest : ∀ s ∈ rest, ∀ d : Nat, r._event_map s d = -1 :=
      fun s hs d => hfree s (List.mem_cons_of_mem _ hs) d
    have hne : ∀ s ∈ rest, s ≠ skt := fun s hs h => hnotin (h ▸ hs)
    unfold reader_rapl.add_sockets
    split
    · exact ih r hndrest (by omega) hfreerest hd
    · have hmem : sys.package_zone skt ∈ sys.zones skt := List.mem_cons_self _ _
      obtain ⟨k1, k2⟩ := add_event_dense r sys (sys.package_zone skt) dmask skt (by omega) hmem
        (fun didx _ => hfree skt (List.mem_cons_self _ _) didx.toNat) hd
      dsimp only
      split
      · exact k1
      · have hdom := hdistinct skt
        rw [domains_eq] at hdom
        have hnd1 : (sys.sub_domains skt (List.range (rapl_domains - 1))).Nodup := by
          cases hzd : zone_domain (sys.package_zone skt) with
          | none => rw [hzd] at hdom; exact hdom
          | some x => rw [hzd] at hdom; exact (List.nodup_cons.mp hdom).2
        have hfree1 : ∀ d ∈ sys.sub_domains skt (List.range (rapl_domains - 1)),
            (r.add_event (sys.package_zone skt) dmask skt).2._event_map skt d.toNat = -1 := by
          intro d hdm
          apply add_event_keeps_free r _ dmask skt d (sub_domains_nonneg sys skt _ d hdm)
          · intro hzd
            rw [hzd] at hdom
            exact (List.nodup_cons.mp hdom).1 hdm
          · exact hfree skt (List.mem_cons_self _ _) d.toNat
        have hlen : (List.range (rapl_domains - 1)).length = 3 := by simp [rapl_domains]
        obtain ⟨m1, m2, m3⟩ := add_subdomains_dense sys dmask skt (List.range (rapl_domains - 1))
          _ (fun d hd => List.mem_range.mp hd) (by omega) hnd1 hfree1 k1
        split
        · exact m1
        · refine ih _ hndrest (by omega) ?_ m1
          intro s hs d
          rw [m3 s d (hne s hs), add_event_other_socket r _ dmask skt s d (hne s hs)]
          exact hfreerest s hs d

/-- After construction on a system none of whose sockets has two zones with
the same domain, the event map and the vector of events agree. -/
theorem construct_dense (sys : sysfs) (dmask skt_mask : Nat)
    (hdistinct : ∀ skt, (sys.domains skt).Nodup) :
    (reader_rapl.construct sys dmask skt_mask).2.dense sys dmask := by
  have h0 : reader_rapl.dense ⟨fun _ _ => -1, []⟩ sys dmask := by
    refine ⟨fun _ _ => Or.inl rfl, ?_, ?_, ?_⟩
    · intro s1 d1 s2 d2 hpos _
      simp at hpos
    · intro i hi
      simp [reader_rapl.num_events] at hi
    · intro s d hne
      exact absurd rfl hne
  unfold reader_rapl.construct
  cases hc : count_sockets sys.cpus with
  | error e => exact h0
  | ok n =>
    have hn : n ≤ max_sockets := count_sockets_le _ _ hc
    simp only [max_sockets] at hn
    exact add_sockets_dense sys dmask skt_mask hdistinct (List.range n) _ (List.nodup_range n)
      (by simp [reader_rapl.num_events, rapl_domains]; omega) (fun _ _ _ => rfl) h0

/-- C4 (amended): after construction on a system where no zone has an empty
`name` file and none of whose sockets has two zones carrying the same domain,
the non-negative entries of the event map are exactly the slot indices
`0, ..., num_events() - 1`: every entry is `-1` or below `num_events()`, every
slot index below `num_events()` is the entry of exactly one (socket, domain)
pair, and a pair whose domain is masked out or is not the domain of a zone of
its socket keeps the entry `-1`. -/
theorem event_map_contiguous (sys : sysfs) (dmask skt_mask : Nat)
    (_hnames : ∀ skt, ∀ base ∈ sys.zones skt, base.name ≠ some [])
    (hdistinct : ∀ skt, (sys.domains skt).Nodup) :
    (∀ skt d : Nat,
      (reader_rapl.construct sys dmask skt_mask).2._event_map skt d = -1 ∨
      (0 ≤ (reader_rapl.construct sys dmask skt_mask).2._event_map skt d ∧
        (reader_rapl.construct sys dmask skt_mask).2._event_map skt d <
          ((reader_rapl.construct sys dmask skt_mask).2.num_events : Int))) ∧
    (∀ i : Nat, i < (reader_rapl.construct sys dmask skt_mask).2.num_events →
      ∃! p : Nat × Nat,
        (reader_rapl.construct sys dmask skt_mask).2._event_map p.1 p.2 = (i : Int)) ∧
    (∀ skt d : Nat, dmask.testBit d = false ∨ (d : Int) ∉ sys.domains skt →
      (reader_rapl.construct sys dmask skt_mask).2._event_map skt d = -1) := by
  obtain ⟨h1, h2, h3, h4⟩ := construct_dense sys dmask skt_mask hdistinct
  refine ⟨h1, ?_, ?_⟩
  · intro i hi
    obtain ⟨s, d, hsd⟩ := h3 i hi
    refine ⟨(s, d), hsd, ?_⟩
    rintro ⟨s2, d2⟩ h
    simp only at h
    have := h2 s2 d2 s d (by rw [h]; omega) (h.trans hsd.symm)
    simp [this.1, this.2]
  · intro s d hcase
    by_contra hne
    obtain ⟨k1, k2⟩ := h4 s d hne
    rcases hcase with h | h
    · rw [k1] at h; cases h
    · exact h k2

/-- The preceding property on a machine with one socket and four distinct
domains. -/
theorem event_map_contiguous_witness :
    (∀ skt, ∀ base ∈ one_socket_sysfs.zones skt, base.name ≠ some []) ∧
    (∀ skt, (one_socket_sysfs.domains skt).Nodup) ∧
    (∀ i : Nat, i < (reader_rapl.construct one_socket_sysfs 15 255).2.num_events →
      ∃! p : Nat × Nat,
        (reader_rapl.construct one_socket_sysfs 15 255).2._event_map p.1 p.2 = (i : Int)) :=
  have hn : ∀ skt, ∀ base ∈ one_socket_sysfs.zones skt, base.name ≠ some [] := fun _ => by
    show ∀ base ∈ [example_zone "package-0" 3, example_zone "core" 4, example_zone "uncore" 5,
      example_zone "dram" 6], base.name ≠ some []
    decide
  have h : ∀ skt, (one_socket_sysfs.domains skt).Nodup := fun _ => by
    show ([0, 1, 2, 3] : List Int).Nodup
    decide
  ⟨hn, h, (event_map_contiguous one_socket_sysfs 15 255 hn h).2.1⟩

/-- C4, as stated, fails: on a socket whose zones are named package-0, core
and core, the constructor registers three events and the second core zone
takes over the entry of the first, so that slot 1 is the entry of no
(socket, domain) pair. It fails as well on a socket whose zones are named
package-0 and dram and whose third zone has an empty `name` file: `read_buff`
returns 0, which `get_domain_idx` does not take for a failure, the array `name`
still holds `dram`, and the third zone takes over the entry of the second. -/
theorem event_map_contiguous_counterexample :
    ((reader_rapl.construct repeated_domain_sysfs 15 255).1 = error.success ∧
      (reader_rapl.construct repeated_domain_sysfs 15 255).2.num_events = 3 ∧
      (∀ skt < max_sockets, ∀ d < rapl_domains,
        (reader_rapl.construct repeated_domain_sysfs 15 255).2._event_map skt d ≠ 1)) ∧
    (read_buff (stale_name_zone 5).name (stale_name_zone 5).name_buffer 64).1 = 0 ∧
    get_domain_idx (stale_name_zone 5) = .ok dram_value ∧
    (reader_rapl.construct stale_name_sysfs 15 255).1 = error.success ∧
    (reader_rapl.construct stale_name_sysfs 15 255).2.num_events = 3 ∧
    (∀ skt < max_sockets, ∀ d < rapl_domains,
      (reader_rapl.construct stale_name_sysfs 15 255).2._event_map skt d ≠ 1) := by
  decide

/-! ## The energy accessor -/

/-- C6: with two sockets that each have a package zone, the package event of
socket 1 is registered in slot 1 and `read_all` stores its energy, 222, there;
`get_energy<package>(s, 1)` returns 111, the content of slot 0, because
`get_value` indexes the sample with the domain index. -/
theorem get_energy_reads_domain_slot :
    (reader_rapl.construct two_socket_sysfs 15 255).2.event_idx package_value 1 = 1 ∧
    (((reader_rapl.construct two_socket_sysfs 15 255).2.read_all two_socket_counters
        (fun _ => 0)).map (fun res => (res.1, res.2.1 0, res.2.1 1))) =
      some (error.success, 111, 222) ∧
    (((reader_rapl.construct two_socket_sysfs 15 255).2.read_all two_socket_counters
        (fun _ => 0)).map
        (fun res => (reader_rapl.construct two_socket_sysfs 15 255).2.get_energy package_value
          res.2.1 1)) = some (.ok 111) :=
  ⟨by decide, by decide, by rfl⟩

/-! ## The frame of `read_all` -/

theorem read_at (map : Nat → Nat → Int) (io : Nat → Option Nat) (pre post : List event_data)
    (ev : event_data) (s : sample) :
    reader_rapl.read ⟨map, pre ++ ev :: post⟩ io s pre.length =
      (match io ev.fd with
        | none => some (⟨error_code.SYSTEM⟩, s, ⟨map, pre ++ ev :: post⟩)
        | some curr => some (error.success, s.set_cpu pre.length (ev.decoded curr),
            ⟨map, pre ++ ev.after_read curr :: post⟩)) := by
  simp only [reader_rapl.read, getElem?_mid, set_mid]
  cases io ev.fd <;> rfl

theorem read_all_loop_eq (map : Nat → Nat → Int) (io : Nat → Option Nat)
    (post : List event_data) :
    ∀ (pre : List event_data) (s : sample), pre.length + post.length ≤ 256 →
      reader_rapl.read_all_loop io post.length pre.length s ⟨map, pre ++ post⟩ =
        some ((read_events io pre.length s post).1, (read_events io pre.length s post).2.1,
          ⟨map, pre ++ (read_events io pre.length s post).2.2⟩) := by
  induction post with
  | nil => intro pre s _; rfl
  | cons ev rest ih =>
    intro pre s hlen
    simp only [List.length_cons] at hlen
    have hix : to_uint8 pre.length = pre.length := Nat.mod_eq_of_lt (by omega)
    simp only [List.length_cons, reader_rapl.read_all_loop, hix, read_at, read_events]
    cases io ev.fd with
    | none => simp [error.to_bool]
    | some curr =>
      have h := ih (pre ++ [ev.after_read curr]) (s.set_cpu pre.length (ev.decoded curr))
        (by simp only [List.length_append, List.length_singleton]; omega)
      simp only [List.length_append, List.length_singleton, List.append_assoc,
        List.singleton_append] at h
      simp [error.to_bool, error.success, h]

theorem read_events_length (io : Nat → Option Nat) (l : List event_data) :
    ∀ (ix : Nat) (s : sample), (read_events io ix s l).2.2.length = l.length := by
  induction l with
  | nil => intro _ _; rfl
  | cons ev rest ih =>
    intro ix s
    simp only [read_events]
    cases io ev.fd with
    | none => rfl
    | some curr => simp [ih]

/-- The slots outside `[ix, ix + l.length)` are left as they are. -/
theorem read_events_frame (io : Nat → Option Nat) (l : List event_data) :
    ∀ (ix : Nat) (s : sample) (j : Nat), j < ix ∨ ix + l.length ≤ j →
      (read_events io ix s l).2.1 j = s j := by
  induction l with
  | nil => intro _ _ _ _; rfl
  | cons ev rest ih =>
    intro ix s j hj
    simp only [read_events]
    simp only [List.length_cons] at hj
    cases io ev.fd with
    | none => rfl
    | some curr =>
      simp only
      rw [ih (ix + 1) _ j (by omega)]
      have : j ≠ ix := by omega
      simp [sample.set_cpu, this]

/-- When every counter file can be read, no error is returned. -/
theorem read_events_success (io : Nat → Option Nat) (l : List event_data) :
    ∀ (ix : Nat) (s : sample), (∀ ev ∈ l, io ev.fd ≠ none) →
      (read_events io ix s l).1 = error.success := by
  induction l with
  | nil => intro _ _ _; rfl
  | cons ev rest ih =>
    intro ix s hall
    simp only [read_events]
    cases hio : io ev.fd with
    | none => exact absurd hio (hall ev (List.mem_cons_self _ _))
    | some curr => exact ih _ _ (fun e he => hall e (List.mem_cons_of_mem _ he))

/-- An event all of whose predecessors, and itself, can be read has its slot
and its wraparound state updated. -/
theorem read_events_updates (io : Nat → Option Nat) (l : List event_data) :
    ∀ (ix : Nat) (s : sample) (k : Nat) (ev : event_data) (curr : Nat),
      (∀ j < k, ∀ e, l[j]? = some e → io e.fd ≠ none) →
      l[k]? = some ev → io ev.fd = some curr →
      (read_events io ix s l).2.1 (ix + k) = ev.decoded curr ∧
        (read_events io ix s l).2.2[k]? = some (ev.after_read curr) := by
  induction l with
  | nil => intro _ _ k ev _ _ hk _; simp at hk
  | cons e0 rest ih =>
    intro ix s k ev curr hprev hk hio
    cases k with
    | zero =>
      simp only [List.getElem?_cons_zero, Option.some.injEq] at hk
      subst hk
      simp only [read_events, hio, List.getElem?_cons_zero, Nat.add_zero, and_true]
      rw [read_events_frame io rest (ix + 1) _ ix (by omega)]
      simp [sample.set_cpu]
    | succ k =>
      simp only [List.getElem?_cons_succ] at hk
      cases hio0 : io e0.fd with
      | none => exact absurd hio0 (hprev 0 (Nat.succ_pos _) e0 (List.getElem?_cons_zero ..))
      | some c0 =>
        simp only [read_events, hio0, List.getElem?_cons_succ]
        have h := ih (ix + 1) (s.set_cpu ix (e0.decoded c0)) k ev curr
          (fun j hj e he => hprev (j + 1) (by omega) e (by simpa using he)) hk hio
        have hidx : ix + (k + 1) = ix + 1 + k := by omega
        rw [hidx]
        exact h

/-- At the first event whose counter file cannot be read, the system error is
returned; the slots and the events from this one on are left as they are. -/
theorem read_events_failure (io : Nat → Option Nat) (l : List event_data) :
    ∀ (ix : Nat) (s : sample) (k : Nat) (ev : event_data),
      (∀ j < k, ∀ e, l[j]? = some e → io e.fd ≠ none) →
      l[k]? = some ev → io ev.fd = none →
      (read_events io ix s l).1 = ⟨error_code.SYSTEM⟩ ∧
        (∀ j, ix + k ≤ j → (read_events io ix s l).2.1 j = s j) ∧
        (∀ j, k ≤ j → (read_events io ix s l).2.2[j]? = l[j]?) := by
  induction l with
  | nil => intro _ _ k ev _ hk _; simp at hk
  | cons e0 rest ih =>
    intro ix s k ev hprev hk hio
    cases k with
    | zero =>
      simp only [List.getElem?_cons_zero, Option.some.injEq] at hk
      subst hk
      simp [read_events, hio]
    | succ k =>
      simp only [List.getElem?_cons_succ] at hk
      cases hio0 : io e0.fd with
      | none => exact absurd hio0 (hprev 0 (Nat.succ_pos _) e0 (List.getElem?_cons_zero ..))
      | some c0 =>
        simp only [read_events, hio0]
        obtain ⟨h1, h2, h3⟩ := ih (ix + 1) (s.set_cpu ix (e0.decoded c0)) k ev
          (fun j hj e he => hprev (j + 1) (by omega) e (by simpa using he)) hk hio
        refine ⟨h1, ?_, ?_⟩
        · intro j hj
          rw [h2 j (by omega)]
          have : j ≠ ix := by omega
          simp [sample.set_cpu, this]
        · intro j hj
          cases j with
          | zero => omega
          | succ j =>
            simp only [List.getElem?_cons_succ]
            exact h3 j (by omega)

/-- C5: on a reader with at most `rapl_domains * max_sockets` events, which
is what the constructor produces, `read_all` returns and leaves every slot of
the sample from `num_events()` on as it was. If every counter file can be read
it succeeds, and every slot `k` below `num_events()` then holds the energy
decoded for event `k`, whose wraparound state is updated. If the read of event
`i` is the first to fail, the system error is returned, the slots from `i` on
are untouched and the events from `i` on keep their wraparound state. -/
theorem read_all_writes_active_slots (r : reader_rapl) (io : Nat → Option Nat) (s : sample)
    (hsize : r.num_events ≤ rapl_domains * max_sockets) :
    ∃ err s1 r1, r.read_all io s = some (err, s1, r1) ∧
      r1._event_map = r._event_map ∧ r1.num_events = r.num_events ∧
      (∀ j, r.num_events ≤ j → s1 j = s j) ∧
      ((∀ ev ∈ r._active_events, io ev.fd ≠ none) →
        err = error.success ∧
        ∀ k ev curr, r._active_events[k]? = some ev → io ev.fd = some curr →
          s1 k = ev.decoded curr ∧ r1._active_events[k]? = some (ev.after_read curr)) ∧
      (∀ i ev, r._active_events[i]? = some ev → io ev.fd = none →
        (∀ j < i, ∀ e, r._active_events[j]? = some e → io e.fd ≠ none) →
        err = ⟨error_code.SYSTEM⟩ ∧
        (∀ j, i ≤ j → s1 j = s j) ∧
        (∀ j, i ≤ j → r1._active_events[j]? = r._active_events[j]?)) := by
  obtain ⟨map, evs⟩ := r
  simp only [reader_rapl.num_events, rapl_domains, max_sockets] at hsize ⊢
  have hloop := read_all_loop_eq map io evs [] s (by simp only [List.length_nil]; omega)
  simp only [List.length_nil, List.nil_append] at hloop
  refine ⟨_, _, _, hloop, rfl, read_events_length io evs 0 s, ?_, ?_, ?_⟩
  · intro j hj
    exact read_events_frame io evs 0 s j (Or.inr (by omega))
  · intro hall
    refine ⟨read_events_success io evs 0 s hall, ?_⟩
    intro k ev curr hk hio
    have h := read_events_updates io evs 0 s k ev curr
      (fun j _ e he => hall e (List.getElem?_mem he)) hk hio
    simpa using h
  · intro i ev hi hio hprev
    obtain ⟨h1, h2, h3⟩ := read_events_failure io evs 0 s i ev hprev hi hio
    exact ⟨h1, fun j hj => h2 j (by omega), h3⟩

/-- The preceding property on the reader of a machine with two sockets, for a
sample whose slots all hold 7. -/
theorem read_all_writes_active_slots_witness :
    (reader_rapl.construct two_socket_sysfs 15 255).2.num_events ≤ rapl_domains * max_sockets ∧
    ∃ err s1 r1,
      (reader_rapl.construct two_socket_sysfs 15 255).2.read_all two_socket_counters
          (fun _ => 7) = some (err, s1, r1) ∧
      ∀ j, (reader_rapl.construct two_socket_sysfs 15 255).2.num_events ≤ j → s1 j = 7 :=
  have h : (reader_rapl.construct two_socket_sysfs 15 255).2.num_events ≤
      rapl_domains * max_sockets := by decide
  ⟨h,
    match read_all_writes_active_slots (reader_rapl.construct two_socket_sysfs 15 255).2
        two_socket_counters (fun _ => 7) h with
    | ⟨err, s1, r1, h1, _, _, h4, _⟩ => ⟨err, s1, r1, h1, h4⟩⟩

end nrgprf

namespace tep.dbg

/-! ## Standard algorithms -/

theorem search_at_found {α : Type} [DecidableEq α] (l needle : List α) :
    search_at l needle = search_step.found ↔ needle <+: l := by
  induction l generalizing needle with
  | nil =>
    cases needle with
    | nil => simp [search_at]
    | cons y ys => simp [search_at]
  | cons x xs ih =>
    cases needle with
    | nil => simp [search_at]
    | cons y ys =>
      simp only [search_at]
      by_cases h : x = y
      · subst h
        simp only [if_true, ih, List.cons_prefix_cons, true_and]
      · simp only [h, if_false, List.cons_prefix_cons, false_and, reduceCtorEq]
        constructor
        · intro h'; cases h'
        · rintro ⟨h1, _⟩; exact absurd h1.symm h

theorem search_at_exhausted {α : Type} [DecidableEq α] (l needle : List α)
    (h : search_at l needle = search_step.exhausted) : l.length < needle.length := by
  induction l generalizing needle with
  | nil =>
    cases needle with
    | nil => simp [search_at] at h
    | cons y ys => simp
  | cons x xs ih =>
    cases needle with
    | nil => simp [search_at] at h
    | cons y ys =>
      simp only [search_at] at h
      by_cases hxy : x = y
      · simp only [hxy, if_true] at h
        have := ih ys h
        simp only [List.length_cons]
        omega
      · simp [hxy] at h

theorem search_le_length {α : Type} [DecidableEq α] (l needle : List α) :
    search l needle ≤ l.length := by
  induction l with
  | nil => simp [search]
  | cons x xs ih =>
    simp only [search]
    split
    · exact Nat.zero_le _
    · exact le_refl _
    · simp only [List.length_cons]; omega

/-- The algorithm `std::search` finds a non-empty needle exactly when the needle
is a contiguous run of the haystack. -/
theorem search_ne_length_iff {α : Type} [DecidableEq α] (l needle : List α)
    (hne : needle ≠ []) : search l needle ≠ l.length ↔ needle <:+: l := by
  induction l with
  | nil => simp [search, hne]
  | cons x xs ih =>
    rw [List.infix_cons_iff]
    simp only [search]
    split
    · rename_i hs
      simp only [List.length_cons]
      constructor
      · intro _; exact Or.inl ((search_at_found _ _).mp hs)
      · intro _; omega
    · rename_i hs
      have hlen := search_at_exhausted _ _ hs
      constructor
      · intro h; exact absurd rfl h
      · rintro (h | h)
        · have := h.length_le; omega
        · have := h.length_le
          simp only [List.length_cons] at hlen
          omega
    · rename_i hs
      have hnp : ¬ needle <+: x :: xs := by
        rw [← search_at_found, hs]; simp
      simp only [List.length_cons]
      constructor
      · intro h
        exact Or.inr (ih.mp (by omega))
      · rintro (h | h)
        · exact absurd h hnp
        · have := ih.mpr h
          omega

/-- The function `is_sub_path` holds when `sub` is a non-empty contiguous run
of the elements of the path. -/
theorem is_sub_path_iff (sub p : path) :
    is_sub_path sub p = true ↔ sub ≠ [] ∧ sub <:+: p := by
  unfold is_sub_path
  cases sub with
  | nil => simp
  | cons a t =>
    have hne : a :: t ≠ [] := List.cons_ne_nil _ _
    simp only [List.isEmpty_cons, Bool.not_false, Bool.true_and, Bool.or_eq_true, beq_iff_eq,
      bne_iff_ne, ne_eq, not_false_eq_true, true_and, hne]
    rw [← ne_eq, search_ne_length_iff p (a :: t) hne]
    constructor
    · rintro (h | h)
      · rw [h]
      · exact h
    · intro h; exact Or.inr h

theorem find_if_zero {α : Type} (p : α → Bool) (l : List α) :
    find_if p l 0 l.length = l.findIdx p := by
  simp [find_if]

theorem find_if_succ {α : Type} (p : α → Bool) (l : List α) (i : Nat) :
    find_if p l (i + 1) l.length = i + 1 + (l.drop (i + 1)).findIdx p := by
  unfold find_if
  congr 2
  rw [List.take_of_length_le]
  simp

theorem findIdx_eq_length_iff_countP {α : Type} (p : α → Bool) (l : List α) :
    l.findIdx p = l.length ↔ l.countP p = 0 := by
  rw [List.findIdx_eq_length, List.countP_eq_zero]
  constructor
  · intro h x hx; simp [h x hx]
  · intro h x hx; simpa using h x hx

/-- Splitting the count of matches at the first match. -/
theorem countP_at_findIdx {α : Type} (p : α → Bool) (l : List α) (h : l.findIdx p < l.length) :
    l.countP p = 1 + (l.drop (l.findIdx p + 1)).countP p := by
  induction l with
  | nil => simp at h
  | cons x xs ih =>
    by_cases hx : p x = true
    · simp [List.findIdx_cons, hx, List.countP_cons_of_pos]
      omega
    · have hx' : p x = false := by simpa using hx
      simp only [List.findIdx_cons, hx', cond_false, List.length_cons] at h ⊢
      rw [List.countP_cons_of_neg _ _ hx, List.drop_succ_cons]
      exact ih (by omega)

/-! ## Compilation-unit lookup -/

/-- The three outcomes of `find_compilation_unit`, by the number of matching
compilation units. -/
theorem find_compilation_unit_by_count (oi : object_info) (cu : path) :
    (oi.compilation_units.countP (fun x => is_sub_path cu x.path) = 0 →
      find_compilation_unit oi cu = .error (error_code.util util_errc.cu_not_found)) ∧
    (oi.compilation_units.countP (fun x => is_sub_path cu x.path) = 1 →
      find_compilation_unit oi cu =
        .ok (oi.compilation_units.findIdx (fun x => is_sub_path cu x.path))) ∧
    (2 ≤ oi.compilation_units.countP (fun x => is_sub_path cu x.path) →
      find_compilation_unit oi cu = .error (error_code.util util_errc.cu_ambiguous)) := by
  obtain ⟨l, _⟩ := oi
  simp only [find_compilation_unit, find_if_zero]
  by_cases hfound : l.findIdx (fun x => is_sub_path cu x.path) = l.length
  · have h0 := (findIdx_eq_length_iff_countP _ l).mp hfound
    simp only [hfound, if_true, h0]
    refine ⟨fun _ => trivial, fun h => by omega, fun h => by omega⟩
  · have hlt : l.findIdx (fun x => is_sub_path cu x.path) < l.length :=
      lt_of_le_of_ne (List.findIdx_le_length _) hfound
    have hsplit := countP_at_findIdx _ l hlt
    simp only [hfound, if_false, find_if_succ]
    have hdrop : (l.drop (l.findIdx (fun x => is_sub_path cu x.path) + 1)).length =
        l.length - (l.findIdx (fun x => is_sub_path cu x.path) + 1) := List.length_drop _ _
    have hiff := findIdx_eq_length_iff_countP (fun x => is_sub_path cu x.path)
      (l.drop (l.findIdx (fun x => is_sub_path cu x.path) + 1))
    have hle := @List.findIdx_le_length _ (fun x => is_sub_path cu x.path)
      (l.drop (l.findIdx (fun x => is_sub_path cu x.path) + 1))
    refine ⟨fun h => by omega, ?_, ?_⟩
    · intro h1
      have hz : (l.drop (l.findIdx (fun x => is_sub_path cu x.path) + 1)).countP
          (fun x => is_sub_path cu x.path) = 0 := by omega
      have := hiff.mpr hz
      rw [if_neg]
      intro hcontra
      apply hcontra
      omega
    · intro h2
      have hz : (l.drop (l.findIdx (fun x => is_sub_path cu x.path) + 1)).countP
          (fun x => is_sub_path cu x.path) ≠ 0 := by omega
      have hne := fun h => hz (hiff.mp h)
      rw [if_pos]
      intro hcontra
      apply hne
      omega

theorem countP_is_sub_path (l : List compilation_unit) (a : String) (t : path) :
    l.countP (fun x => is_sub_path (a :: t) x.path) =
      l.countP (fun x => decide ((a :: t) <:+: x.path)) := by
  apply List.countP_congr
  intro x _
  simp [is_sub_path_iff]

/-- With exactly one match, the first match is the only index holding one. -/
theorem findIdx_unique {α : Type} (p : α → Bool) (l : List α) (i : Nat) (x : α)
    (hone : l.countP p = 1) (hi : l[i]? = some x) (hp : p x = true) : l.findIdx p = i := by
  have hlen : i < l.length := by
    rcases Nat.lt_or_ge i l.length with h | h
    · exact h
    · rw [List.getElem?_eq_none h] at hi; cases hi
  have hxi : l[i] = x := by
    rw [List.getElem?_eq_getElem hlen] at hi
    exact Option.some.inj hi
  have hle : l.findIdx p ≤ i := by
    by_contra hgt
    have := @List.not_of_lt_findIdx _ p l i (by omega)
    rw [hxi, hp] at this
    cases this
  rcases Nat.lt_or_eq_of_le hle with hlt | heq
  · exfalso
    have hsplit := countP_at_findIdx p l (by omega)
    have hz : (l.drop (l.findIdx p + 1)).countP p = 0 := by omega
    rw [List.countP_eq_zero] at hz
    have hmem : x ∈ l.drop (l.findIdx p + 1) := by
      apply List.getElem?_mem (n := i - (l.findIdx p + 1))
      rw [List.getElem?_drop]
      have : l.findIdx p + 1 + (i - (l.findIdx p + 1)) = i := by omega
      rw [this, hi]
    exact hz x hmem hp
  · exact heq

/-- C7: for every object info and every non-empty query path `a :: t`,
`find_compilation_unit` fails with `cu_not_found` iff no compilation unit has a
path containing the query as a contiguous run of path elements, fails with
`cu_ambiguous` iff at least two compilation units do, and returns index `i`
iff exactly one does and it is the unit at index `i`. The empty query path
matches nothing. With the units `a.c` and `sub/a.c`, the query `a.c` is
ambiguous and the query `sub/a.c` returns the second unit. -/
theorem find_compilation_unit_outcomes :
    (∀ (oi : object_info) (a : String) (t : path),
      (find_compilation_unit oi (a :: t) = .error (error_code.util util_errc.cu_not_found) ↔
        ∀ x ∈ oi.compilation_units, ¬ (a :: t) <:+: x.path) ∧
      (find_compilation_unit oi (a :: t) = .error (error_code.util util_errc.cu_ambiguous) ↔
        2 ≤ oi.compilation_units.countP (fun x => decide ((a :: t) <:+: x.path))) ∧
      (∀ i, find_compilation_unit oi (a :: t) = .ok i ↔
        oi.compilation_units.countP (fun x => decide ((a :: t) <:+: x.path)) = 1 ∧
        ∃ x, oi.compilation_units[i]? = some x ∧ (a :: t) <:+: x.path)) ∧
    (∀ oi : object_info,
      find_compilation_unit oi [] = .error (error_code.util util_errc.cu_not_found)) ∧
    (∀ q : path, is_sub_path [] q = false) ∧
    find_compilation_unit ⟨[⟨["a.c"], [], [], []⟩, ⟨["sub", "a.c"], [], [], []⟩], []⟩ ["a.c"] =
      .error (error_code.util util_errc.cu_ambiguous) ∧
    find_compilation_unit ⟨[⟨["a.c"], [], [], []⟩, ⟨["sub", "a.c"], [], [], []⟩], []⟩
        ["sub", "a.c"] =
      .ok 1 := by
  refine ⟨?_, ?_, fun q => rfl, by decide, by decide⟩
  · intro oi a t
    obtain ⟨h0, h1, h2⟩ := find_compilation_unit_by_count oi (a :: t)
    rw [countP_is_sub_path] at h0 h1 h2
    have hzero : oi.compilation_units.countP (fun x => decide ((a :: t) <:+: x.path)) = 0 ↔
        ∀ x ∈ oi.compilation_units, ¬ (a :: t) <:+: x.path := by
      rw [List.countP_eq_zero]
      constructor
      · intro h x hx; simpa using h x hx
      · intro h x hx; simpa using h x hx
    rcases Nat.lt_trichotomy (oi.compilation_units.countP
      (fun x => decide ((a :: t) <:+: x.path))) 1 with hc | hc | hc
    · have hc0 : oi.compilation_units.countP (fun x => decide ((a :: t) <:+: x.path)) = 0 := by
        omega
      rw [h0 hc0]
      refine ⟨⟨fun _ => hzero.mp hc0, fun _ => rfl⟩, ⟨fun h => (by cases h), fun h => by omega⟩, ?_⟩
      intro i
      exact ⟨fun h => (by cases h), fun h => by omega⟩
    · rw [h1 hc]
      refine ⟨⟨fun h => (by cases h), fun h => ?_⟩, ⟨fun h => (by cases h), fun h => by omega⟩, ?_⟩
      · have := hzero.mpr h
        omega
      · intro i
        have hcs : oi.compilation_units.countP (fun x => is_sub_path (a :: t) x.path) = 1 := by
          rw [countP_is_sub_path]; exact hc
        have hlt : oi.compilation_units.findIdx (fun x => is_sub_path (a :: t) x.path) <
            oi.compilation_units.length := by
          apply lt_of_le_of_ne (List.findIdx_le_length _)
          intro heq
          have := (findIdx_eq_length_iff_countP _ _).mp heq
          omega
        constructor
        · intro h
          have hi : oi.compilation_units.findIdx (fun x => is_sub_path (a :: t) x.path) = i := by
            injection h
          subst hi
          have hget := List.getElem?_eq_getElem hlt
          refine ⟨hc, _, hget, ?_⟩
          have hm := List.findIdx_getElem
            (p := fun (x : compilation_unit) => is_sub_path (a :: t) x.path) (w := hlt)
          exact ((is_sub_path_iff _ _).mp hm).2
        · rintro ⟨_, x, hx, hinf⟩
          have hp : is_sub_path (a :: t) x.path = true :=
            (is_sub_path_iff _ _).mpr ⟨List.cons_ne_nil _ _, hinf⟩
          rw [findIdx_unique (fun x => is_sub_path (a :: t) x.path) oi.compilation_units i x
            hcs hx hp]
    · rw [h2 (by omega)]
      refine ⟨⟨fun h => (by cases h), fun h => ?_⟩, ⟨fun _ => (by omega), fun _ => rfl⟩, ?_⟩
      · have := hzero.mpr h
        omega
      · intro i
        exact ⟨fun h => (by cases h), fun h => by omega⟩
  · intro oi
    obtain ⟨h0, _, _⟩ := find_compilation_unit_by_count oi []
    apply h0
    rw [List.countP_eq_zero]
    intro x _
    simp [is_sub_path]

/-! ## Line lookup -/

/-- What `std::find_if` returns on a range `[first, last)` of a container. -/
theorem find_if_spec {α : Type} (p : α → Bool) (l : List α) (first last : Nat)
    (h1 : first ≤ last) (h2 : last ≤ l.length) :
    first ≤ find_if p l first last ∧ find_if p l first last ≤ last ∧
    (∀ j x, first ≤ j → j < find_if p l first last → l[j]? = some x → p x = false) ∧
    (find_if p l first last < last →
      ∃ x, l[find_if p l first last]? = some x ∧ p x = true) := by
  have hlen : ((l.drop first).take (last - first)).length = last - first := by
    rw [List.length_take, List.length_drop]; omega
  have hget : ∀ k, k < last - first →
      ((l.drop first).take (last - first))[k]? = l[first + k]? := by
    intro k hk
    rw [List.getElem?_take_of_lt hk, List.getElem?_drop]
  have hle := @List.findIdx_le_length _ p ((l.drop first).take (last - first))
  unfold find_if
  refine ⟨by omega, by omega, ?_, ?_⟩
  · intro j x hj1 hj2 hx
    have hk : j - first < ((l.drop first).take (last - first)).findIdx p := by omega
    have hnot := List.not_of_lt_findIdx hk
    have hk2 : j - first < last - first := by omega
    have hj : first + (j - first) = j := by omega
    have hsome : ((l.drop first).take (last - first))[j - first]? = some x := by
      rw [hget _ hk2, hj, hx]
    rw [List.getElem?_eq_getElem (by omega)] at hsome
    rw [Option.some.inj hsome] at hnot
    exact hnot
  · intro hlt
    have hk : ((l.drop first).take (last - first)).findIdx p <
        ((l.drop first).take (last - first)).length := by omega
    have htrue := List.findIdx_getElem (p := p) (w := hk)
    refine ⟨_, ?_, htrue⟩
    rw [← hget _ (by omega), List.getElem?_eq_getElem hk]

/-- The index `std::find_if` returns is determined by the first element that
satisfies the predicate. -/
theorem find_if_eq_of_first {α : Type} (p : α → Bool) (l : List α) (first last m : Nat) (x : α)
    (h1 : first ≤ m) (h2 : m < last) (h3 : last ≤ l.length)
    (hx : l[m]? = some x) (hp : p x = true)
    (hbefore : ∀ j y, first ≤ j → j < m → l[j]? = some y → p y = false) :
    find_if p l first last = m := by
  obtain ⟨s1, s2, s3, s4⟩ := find_if_spec p l first last (by omega) h3
  rcases Nat.lt_trichotomy (find_if p l first last) m with h | h | h
  · obtain ⟨y, hy, hpy⟩ := s4 (by omega)
    have := hbefore _ y s1 h hy
    rw [this] at hpy; cases hpy
  · exact h
  · have := s3 m x h1 h hx
    rw [this] at hp; cases hp

/-- When no element of the range satisfies the predicate, `std::find_if`
returns `last`. -/
theorem find_if_eq_last {α : Type} (p : α → Bool) (l : List α) (first last : Nat)
    (h1 : first ≤ last) (h2 : last ≤ l.length)
    (hnone : ∀ j y, first ≤ j → j < last → l[j]? = some y → p y = false) :
    find_if p l first last = last := by
  obtain ⟨s1, s2, s3, s4⟩ := find_if_spec p l first last h1 h2
  by_contra hne
  obtain ⟨y, hy, hpy⟩ := s4 (by omega)
  have := hnone _ y s1 (by omega) hy
  rw [this] at hpy; cases hpy

theorem getElem?_lt_length {α : Type} (l : List α) (m : Nat) (x : α) (h : l[m]? = some x) :
    m < l.length := by
  rcases Nat.lt_or_ge m l.length with h1 | h1
  · exact h1
  · rw [List.getElem?_eq_none h1] at h; cases h

theorem getD_of_getElem? {α : Type} (l : List α) (m : Nat) (x d : α) (h : l[m]? = some x) :
    l.getD m d = x := by
  simp [List.getD_eq_getElem?_getD, h]

theorem find_lines_invalid (cu : compilation_unit) (file : path) (lineno : Nat)
    (exact_line : exact_line_value_flag) (colno : Nat) (exact_col : exact_column_value_flag)
    (h : lineno = 0 ∧ colno ≠ 0) :
    find_lines cu file lineno exact_line colno exact_col = .error error_code.invalid_argument := by
  simp only [find_lines, h, ne_eq, not_false_eq_true, and_self, if_true]

/-- The outcome of `find_lines` when no entry has the file and matches the line. -/
theorem find_lines_of_no_match (cu : compilation_unit) (file : path) (lineno : Nat)
    (exact_line : exact_line_value_flag) (colno : Nat) (exact_col : exact_column_value_flag)
    (hvalid : ¬ (lineno = 0 ∧ colno ≠ 0))
    (hnone : ∀ y ∈ cu.lines,
      file_line_match (effective_file cu file) lineno exact_line y = false) :
    find_lines cu file lineno exact_line colno exact_col =
      if cu.lines.any (fun line => effective_file cu file == line.file)
      then .error (error_code.util util_errc.line_not_found)
      else .error (error_code.util util_errc.file_not_found) := by
  have hs0 : find_if (file_line_match (effective_file cu file) lineno exact_line)
      cu.lines 0 cu.lines.length = cu.lines.length :=
    find_if_eq_last _ _ _ _ (Nat.zero_le _) (le_refl _)
      (fun j y _ _ hy => hnone y (List.getElem?_mem hy))
  simp only [find_lines, hvalid, if_false, hs0, if_true]
  rw [List.take_of_length_le (Nat.le_succ _)]
  cases cu.lines.any (fun line => effective_file cu file == line.file) <;> rfl

/-- The outcome of `find_lines` when entry `m` is the first one that has the
file and matches the line. -/
theorem find_lines_of_first_match (cu : compilation_unit) (file : path) (lineno : Nat)
    (exact_line : exact_line_value_flag) (colno : Nat) (exact_col : exact_column_value_flag)
    (m : Nat) (first : source_line)
    (hvalid : ¬ (lineno = 0 ∧ colno ≠ 0))
    (hm : cu.lines[m]? = some first)
    (hp : file_line_match (effective_file cu file) lineno exact_line first = true)
    (hbefore : ∀ j y, j < m → cu.lines[j]? = some y →
      file_line_match (effective_file cu file) lineno exact_line y = false) :
    find_lines cu file lineno exact_line colno exact_col =
      if find_if
          (file_line_column_match (effective_file cu file) first.number
            (if first.number > lineno ∧ exact_col = exact_column_value_flag.no then 0 else colno)
            exact_col)
          cu.lines m cu.lines.length = cu.lines.length
      then .error (error_code.util util_errc.column_not_found)
      else .ok (find_lines_range cu.lines (effective_file cu file)
        (find_if
          (file_line_column_match (effective_file cu file) first.number
            (if first.number > lineno ∧ exact_col = exact_column_value_flag.no then 0 else colno)
            exact_col)
          cu.lines m cu.lines.length)) := by
  have hlt := getElem?_lt_length _ _ _ hm
  have hs0 : find_if (file_line_match (effective_file cu file) lineno exact_line)
      cu.lines 0 cu.lines.length = m :=
    find_if_eq_of_first _ _ _ _ m first (Nat.zero_le _) hlt (le_refl _) hm hp
      (fun j y _ hj hy => hbefore j y hj hy)
  have hne : m ≠ cu.lines.length := by omega
  simp only [find_lines, hvalid, if_false, hs0, hne, getD_of_getElem? _ _ _ _ hm]

/-- Either no entry has the file and matches the line, or there is a first one. -/
theorem first_match_or_none (cu : compilation_unit) (file : path) (lineno : Nat)
    (exact_line : exact_line_value_flag) :
    (∀ y ∈ cu.lines, file_line_match (effective_file cu file) lineno exact_line y = false) ∨
    ∃ (m : Nat) (first : source_line), cu.lines[m]? = some first ∧
      file_line_match (effective_file cu file) lineno exact_line first = true ∧
      ∀ (j : Nat) (y : source_line), j < m → cu.lines[j]? = some y →
        file_line_match (effective_file cu file) lineno exact_line y = false := by
  obtain ⟨_, s2, s3, s4⟩ := find_if_spec
    (file_line_match (effective_file cu file) lineno exact_line) cu.lines 0 cu.lines.length
    (Nat.zero_le _) (le_refl _)
  rcases Nat.lt_or_eq_of_le s2 with h | h
  · right
    obtain ⟨x, hx, hpx⟩ := s4 h
    exact ⟨find_if (file_line_match (effective_file cu file) lineno exact_line) cu.lines 0
      cu.lines.length, x, hx, hpx, fun j y hj hy => s3 j y (Nat.zero_le _) hj hy⟩
  · left
    intro y hy
    obtain ⟨j, hj⟩ := List.getElem?_of_mem hy
    have hjlt := getElem?_lt_length _ _ _ hj
    exact s3 j y (Nat.zero_le _) (by omega) hj

theorem file_line_match_iff (F : path) (lineno : Nat) (exact_line : exact_line_value_flag)
    (y : source_line) :
    file_line_match F lineno exact_line y = true ↔
      y.file = F ∧ line_match y lineno exact_line = true := by
  simp only [file_line_match, Bool.and_eq_true, beq_iff_eq]
  constructor
  · rintro ⟨h1, h2⟩; exact ⟨h1.symm, h2⟩
  · rintro ⟨h1, h2⟩; exact ⟨h1.symm, h2⟩

theorem file_line_column_match_iff (F : path) (lineno colno : Nat)
    (exact_col : exact_column_value_flag) (y : source_line) :
    file_line_column_match F lineno colno exact_col y = true ↔
      y.file = F ∧ line_match y lineno exact_line_value_flag.yes = true ∧
        column_match y colno exact_col = true := by
  simp only [file_line_column_match, Bool.and_eq_true, beq_iff_eq]
  constructor
  · rintro ⟨⟨h1, h2⟩, h3⟩; exact ⟨h1.symm, h2, h3⟩
  · rintro ⟨h1, h2, h3⟩; exact ⟨⟨h1.symm, h2⟩, h3⟩

/-- Matching a line number exactly: any line when the number is 0, the same
number otherwise. -/
theorem line_match_exact (y : source_line) (n : Nat) :
    line_match y n exact_line_value_flag.yes = true ↔ n = 0 ∨ y.number = n := by
  simp [line_match]

theorem column_match_zero (y : source_line) (exact_col : exact_column_value_flag) :
    column_match y 0 exact_col = true := by
  simp [column_match]

/-- An entry numbered 0 matches the line constraint only when no line is asked for. -/
theorem lineno_zero_of_match (y : source_line) (lineno : Nat) (exact_line : exact_line_value_flag)
    (h : line_match y lineno exact_line = true) (h0 : y.number = 0) : lineno = 0 := by
  unfold line_match at h
  cases exact_line <;> simp [h0] at h <;> omega

/-- The line constraint depends on the entry through its line number only. -/
theorem line_match_congr (y z : source_line) (lineno : Nat) (exact_line : exact_line_value_flag)
    (h : y.number = z.number) :
    line_match y lineno exact_line = line_match z lineno exact_line := by
  simp [line_match, h]

theorem find_if_eq_last_iff {α : Type} (p : α → Bool) (l : List α) (first last : Nat)
    (h1 : first ≤ last) (h2 : last ≤ l.length) :
    find_if p l first last = last ↔
      ∀ j y, first ≤ j → j < last → l[j]? = some y → p y = false := by
  constructor
  · intro h j y hj1 hj2 hy
    obtain ⟨_, _, s3, _⟩ := find_if_spec p l first last h1 h2
    exact s3 j y hj1 (by omega) hy
  · exact find_if_eq_last p l first last h1 h2

/-- The first entry that has the file and matches the line is unique. -/
theorem first_match_unique (L : List source_line) (p : source_line → Bool) (m m0 : Nat)
    (x x0 : source_line) (hm : L[m]? = some x) (hm0 : L[m0]? = some x0)
    (hp : p x = true) (hp0 : p x0 = true)
    (hb : ∀ (j : Nat) (y : source_line), j < m → L[j]? = some y → p y = false)
    (hb0 : ∀ (j : Nat) (y : source_line), j < m0 → L[j]? = some y → p y = false) :
    m = m0 ∧ x = x0 := by
  have hmm : m = m0 := by
    rcases Nat.lt_trichotomy m m0 with h | h | h
    · have := hb0 m x h hm; rw [this] at hp; cases hp
    · exact h
    · have := hb m0 x0 h hm0; rw [this] at hp0; cases hp0
  subst hmm
  rw [hm] at hm0
  exact ⟨rfl, Option.some.inj hm0⟩

/-- When entry `m` is the first to have the file and match the line,
`find_lines` fails with `column_not_found` exactly when the column constraint
is still in force and no entry from `m` on has the file, the line number of
entry `m` and a matching column. -/
theorem column_not_found_iff (cu : compilation_unit) (file : path) (lineno : Nat)
    (exact_line : exact_line_value_flag) (colno : Nat) (exact_col : exact_column_value_flag)
    (m : Nat) (first : source_line)
    (hvalid : ¬ (lineno = 0 ∧ colno ≠ 0))
    (hm : cu.lines[m]? = some first)
    (hp : file_line_match (effective_file cu file) lineno exact_line first = true)
    (hbefore : ∀ (j : Nat) (y : source_line), j < m → cu.lines[j]? = some y →
      file_line_match (effective_file cu file) lineno exact_line y = false) :
    find_lines cu file lineno exact_line colno exact_col =
        .error (error_code.util util_errc.column_not_found) ↔
      ¬ (exact_col = exact_column_value_flag.no ∧ lineno < first.number) ∧
      ∀ (j : Nat) (y : source_line), m ≤ j → cu.lines[j]? = some y →
        ¬ (y.file = effective_file cu file ∧ y.number = first.number ∧
          column_match y colno exact_col = true) := by
  have hlt := getElem?_lt_length _ _ _ hm
  obtain ⟨hfile, hline⟩ := (file_line_match_iff _ _ _ _).mp hp
  rw [find_lines_of_first_match cu file lineno exact_line colno exact_col m first hvalid hm hp
    hbefore]
  have hres : ∀ (s1 : Nat) (r : Nat × Nat),
      ((if s1 = cu.lines.length then
          (.error (error_code.util util_errc.column_not_found) : result (Nat × Nat))
        else .ok r) = .error (error_code.util util_errc.column_not_found)) ↔
        s1 = cu.lines.length := by
    intro s1 r
    by_cases h : s1 = cu.lines.length <;> simp [h]
  rw [hres, find_if_eq_last_iff _ _ _ _ (le_of_lt hlt) (le_refl _)]
  constructor
  · intro hall
    have hself := hall m first (le_refl _) hlt hm
    have hnoreset : ¬ (exact_col = exact_column_value_flag.no ∧ lineno < first.number) := by
      rintro ⟨h1, h2⟩
      have hc : (first.number > lineno ∧ exact_col = exact_column_value_flag.no) := ⟨h2, h1⟩
      rw [if_pos hc] at hself
      have htrue : file_line_column_match (effective_file cu file) first.number 0 exact_col
          first = true := by
        rw [file_line_column_match_iff]
        exact ⟨hfile, (line_match_exact _ _).mpr (Or.inr rfl), column_match_zero _ _⟩
      rw [htrue] at hself; cases hself
    refine ⟨hnoreset, ?_⟩
    rintro j y hj hy ⟨h1, h2, h3⟩
    have hjlt := getElem?_lt_length _ _ _ hy
    have hf := hall j y hj hjlt hy
    have hc : ¬ (first.number > lineno ∧ exact_col = exact_column_value_flag.no) :=
      fun h => hnoreset ⟨h.2, h.1⟩
    rw [if_neg hc] at hf
    have htrue : file_line_column_match (effective_file cu file) first.number colno exact_col
        y = true := by
      rw [file_line_column_match_iff]
      exact ⟨h1, (line_match_exact _ _).mpr (Or.inr h2), h3⟩
    rw [htrue] at hf; cases hf
  · rintro ⟨hnoreset, hall⟩ j y hj _ hy
    have hc : ¬ (first.number > lineno ∧ exact_col = exact_column_value_flag.no) :=
      fun h => hnoreset ⟨h.2, h.1⟩
    rw [if_neg hc]
    by_contra hne
    have htrue : file_line_column_match (effective_file cu file) first.number colno exact_col
        y = true := by
      cases h : file_line_column_match (effective_file cu file) first.number colno exact_col y
      · exact absurd h hne
      · rfl
    obtain ⟨h1, h2, h3⟩ := (file_line_column_match_iff _ _ _ _ _).mp htrue
    rcases (line_match_exact _ _).mp h2 with h0 | heq
    · have hl0 : lineno = 0 := lineno_zero_of_match first lineno exact_line hline h0
      have hc0 : colno = 0 := by
        by_contra hcne
        exact hvalid ⟨hl0, hcne⟩
      apply hall m first (le_refl _) hm
      refine ⟨hfile, rfl, ?_⟩
      rw [hc0]; exact column_match_zero _ _
    · exact hall j y hj hy ⟨h1, heq, h3⟩

theorem column_or_ok_ne (c : Prop) [Decidable c] (r : Nat × Nat) (e : util_errc)
    (he : e ≠ util_errc.column_not_found) :
    (if c then (.error (error_code.util util_errc.column_not_found) : result (Nat × Nat))
      else .ok r) ≠ .error (error_code.util e) := by
  by_cases h : c
  · rw [if_pos h]
    intro heq
    injection heq with h1
    injection h1 with h2
    exact he h2.symm
  · rw [if_neg h]
    intro heq
    cases heq

/-- C8 (amended): with `lineno = 0` and `colno != 0`, `find_lines` fails with
`invalid_argument`. Otherwise it fails with `file_not_found` iff no entry of the
compilation unit has the effective file; with `line_not_found` iff some entry
has the effective file and none with that file satisfies the line constraint;
with `column_not_found` iff there is a first entry `m` that has the effective
file and satisfies the line constraint, the column constraint has not been
lifted (it is lifted when `exact_col = no` and the line number of entry `m` is
above `lineno`), and no entry from `m` on has the effective file, the line
number of entry `m` and a column satisfying the column constraint. -/
theorem find_lines_failures (cu : compilation_unit) (file : path) (lineno : Nat)
    (exact_line : exact_line_value_flag) (colno : Nat) (exact_col : exact_column_value_flag) :
    (lineno = 0 ∧ colno ≠ 0 →
      find_lines cu file lineno exact_line colno exact_col =
        .error error_code.invalid_argument) ∧
    (¬ (lineno = 0 ∧ colno ≠ 0) →
      (find_lines cu file lineno exact_line colno exact_col =
          .error (error_code.util util_errc.file_not_found) ↔
        ∀ line ∈ cu.lines, line.file ≠ effective_file cu file) ∧
      (find_lines cu file lineno exact_line colno exact_col =
          .error (error_code.util util_errc.line_not_found) ↔
        (∃ line ∈ cu.lines, line.file = effective_file cu file) ∧
        ∀ line ∈ cu.lines, line.file = effective_file cu file →
          line_match line lineno exact_line = false) ∧
      (find_lines cu file lineno exact_line colno exact_col =
          .error (error_code.util util_errc.column_not_found) ↔
        ∃ (m : Nat) (first : source_line), cu.lines[m]? = some first ∧
          first.file = effective_file cu file ∧ line_match first lineno exact_line = true ∧
          (∀ (j : Nat) (y : source_line), j < m → cu.lines[j]? = some y →
            ¬ (y.file = effective_file cu file ∧ line_match y lineno exact_line = true)) ∧
          ¬ (exact_col = exact_column_value_flag.no ∧ lineno < first.number) ∧
          ∀ (j : Nat) (y : source_line), m ≤ j → cu.lines[j]? = some y →
            ¬ (y.file = effective_file cu file ∧ y.number = first.number ∧
              column_match y colno exact_col = true))) := by
  refine ⟨find_lines_invalid cu file lineno exact_line colno exact_col, fun hvalid => ?_⟩
  have hfalse_iff : ∀ y : source_line,
      file_line_match (effective_file cu file) lineno exact_line y = false ↔
        ¬ (y.file = effective_file cu file ∧ line_match y lineno exact_line = true) := by
    intro y
    rw [← file_line_match_iff]
    cases file_line_match (effective_file cu file) lineno exact_line y <;> simp
  rcases first_match_or_none cu file lineno exact_line with hnone | ⟨m, first, hm, hp, hbefore⟩
  · rw [find_lines_of_no_match cu file lineno exact_line colno exact_col hvalid hnone]
    have hnoline : ∀ line ∈ cu.lines, line.file = effective_file cu file →
        line_match line lineno exact_line = false := by
      intro line hl hf
      have := (hfalse_iff line).mp (hnone line hl)
      cases hlm : line_match line lineno exact_line
      · rfl
      · exact absurd ⟨hf, hlm⟩ this
    have hnocol : ¬ ∃ (m : Nat) (first : source_line), cu.lines[m]? = some first ∧
        first.file = effective_file cu file ∧ line_match first lineno exact_line = true ∧
        (∀ (j : Nat) (y : source_line), j < m → cu.lines[j]? = some y →
          ¬ (y.file = effective_file cu file ∧ line_match y lineno exact_line = true)) ∧
        ¬ (exact_col = exact_column_value_flag.no ∧ lineno < first.number) ∧
        ∀ (j : Nat) (y : source_line), m ≤ j → cu.lines[j]? = some y →
          ¬ (y.file = effective_file cu file ∧ y.number = first.number ∧
            column_match y colno exact_col = true) := by
      rintro ⟨m, first, hm, hf, hl, _⟩
      have := hnoline first (List.getElem?_mem hm) hf
      rw [this] at hl; cases hl
    cases hany : cu.lines.any (fun line => effective_file cu file == line.file)
    · have hnofile : ∀ line ∈ cu.lines, line.file ≠ effective_file cu file := by
        intro line hl hf
        have := List.any_eq_false.mp hany line hl
        simp [hf] at this
      simp only [Bool.false_eq_true, if_false]
      refine ⟨⟨fun _ => hnofile, fun _ => trivial⟩, ⟨fun h => (by cases h), ?_⟩,
        ⟨fun h => (by cases h), fun h => absurd h hnocol⟩⟩
      rintro ⟨⟨line, hl, hf⟩, _⟩
      exact absurd hf (hnofile line hl)
    · obtain ⟨line, hl, hf⟩ := List.any_eq_true.mp hany
      have hf2 : line.file = effective_file cu file := (beq_iff_eq.mp hf).symm
      simp only [if_true]
      refine ⟨⟨fun h => (by cases h), fun h => absurd hf2 (h line hl)⟩,
        ⟨fun _ => ⟨⟨line, hl, hf2⟩, hnoline⟩, fun _ => trivial⟩,
        ⟨fun h => (by cases h), fun h => absurd h hnocol⟩⟩
  · obtain ⟨hfile, hline⟩ := (file_line_match_iff _ _ _ _).mp hp
    have hmem : first ∈ cu.lines := List.getElem?_mem hm
    have hcol := column_not_found_iff cu file lineno exact_line colno exact_col m first hvalid
      hm hp hbefore
    refine ⟨⟨fun h => ?_, fun h => absurd hfile (h first hmem)⟩, ⟨fun h => ?_, ?_⟩, ?_⟩
    · rw [find_lines_of_first_match cu file lineno exact_line colno exact_col m first hvalid hm
        hp hbefore] at h
      exact absurd h (column_or_ok_ne _ _ _ (by decide))
    · rw [find_lines_of_first_match cu file lineno exact_line colno exact_col m first hvalid hm
        hp hbefore] at h
      exact absurd h (column_or_ok_ne _ _ _ (by decide))
    · rintro ⟨_, h⟩
      have := h first hmem hfile
      rw [this] at hline; cases hline
    · rw [hcol]
      constructor
      · rintro ⟨h1, h2⟩
        exact ⟨m, first, hm, hfile, hline,
          fun j y hj hy => (hfalse_iff y).mp (hbefore j y hj hy), h1, h2⟩
      · rintro ⟨m1, first1, hm1, hf1, hl1, hb1, h1, h2⟩
        have hp1 : file_line_match (effective_file cu file) lineno exact_line first1 = true :=
          (file_line_match_iff _ _ _ _).mpr ⟨hf1, hl1⟩
        obtain ⟨e1, e2⟩ := first_match_unique cu.lines
          (file_line_match (effective_file cu file) lineno exact_line) m1 m first1 first
          hm1 hm hp1 hp (fun j y hj hy => (hfalse_iff y).mpr (hb1 j y hj hy)) hbefore
        subst e1 e2
        exact ⟨h1, h2⟩

/-- The preceding property on a unit with one entry, for a query with a column
and no line and for a query of line 13. -/
theorem find_lines_failures_witness :
    find_lines one_line_unit [] 0 exact_line_value_flag.yes 3 exact_column_value_flag.no =
      .error error_code.invalid_argument ∧
    (find_lines one_line_unit [] 13 exact_line_value_flag.yes 0 exact_column_value_flag.no =
        .error (error_code.util util_errc.line_not_found) ↔
      (∃ line ∈ one_line_unit.lines, line.file = effective_file one_line_unit []) ∧
      ∀ line ∈ one_line_unit.lines, line.file = effective_file one_line_unit [] →
        line_match line 13 exact_line_value_flag.yes = false) :=
  ⟨(find_lines_failures one_line_unit [] 0 exact_line_value_flag.yes 3
      exact_column_value_flag.no).1 (by decide),
    ((find_lines_failures one_line_unit [] 13 exact_line_value_flag.yes 0
      exact_column_value_flag.no).2 (by decide)).2.1⟩

/-- C8, as stated, fails: the only entry of the unit has line 12 and column 1;
asked for the first line from 10 on and the first column from 5 on,
`find_lines` succeeds, although the line constraint is satisfiable and no
entry has a column of at least 5: the line found is beyond the one asked for
and the column constraint is lifted. -/
theorem find_lines_column_not_found_counterexample :
    find_lines one_line_unit [] 10 exact_line_value_flag.no 5 exact_column_value_flag.no =
      .ok (0, 1) ∧
    (∃ line ∈ one_line_unit.lines, line.file = effective_file one_line_unit [] ∧
      line_match line 10 exact_line_value_flag.no = true) ∧
    (∀ line ∈ one_line_unit.lines, column_match line 5 exact_column_value_flag.no = false) := by
  decide

/-- The range `find_lines_range` computes from a start that has the file: it
is not empty and its entries have the file and, unless the line number of the
start is 0, that line number. -/
theorem find_lines_range_spec (L : List source_line) (F : path) (s1 : Nat) (x : source_line)
    (hx : L[s1]? = some x) (hfile : x.file = F) :
    (find_lines_range L F s1).1 = s1 ∧ s1 < (find_lines_range L F s1).2 ∧
    (find_lines_range L F s1).2 ≤ L.length ∧
    ∀ (j : Nat) (y : source_line), s1 ≤ j → j < (find_lines_range L F s1).2 → L[j]? = some y →
      y.file = F ∧ (x.number = 0 ∨ y.number = x.number) := by
  have hlt := getElem?_lt_length _ _ _ hx
  simp only [find_lines_range, getD_of_getElem? _ _ _ _ hx, find_if_not]
  obtain ⟨a1, a2, a3, a4⟩ := find_if_spec
    (fun y => !file_line_match F x.number exact_line_value_flag.yes y) L s1 L.length
    (le_of_lt hlt) (le_refl _)
  have hpx : file_line_match F x.number exact_line_value_flag.yes x = true :=
    (file_line_match_iff _ _ _ _).mpr ⟨hfile, (line_match_exact _ _).mpr (Or.inr rfl)⟩
  have hgt : s1 < find_if (fun y => !file_line_match F x.number exact_line_value_flag.yes y)
      L s1 L.length := by
    rcases Nat.lt_or_eq_of_le a1 with h | h
    · exact h
    · exfalso
      obtain ⟨y, hy, hpy⟩ := a4 (by omega)
      rw [← h, hx] at hy
      rw [← Option.some.inj hy, hpx] at hpy
      cases hpy
  obtain ⟨b1, b2, b3, _⟩ := find_if_spec
    (fun y => !file_line_column_match F x.number x.column exact_column_value_flag.yes y) L
    (find_if (fun y => !file_line_match F x.number exact_line_value_flag.yes y) L s1 L.length)
    L.length a2 (le_refl _)
  refine ⟨trivial, by omega, b2, ?_⟩
  intro j y hj1 hj2 hy
  rcases Nat.lt_or_ge j
    (find_if (fun y => !file_line_match F x.number exact_line_value_flag.yes y) L s1 L.length)
    with h | h
  · have hn := a3 j y hj1 h hy
    have hp : file_line_match F x.number exact_line_value_flag.yes y = true := by
      simpa using hn
    obtain ⟨h1, h2⟩ := (file_line_match_iff _ _ _ _).mp hp
    exact ⟨h1, (line_match_exact _ _).mp h2⟩
  · have hn := b3 j y h hj2 hy
    have hp : file_line_column_match F x.number x.column exact_column_value_flag.yes y = true := by
      simpa using hn
    obtain ⟨h1, h2, _⟩ := (file_line_column_match_iff _ _ _ _ _).mp hp
    exact ⟨h1, (line_match_exact _ _).mp h2⟩

/-- The lambda `line_match` holds of an entry when `lineno` is 0, or the line
number is `lineno` and `exact_line = yes`, or it is at least `lineno` and
`exact_line = no`. -/
theorem line_match_spec (y : source_line) (lineno : Nat) (exact_line : exact_line_value_flag) :
    line_match y lineno exact_line = true ↔
      (lineno = 0 ∨ (exact_line = exact_line_value_flag.yes ∧ y.number = lineno) ∨
        (exact_line = exact_line_value_flag.no ∧ lineno ≤ y.number)) := by
  cases exact_line <;> simp [line_match]

/-- The lambda `column_match` holds of an entry when `colno` is 0, or the column
is `colno` and `exact_col = yes`, or it is at least `colno` and
`exact_col = no`. -/
theorem column_match_spec (x : source_line) (colno : Nat) (exact_col : exact_column_value_flag) :
    column_match x colno exact_col = true ↔
      (colno = 0 ∨ (exact_col = exact_column_value_flag.yes ∧ x.column = colno) ∨
        (exact_col = exact_column_value_flag.no ∧ colno ≤ x.column)) := by
  cases exact_col <;> simp [column_match]

/-- When `find_lines` succeeds, the range is not empty, its entries pass the
tests of the file and of the line, and its first entry passes the test of the
column unless the column was reset. -/
theorem find_lines_range_matches (cu : compilation_unit) (file : path) (lineno : Nat)
    (exact_line : exact_line_value_flag) (colno : Nat) (exact_col : exact_column_value_flag)
    (first last : Nat)
    (hok : find_lines cu file lineno exact_line colno exact_col = .ok (first, last)) :
    first < last ∧ last ≤ cu.lines.length ∧
    (∀ (j : Nat) (y : source_line), first ≤ j → j < last → cu.lines[j]? = some y →
      y.file = effective_file cu file ∧ line_match y lineno exact_line = true) ∧
    (∃ x : source_line, cu.lines[first]? = some x ∧
      (column_match x colno exact_col = true ∨
        (exact_col = exact_column_value_flag.no ∧ lineno < x.number))) := by
  by_cases hvalid : lineno = 0 ∧ colno ≠ 0
  · rw [find_lines_invalid cu file lineno exact_line colno exact_col hvalid] at hok
    cases hok
  rcases first_match_or_none cu file lineno exact_line with hnone | ⟨m, first0, hm, hp, hbefore⟩
  · rw [find_lines_of_no_match cu file lineno exact_line colno exact_col hvalid hnone] at hok
    split at hok <;> cases hok
  · rw [find_lines_of_first_match cu file lineno exact_line colno exact_col m first0 hvalid hm hp
      hbefore] at hok
    have hlt := getElem?_lt_length _ _ _ hm
    obtain ⟨hfile0, hline0⟩ := (file_line_match_iff _ _ _ _).mp hp
    obtain ⟨s1, s2, _, s4⟩ := find_if_spec
      (file_line_column_match (effective_file cu file) first0.number
        (if first0.number > lineno ∧ exact_col = exact_column_value_flag.no then 0 else colno)
        exact_col) cu.lines m cu.lines.length (le_of_lt hlt) (le_refl _)
    by_cases hend : find_if
        (file_line_column_match (effective_file cu file) first0.number
          (if first0.number > lineno ∧ exact_col = exact_column_value_flag.no then 0 else colno)
          exact_col) cu.lines m cu.lines.length = cu.lines.length
    · rw [if_pos hend] at hok; cases hok
    · rw [if_neg hend] at hok
      obtain ⟨x, hx, hpx⟩ := s4 (lt_of_le_of_ne s2 hend)
      obtain ⟨hxfile, hxline, hxcol⟩ := (file_line_column_match_iff _ _ _ _ _).mp hpx
      obtain ⟨r1, r2, r3, r4⟩ := find_lines_range_spec cu.lines (effective_file cu file) _ x hx
        hxfile
      have hpair := Except.ok.inj hok
      have hfirst : (find_lines_range cu.lines (effective_file cu file) (find_if
        (file_line_column_match (effective_file cu file) first0.number
          (if first0.number > lineno ∧ exact_col = exact_column_value_flag.no then 0 else colno)
          exact_col) cu.lines m cu.lines.length)).1 = first := by rw [hpair]
      have hlast : (find_lines_range cu.lines (effective_file cu file) (find_if
        (file_line_column_match (effective_file cu file) first0.number
          (if first0.number > lineno ∧ exact_col = exact_column_value_flag.no then 0 else colno)
          exact_col) cu.lines m cu.lines.length)).2 = last := by rw [hpair]
      rw [hlast] at r2 r3 r4
      rw [hfirst] at r1
      rw [← r1] at r2 r4 hx
      have hnum : first0.number = 0 ∨ x.number = first0.number := (line_match_exact _ _).mp hxline
      refine ⟨r2, r3, ?_, x, hx, ?_⟩
      · intro j y hj1 hj2 hy
        obtain ⟨h1, h2⟩ := r4 j y hj1 hj2 hy
        refine ⟨h1, ?_⟩
        have hzero : first0.number = 0 → line_match y lineno exact_line = true := by
          intro h0
          have := lineno_zero_of_match first0 lineno exact_line hline0 h0
          simp [line_match, this]
        rcases hnum with h0 | heq
        · exact hzero h0
        · rcases h2 with hx0 | hyx
          · exact hzero (by omega)
          · rw [line_match_congr y first0 lineno exact_line (by omega)]
            exact hline0
      · by_cases hreset : first0.number > lineno ∧ exact_col = exact_column_value_flag.no
        · right
          refine ⟨hreset.2, ?_⟩
          rcases hnum with h0 | heq
          · omega
          · omega
        · left
          rw [if_neg hreset] at hxcol
          exact hxcol

/-- C9 (amended): when `find_lines` succeeds, the half-open range
`[first, last)` it returns is not empty and lies within the line entries; every
entry of the range has the effective file and a line number satisfying the
line constraint (any line number when `lineno = 0`, equal to `lineno` when
exact, at least `lineno` otherwise); the first entry of the range has a column
satisfying the column constraint (any column when `colno = 0`, equal to `colno`
when exact, at least `colno` otherwise), unless `exact_col = no` and its line
number is above `lineno`, in which case no column constraint applies. -/
theorem find_lines_range_sound (cu : compilation_unit) (file : path) (lineno : Nat)
    (exact_line : exact_line_value_flag) (colno : Nat) (exact_col : exact_column_value_flag)
    (first last : Nat)
    (hok : find_lines cu file lineno exact_line colno exact_col = .ok (first, last)) :
    first < last ∧ last ≤ cu.lines.length ∧
    (∀ (j : Nat) (y : source_line), first ≤ j → j < last → cu.lines[j]? = some y →
      y.file = effective_file cu file ∧
      (lineno = 0 ∨ (exact_line = exact_line_value_flag.yes ∧ y.number = lineno) ∨
        (exact_line = exact_line_value_flag.no ∧ lineno ≤ y.number))) ∧
    (∃ x : source_line, cu.lines[first]? = some x ∧
      ((colno = 0 ∨ (exact_col = exact_column_value_flag.yes ∧ x.column = colno) ∨
          (exact_col = exact_column_value_flag.no ∧ colno ≤ x.column)) ∨
        (exact_col = exact_column_value_flag.no ∧ lineno < x.number))) := by
  obtain ⟨h1, h2, h3, x, hx, h4⟩ :=
    find_lines_range_matches cu file lineno exact_line colno exact_col first last hok
  refine ⟨h1, h2, ?_, x, hx, ?_⟩
  · intro j y hj1 hj2 hy
    obtain ⟨k1, k2⟩ := h3 j y hj1 hj2 hy
    exact ⟨k1, (line_match_spec y lineno exact_line).mp k2⟩
  · rcases h4 with h | h
    · exact Or.inl ((column_match_spec x colno exact_col).mp h)
    · exact Or.inr h

/-- The preceding property on a unit with one entry, for the query of line 12
and column 1. -/
theorem find_lines_range_sound_witness :
    find_lines one_line_unit [] 12 exact_line_value_flag.yes 1 exact_column_value_flag.yes =
      .ok (0, 1) ∧
    (∀ (j : Nat) (y : source_line), 0 ≤ j → j < 1 → one_line_unit.lines[j]? = some y →
      y.file = effective_file one_line_unit [] ∧
      ((12 : Nat) = 0 ∨
        (exact_line_value_flag.yes = exact_line_value_flag.yes ∧ y.number = 12) ∨
        (exact_line_value_flag.yes = exact_line_value_flag.no ∧ 12 ≤ y.number))) :=
  have h : find_lines one_line_unit [] 12 exact_line_value_flag.yes 1
      exact_column_value_flag.yes = .ok (0, 1) := by decide
  ⟨h, (find_lines_range_sound one_line_unit [] 12 exact_line_value_flag.yes 1
    exact_column_value_flag.yes 0 1 h).2.2.1⟩

/-- C9, as stated, fails in three ways. Asked for the exact line 0, which
stands for any line, `find_lines` returns the entry of line 12, whose line
number is not 0. The only entry of `late_line_unit` has line 20 and column 2;
asked for the first line from 15 on and the first column from 4 on,
`find_lines` returns the range holding that entry, whose column is below 4.
The two entries of `two_column_unit` have line 10 and the columns 5 and 1;
asked for the exact line 10 and the exact column 5, `find_lines` returns the
range of both entries, the second of which has column 1: the second
`std::find_if_not` starts at the end of the entries of the line, where its
predicate is false, and moves nothing. -/
theorem find_lines_column_counterexample :
    (find_lines one_line_unit [] 0 exact_line_value_flag.yes 0 exact_column_value_flag.yes =
        .ok (0, 1) ∧
      ∃ y, one_line_unit.lines[0]? = some y ∧ y.number ≠ 0) ∧
    (find_lines late_line_unit [] 15 exact_line_value_flag.no 4 exact_column_value_flag.no =
        .ok (0, 1) ∧
      ∃ y, late_line_unit.lines[0]? = some y ∧ y.column < 4) ∧
    (find_lines two_column_unit [] 10 exact_line_value_flag.yes 5 exact_column_value_flag.yes =
        .ok (0, 2) ∧
      ∃ y, two_column_unit.lines[1]? = some y ∧ y.column ≠ 5) := by
  refine ⟨⟨by decide, ⟨_, rfl, by decide⟩⟩, ⟨by decide, ⟨_, rfl, by decide⟩⟩,
    ⟨by decide, ⟨_, rfl, by decide⟩⟩⟩

/-! ## Lowest address of a line range -/

/-- C10 (amended): for every non-empty line range `[first, last)` whose
entries are in non-decreasing order of address and, when `new_statement = yes`,
one of whose entries is marked `new_statement`, `lowest_address_line` returns
an entry of the range that is among the entries considered (all entries when
`new_statement = no`, the marked ones when `new_statement = yes`) and whose
address is the lowest among them. -/
theorem lowest_address_line_lowest (lines : List source_line) (first last : Nat)
    (new_stmt : new_statement_flag)
    (hrange : first < last) (hlast : last ≤ lines.length)
    (hsorted : ∀ (i j : Nat) (x y : source_line), first ≤ i → i ≤ j → j < last →
      lines[i]? = some x → lines[j]? = some y → x.address ≤ y.address)
    (hsome : new_stmt = new_statement_flag.yes →
      ∃ (j : Nat) (y : source_line), first ≤ j ∧ j < last ∧ lines[j]? = some y ∧
        y.new_statement = true) :
    ∃ (i : Nat) (x : source_line),
      lowest_address_line lines first last new_stmt = .ok i ∧
      first ≤ i ∧ i < last ∧ lines[i]? = some x ∧
      (new_stmt = new_statement_flag.yes → x.new_statement = true) ∧
      ∀ (j : Nat) (y : source_line), first ≤ j → j < last → lines[j]? = some y →
        (new_stmt = new_statement_flag.yes → y.new_statement = true) →
        x.address ≤ y.address := by
  cases new_stmt with
  | no =>
    have hlt : first < lines.length := by omega
    refine ⟨first, lines[first], by simp [lowest_address_line], le_refl _, hrange,
      List.getElem?_eq_getElem hlt, fun h => (by cases h), ?_⟩
    intro j y hj1 hj2 hy _
    exact hsorted first j _ y (le_refl _) hj1 hj2 (List.getElem?_eq_getElem hlt) hy
  | yes =>
    obtain ⟨j0, y0, hj1, hj2, hy0, hmark⟩ := hsome rfl
    obtain ⟨s1, s2, s3, s4⟩ := find_if_spec (fun line : source_line => line.new_statement)
      lines first last (le_of_lt hrange) hlast
    have hlt : find_if (fun line : source_line => line.new_statement) lines first last < last := by
      by_contra hge
      have := s3 j0 y0 hj1 (by omega) hy0
      simp only at this
      rw [this] at hmark; cases hmark
    obtain ⟨x, hx, hpx⟩ := s4 hlt
    refine ⟨_, x, ?_, s1, hlt, hx, fun _ => hpx, ?_⟩
    · simp only [lowest_address_line, reduceCtorEq, if_false]
      rw [if_neg (by omega)]
    · intro j y hj1 hj2 hy hym
      have hle : find_if (fun line : source_line => line.new_statement) lines first last ≤ j := by
        by_contra hgt
        have := s3 j y hj1 (by omega) hy
        simp only at this
        rw [this] at hym
        exact absurd (hym rfl) (by decide)
      exact hsorted _ j x y s1 hle hj2 hx hy

/-- The preceding property on three entries with increasing addresses, the
first of which starts no statement. -/
theorem lowest_address_line_lowest_witness :
    ∃ (i : Nat) (x : source_line),
      lowest_address_line increasing_lines 0 3 new_statement_flag.yes = .ok i ∧
      0 ≤ i ∧ i < 3 ∧ increasing_lines[i]? = some x ∧
      (new_statement_flag.yes = new_statement_flag.yes → x.new_statement = true) ∧
      ∀ (j : Nat) (y : source_line), 0 ≤ j → j < 3 → increasing_lines[j]? = some y →
        (new_statement_flag.yes = new_statement_flag.yes → y.new_statement = true) →
        x.address ≤ y.address :=
  lowest_address_line_lowest increasing_lines 0 3 new_statement_flag.yes (by decide) (by decide)
    (by
      intro i j x y _ hij hj hx hy
      have hi : i < 3 := by omega
      interval_cases j <;> interval_cases i <;>
        simp [increasing_lines] at hx hy <;> subst hx <;> subst hy <;> simp at hij ⊢)
    (fun _ => ⟨1, _, by decide, by decide, rfl, rfl⟩)

/-- C10, as stated, fails: on a range of two entries with addresses 5 and 3
and `new_statement = no`, `lowest_address_line` returns the first entry, whose
address is 5, not the lowest of the range. -/
theorem lowest_address_line_counterexample :
    lowest_address_line decreasing_lines 0 2 new_statement_flag.no = .ok 0 ∧
    decreasing_lines[0]?.map (fun l => l.address) = some 5 ∧
    decreasing_lines[1]?.map (fun l => l.address) = some 3 := by
  decide

/-! ## Highest address of a line range -/

theorem marked_at_iff_getD (lines : List source_line) (j : Nat) (hj : j < lines.length) :
    marked_at lines j ↔ (lines.getD j default).new_statement = true := by
  unfold marked_at
  have hget : lines[j]? = some lines[j] := List.getElem?_eq_getElem hj
  rw [getD_of_getElem? lines j lines[j] default hget]
  constructor
  · rintro ⟨y, hy, hm⟩
    rw [hget] at hy
    rw [Option.some.inj hy]; exact hm
  · intro h; exact ⟨_, hget, h⟩

/-- The loop of `highest_address_line`: `found` ends as the last index of the
range whose entry starts a statement, or keeps its initial value when there is
none. -/
theorem highest_loop_spec (lines : List source_line) (first init : Nat) (n : Nat)
    (hlen : first + n ≤ lines.length) :
    ((List.range' first n).foldl
        (fun found it => if (lines.getD it default).new_statement then it else found) init = init ∧
      ∀ j, first ≤ j → j < first + n → ¬ marked_at lines j) ∨
    (first ≤ (List.range' first n).foldl
        (fun found it => if (lines.getD it default).new_statement then it else found) init ∧
      (List.range' first n).foldl
        (fun found it => if (lines.getD it default).new_statement then it else found) init
        < first + n ∧
      marked_at lines ((List.range' first n).foldl
        (fun found it => if (lines.getD it default).new_statement then it else found) init) ∧
      ∀ j, (List.range' first n).foldl
        (fun found it => if (lines.getD it default).new_statement then it else found) init < j →
        j < first + n → ¬ marked_at lines j) := by
  induction n with
  | zero =>
    left
    exact ⟨rfl, fun j h1 h2 => by omega⟩
  | succ n ih =>
    rw [List.range'_concat, List.foldl_append]
    simp only [List.foldl_cons, List.foldl_nil, Nat.one_mul]
    have hlt : first + n < lines.length := by omega
    by_cases hm : (lines.getD (first + n) default).new_statement = true
    · right
      simp only [hm, if_true]
      refine ⟨by omega, by omega, (marked_at_iff_getD lines _ hlt).mpr hm, ?_⟩
      intro j h1 h2
      omega
    · simp only [hm, if_false, Bool.false_eq_true]
      have hnm : ¬ marked_at lines (first + n) := by
        rw [marked_at_iff_getD lines _ hlt]; exact hm
      rcases ih (by omega) with ⟨h1, h2⟩ | ⟨h1, h2, h3, h4⟩
      · left
        refine ⟨h1, ?_⟩
        intro j hj1 hj2
        rcases Nat.lt_or_ge j (first + n) with h | h
        · exact h2 j hj1 h
        · have : j = first + n := by omega
          rw [this]; exact hnm
      · right
        refine ⟨h1, by omega, h3, ?_⟩
        intro j hj1 hj2
        rcases Nat.lt_or_ge j (first + n) with h | h
        · exact h4 j hj1 h
        · have : j = first + n := by omega
          rw [this]; exact hnm

/-- C11 (amended): for every non-empty line range `[first, last)` whose
entries are in non-decreasing order of address and, when `new_statement = yes`,
one of whose entries is marked `new_statement`, `highest_address_line` returns
an entry of the range that is among the entries considered (all entries when
`new_statement = no`, the marked ones when `new_statement = yes`) and whose
address is the highest among them. -/
theorem highest_address_line_highest (lines : List source_line) (first last : Nat)
    (new_stmt : new_statement_flag)
    (hrange : first < last) (hlast : last ≤ lines.length)
    (hsorted : ∀ (i j : Nat) (x y : source_line), first ≤ i → i ≤ j → j < last →
      lines[i]? = some x → lines[j]? = some y → x.address ≤ y.address)
    (hsome : new_stmt = new_statement_flag.yes →
      ∃ (j : Nat) (y : source_line), first ≤ j ∧ j < last ∧ lines[j]? = some y ∧
        y.new_statement = true) :
    ∃ (i : Nat) (x : source_line),
      highest_address_line lines first last new_stmt = .ok i ∧
      first ≤ i ∧ i < last ∧ lines[i]? = some x ∧
      (new_stmt = new_statement_flag.yes → x.new_statement = true) ∧
      ∀ (j : Nat) (y : source_line), first ≤ j → j < last → lines[j]? = some y →
        (new_stmt = new_statement_flag.yes → y.new_statement = true) →
        y.address ≤ x.address := by
  cases new_stmt with
  | no =>
    have hlt : last - 1 < lines.length := by omega
    have hidx : first + (last - first) - 1 = last - 1 := by omega
    refine ⟨last - 1, lines[last - 1], by simp [highest_address_line, hidx], by omega, by omega,
      List.getElem?_eq_getElem hlt, fun h => (by cases h), ?_⟩
    intro j y hj1 hj2 hy _
    exact hsorted j (last - 1) y _ hj1 (by omega) (by omega) hy (List.getElem?_eq_getElem hlt)
  | yes =>
    obtain ⟨j0, y0, hj1, hj2, hy0, hmark⟩ := hsome rfl
    have hn : first + (last - first) = last := by omega
    rcases highest_loop_spec lines first last (last - first) (by omega) with
      ⟨_, hnone⟩ | ⟨h1, h2, ⟨x, hx, hxm⟩, h4⟩
    · exact absurd ⟨y0, hy0, hmark⟩ (hnone j0 hj1 (by omega))
    · rw [hn] at h2 h4
      refine ⟨_, x, ?_, h1, h2, hx, fun _ => hxm, ?_⟩
      · simp only [highest_address_line, reduceCtorEq, if_false]
        rw [if_neg (by omega)]
      · intro j y hj1 hj2 hy hym
        have hle : j ≤ (List.range' first (last - first)).foldl
            (fun found it => if (lines.getD it default).new_statement then it else found)
            last := by
          by_contra hgt
          exact h4 j (by omega) hj2 ⟨y, hy, hym rfl⟩
        exact hsorted j _ y x hj1 hle h2 hy hx

/-- The preceding property on three entries with increasing addresses, the
first of which starts no statement. -/
theorem highest_address_line_highest_witness :
    ∃ (i : Nat) (x : source_line),
      highest_address_line increasing_lines 0 3 new_statement_flag.yes = .ok i ∧
      0 ≤ i ∧ i < 3 ∧ increasing_lines[i]? = some x ∧
      (new_statement_flag.yes = new_statement_flag.yes → x.new_statement = true) ∧
      ∀ (j : Nat) (y : source_line), 0 ≤ j → j < 3 → increasing_lines[j]? = some y →
        (new_statement_flag.yes = new_statement_flag.yes → y.new_statement = true) →
        y.address ≤ x.address :=
  highest_address_line_highest increasing_lines 0 3 new_statement_flag.yes (by decide) (by decide)
    (by
      intro i j x y _ hij hj hx hy
      have hi : i < 3 := by omega
      interval_cases j <;> interval_cases i <;>
        simp [increasing_lines] at hx hy <;> subst hx <;> subst hy <;> simp at hij ⊢)
    (fun _ => ⟨1, _, by decide, by decide, rfl, rfl⟩)

/-- C11, as stated, fails: on a range of two entries with addresses 5 and 3
and `new_statement = no`, `highest_address_line` returns the last entry, whose
address is 3, not the highest of the range. -/
theorem highest_address_line_counterexample :
    highest_address_line decreasing_lines 0 2 new_statement_flag.no = .ok 1 ∧
    decreasing_lines[1]?.map (fun l => l.address) = some 3 ∧
    decreasing_lines[0]?.map (fun l => l.address) = some 5 := by
  decide

/-- C12: on every line range `[first, last)` of a line table, with
`new_statement = yes`, `lowest_address_line` and `highest_address_line` fail
with `line_not_found` iff no entry of the range is marked `new_statement`;
`lowest_address_line` returns index `i` iff entry `i` is the first marked entry
of the range and `highest_address_line` returns index `i` iff entry `i` is the
last marked entry of the range, so the entry returned always starts a
statement. -/
theorem new_statement_line_lookup (lines : List source_line) (first last : Nat)
    (hrange : first ≤ last) (hlast : last ≤ lines.length) :
    (lowest_address_line lines first last new_statement_flag.yes =
        .error (error_code.util util_errc.line_not_found) ↔
      ∀ j, first ≤ j → j < last → ¬ marked_at lines j) ∧
    (∀ i, lowest_address_line lines first last new_statement_flag.yes = .ok i ↔
      first ≤ i ∧ i < last ∧ marked_at lines i ∧
        ∀ j, first ≤ j → j < i → ¬ marked_at lines j) ∧
    (highest_address_line lines first last new_statement_flag.yes =
        .error (error_code.util util_errc.line_not_found) ↔
      ∀ j, first ≤ j → j < last → ¬ marked_at lines j) ∧
    (∀ i, highest_address_line lines first last new_statement_flag.yes = .ok i ↔
      first ≤ i ∧ i < last ∧ marked_at lines i ∧
        ∀ j, i < j → j < last → ¬ marked_at lines j) := by
  obtain ⟨s1, s2, s3, s4⟩ := find_if_spec (fun line : source_line => line.new_statement)
    lines first last hrange hlast
  have hlow : lowest_address_line lines first last new_statement_flag.yes =
      if find_if (fun line : source_line => line.new_statement) lines first last = last
      then .error (error_code.util util_errc.line_not_found)
      else .ok (find_if (fun line : source_line => line.new_statement) lines first last) := by
    simp [lowest_address_line]
  have hhigh : highest_address_line lines first last new_statement_flag.yes =
      if (List.range' first (last - first)).foldl
          (fun found it => if (lines.getD it default).new_statement then it else found) last = last
      then .error (error_code.util util_errc.line_not_found)
      else .ok ((List.range' first (last - first)).foldl
          (fun found it => if (lines.getD it default).new_statement then it else found) last) := by
    simp [highest_address_line]
  have hn : first + (last - first) = last := by omega
  have hunmarked : ∀ j, first ≤ j →
      j < find_if (fun line : source_line => line.new_statement) lines first last →
      ¬ marked_at lines j := by
    rintro j hj1 hj2 ⟨y, hy, hm⟩
    have := s3 j y hj1 hj2 hy
    simp only at this
    rw [this] at hm; cases hm
  refine ⟨?_, ?_, ?_, ?_⟩
  · rw [hlow]
    constructor
    · intro h
      by_cases he : find_if (fun line : source_line => line.new_statement) lines first last = last
      · intro j hj1 hj2
        exact hunmarked j hj1 (by omega)
      · rw [if_neg he] at h; cases h
    · intro hnone
      rw [if_pos]
      by_contra he
      obtain ⟨x, hx, hpx⟩ := s4 (lt_of_le_of_ne s2 he)
      exact hnone _ s1 (lt_of_le_of_ne s2 he) ⟨x, hx, hpx⟩
  · intro i
    rw [hlow]
    constructor
    · intro h
      by_cases he : find_if (fun line : source_line => line.new_statement) lines first last = last
      · rw [if_pos he] at h; cases h
      · rw [if_neg he] at h
        have hi := Except.ok.inj h
        obtain ⟨x, hx, hpx⟩ := s4 (lt_of_le_of_ne s2 he)
        rw [hi] at hx s1 s2 he hunmarked
        exact ⟨s1, lt_of_le_of_ne s2 he, ⟨x, hx, hpx⟩, hunmarked⟩
    · rintro ⟨h1, h2, ⟨x, hx, hxm⟩, h4⟩
      have hfi := find_if_eq_of_first (fun line : source_line => line.new_statement) lines
        first last i x h1 h2 hlast hx hxm (by
          intro j y hj1 hj2 hy
          cases hym : y.new_statement
          · exact hym
          · exact absurd ⟨y, hy, hym⟩ (h4 j hj1 hj2))
      rw [hfi, if_neg (by omega)]
  · rw [hhigh]
    rcases highest_loop_spec lines first last (last - first) (by omega) with
      ⟨h1, hnone⟩ | ⟨h1, h2, h3, h4⟩
    · rw [hn] at hnone
      rw [if_pos h1]
      exact ⟨fun _ => hnone, fun _ => rfl⟩
    · rw [hn] at h2
      rw [if_neg (by omega)]
      constructor
      · intro h; cases h
      · intro hnone
        exact absurd h3 (hnone _ h1 h2)
  · intro i
    rw [hhigh]
    rcases highest_loop_spec lines first last (last - first) (by omega) with
      ⟨h1, hnone⟩ | ⟨h1, h2, h3, h4⟩
    · rw [hn] at hnone
      rw [if_pos h1]
      constructor
      · intro h; cases h
      · rintro ⟨k1, k2, k3, _⟩
        exact absurd k3 (hnone i k1 k2)
    · rw [hn] at h2 h4
      rw [if_neg (by omega)]
      constructor
      · intro h
        have hi := Except.ok.inj h
        rw [hi] at h1 h2 h3 h4
        exact ⟨h1, h2, h3, h4⟩
      · rintro ⟨k1, k2, k3, k4⟩
        congr 1
        rcases Nat.lt_trichotomy ((List.range' first (last - first)).foldl
          (fun found it => if (lines.getD it default).new_statement then it else found) last) i
          with hlt | heq | hgt
        · exact absurd k3 (h4 i hlt k2)
        · exact heq
        · exact absurd h3 (k4 _ hgt h2)

/-- The preceding property on three entries the first of which starts no
statement. -/
theorem new_statement_line_lookup_witness :
    (0 ≤ 3 ∧ 3 ≤ increasing_lines.length) ∧
    (lowest_address_line increasing_lines 0 3 new_statement_flag.yes = .ok 1 ↔
      0 ≤ 1 ∧ 1 < 3 ∧ marked_at increasing_lines 1 ∧
        ∀ j, 0 ≤ j → j < 1 → ¬ marked_at increasing_lines j) ∧
    (highest_address_line increasing_lines 0 3 new_statement_flag.yes = .ok 2 ↔
      0 ≤ 2 ∧ 2 < 3 ∧ marked_at increasing_lines 2 ∧
        ∀ j, 2 < j → j < 3 → ¬ marked_at increasing_lines j) :=
  ⟨⟨by decide, by decide⟩,
    (new_statement_line_lookup increasing_lines 0 3 (by decide) (by decide)).2.1 1,
    (new_statement_line_lookup increasing_lines 0 3 (by decide) (by decide)).2.2.2 2⟩

/-! ## Exact symbol lookup -/

/-- When every symbol demangles, the first search of the exact lookup is the
plain search with the predicate and leaves no error. -/
theorem find_if_exact_eq (demangle : demangler) (name : List Char) (l : List function_symbol) :
    ∀ it : Nat, (∀ sym ∈ l, ∃ d, demangle sym.name = .ok d) →
      find_if_exact demangle name l it = (it + l.findIdx (exact_pred demangle name), none) := by
  induction l with
  | nil => intro it _; rfl
  | cons sym rest ih =>
    intro it hall
    obtain ⟨d, hd⟩ := hall sym (List.mem_cons_self _ _)
    have hrest : ∀ s ∈ rest, ∃ d, demangle s.name = .ok d :=
      fun s hs => hall s (List.mem_cons_of_mem _ hs)
    simp only [find_if_exact, hd, List.findIdx_cons, exact_pred]
    by_cases h : remove_spaces d = remove_spaces name
    · simp [h]
    · have hb : (remove_spaces d == remove_spaces name) = false := by simpa using h
      simp only [hb, Bool.false_eq_true, if_false, cond_false]
      rw [ih (it + 1) hrest]
      congr 1
      omega

/-- The matches of a list split at the first of them. -/
theorem filter_at_findIdx {α : Type} (p : α → Bool) (m : List α) :
    (m.findIdx p = m.length → m.filter p = []) ∧
    (m.findIdx p < m.length →
      ∃ x, m[m.findIdx p]? = some x ∧ p x = true ∧
        m.filter p = x :: (m.drop (m.findIdx p + 1)).filter p) := by
  induction m with
  | nil => simp
  | cons a rest ih =>
    by_cases ha : p a = true
    · simp [List.findIdx_cons, ha]
    · have ha2 : p a = false := by simpa using ha
      simp only [List.findIdx_cons, ha2, cond_false, List.length_cons, Nat.add_right_cancel_iff,
        Nat.add_lt_add_iff_right, List.getElem?_cons_succ, List.drop_succ_cons,
        List.filter_cons_of_neg ha]
      exact ih

/-- The matches from index `k` on split at the first of them, which
`std::find_if` returns. -/
theorem filter_drop_find_if {α : Type} (p : α → Bool) (l : List α) (k : Nat)
    (hk : k ≤ l.length) :
    k ≤ find_if p l k l.length ∧
    (find_if p l k l.length = l.length → (l.drop k).filter p = []) ∧
    (find_if p l k l.length ≠ l.length →
      find_if p l k l.length < l.length ∧
      ∃ x, l[find_if p l k l.length]? = some x ∧ p x = true ∧
        (l.drop k).filter p = x :: (l.drop (find_if p l k l.length + 1)).filter p) := by
  have hfi : find_if p l k l.length = k + (l.drop k).findIdx p := by
    unfold find_if
    rw [List.take_of_length_le]
    simp
  have hlen : (l.drop k).length = l.length - k := List.length_drop _ _
  have hle := @List.findIdx_le_length _ p (l.drop k)
  obtain ⟨h1, h2⟩ := filter_at_findIdx p (l.drop k)
  rw [hfi]
  refine ⟨by omega, fun h => h1 (by omega), fun h => ?_⟩
  have hlt : (l.drop k).findIdx p < (l.drop k).length := by omega
  obtain ⟨x, hx, hpx, hf⟩ := h2 hlt
  refine ⟨by omega, x, ?_, hpx, ?_⟩
  · rw [← hx, List.getElem?_drop]
  · rw [hf, List.drop_drop]
    congr 2

/-- The loop over the further matches: the flags accumulate the bindings of
the matches from index `k` on. -/
theorem ambiguity_loop_spec (pred : function_symbol → Bool) (syms : List function_symbol) :
    ∀ (fuel k : Nat) (hs hw ha : Bool), k ≤ syms.length → syms.length - k ≤ fuel →
      ambiguity_loop pred syms fuel (find_if pred syms k syms.length) hs hw ha =
        (hs || ((syms.drop k).filter pred).any (fun sym => sym.binding == symbol_binding.local_),
          hw || ((syms.drop k).filter pred).any (fun sym => sym.binding == symbol_binding.weak),
          ha || !((syms.drop k).filter pred).isEmpty) := by
  intro fuel
  induction fuel with
  | zero =>
    intro k hs hw ha hk hfuel
    have hkn : k = syms.length := by omega
    subst hkn
    simp [ambiguity_loop]
  | succ fuel ih =>
    intro k hs hw ha hk hfuel
    obtain ⟨h0, h1, h2⟩ := filter_drop_find_if pred syms k hk
    by_cases hend : find_if pred syms k syms.length = syms.length
    · rw [h1 hend]
      simp [ambiguity_loop, hend]
    · obtain ⟨hlt, x, hx, hpx, hf⟩ := h2 hend
      rw [hf]
      simp only [ambiguity_loop, hend, if_false, getD_of_getElem? _ _ _ _ hx]
      rw [ih (find_if pred syms k syms.length + 1) _ _ _ (by omega) (by omega)]
      simp [Bool.or_assoc]

/-- The outcome of the exact lookup, when every symbol demangles, by the list
of the symbols that satisfy the predicate. -/
theorem exact_impl_by_matches (demangle : demangler) (syms : List function_symbol)
    (name : List Char) (hall : ∀ sym ∈ syms, ∃ d, demangle sym.name = .ok d) :
    find_function_symbol_exact_impl demangle syms name =
      if (syms.filter (exact_pred demangle name)).length = 0 then
        .error (error_code.util util_errc.symbol_not_found)
      else if (syms.filter (exact_pred demangle name)).length = 1 then
        .ok (syms.findIdx (exact_pred demangle name))
      else .error (error_code.util (ambiguity_cause (syms.filter (exact_pred demangle name)))) := by
  obtain ⟨h1, h2⟩ := filter_at_findIdx (exact_pred demangle name) syms
  have hle := @List.findIdx_le_length _ (exact_pred demangle name) syms
  simp only [find_function_symbol_exact_impl, find_if_exact_eq demangle name syms 0 hall,
    Nat.zero_add]
  by_cases hend : syms.findIdx (exact_pred demangle name) = syms.length
  · simp [hend, h1 hend]
  · obtain ⟨x, hx, hpx, hf⟩ := h2 (by omega)
    rw [if_neg hend, hf]
    simp only [getD_of_getElem? _ _ _ _ hx]
    rw [ambiguity_loop_spec (exact_pred demangle name) syms syms.length
      (syms.findIdx (exact_pred demangle name) + 1) _ _ _ (by omega) (by omega)]
    cases hm : (syms.drop (syms.findIdx (exact_pred demangle name) + 1)).filter
        (exact_pred demangle name) with
    | nil => simp
    | cons y rest =>
      simp only [Bool.false_or, List.isEmpty_cons, Bool.not_false, if_true, List.length_cons,
        ambiguity_cause, List.any_cons]
      have hne0 : ¬ (rest.length + 1 + 1 = 0) := by omega
      have hne1 : ¬ (rest.length + 1 + 1 = 1) := by omega
      rw [if_neg hne0, if_neg hne1]
      by_cases hw : (x.binding == symbol_binding.weak ||
          (y.binding == symbol_binding.weak ||
            rest.any (fun sym => sym.binding == symbol_binding.weak))) = true
      · simp only [hw, if_true]
      · simp only [hw, if_false, Bool.false_eq_true]
        by_cases hl : (x.binding == symbol_binding.local_ ||
            (y.binding == symbol_binding.local_ ||
              rest.any (fun sym => sym.binding == symbol_binding.local_))) = true
        · simp only [hl, if_true]
        · simp only [hl, if_false, Bool.false_eq_true]

/-- The function `remove_spaces` removes the whitespace characters of a string
and nothing else. -/
theorem remove_spaces_eq_without_whitespace (str : List Char) :
    remove_spaces str = without_whitespace str := by
  induction str with
  | nil => rfl
  | cons c rest ih =>
    unfold remove_spaces at ih ⊢
    simp only [List.filter_cons, without_whitespace, ih]
    by_cases hc : c ∈ whitespace_characters
    · have hs : isspace c = true := by
        simp only [whitespace_characters, List.mem_cons, List.mem_singleton, List.not_mem_nil,
          or_false] at hc
        rcases hc with h | h | h | h | h | h <;> rw [h] <;> decide
      simp [hc, hs]
    · have hs : isspace c = false := by
        simp only [whitespace_characters, List.mem_cons, List.mem_singleton, List.not_mem_nil,
          or_false, not_or] at hc
        simp [isspace, hc]
      simp [hc, hs]

theorem exact_pred_eq_demangled_equal (demangle : demangler) (name : List Char)
    (sym : function_symbol) (h : ∃ d, demangle sym.name = .ok d) :
    exact_pred demangle name sym = demangled_equal demangle name sym := by
  obtain ⟨d, hd⟩ := h
  simp [exact_pred, demangled_equal, hd, remove_spaces_eq_without_whitespace]

theorem ambiguity_cause_ne_not_found (ms : List function_symbol) :
    ambiguity_cause ms ≠ util_errc.symbol_not_found := by
  unfold ambiguity_cause
  split
  · decide
  · split <;> decide

/-- C13: for every object info and every non-empty name, when every symbol
demangles, the exact lookup `find_function_symbol(oi, name, exact = yes)` fails
with `symbol_not_found` iff no symbol has a demangled name equal to the name
(whitespace removed from both), returns index `i` iff exactly one symbol has
and it is the symbol of index `i`, and when two or more have, fails with the
ambiguity cause given by priority: weak if one of the matching symbols is weak,
else static if one of them is local, else the plain ambiguity. With an empty
name the lookup fails with `invalid_argument`. -/
theorem find_function_symbol_exact_outcomes :
    (∀ (demangle : demangler) (oi : object_info) (name : List Char)
        (no_suffix : ignore_symbol_suffix_flag),
      name ≠ [] → (∀ sym ∈ oi.function_symbols, ∃ d, demangle sym.name = .ok d) →
      (find_function_symbol demangle oi name exact_symbol_name_flag.yes no_suffix =
          .error (error_code.util util_errc.symbol_not_found) ↔
        ∀ sym ∈ oi.function_symbols, demangled_equal demangle name sym = false) ∧
      (∀ i, find_function_symbol demangle oi name exact_symbol_name_flag.yes no_suffix = .ok i ↔
        oi.function_symbols.countP (demangled_equal demangle name) = 1 ∧
        ∃ sym, oi.function_symbols[i]? = some sym ∧ demangled_equal demangle name sym = true) ∧
      (2 ≤ oi.function_symbols.countP (demangled_equal demangle name) →
        find_function_symbol demangle oi name exact_symbol_name_flag.yes no_suffix =
          .error (error_code.util
            (ambiguity_cause (oi.function_symbols.filter (demangled_equal demangle name)))))) ∧
    (∀ (demangle : demangler) (oi : object_info) (exact_name : exact_symbol_name_flag)
        (no_suffix : ignore_symbol_suffix_flag),
      find_function_symbol demangle oi [] exact_name no_suffix =
        .error error_code.invalid_argument) := by
  refine ⟨?_, fun _ _ _ _ => rfl⟩
  intro demangle oi name no_suffix hne hall
  have hempty : name.isEmpty = false := by
    cases name with
    | nil => exact absurd rfl hne
    | cons a t => rfl
  have hres : find_function_symbol demangle oi name exact_symbol_name_flag.yes no_suffix =
      find_function_symbol_exact_impl demangle oi.function_symbols name := by
    simp [find_function_symbol, hempty, find_function_symbol_exact]
  have hfilter : oi.function_symbols.filter (exact_pred demangle name) =
      oi.function_symbols.filter (demangled_equal demangle name) :=
    List.filter_congr (fun sym hs => exact_pred_eq_demangled_equal demangle name sym (hall sym hs))
  have hcount : oi.function_symbols.countP (demangled_equal demangle name) =
      (oi.function_symbols.filter (exact_pred demangle name)).length := by
    rw [hfilter, List.countP_eq_length_filter]
  have hcountp : oi.function_symbols.countP (exact_pred demangle name) =
      (oi.function_symbols.filter (exact_pred demangle name)).length :=
    List.countP_eq_length_filter _ _
  have hzero : (oi.function_symbols.filter (exact_pred demangle name)).length = 0 ↔
      ∀ sym ∈ oi.function_symbols, demangled_equal demangle name sym = false := by
    rw [← hcount, List.countP_eq_zero]
    constructor
    · intro h sym hs; simpa using h sym hs
    · intro h sym hs; simpa using h sym hs
  rw [hres, exact_impl_by_matches demangle oi.function_symbols name hall, hcount, ← hfilter]
  rcases Nat.lt_trichotomy (oi.function_symbols.filter (exact_pred demangle name)).length 1
    with hc | hc | hc
  · have hc0 : (oi.function_symbols.filter (exact_pred demangle name)).length = 0 := by omega
    rw [if_pos hc0]
    refine ⟨⟨fun _ => hzero.mp hc0, fun _ => rfl⟩, ?_, fun h => (by omega)⟩
    intro i
    exact ⟨fun h => (by cases h), fun h => (by omega)⟩
  · rw [if_neg (by omega), if_pos hc]
    refine ⟨⟨fun h => (by cases h), fun h => ?_⟩, ?_, fun h => (by omega)⟩
    · have := hzero.mpr h
      omega
    · intro i
      have hlt : oi.function_symbols.findIdx (exact_pred demangle name) <
          oi.function_symbols.length := by
        apply lt_of_le_of_ne (List.findIdx_le_length _)
        intro heq
        have := (findIdx_eq_length_iff_countP _ _).mp heq
        omega
      constructor
      · intro h
        have hi := Except.ok.inj h
        subst hi
        have hget := List.getElem?_eq_getElem hlt
        refine ⟨hc, _, hget, ?_⟩
        have hm := List.findIdx_getElem (p := exact_pred demangle name) (w := hlt)
        rw [← exact_pred_eq_demangled_equal demangle name _ (hall _ (List.getElem?_mem hget))]
        exact hm
      · rintro ⟨_, sym, hsym, hq⟩
        have hp : exact_pred demangle name sym = true := by
          rw [exact_pred_eq_demangled_equal demangle name sym (hall sym (List.getElem?_mem hsym))]
          exact hq
        rw [findIdx_unique (exact_pred demangle name) oi.function_symbols i sym
          (by omega) hsym hp]
  · rw [if_neg (by omega), if_neg (by omega)]
    refine ⟨⟨fun h => ?_, fun h => ?_⟩, ?_, fun _ => rfl⟩
    · exfalso
      injection h with h1
      injection h1 with h2
      exact ambiguity_cause_ne_not_found _ h2
    · have := hzero.mpr h
      omega
    · intro i
      exact ⟨fun h => (by cases h), fun h => (by omega)⟩

/-- The preceding property on an object whose symbols are named `f(int, int)`,
`g()` and `f (int,int)`, the last of them weak, for the name `f( int, int )`:
the first and the last symbol equal the name once whitespace is removed, and
the lookup reports the ambiguity of a weak symbol. -/
theorem find_function_symbol_exact_outcomes_witness :
    ("f( int, int )".toList ≠ [] ∧
      (∀ sym ∈ spaced_symbol_info.function_symbols, ∃ d, example_demangler sym.name = .ok d) ∧
      spaced_symbol_info.function_symbols.countP
        (demangled_equal example_demangler "f( int, int )".toList) = 2 ∧
      ambiguity_cause (spaced_symbol_info.function_symbols.filter
        (demangled_equal example_demangler "f( int, int )".toList)) =
          util_errc.symbol_ambiguous_weak) ∧
    find_function_symbol example_demangler spaced_symbol_info "f( int, int )".toList
        exact_symbol_name_flag.yes ignore_symbol_suffix_flag.yes =
      .error (error_code.util
        (ambiguity_cause (spaced_symbol_info.function_symbols.filter
          (demangled_equal example_demangler "f( int, int )".toList)))) :=
  have h1 : "f( int, int )".toList ≠ [] := by decide
  have h2 : ∀ sym ∈ spaced_symbol_info.function_symbols,
      ∃ d, example_demangler sym.name = .ok d := by
    intro sym _
    unfold example_demangler
    split
    · exact ⟨_, rfl⟩
    · exact ⟨_, rfl⟩
  have h3 : spaced_symbol_info.function_symbols.countP
      (demangled_equal example_demangler "f( int, int )".toList) = 2 := by decide
  have h4 : ambiguity_cause (spaced_symbol_info.function_symbols.filter
      (demangled_equal example_demangler "f( int, int )".toList)) =
        util_errc.symbol_ambiguous_weak := by decide
  ⟨⟨h1, h2, h3, h4⟩,
    (find_function_symbol_exact_outcomes.1 example_demangler spaced_symbol_info
      "f( int, int )".toList ignore_symbol_suffix_flag.yes h1 h2).2.2 (by rw [h3])⟩

/-! ## Prefix symbol lookup -/

/-- C14: the only symbol of the object is the mangled name `_Z3foov`, which
demangles to `foo()`. The name `foo` is a prefix of the demangled name, so the
symbol is the one candidate of the claim, and the lookup with
`exact_name = no` fails with `no_matches`; the name `_Z3` is a prefix of the
mangled name only, no symbol is a candidate of the claim, and the lookup
returns the symbol: `is_match` hands the mangled name to `is_match_demangled`. -/
theorem is_match_compares_mangled_name :
    mangled_symbol_info.function_symbols.countP
      (demangled_starts_with example_demangler "foo".toList) = 1 ∧
    find_function_symbol example_demangler mangled_symbol_info "foo".toList
        exact_symbol_name_flag.no ignore_symbol_suffix_flag.yes =
      .error (error_code.util util_errc.no_matches) ∧
    mangled_symbol_info.function_symbols.countP
      (demangled_starts_with example_demangler "_Z3".toList) = 0 ∧
    find_function_symbol example_demangler mangled_symbol_info "_Z3".toList
        exact_symbol_name_flag.no ignore_symbol_suffix_flag.yes = .ok 0 := by
  decide

/-! ## Function of a symbol -/

theorem find_if_ne_length_eq_any {α : Type} (p : α → Bool) (l : List α) :
    (find_if p l 0 l.length != l.length) = l.any p := by
  rw [find_if_zero]
  cases hany : l.any p
  · have hall : ∀ x ∈ l, p x = false := by
      intro x hx
      have := List.any_eq_false.mp hany x hx
      simpa using this
    have := List.findIdx_eq_length.mpr hall
    simp [this]
  · obtain ⟨x, hx, hpx⟩ := List.any_eq_true.mp hany
    have hlt := List.findIdx_lt_length_of_exists ⟨x, hx, hpx⟩
    simp only [bne_iff_ne, ne_eq]
    omega

/-- The search of `find_function(cu, sym)` is the search for the first function
that matches the symbol. -/
theorem find_function_cu_sym_eq (cu : compilation_unit) (sym : function_symbol) :
    find_function_cu_sym cu sym =
      if find_if (symbol_matches_function sym) cu.funcs 0 cu.funcs.length = cu.funcs.length
      then .error (error_code.util util_errc.function_not_found)
      else .ok (find_if (symbol_matches_function sym) cu.funcs 0 cu.funcs.length) := by
  unfold find_function_cu_sym
  by_cases hb : sym.binding = symbol_binding.local_
  · have hpred : (fun (fn : function) =>
        if (!fn.is_static) = true then false
        else
          match fn.addresses with
          | none => false
          | some rngs =>
            find_if (fun (rng : contiguous_range) => rng.low_pc == sym.address) rngs 0
              rngs.length != rngs.length) = symbol_matches_function sym := by
      funext fn
      unfold symbol_matches_function
      rw [if_pos hb]
      cases hs : fn.is_static
      · simp
      · cases ha : fn.addresses with
        | none => simp
        | some rngs => simp [find_if_ne_length_eq_any]
    simp only [hb, if_true, hpred]
  · have hpred : (fun (af : function) =>
        if af.is_static = true then false else af.linkage_name == some sym.name) =
        symbol_matches_function sym := by
      funext af
      unfold symbol_matches_function
      rw [if_neg hb]
      cases hs : af.is_static <;> simp
    simp only [hb, if_false, find_function_by_linkage_name_mangled, hpred]

/-- C15: for every compilation unit and every function symbol,
`find_function(cu, sym)` returns index `i` iff function `i` of the unit is the
first that matches the symbol, and fails with `function_not_found` iff no
function of the unit matches it; a function matches a symbol of local binding
when it is static and one of its address ranges has the address of the symbol
as `low_pc`, and it matches any other symbol when it is not static and its
linkage name is the name of the symbol. -/
theorem find_function_of_symbol (cu : compilation_unit) (sym : function_symbol) :
    (find_function_cu_sym cu sym = .error (error_code.util util_errc.function_not_found) ↔
      ∀ f ∈ cu.funcs, symbol_matches_function sym f = false) ∧
    (∀ i, find_function_cu_sym cu sym = .ok i ↔
      ∃ f, cu.funcs[i]? = some f ∧ symbol_matches_function sym f = true ∧
        ∀ (j : Nat) (g : function), j < i → cu.funcs[j]? = some g →
          symbol_matches_function sym g = false) ∧
    (∀ f : function, symbol_matches_function sym f = true ↔
      (sym.binding = symbol_binding.local_ ∧ f.is_static = true ∧
        ∃ rngs, f.addresses = some rngs ∧ ∃ rng ∈ rngs, rng.low_pc = sym.address) ∨
      (sym.binding ≠ symbol_binding.local_ ∧ f.is_static = false ∧
        f.linkage_name = some sym.name)) := by
  obtain ⟨s1, s2, s3, s4⟩ := find_if_spec (symbol_matches_function sym) cu.funcs 0
    cu.funcs.length (Nat.zero_le _) (le_refl _)
  rw [find_function_cu_sym_eq]
  refine ⟨?_, ?_, ?_⟩
  · constructor
    · intro h
      by_cases he : find_if (symbol_matches_function sym) cu.funcs 0 cu.funcs.length =
          cu.funcs.length
      · intro f hf
        obtain ⟨j, hj⟩ := List.getElem?_of_mem hf
        have hjlt := getElem?_lt_length _ _ _ hj
        exact s3 j f (Nat.zero_le _) (by omega) hj
      · rw [if_neg he] at h; cases h
    · intro hnone
      rw [if_pos]
      exact find_if_eq_last _ _ _ _ (Nat.zero_le _) (le_refl _)
        (fun j y _ _ hy => hnone y (List.getElem?_mem hy))
  · intro i
    constructor
    · intro h
      by_cases he : find_if (symbol_matches_function sym) cu.funcs 0 cu.funcs.length =
          cu.funcs.length
      · rw [if_pos he] at h; cases h
      · rw [if_neg he] at h
        have hi := Except.ok.inj h
        obtain ⟨x, hx, hpx⟩ := s4 (lt_of_le_of_ne s2 he)
        rw [hi] at hx s3
        exact ⟨x, hx, hpx, fun j g hj hg => s3 j g (Nat.zero_le _) hj hg⟩
    · rintro ⟨f, hf, hpf, hbefore⟩
      have hlt := getElem?_lt_length _ _ _ hf
      have hfi := find_if_eq_of_first (symbol_matches_function sym) cu.funcs 0 cu.funcs.length
        i f (Nat.zero_le _) hlt (le_refl _) hf hpf (fun j y _ hj hy => hbefore j y hj hy)
      rw [hfi, if_neg (by omega)]
  · intro f
    unfold symbol_matches_function
    by_cases hb : sym.binding = symbol_binding.local_
    · rw [if_pos hb]
      simp only [Bool.and_eq_true, List.any_eq_true, beq_iff_eq, hb, true_and, ne_eq,
        not_true_eq_false, false_and, or_false]
      constructor
      · rintro ⟨h1, rng, hr, ha⟩
        cases hadd : f.addresses with
        | none => rw [hadd] at hr; simp at hr
        | some rngs =>
          rw [hadd] at hr
          exact ⟨h1, rngs, rfl, rng, by simpa using hr, ha⟩
      · rintro ⟨h1, rngs, hr, rng, hm, ha⟩
        exact ⟨h1, rng, by rw [hr]; simpa using hm, ha⟩
    · rw [if_neg hb]
      simp [hb]

end tep.dbg

namespace nrgprf

/-! ## Hybrid reader -/

theorem error_eq_success_of_not_to_bool (e : error) (h : e.to_bool = false) :
    e = error.success := by
  cases e with
  | mk code =>
    simp only [error.to_bool, bne_eq_false_iff_eq] at h
    simp [error.success, h]

theorem hybrid_read_all_single (r : reader) (s : sample) :
    hybrid_reader_tp.read_all ⟨[r]⟩ s =
      ((r.call s).1, (r.call s).2.1, ⟨[(r.call s).2.2]⟩) := by
  simp only [hybrid_reader_tp.read_all, hybrid_reader_tp.caller]
  by_cases h : (r.call s).1.to_bool = true
  · simp [h]
  · have h2 : (r.call s).1.to_bool = false := by simpa using h
    simp [h2, ← error_eq_success_of_not_to_bool _ h2]

theorem hybrid_read_all_cons (first next : reader) (rest : List reader) (s : sample) :
    hybrid_reader_tp.read_all ⟨first :: next :: rest⟩ s =
      if (first.call s).1.to_bool then
        ((first.call s).1, (first.call s).2.1, ⟨(first.call s).2.2 :: next :: rest⟩)
      else
        ((hybrid_reader_tp.read_all ⟨next :: rest⟩ (first.call s).2.1).1,
          (hybrid_reader_tp.read_all ⟨next :: rest⟩ (first.call s).2.1).2.1,
          ⟨(first.call s).2.2 ::
            (hybrid_reader_tp.read_all ⟨next :: rest⟩ (first.call s).2.1).2.2._readers⟩) := by
  simp only [hybrid_reader_tp.read_all, hybrid_reader_tp.caller]
  by_cases h : (first.call s).1.to_bool = true
  · simp [h]
  · have h2 : (first.call s).1.to_bool = false := by simpa using h
    simp only [h2, Bool.false_eq_true, if_false]
    by_cases h3 : (hybrid_reader_tp.caller (first.call s).2.1 next rest).1.to_bool = true
    · simp [h3]
    · have h4 : (hybrid_reader_tp.caller (first.call s).2.1 next rest).1.to_bool = false := by
        simpa using h3
      simp [h4, ← error_eq_success_of_not_to_bool _ h4]

/-- The hybrid `read_all` on a list all of whose sub-readers succeed in turn
succeeds with their sample; on any other list it returns an error. -/
theorem hybrid_read_all_by_order (l : List reader) :
    ∀ s : sample,
      (∀ s1 l1, read_in_order l s = some (s1, l1) →
        hybrid_reader_tp.read_all ⟨l⟩ s = (error.success, s1, ⟨l1⟩)) ∧
      (read_in_order l s = none → (hybrid_reader_tp.read_all ⟨l⟩ s).1.to_bool = true) := by
  induction l with
  | nil =>
    intro s
    refine ⟨?_, fun h => (by simp [read_in_order] at h)⟩
    intro s1 l1 h
    simp only [read_in_order, Option.some.injEq, Prod.mk.injEq] at h
    rw [← h.1, ← h.2]
    rfl
  | cons first rest ih =>
    intro s
    cases rest with
    | nil =>
      rw [hybrid_read_all_single]
      simp only [read_in_order]
      by_cases h : (first.call s).1.to_bool = true
      · simp [h]
      · have h2 : (first.call s).1.to_bool = false := by simpa using h
        simp only [h2, Bool.false_eq_true, if_false, Option.some.injEq, Prod.mk.injEq,
          reduceCtorEq, false_implies, and_true]
        rintro s1 l1 ⟨e1, e2⟩
        rw [← e1, ← e2, error_eq_success_of_not_to_bool _ h2]
        exact ⟨rfl, rfl, rfl⟩
    | cons next rest =>
      rw [hybrid_read_all_cons]
      obtain ⟨ih1, ih2⟩ := ih (first.call s).2.1
      by_cases h : (first.call s).1.to_bool = true
      · simp [read_in_order, h]
      · have h2 : (first.call s).1.to_bool = false := by simpa using h
        rw [if_neg h]
        cases hro : read_in_order (next :: rest) (first.call s).2.1 with
        | none =>
          refine ⟨?_, fun _ => ih2 hro⟩
          intro s1 l1 hh
          rw [read_in_order] at hh
          simp [h2, hro] at hh
        | some res =>
          obtain ⟨s2, l2⟩ := res
          have hrd := ih1 s2 l2 hro
          refine ⟨?_, ?_⟩
          · intro s1 l1 hh
            rw [read_in_order] at hh
            simp only [h2, Bool.false_eq_true, if_false, hro, Option.some.injEq,
              Prod.mk.injEq] at hh
            rw [hrd, ← hh.1, ← hh.2]
          · intro hh
            rw [read_in_order] at hh
            simp [h2, hro] at hh

/-- The hybrid `read_all` on a list whose sub-readers succeed in turn up to
one that fails returns the error of that one and leaves the later ones as they
are. -/
theorem hybrid_read_all_first_failure (pre : List reader) :
    ∀ (r : reader) (post : List reader) (s s1 : sample) (pre1 : List reader),
      read_in_order pre s = some (s1, pre1) → (r.call s1).1.to_bool = true →
      hybrid_reader_tp.read_all ⟨pre ++ r :: post⟩ s =
        ((r.call s1).1, (r.call s1).2.1, ⟨pre1 ++ (r.call s1).2.2 :: post⟩) := by
  induction pre with
  | nil =>
    intro r post s s1 pre1 h hfail
    simp only [read_in_order, Option.some.injEq, Prod.mk.injEq] at h
    obtain ⟨hs, hp⟩ := h
    subst hs
    subst hp
    cases post with
    | nil => simp [hybrid_read_all_single]
    | cons q qs => simp [hybrid_read_all_cons, hfail]
  | cons p ps ih =>
    intro r post s s1 pre1 h hfail
    rw [read_in_order] at h
    by_cases hp : (p.call s).1.to_bool = true
    · simp [hp] at h
    · have hp2 : (p.call s).1.to_bool = false := by simpa using hp
      simp only [hp2, Bool.false_eq_true, if_false] at h
      cases hro : read_in_order ps (p.call s).2.1 with
      | none => simp [hro] at h
      | some res =>
        obtain ⟨s2, l2⟩ := res
        simp only [hro, Option.some.injEq, Prod.mk.injEq] at h
        have hih := ih r post (p.call s).2.1 s2 l2 hro (by rw [h.1]; exact hfail)
        have hshape : ∃ next rest, ps ++ r :: post = next :: rest := by
          cases ps with
          | nil => exact ⟨r, post, rfl⟩
          | cons q qs => exact ⟨q, qs ++ r :: post, rfl⟩
        obtain ⟨next, rest, hnr⟩ := hshape
        rw [List.cons_append, hnr, hybrid_read_all_cons, if_neg hp, ← hnr, hih, ← h.2, h.1]
        rfl

/-- C16: for every list of sub-readers and every sample, the `read_all` of the
hybrid reader calls the `read_all` of its sub-readers in the order of
declaration on the same sample: when the sub-readers before `r` succeed in
turn and `r` fails, it returns the error of `r` and the sub-readers after `r`
are left as they are; when all sub-readers succeed in turn it returns success
with the sample they leave; it returns success iff every sub-reader succeeds. -/
theorem hybrid_read_all_in_order :
    (∀ (pre : List reader) (r : reader) (post : List reader) (s s1 : sample)
        (pre1 : List reader),
      read_in_order pre s = some (s1, pre1) → (r.call s1).1.to_bool = true →
      hybrid_reader_tp.read_all ⟨pre ++ r :: post⟩ s =
        ((r.call s1).1, (r.call s1).2.1, ⟨pre1 ++ (r.call s1).2.2 :: post⟩)) ∧
    (∀ (l : List reader) (s s1 : sample) (l1 : List reader),
      read_in_order l s = some (s1, l1) →
      hybrid_reader_tp.read_all ⟨l⟩ s = (error.success, s1, ⟨l1⟩)) ∧
    (∀ (l : List reader) (s : sample),
      (hybrid_reader_tp.read_all ⟨l⟩ s).1.to_bool = false ↔
        (read_in_order l s).isSome = true) := by
  refine ⟨fun pre => hybrid_read_all_first_failure pre,
    fun l s s1 l1 h => (hybrid_read_all_by_order l s).1 s1 l1 h, ?_⟩
  intro l s
  obtain ⟨h1, h2⟩ := hybrid_read_all_by_order l s
  cases hro : read_in_order l s with
  | none =>
    have := h2 hro
    simp [this]
  | some res =>
    obtain ⟨s1, l1⟩ := res
    rw [h1 s1 l1 hro]
    simp [error.to_bool, error.success]

/-- The preceding property on three sub-readers the second of which fails. -/
theorem hybrid_read_all_in_order_witness :
    read_in_order [example_reader 0 2 false 0] (fun _ => 0) =
      some (sample.set_cpu (fun _ => 0) 0 1, [example_reader 0 2 false 1]) ∧
    ((example_reader 1 3 true 0).call (sample.set_cpu (fun _ => 0) 0 1)).1.to_bool = true ∧
    hybrid_reader_tp.read_all
        ⟨[example_reader 0 2 false 0] ++ example_reader 1 3 true 0 :: [example_reader 2 1 false 0]⟩
        (fun _ => 0) =
      (((example_reader 1 3 true 0).call (sample.set_cpu (fun _ => 0) 0 1)).1,
        ((example_reader 1 3 true 0).call (sample.set_cpu (fun _ => 0) 0 1)).2.1,
        ⟨[example_reader 0 2 false 1] ++
          ((example_reader 1 3 true 0).call (sample.set_cpu (fun _ => 0) 0 1)).2.2 ::
            [example_reader 2 1 false 0]⟩) :=
  ⟨rfl, rfl,
    hybrid_read_all_in_order.1 [example_reader 0 2 false 0] (example_reader 1 3 true 0)
      [example_reader 2 1 false 0] (fun _ => 0) (sample.set_cpu (fun _ => 0) 0 1)
      [example_reader 0 2 false 1] rfl rfl⟩

theorem num_events_fold_eq (l : List reader) :
    hybrid_reader_tp.num_events_fold l = total_events l % SIZE_RANGE := by
  induction l with
  | nil => rfl
  | cons first rest ih =>
    cases rest with
    | nil => simp [hybrid_reader_tp.num_events_fold, total_events]
    | cons next rest =>
      rw [hybrid_reader_tp.num_events_fold, ih]
      simp only [total_events]
      rw [← Nat.add_mod]

/-- C17 (amended): for every hybrid reader, `num_events()` is the sum of the
`num_events()` of its sub-readers, computed in `size_t`: it is that sum modulo
`2 ^ 64`, hence the sum itself whenever the sum is below `2 ^ 64`. -/
theorem hybrid_num_events_sum :
    (∀ l : List reader,
      hybrid_reader_tp.num_events ⟨l⟩ = total_events l % SIZE_RANGE) ∧
    (∀ l : List reader, total_events l < SIZE_RANGE →
      hybrid_reader_tp.num_events ⟨l⟩ = total_events l) := by
  refine ⟨fun l => num_events_fold_eq l, fun l h => ?_⟩
  rw [hybrid_reader_tp.num_events, num_events_fold_eq, Nat.mod_eq_of_lt h]

/-- The preceding property on three sub-readers with 2, 3 and 1 events. -/
theorem hybrid_num_events_sum_witness :
    total_events
        [example_reader 0 2 false 0, example_reader 1 3 true 0, example_reader 2 1 false 0] <
      SIZE_RANGE ∧
    hybrid_reader_tp.num_events
        ⟨[example_reader 0 2 false 0, example_reader 1 3 true 0, example_reader 2 1 false 0]⟩ =
      total_events
        [example_reader 0 2 false 0, example_reader 1 3 true 0, example_reader 2 1 false 0] :=
  ⟨by decide,
    hybrid_num_events_sum.2
      [example_reader 0 2 false 0, example_reader 1 3 true 0, example_reader 2 1 false 0]
      (by decide)⟩

/-- C17, as stated, fails: with three sub-readers that report 0, `2 ^ 64 - 1`
and 3 events, the sum of `size_t` values wraps and `num_events()` is 2, while
the sum of the three counts is `2 ^ 64 + 2`. -/
theorem hybrid_num_events_counterexample :
    hybrid_reader_tp.num_events
        ⟨[example_reader 0 0 false 0, example_reader 1 (2 ^ 64 - 1) false 0,
          example_reader 2 3 false 0]⟩ = 2 ∧
    total_events
        [example_reader 0 0 false 0, example_reader 1 (2 ^ 64 - 1) false 0,
          example_reader 2 3 false 0] = 2 ^ 64 + 2 := by
  decide

/-- C18: for every hybrid reader, every sample and every event index, both
forms of `read_one` fail with not-implemented; `read(sample&, uint8_t)` leaves
the sample as it is, and no sub-reader is called: the sub-readers are left as
they are. -/
theorem hybrid_read_one_not_implemented (h : hybrid_reader_tp) (s : sample) (idx : Nat) :
    h.read s idx = (⟨error_code.NOT_IMPL⟩, s, h) ∧
    h.read_result idx = (.error ⟨error_code.NOT_IMPL⟩, h) ∧
    (h.read s idx).1.to_bool = true :=
  ⟨rfl, rfl, rfl⟩

/-! ## The number of sockets -/

/-- A package id of 8 or more ends `count_sockets` with too-many-sockets,
whatever was counted before. -/
theorem count_sockets_loop_too_many (pkgs : List Nat) :
    ∀ (pkg_found : Nat → Bool) (ret : Nat), (∃ p ∈ pkgs, max_sockets ≤ p) →
      count_sockets_loop (pkgs.map cpu_topology_file.package_id) pkg_found ret =
        .error ⟨error_code.TOO_MANY_SOCKETS⟩ := by
  induction pkgs with
  | nil => intro _ _ h; obtain ⟨p, hp, _⟩ := h; cases hp
  | cons p ps ih =>
    intro pkg_found ret h
    simp only [List.map_cons, count_sockets_loop]
    by_cases hp : p ≥ max_sockets
    · rw [if_pos hp]
    · rw [if_neg hp]
      have hrest : ∃ q ∈ ps, max_sockets ≤ q := by
        obtain ⟨q, hq, hle⟩ := h
        rcases List.mem_cons.mp hq with heq | hmem
        · rw [heq] at hle; exact absurd hle hp
        · exact ⟨q, hmem, hle⟩
      split
      · exact ih _ _ hrest
      · exact ih _ _ hrest

theorem found_set_insert (pkg_found : Nat → Bool) (pkg : Nat) (hlt : pkg < max_sockets) :
    found_set (fun i => if i = pkg then true else pkg_found i) =
      insert pkg (found_set pkg_found) := by
  ext i
  simp only [found_set, Finset.mem_filter, Finset.mem_range, Finset.mem_insert]
  by_cases hi : i = pkg
  · subst hi; simp [hlt]
  · simp [hi]

/-- With package ids all below `max_sockets`, `count_sockets` ends with the
number of distinct ids seen, those marked before included. -/
theorem count_sockets_loop_count (pkgs : List Nat) :
    ∀ (pkg_found : Nat → Bool) (ret : Nat), ret = (found_set pkg_found).card →
      (∀ p ∈ pkgs, p < max_sockets) →
      count_sockets_loop (pkgs.map cpu_topology_file.package_id) pkg_found ret =
        if (found_set pkg_found ∪ pkgs.toFinset).card = 0 then
          .error ⟨error_code.NO_SOCKETS⟩
        else .ok (found_set pkg_found ∪ pkgs.toFinset).card := by
  induction pkgs with
  | nil =>
    intro pkg_found ret hret _
    simp [count_sockets_loop, hret]
  | cons p ps ih =>
    intro pkg_found ret hret hall
    have hp : p < max_sockets := hall p (List.mem_cons_self _ _)
    have hrest : ∀ q ∈ ps, q < max_sockets := fun q hq => hall q (List.mem_cons_of_mem _ hq)
    simp only [List.map_cons, count_sockets_loop]
    rw [if_neg (by omega)]
    by_cases hf : pkg_found p = true
    · have hmem : p ∈ found_set pkg_found := by
        simp [found_set, hf, hp]
      have hun : found_set pkg_found ∪ (p :: ps).toFinset = found_set pkg_found ∪ ps.toFinset := by
        rw [List.toFinset_cons, Finset.union_insert, Finset.insert_eq_of_mem]
        exact Finset.mem_union_left _ hmem
      simp only [hf, Bool.not_true, Bool.false_eq_true, if_false, hun]
      exact ih pkg_found ret hret hrest
    · have hf2 : pkg_found p = false := by simpa using hf
      have hc := found_set_update pkg_found p hp hf2
      have hle := found_set_card_le (fun i => if i = p then true else pkg_found i)
      have hun : found_set pkg_found ∪ (p :: ps).toFinset =
          found_set (fun i => if i = p then true else pkg_found i) ∪ ps.toFinset := by
        rw [found_set_insert pkg_found p hp, List.toFinset_cons, Finset.union_insert,
          Finset.insert_union]
      simp only [hf2, Bool.not_false, if_true, hun]
      apply ih
      · rw [hc, ← hret]
        simp only [max_sockets] at hle
        simp only [to_uint8]
        omega
      · exact hrest

/-- C19: when the topology files scanned are all readable and give the
package ids `pkgs`, `count_sockets` fails with no-sockets iff the list is
empty, fails with too-many-sockets iff some package id is `max_sockets = 8` or
more, and returns `n` iff the list is not empty, every id is below 8 and `n` is
the number of distinct ids; a number returned lies in `[1, 8]`. -/
theorem count_sockets_distinct_ids (pkgs : List Nat) :
    (count_sockets (pkgs.map cpu_topology_file.package_id) = .error ⟨error_code.NO_SOCKETS⟩ ↔
      pkgs = []) ∧
    (count_sockets (pkgs.map cpu_topology_file.package_id) =
        .error ⟨error_code.TOO_MANY_SOCKETS⟩ ↔ ∃ p ∈ pkgs, max_sockets ≤ p) ∧
    (∀ n, count_sockets (pkgs.map cpu_topology_file.package_id) = .ok n ↔
      pkgs ≠ [] ∧ (∀ p ∈ pkgs, p < max_sockets) ∧ n = pkgs.toFinset.card) ∧
    (∀ n, count_sockets (pkgs.map cpu_topology_file.package_id) = .ok n →
      1 ≤ n ∧ n ≤ max_sockets) := by
  by_cases hbig : ∃ p ∈ pkgs, max_sockets ≤ p
  · have hres : count_sockets (pkgs.map cpu_topology_file.package_id) =
        .error ⟨error_code.TOO_MANY_SOCKETS⟩ := count_sockets_loop_too_many pkgs _ _ hbig
    rw [hres]
    refine ⟨⟨fun h => (by cases h), fun h => ?_⟩, ⟨fun _ => hbig, fun _ => rfl⟩, ?_,
      fun n h => (by cases h)⟩
    · obtain ⟨p, hp, _⟩ := hbig
      rw [h] at hp; cases hp
    · intro n
      refine ⟨fun h => (by cases h), ?_⟩
      rintro ⟨_, hall, _⟩
      obtain ⟨p, hp, hle⟩ := hbig
      have := hall p hp
      omega
  · have hall : ∀ p ∈ pkgs, p < max_sockets := by
      intro p hp
      by_contra hge
      exact hbig ⟨p, hp, by omega⟩
    have hres := count_sockets_loop_count pkgs (fun _ => false) 0 (by simp [found_set]) hall
    have hempty : found_set (fun _ => false) = ∅ := by simp [found_set]
    rw [hempty, Finset.empty_union] at hres
    have hcard : pkgs.toFinset.card = 0 ↔ pkgs = [] := by
      rw [Finset.card_eq_zero, List.toFinset_eq_empty_iff]
    have hsub : pkgs.toFinset ⊆ Finset.range max_sockets := by
      intro p hp
      exact Finset.mem_range.mpr (hall p (List.mem_toFinset.mp hp))
    have hle : pkgs.toFinset.card ≤ max_sockets := by
      have := Finset.card_le_card hsub
      rwa [Finset.card_range] at this
    unfold count_sockets
    rw [hres]
    by_cases hz : pkgs.toFinset.card = 0
    · rw [if_pos hz]
      refine ⟨⟨fun _ => hcard.mp hz, fun _ => rfl⟩, ⟨fun h => (by cases h), fun h => absurd h hbig⟩,
        ?_, fun n h => (by cases h)⟩
      intro n
      refine ⟨fun h => (by cases h), ?_⟩
      rintro ⟨hne, _, _⟩
      exact absurd (hcard.mp hz) hne
    · rw [if_neg hz]
      refine ⟨⟨fun h => (by cases h), fun h => absurd (hcard.mpr h) hz⟩,
        ⟨fun h => (by cases h), fun h => absurd h hbig⟩, ?_, ?_⟩
      · intro n
        constructor
        · intro h
          have := Except.ok.inj h
          exact ⟨fun he => hz (hcard.mpr he), hall, this.symm⟩
        · rintro ⟨_, _, hn⟩
          rw [hn]
      · intro n h
        have := Except.ok.inj h
        omega

/-- The preceding property on the package ids 0, 1, 0, 1 of a machine with two
sockets and four processors. -/
theorem count_sockets_distinct_ids_witness :
    count_sockets ([0, 1, 0, 1].map cpu_topology_file.package_id) = .ok 2 ∧
    (1 ≤ 2 ∧ 2 ≤ max_sockets) :=
  have h : count_sockets ([0, 1, 0, 1].map cpu_topology_file.package_id) = .ok 2 := by decide
  ⟨h, (count_sockets_distinct_ids [0, 1, 0, 1]).2.2.2 2 h⟩

/-! ## Domain names -/

theorem strncmp_eq_iff (pre name : List Char) : strncmp_eq pre name = true ↔ pre <+: name := by
  unfold strncmp_eq
  exact List.isPrefixOf_iff_prefix

/-- No name starts with two of the four domain names. -/
theorem domain_prefixes_exclusive (name : List Char) :
    ¬ (strncmp_eq EVENT_PKG_PREFIX name = true ∧ strncmp_eq EVENT_PP0 name = true) ∧
    ¬ (strncmp_eq EVENT_PKG_PREFIX name = true ∧ strncmp_eq EVENT_PP1 name = true) ∧
    ¬ (strncmp_eq EVENT_PKG_PREFIX name = true ∧ strncmp_eq EVENT_DRAM name = true) ∧
    ¬ (strncmp_eq EVENT_PP0 name = true ∧ strncmp_eq EVENT_PP1 name = true) ∧
    ¬ (strncmp_eq EVENT_PP0 name = true ∧ strncmp_eq EVENT_DRAM name = true) ∧
    ¬ (strncmp_eq EVENT_PP1 name = true ∧ strncmp_eq EVENT_DRAM name = true) := by
  cases name with
  | nil => decide
  | cons c rest =>
    simp only [strncmp_eq, EVENT_PKG_PREFIX, EVENT_PP0, EVENT_PP1, EVENT_DRAM, String.toList,
      List.isPrefixOf, Bool.and_eq_true, beq_iff_eq]
    refine ⟨?_, ?_, ?_, ?_, ?_, ?_⟩ <;>
    · rintro ⟨⟨h1, _⟩, ⟨h2, _⟩⟩
      rw [← h1] at h2
      revert h2
      decide

theorem first_test_none (name : List Char) (tests : List (List Char × Int))
    (h : ∀ e ∈ tests, strncmp_eq e.1 name = false) : first_test tests name = -1 := by
  induction tests with
  | nil => rfl
  | cons e rest ih =>
    obtain ⟨pre, value⟩ := e
    have he := h (pre, value) (List.mem_cons_self _ _)
    simp only at he
    simp only [first_test, he, Bool.false_eq_true, if_false]
    exact ih (fun e' he' => h e' (List.mem_cons_of_mem _ he'))

theorem first_test_unique (name : List Char) (v : Int) (tests : List (List Char × Int))
    (hex : ∃ e ∈ tests, strncmp_eq e.1 name = true)
    (hall : ∀ e ∈ tests, strncmp_eq e.1 name = true → e.2 = v) : first_test tests name = v := by
  induction tests with
  | nil => obtain ⟨e, he, _⟩ := hex; cases he
  | cons e rest ih =>
    obtain ⟨pre, value⟩ := e
    simp only [first_test]
    by_cases hp : strncmp_eq pre name = true
    · rw [if_pos hp]
      exact hall (pre, value) (List.mem_cons_self _ _) hp
    · rw [if_neg hp]
      apply ih
      · obtain ⟨e', he', hm⟩ := hex
        rcases List.mem_cons.mp he' with heq | hmem
        · rw [heq] at hm; exact absurd hm hp
        · exact ⟨e', hmem, hm⟩
      · exact fun e' he' => hall e' (List.mem_cons_of_mem _ he')

/-- C20: `domain_index_from_name` maps a name by prefix: it gives package iff
the name starts with "package", cores iff it starts with "core", uncore iff it
starts with "uncore", dram iff it starts with "dram", and -1 iff it starts with
none of them, which is when `get_domain_idx`, on every zone for which the array
`name` holds that name after the read, fails with invalid-domain-name; no
name starts with two of the four, and making the four tests in any other order
gives the same result. -/
theorem domain_index_from_name_maps_prefixes (name : List Char) :
    (domain_index_from_name name = package_value ↔ "package".toList <+: name) ∧
    (domain_index_from_name name = cores_value ↔ "core".toList <+: name) ∧
    (domain_index_from_name name = uncore_value ↔ "uncore".toList <+: name) ∧
    (domain_index_from_name name = dram_value ↔ "dram".toList <+: name) ∧
    (domain_index_from_name name = -1 ↔
      ¬ "package".toList <+: name ∧ ¬ "core".toList <+: name ∧ ¬ "uncore".toList <+: name ∧
        ¬ "dram".toList <+: name) ∧
    (∀ base : powercap_zone, 0 ≤ (read_buff base.name base.name_buffer 64).1 →
      c_str (read_buff base.name base.name_buffer 64).2 = name →
      (get_domain_idx base = .error ⟨error_code.INVALID_DOMAIN_NAME⟩ ↔
        domain_index_from_name name = -1)) ∧
    (∀ base : powercap_zone, 0 ≤ (read_buff base.name base.name_buffer 64).1 →
      c_str (read_buff base.name base.name_buffer 64).2 = name →
      domain_index_from_name name ≠ -1 →
      get_domain_idx base = .ok (domain_index_from_name name)) ∧
    ¬ ("package".toList <+: name ∧ "core".toList <+: name) ∧
    ¬ ("package".toList <+: name ∧ "uncore".toList <+: name) ∧
    ¬ ("package".toList <+: name ∧ "dram".toList <+: name) ∧
    ¬ ("core".toList <+: name ∧ "uncore".toList <+: name) ∧
    ¬ ("core".toList <+: name ∧ "dram".toList <+: name) ∧
    ¬ ("uncore".toList <+: name ∧ "dram".toList <+: name) ∧
    (∀ tests, tests.Perm domain_tests → first_test tests name = domain_index_from_name name) := by
  have h1 : "package".toList <+: name ↔ strncmp_eq EVENT_PKG_PREFIX name = true :=
    (strncmp_eq_iff _ _).symm
  have h2 : "core".toList <+: name ↔ strncmp_eq EVENT_PP0 name = true :=
    (strncmp_eq_iff _ _).symm
  have h3 : "uncore".toList <+: name ↔ strncmp_eq EVENT_PP1 name = true :=
    (strncmp_eq_iff _ _).symm
  have h4 : "dram".toList <+: name ↔ strncmp_eq EVENT_DRAM name = true :=
    (strncmp_eq_iff _ _).symm
  have hex := domain_prefixes_exclusive name
  have hperm : ∀ tests : List (List Char × Int), tests.Perm domain_tests →
      first_test tests name = domain_index_from_name name := by
    intro tests hp
    have hmem : ∀ e, e ∈ tests ↔ e ∈ domain_tests := fun e => hp.mem_iff
    by_cases hany : ∃ e ∈ domain_tests, strncmp_eq e.1 name = true
    · apply first_test_unique
      · obtain ⟨e, he, hm⟩ := hany
        exact ⟨e, (hmem e).mpr he, hm⟩
      · intro e he hm
        have he2 := (hmem e).mp he
        simp only [domain_tests, List.mem_cons, List.mem_singleton, List.not_mem_nil,
          or_false] at he2
        obtain ⟨e1, e2, e3, e4, e5, e6⟩ := hex
        unfold domain_index_from_name
        rcases he2 with h | h | h | h <;> subst h <;> simp only at hm ⊢
        · rw [if_pos hm]
        · have n1 : ¬ strncmp_eq EVENT_PKG_PREFIX name = true := fun h => e1 ⟨h, hm⟩
          rw [if_neg n1, if_pos hm]
        · have n1 : ¬ strncmp_eq EVENT_PKG_PREFIX name = true := fun h => e2 ⟨h, hm⟩
          have n2 : ¬ strncmp_eq EVENT_PP0 name = true := fun h => e4 ⟨h, hm⟩
          rw [if_neg n1, if_neg n2, if_pos hm]
        · have n1 : ¬ strncmp_eq EVENT_PKG_PREFIX name = true := fun h => e3 ⟨h, hm⟩
          have n2 : ¬ strncmp_eq EVENT_PP0 name = true := fun h => e5 ⟨h, hm⟩
          have n3 : ¬ strncmp_eq EVENT_PP1 name = true := fun h => e6 ⟨h, hm⟩
          rw [if_neg n1, if_neg n2, if_neg n3, if_pos hm]
    · have hnone : ∀ e ∈ domain_tests, strncmp_eq e.1 name = false := by
        intro e he
        by_contra hm
        exact hany ⟨e, he, by simpa using hm⟩
      rw [first_test_none name tests (fun e he => hnone e ((hmem e).mp he))]
      have n1 := hnone _ (by simp [domain_tests] : (EVENT_PKG_PREFIX, package_value) ∈ domain_tests)
      have n2 := hnone _ (by simp [domain_tests] : (EVENT_PP0, cores_value) ∈ domain_tests)
      have n3 := hnone _ (by simp [domain_tests] : (EVENT_PP1, uncore_value) ∈ domain_tests)
      have n4 := hnone _ (by simp [domain_tests] : (EVENT_DRAM, dram_value) ∈ domain_tests)
      simp only at n1 n2 n3 n4
      simp [domain_index_from_name, n1, n2, n3, n4]
  rw [h1, h2, h3, h4]
  refine ⟨?_, ?_, ?_, ?_, ?_, ?_, ?_, hex.1, hex.2.1, hex.2.2.1, hex.2.2.2.1, hex.2.2.2.2.1,
    hex.2.2.2.2.2, hperm⟩
  all_goals
    obtain ⟨e1, e2, e3, e4, e5, e6⟩ := hex
    clear h1 h2 h3 h4 hperm
    try intro base hret hname
    try rw [get_domain_idx_eq, if_neg (by omega), hname]
    simp only [domain_index_from_name]
    generalize strncmp_eq EVENT_PKG_PREFIX name = a at *
    generalize strncmp_eq EVENT_PP0 name = b at *
    generalize strncmp_eq EVENT_PP1 name = c at *
    generalize strncmp_eq EVENT_DRAM name = d at *
    cases a <;> cases b <;> cases c <;> cases d <;>
    simp [package_value, cores_value, uncore_value, dram_value] at e1 e2 e3 e4 e5 e6 ⊢

/-- The preceding property on the zone names "package-0" and "psys". -/
theorem domain_index_from_name_maps_prefixes_witness :
    domain_index_from_name "package-0".toList = package_value ∧
    get_domain_idx (example_zone "package-0" 3) = .ok package_value ∧
    get_domain_idx (example_zone "psys" 3) = .error ⟨error_code.INVALID_DOMAIN_NAME⟩ :=
  ⟨(domain_index_from_name_maps_prefixes "package-0".toList).1.mpr (by decide),
    (domain_index_from_name_maps_prefixes "package-0".toList).2.2.2.2.2.2.1
      (example_zone "package-0" 3) (by decide) (by decide) (by decide),
    ((domain_index_from_name_maps_prefixes "psys".toList).2.2.2.2.2.1
      (example_zone "psys" 3) (by decide) (by decide)).mpr (by decide)⟩

/-! ## The masks of the constructor -/

/-- The domain index that `get_domain_idx` finds is below `rapl_domains`. -/
theorem zone_domain_lt (base : powercap_zone) (d : Nat) (h : zone_domain base = some (d : Int)) :
    d < rapl_domains := by
  rw [zone_domain_eq_some] at h
  obtain ⟨name, hd, hpos⟩ := get_domain_idx_ok base d h
  unfold domain_index_from_name at hd
  simp only [package_value, cores_value, uncore_value, dram_value, rapl_domains] at hd ⊢
  split at hd
  · omega
  · split at hd
    · omega
    · split at hd
      · omega
      · split at hd
        · omega
        · omega

/-- The cells that a call of `add_event` for socket `skt` fills satisfy every
property that holds of the selected domains of that socket. -/
theorem add_event_respects (r : reader_rapl) (base : powercap_zone) (dmask skt : Nat)
    (P : Nat → Nat → Prop) (hP : ∀ d, dmask.testBit d = true → d < rapl_domains → P skt d)
    (hr : ∀ s d, r._event_map s d ≠ -1 → P s d) :
    ∀ s d, (r.add_event base dmask skt).2._event_map s d ≠ -1 → P s d := by
  intro s d h
  rcases add_event_frame r base dmask skt s d with heq | ⟨hs, hz, hm⟩
  · rw [heq] at h; exact hr s d h
  · rw [hs]; exact hP d hm (zone_domain_lt base d hz)

theorem add_subdomains_respects (sys : sysfs) (dmask skt : Nat) (P : Nat → Nat → Prop)
    (hP : ∀ d, dmask.testBit d = true → d < rapl_domains → P skt d) (ds : List Nat) :
    ∀ r : reader_rapl, (∀ s d, r._event_map s d ≠ -1 → P s d) →
      ∀ s d, (reader_rapl.add_subdomains sys dmask skt ds r).2._event_map s d ≠ -1 → P s d := by
  induction ds with
  | nil => intro r hr; exact hr
  | cons d0 rest ih =>
    intro r hr
    unfold reader_rapl.add_subdomains
    cases hz : sys.sub_zone skt d0 with
    | none => exact ih r hr
    | some base =>
      have h1 := add_event_respects r base dmask skt P hP hr
      dsimp only
      split
      · exact h1
      · exact ih _ h1

theorem add_sockets_respects (sys : sysfs) (dmask skt_mask : Nat) (P : Nat → Nat → Prop)
    (skts : List Nat)
    (hP : ∀ skt ∈ skts, skt_mask.testBit skt = true →
      ∀ d, dmask.testBit d = true → d < rapl_domains → P skt d) :
    ∀ r : reader_rapl, (∀ s d, r._event_map s d ≠ -1 → P s d) →
      ∀ s d, (reader_rapl.add_sockets sys dmask skt_mask skts r).2._event_map s d ≠ -1 →
        P s d := by
  induction skts with
  | nil => intro r hr; exact hr
  | cons skt rest ih =>
    have hrest : ∀ s ∈ rest, skt_mask.testBit s = true →
        ∀ d, dmask.testBit d = true → d < rapl_domains → P s d :=
      fun s hs => hP s (List.mem_cons_of_mem _ hs)
    intro r hr
    unfold reader_rapl.add_sockets
    by_cases hm : skt_mask.testBit skt = true
    · have hPs := hP skt (List.mem_cons_self _ _) hm
      have h1 := add_event_respects r (sys.package_zone skt) dmask skt P hPs hr
      simp only [hm, Bool.not_true, Bool.false_eq_true, if_false]
      split
      · exact h1
      · have h2 := add_subdomains_respects sys dmask skt P hPs (List.range (rapl_domains - 1))
          _ h1
        split
        · exact h2
        · exact ih hrest _ h2
    · have hm2 : skt_mask.testBit skt = false := by simpa using hm
      simp only [hm2, Bool.not_false, if_true]
      exact ih hrest r hr

/-- Every entry of the event map of a constructed reader other than `-1`
belongs to a socket below the number of sockets found that `skt_mask` selects
and to a domain below `rapl_domains` that `dmask` selects. -/
theorem construct_respects (sys : sysfs) (dmask skt_mask : Nat) (s d : Nat)
    (h : (reader_rapl.construct sys dmask skt_mask).2._event_map s d ≠ -1) :
    skt_mask.testBit s = true ∧ dmask.testBit d = true ∧ d < rapl_domains ∧
      ∃ n, count_sockets sys.cpus = .ok n ∧ s < n := by
  unfold reader_rapl.construct at h
  cases hc : count_sockets sys.cpus with
  | error e => rw [hc] at h; exact absurd rfl h
  | ok n =>
    rw [hc] at h
    have := add_sockets_respects sys dmask skt_mask
      (fun s d => skt_mask.testBit s = true ∧ dmask.testBit d = true ∧ d < rapl_domains ∧ s < n)
      (List.range n) (fun skt hs hm d hd hlt => ⟨hm, hd, hlt, List.mem_range.mp hs⟩)
      ⟨fun _ _ => -1, []⟩ (fun _ _ h0 => absurd rfl h0) s d h
    exact ⟨this.1, this.2.1, this.2.2.1, n, rfl, this.2.2.2⟩

theorem get_domain_idx_hide (dmask : Nat) (base : powercap_zone) :
    get_domain_idx (base.hide dmask) = get_domain_idx base := by
  unfold powercap_zone.hide
  cases hd : get_domain_idx base with
  | error e => exact hd
  | ok didx =>
    dsimp only
    split
    · exact hd
    · rw [← hd]; rfl

/-- A call of `add_event` does not depend on the counter files of a domain that
`dmask` does not select. -/
theorem add_event_hide (r : reader_rapl) (base : powercap_zone) (dmask skt : Nat) :
    r.add_event (base.hide dmask) dmask skt = r.add_event base dmask skt := by
  unfold reader_rapl.add_event
  rw [get_domain_idx_hide]
  cases hd : get_domain_idx base with
  | error e => rfl
  | ok didx =>
    dsimp only
    by_cases hm : dmask.testBit didx.toNat = true
    · have : base.hide dmask = base := by
        unfold powercap_zone.hide
        rw [hd]
        simp [hm]
      rw [this]
    · simp only [hm, Bool.false_eq_true, if_false]

theorem add_subdomains_hide (sys : sysfs) (dmask skt : Nat) (ds : List Nat) :
    ∀ r : reader_rapl, reader_rapl.add_subdomains (sys.hide dmask) dmask skt ds r =
      reader_rapl.add_subdomains sys dmask skt ds r := by
  induction ds with
  | nil => intro r; rfl
  | cons d0 rest ih =>
    intro r
    unfold reader_rapl.add_subdomains
    have hz : (sys.hide dmask).sub_zone skt d0 =
        (sys.sub_zone skt d0).map (powercap_zone.hide dmask) := rfl
    rw [hz]
    cases sys.sub_zone skt d0 with
    | none => exact ih r
    | some base =>
      simp only [Option.map_some', add_event_hide, ih]

theorem add_sockets_hide (sys : sysfs) (dmask skt_mask : Nat) (skts : List Nat) :
    ∀ r : reader_rapl, reader_rapl.add_sockets (sys.hide dmask) dmask skt_mask skts r =
      reader_rapl.add_sockets sys dmask skt_mask skts r := by
  induction skts with
  | nil => intro r; rfl
  | cons skt rest ih =>
    intro r
    unfold reader_rapl.add_sockets
    have hz : (sys.hide dmask).package_zone skt = (sys.package_zone skt).hide dmask := rfl
    simp only [hz, add_event_hide, add_subdomains_hide, ih]

/-- C21: after construction of a `reader_rapl` with domain mask `dmask` and
socket mask `skt_mask`, for every socket `s` and domain `d`, `event_idx(s, d) >= 0`
implies that bit `s` of `skt_mask` and bit `d` of `dmask` are set and that `s`
is below the number of sockets found; a domain whose mask bit is clear keeps
the entry `-1`, and its counter files are never opened: the constructor gives
the same result when they cannot be opened. -/
theorem event_map_respects_masks (sys : sysfs) (dmask skt_mask : Nat) :
    (∀ s d : Nat, 0 ≤ (reader_rapl.construct sys dmask skt_mask).2.event_idx (d : Int) s →
      skt_mask.testBit s = true ∧ dmask.testBit d = true ∧
        ∃ n, count_sockets sys.cpus = .ok n ∧ s < n) ∧
    (∀ s d : Nat, dmask.testBit d = false →
      (reader_rapl.construct sys dmask skt_mask).2.event_idx (d : Int) s = -1) ∧
    (∀ s d : Nat, skt_mask.testBit s = false →
      (reader_rapl.construct sys dmask skt_mask).2.event_idx (d : Int) s = -1) ∧
    reader_rapl.construct (sys.hide dmask) dmask skt_mask =
      reader_rapl.construct sys dmask skt_mask := by
  refine ⟨?_, ?_, ?_, ?_⟩
  · intro s d h
    simp only [reader_rapl.event_idx, Int.toNat_ofNat] at h
    have hc := construct_respects sys dmask skt_mask s d (by omega)
    exact ⟨hc.1, hc.2.1, hc.2.2.2⟩
  · intro s d hd
    simp only [reader_rapl.event_idx, Int.toNat_ofNat]
    by_contra h
    have := (construct_respects sys dmask skt_mask s d h).2.1
    rw [hd] at this
    cases this
  · intro s d hs
    simp only [reader_rapl.event_idx, Int.toNat_ofNat]
    by_contra h
    have := (construct_respects sys dmask skt_mask s d h).1
    rw [hs] at this
    cases this
  · unfold reader_rapl.construct
    have hc : (sys.hide dmask).cpus = sys.cpus := rfl
    rw [hc]
    cases count_sockets sys.cpus with
    | error e => rfl
    | ok n => exact add_sockets_hide sys dmask skt_mask (List.range n) _

/-- The preceding property on a machine with two sockets, for the domain mask
that selects the package domain and the socket mask that selects socket 1. -/
theorem event_map_respects_masks_witness :
    (reader_rapl.construct two_socket_sysfs 1 2).2.event_idx package_value 1 = 0 ∧
    (1 : Nat).testBit 0 = true ∧ (2 : Nat).testBit 1 = true ∧
    ∃ n, count_sockets two_socket_sysfs.cpus = .ok n ∧ 1 < n :=
  have h : (reader_rapl.construct two_socket_sysfs 1 2).2.event_idx package_value 1 = 0 := by
    decide
  have h0 : 0 ≤ (reader_rapl.construct two_socket_sysfs 1 2).2.event_idx ((0 : Nat) : Int) 1 := by
    rw [Nat.cast_zero]; exact le_of_eq h.symm
  ⟨h, ((event_map_respects_masks two_socket_sysfs 1 2).1 1 0 h0).2.1,
    ((event_map_respects_masks two_socket_sysfs 1 2).1 1 0 h0).1,
    ((event_map_respects_masks two_socket_sysfs 1 2).1 1 0 h0).2.2⟩

/-! ## The number of events -/

theorem add_event_num_events (r : reader_rapl) (base : powercap_zone) (dmask skt : Nat) :
    (r.add_event base dmask skt).2.num_events ≤ r.num_events + 1 := by
  rcases add_event_cases r base dmask skt with h | ⟨didx, ev, _, _, _, h⟩
  · rw [h]; omega
  · rw [h]; simp [reader_rapl.num_events]

theorem add_subdomains_num_events (sys : sysfs) (dmask skt : Nat) (ds : List Nat) :
    ∀ r : reader_rapl,
      (reader_rapl.add_subdomains sys dmask skt ds r).2.num_events ≤ r.num_events + ds.length := by
  induction ds with
  | nil => intro r; exact le_refl _
  | cons d0 rest ih =>
    intro r
    simp only [List.length_cons]
    unfold reader_rapl.add_subdomains
    cases hz : sys.sub_zone skt d0 with
    | none =>
      have := ih r
      dsimp only
      omega
    | some base =>
      have h1 := add_event_num_events r base dmask skt
      dsimp only
      split
      · omega
      · have := ih (r.add_event base dmask skt).2
        omega

/-- Visiting one socket adds at most `rapl_domains` events. -/
theorem socket_num_events (sys : sysfs) (dmask skt : Nat) (r : reader_rapl) :
    (reader_rapl.add_subdomains sys dmask skt (List.range (rapl_domains - 1))
      (r.add_event (sys.package_zone skt) dmask skt).2).2.num_events ≤
        r.num_events + rapl_domains := by
  have h1 := add_event_num_events r (sys.package_zone skt) dmask skt
  have h2 := add_subdomains_num_events sys dmask skt (List.range (rapl_domains - 1))
    (r.add_event (sys.package_zone skt) dmask skt).2
  simp only [List.length_range, rapl_domains] at h2 ⊢
  omega

theorem add_sockets_num_events (sys : sysfs) (dmask skt_mask : Nat) (skts : List Nat) :
    ∀ r : reader_rapl,
      (reader_rapl.add_sockets sys dmask skt_mask skts r).2.num_events ≤
        r.num_events + rapl_domains * skts.length := by
  induction skts with
  | nil => intro r; exact le_refl _
  | cons skt rest ih =>
    intro r
    simp only [List.length_cons]
    unfold reader_rapl.add_sockets
    split
    · have := ih r
      simp only [rapl_domains] at this ⊢
      omega
    · have h1 := add_event_num_events r (sys.package_zone skt) dmask skt
      have h2 := socket_num_events sys dmask skt r
      simp only
      split
      · simp only [rapl_domains]; omega
      · split
        · simp only [rapl_domains] at h2 ⊢; omega
        · have := ih (reader_rapl.add_subdomains sys dmask skt (List.range (rapl_domains - 1))
            (r.add_event (sys.package_zone skt) dmask skt).2).2
          simp only [rapl_domains] at this h2 ⊢
          omega

/-- C22: for every system state, while the constructor visits a socket it
registers at most `rapl_domains = 4` events, and the non-negative entries of
the event map of a socket lie at the `rapl_domains` domains; the constructed
reader has at most `rapl_domains` events for each socket found, hence at most
`rapl_domains * max_sockets = 32`, and `read_all` returns and leaves every slot
of the sample from 32 on as it was. -/
theorem constructed_reader_within_sample (sys : sysfs) (dmask skt_mask : Nat)
    (io : Nat → Option Nat) (s : sample) :
    (∀ (r : reader_rapl) (skt : Nat),
      (reader_rapl.add_subdomains sys dmask skt (List.range (rapl_domains - 1))
        (r.add_event (sys.package_zone skt) dmask skt).2).2.num_events ≤
          r.num_events + rapl_domains) ∧
    (∀ skt d : Nat, 0 ≤ (reader_rapl.construct sys dmask skt_mask).2._event_map skt d →
      skt < max_sockets ∧ d < rapl_domains) ∧
    (∀ n, count_sockets sys.cpus = .ok n →
      (reader_rapl.construct sys dmask skt_mask).2.num_events ≤ rapl_domains * n) ∧
    (reader_rapl.construct sys dmask skt_mask).2.num_events ≤ rapl_domains * max_sockets ∧
    rapl_domains * max_sockets = 32 ∧
    ∃ err s1 r1,
      (reader_rapl.construct sys dmask skt_mask).2.read_all io s = some (err, s1, r1) ∧
      ∀ j, rapl_domains * max_sockets ≤ j → s1 j = s j := by
  have hn : ∀ n, count_sockets sys.cpus = .ok n →
      (reader_rapl.construct sys dmask skt_mask).2.num_events ≤ rapl_domains * n := by
    intro n hc
    unfold reader_rapl.construct
    rw [hc]
    have := add_sockets_num_events sys dmask skt_mask (List.range n) ⟨fun _ _ => -1, []⟩
    simpa [reader_rapl.num_events] using this
  have htotal := (construct_preserves sys dmask skt_mask).2.2
  refine ⟨fun r skt => socket_num_events sys dmask skt r, ?_, hn, htotal, rfl, ?_⟩
  · intro skt d h
    obtain ⟨_, _, hd, n, hc, hs⟩ := construct_respects sys dmask skt_mask skt d (by omega)
    have := count_sockets_le _ _ hc
    exact ⟨by omega, hd⟩
  · generalize (reader_rapl.construct sys dmask skt_mask).2 = r at htotal ⊢
    obtain ⟨map, evs⟩ := r
    simp only [reader_rapl.num_events, rapl_domains, max_sockets] at htotal ⊢
    have hloop := read_all_loop_eq map io evs [] s (by simp only [List.length_nil]; omega)
    simp only [List.length_nil, List.nil_append] at hloop
    exact ⟨_, _, _, hloop, fun j hj => read_events_frame io evs 0 s j (Or.inr (by omega))⟩

/-- The preceding property on a machine with one socket and four domains: the
reader has four events, which is `rapl_domains` times the number of sockets. -/
theorem constructed_reader_within_sample_witness :
    count_sockets one_socket_sysfs.cpus = .ok 1 ∧
    (reader_rapl.construct one_socket_sysfs 15 255).2.num_events ≤ rapl_domains * 1 ∧
    (reader_rapl.construct one_socket_sysfs 15 255).2.num_events = 4 :=
  ⟨by decide,
    (constructed_reader_within_sample one_socket_sysfs 15 255 (fun _ => none)
      (fun _ => 0)).2.2.1 1 (by decide),
    by decide⟩

/-! ## Error codes and their causes -/

/-- C23: every error code of the system category, of the GPU-library category
or of the category of the library has exactly one cause class: a code of the
system category is equivalent to system-error only, a code of the GPU-library
category to gpu-lib-error only, and a code of the library to the cause that
`default_error_condition` gives only; no-sockets, no-devices,
too-many-sockets, too-many-devices, invalid-domain-name and
file-format-version are setup-error, the three readings-not-supported codes
are readings-support-error, no-such-event is query-error, readings-not-valid
is read-error, the three invalid-mask codes are invalid-argument, and
not-implemented is in the class `other`, which is none of these. A code of any
other category is equivalent to no cause. -/
theorem error_code_cause_classes :
    (∀ (value : Int) (cond : error_cause),
      error_cause_category_t.equivalent (std_error_code.system value) cond = true ↔
        cond = error_cause.system_error) ∧
    (∀ (value : Int) (cond : error_cause),
      error_cause_category_t.equivalent (std_error_code.gpu value) cond = true ↔
        cond = error_cause.gpu_lib_error) ∧
    (∀ (code : Option errc) (cond : error_cause),
      error_cause_category_t.equivalent (std_error_code.generic code) cond = true ↔
        cond = generic_category_t.default_error_condition code) ∧
    (∀ ec : std_error_code, (∀ value, ec ≠ std_error_code.foreign value) →
      ∃! cond, error_cause_category_t.equivalent ec cond = true) ∧
    (∀ x ∈ [errc.no_sockets_found, errc.no_devices_found, errc.too_many_sockets,
        errc.too_many_devices, errc.invalid_domain_name, errc.file_format_version_error],
      ∀ cond, error_cause_category_t.equivalent (make_error_code x) cond = true ↔
        cond = error_cause.setup_error) ∧
    (∀ x ∈ [errc.energy_readings_not_supported, errc.power_readings_not_supported,
        errc.readings_not_supported],
      ∀ cond, error_cause_category_t.equivalent (make_error_code x) cond = true ↔
        cond = error_cause.readings_support_error) ∧
    (∀ cond, error_cause_category_t.equivalent (make_error_code errc.no_such_event) cond = true ↔
      cond = error_cause.query_error) ∧
    (∀ cond,
      error_cause_category_t.equivalent (make_error_code errc.readings_not_valid) cond = true ↔
        cond = error_cause.read_error) ∧
    (∀ x ∈ [errc.invalid_socket_mask, errc.invalid_device_mask, errc.invalid_location_mask],
      ∀ cond, error_cause_category_t.equivalent (make_error_code x) cond = true ↔
        cond = error_cause.invalid_argument) ∧
    (∀ cond, error_cause_category_t.equivalent (make_error_code errc.not_implemented) cond = true ↔
      cond = error_cause.other) ∧
    (∀ cond ∈ [error_cause.system_error, error_cause.gpu_lib_error, error_cause.setup_error,
        error_cause.readings_support_error, error_cause.query_error, error_cause.read_error,
        error_cause.invalid_argument],
      error_cause_category_t.equivalent (make_error_code errc.not_implemented) cond = false) ∧
    (∀ (value : Int) (cond : error_cause),
      error_cause_category_t.equivalent (std_error_code.foreign value) cond = false) := by
  have hsys : ∀ (value : Int) (cond : error_cause),
      error_cause_category_t.equivalent (std_error_code.system value) cond = true ↔
        cond = error_cause.system_error := by
    intro value cond
    simp [error_cause_category_t.equivalent]
  have hgpu : ∀ (value : Int) (cond : error_cause),
      error_cause_category_t.equivalent (std_error_code.gpu value) cond = true ↔
        cond = error_cause.gpu_lib_error := by
    intro value cond
    simp [error_cause_category_t.equivalent]
  have hgen : ∀ (code : Option errc) (cond : error_cause),
      error_cause_category_t.equivalent (std_error_code.generic code) cond = true ↔
        cond = generic_category_t.default_error_condition code := by
    intro code cond
    simp [error_cause_category_t.equivalent]
  refine ⟨hsys, hgpu, hgen, ?_, ?_, ?_, ?_, ?_, ?_, ?_, ?_, fun _ _ => rfl⟩
  · intro ec hne
    cases ec with
    | system value => exact ⟨_, (hsys value _).mpr rfl, fun c hc => (hsys value c).mp hc⟩
    | gpu value => exact ⟨_, (hgpu value _).mpr rfl, fun c hc => (hgpu value c).mp hc⟩
    | generic code => exact ⟨_, (hgen code _).mpr rfl, fun c hc => (hgen code c).mp hc⟩
    | foreign value => exact absurd rfl (hne value)
  · intro x hx cond
    rw [make_error_code, hgen]
    simp only [List.mem_cons, List.mem_singleton, List.not_mem_nil, or_false] at hx
    rcases hx with h | h | h | h | h | h <;> subst h <;> rfl
  · intro x hx cond
    rw [make_error_code, hgen]
    simp only [List.mem_cons, List.mem_singleton, List.not_mem_nil, or_false] at hx
    rcases hx with h | h | h <;> subst h <;> rfl
  · intro cond; rw [make_error_code, hgen]; rfl
  · intro cond; rw [make_error_code, hgen]; rfl
  · intro x hx cond
    rw [make_error_code, hgen]
    simp only [List.mem_cons, List.mem_singleton, List.not_mem_nil, or_false] at hx
    rcases hx with h | h | h <;> subst h <;> rfl
  · intro cond; rw [make_error_code, hgen]; rfl
  · intro cond hc
    simp only [List.mem_cons, List.mem_singleton, List.not_mem_nil, or_false] at hc
    rcases hc with h | h | h | h | h | h | h <;> subst h <;> rfl

/-- The preceding property on the code no-sockets, which has exactly one
cause. -/
theorem error_code_cause_classes_witness :
    ∃! cond, error_cause_category_t.equivalent (make_error_code errc.no_sockets_found) cond =
      true :=
  error_code_cause_classes.2.2.2.1 (make_error_code errc.no_sockets_found)
    (fun value h => by cases h)

end nrgprf

namespace tep.dbg

/-! ## Error codes and their causes -/

theorem util_errc_of_int_value (c : util_errc) : util_errc.of_int c.value = some c := by
  cases c <;> rfl

/-- C24: every failure of the query layer is equivalent to exactly one of
`not_found`, `ambiguous` and `other`: each of the 15 codes of `util_errc` has
a default cause, so that the `assert(false)` branch is not reached for them;
the not-found codes and `no_matches` have the cause `not_found`, the ambiguous
codes have the cause `ambiguous`, these being all the codes; a code of the
category of the layer is equivalent to its default cause only, and a code of
any other category is equivalent to `other` only. -/
theorem util_errc_cause_classes :
    (∀ c : util_errc, util_category_t.default_error_condition c.value ≠ none) ∧
    (∀ c ∈ [util_errc.cu_not_found, util_errc.file_not_found, util_errc.line_not_found,
        util_errc.column_not_found, util_errc.symbol_not_found, util_errc.function_not_found,
        util_errc.decl_location_not_found, util_errc.address_not_found, util_errc.no_matches],
      util_category_t.default_error_condition c.value = some util_errcause.not_found) ∧
    (∀ c ∈ [util_errc.cu_ambiguous, util_errc.symbol_ambiguous,
        util_errc.symbol_ambiguous_static, util_errc.symbol_ambiguous_weak,
        util_errc.symbol_ambiguous_suffix, util_errc.function_ambiguous],
      util_category_t.default_error_condition c.value = some util_errcause.ambiguous) ∧
    (∀ c : util_errc,
      util_category_t.default_error_condition c.value = some util_errcause.not_found ∨
      util_category_t.default_error_condition c.value = some util_errcause.ambiguous) ∧
    (∀ (c : util_errc) (cond : util_errcause),
      util_cause_category_t.equivalent ⟨error_category.util, c.value⟩ cond = true ↔
        util_category_t.default_error_condition c.value = some cond) ∧
    (∀ (ec : std_error_code) (cond : util_errcause), ec.category ≠ error_category.util →
      (util_cause_category_t.equivalent ec cond = true ↔ cond = util_errcause.other)) ∧
    (∀ e : error_code, ∃! cond, util_cause_category_t.equivalent e.to_std cond = true) := by
  have hutil : ∀ (c : util_errc) (cond : util_errcause),
      util_cause_category_t.equivalent ⟨error_category.util, c.value⟩ cond = true ↔
        util_category_t.default_error_condition c.value = some cond := by
    intro c cond
    cases c <;> cases cond <;> decide
  have hother : ∀ (ec : std_error_code) (cond : util_errcause),
      ec.category ≠ error_category.util →
      (util_cause_category_t.equivalent ec cond = true ↔ cond = util_errcause.other) := by
    intro ec cond hne
    simp [util_cause_category_t.equivalent, hne]
  have hdef : ∀ c : util_errc,
      util_category_t.default_error_condition c.value = some util_errcause.not_found ∨
      util_category_t.default_error_condition c.value = some util_errcause.ambiguous := by
    intro c
    cases c <;> decide
  refine ⟨?_, ?_, ?_, hdef, hutil, hother, ?_⟩
  · intro c
    rcases hdef c with h | h <;> rw [h] <;> exact Option.some_ne_none _
  · intro c hc
    simp only [List.mem_cons, List.mem_singleton, List.not_mem_nil, or_false] at hc
    rcases hc with h | h | h | h | h | h | h | h | h <;> subst h <;> rfl
  · intro c hc
    simp only [List.mem_cons, List.mem_singleton, List.not_mem_nil, or_false] at hc
    rcases hc with h | h | h | h | h | h <;> subst h <;> rfl
  · intro e
    cases e with
    | util c =>
      rcases hdef c with h | h
      · refine ⟨util_errcause.not_found, (hutil c _).mpr h, fun cond hcond => ?_⟩
        have := (hutil c cond).mp hcond
        rw [h] at this
        exact (Option.some.inj this).symm
      · refine ⟨util_errcause.ambiguous, (hutil c _).mpr h, fun cond hcond => ?_⟩
        have := (hutil c cond).mp hcond
        rw [h] at this
        exact (Option.some.inj this).symm
    | invalid_argument =>
      exact ⟨util_errcause.other, by decide, fun cond hcond =>
        (hother _ cond (by decide)).mp hcond⟩
    | demangle status =>
      refine ⟨util_errcause.other, (hother _ _ ?_).mpr rfl, fun cond hcond =>
        (hother _ cond ?_).mp hcond⟩
      · simp [error_code.to_std]
      · simp [error_code.to_std]

/-- The preceding property on a code of the generic category, which is not the
category of the layer. -/
theorem util_errc_cause_classes_witness :
    (⟨error_category.generic, 22⟩ : std_error_code).category ≠ error_category.util ∧
    util_cause_category_t.equivalent ⟨error_category.generic, 22⟩ util_errcause.other = true :=
  ⟨by decide,
    (util_errc_cause_classes.2.2.2.2.2.1 ⟨error_category.generic, 22⟩ util_errcause.other
      (by decide)).mpr rfl⟩

end tep.dbg

namespace tep

/-! ## Arithmetic of `double` -/

theorem round_half_even_ge (x : ℚ) (a : Int) (h : (a : ℚ) ≤ x) : a ≤ round_half_even x := by
  have hfl : a ≤ ⌊x⌋ := Int.le_floor.mpr h
  unfold round_half_even
  split
  · exact hfl
  · split
    · omega
    · split
      · exact hfl
      · omega

theorem round_half_even_le (x : ℚ) (b : Int) (h : x ≤ (b : ℚ)) : round_half_even x ≤ b := by
  have hfl : ⌊x⌋ ≤ b := by
    have := Int.floor_le x
    exact_mod_cast (le_trans this h)
  by_cases heq : ⌊x⌋ = b
  · have hx : x = (b : ℚ) := by
      have h1 : ((⌊x⌋ : Int) : ℚ) ≤ x := Int.floor_le x
      rw [heq] at h1
      exact le_antisymm h h1
    unfold round_half_even
    have hfrac : x - ((⌊x⌋ : Int) : ℚ) < 1 / 2 := by
      rw [heq, hx]; norm_num
    rw [if_pos hfrac, heq]
  · have hlt : ⌊x⌋ < b := lt_of_le_of_ne hfl heq
    unfold round_half_even
    split
    · exact hfl
    · split
      · omega
      · split
        · exact hfl
        · omega

/-- The exponent that `double.round` gives to a positive number. -/
theorem round_pos (q : ℚ) (hq : 0 < q) :
    double.round q =
      if (2 : ℚ) ^ (1024 : Nat) ≤
          round_half_even (q / 2 ^ (max (Int.log 2 q) (-1022) - 52)) *
            2 ^ (max (Int.log 2 q) (-1022) - 52)
      then double.inf false
      else double.finite (round_half_even (q / 2 ^ (max (Int.log 2 q) (-1022) - 52)) *
        2 ^ (max (Int.log 2 q) (-1022) - 52)) := by
  unfold double.round
  have hne : q ≠ 0 := ne_of_gt hq
  have habs : |q| = q := abs_of_pos hq
  have hneg : ¬ q < 0 := not_lt.mpr (le_of_lt hq)
  simp only [hne, if_false, habs, hneg, decide_False]

/-- A power of two with an exponent that is not negative is an integer. -/
theorem two_zpow_eq_cast (k : Int) (hk : 0 ≤ k) :
    (2 : ℚ) ^ k = (((2 : Int) ^ k.toNat : Int) : ℚ) := by
  have : k = (k.toNat : Int) := (Int.toNat_of_nonneg hk).symm
  rw [this, zpow_natCast, Int.toNat_ofNat]
  push_cast
  rfl

/-- Rounding to `double` does not cross an integer, for a number whose exponent
is at most 52. -/
theorem round_between (q : ℚ) (hlog : Int.log 2 q ≤ 52) (n : Int) :
    ((n : ℚ) ≤ q →
      (n : ℚ) ≤ round_half_even (q / 2 ^ (max (Int.log 2 q) (-1022) - 52)) *
        2 ^ (max (Int.log 2 q) (-1022) - 52)) ∧
    (q ≤ (n : ℚ) →
      (round_half_even (q / 2 ^ (max (Int.log 2 q) (-1022) - 52)) : ℚ) *
        2 ^ (max (Int.log 2 q) (-1022) - 52) ≤ (n : ℚ)) := by
  generalize he : max (Int.log 2 q) (-1022) = e
  have he52 : e ≤ 52 := by rw [← he]; exact max_le hlog (by norm_num)
  have hk : 0 ≤ 52 - e := by omega
  have h2 : (2 : ℚ) ≠ 0 := by norm_num
  have hpos : (0 : ℚ) < 2 ^ (e - 52) := zpow_pos (by norm_num) _
  have hinv : (2 : ℚ) ^ (e - 52) * 2 ^ (52 - e) = 1 := by
    rw [← zpow_add₀ h2]
    have : e - 52 + (52 - e) = 0 := by ring
    rw [this, zpow_zero]
  have hdiv : ∀ y : ℚ, y / 2 ^ (e - 52) = y * 2 ^ (52 - e) := by
    intro y
    rw [div_eq_iff (ne_of_gt hpos), mul_assoc, mul_comm ((2 : ℚ) ^ (52 - e)), hinv, mul_one]
  have hcast := two_zpow_eq_cast (52 - e) hk
  have hKpos : (0 : ℚ) < 2 ^ (52 - e) := zpow_pos (by norm_num) _
  constructor
  · intro hn
    have h1 : ((n * (2 : Int) ^ (52 - e).toNat : Int) : ℚ) ≤ q / 2 ^ (e - 52) := by
      rw [hdiv, Int.cast_mul, ← hcast]
      exact mul_le_mul_of_nonneg_right hn (le_of_lt hKpos)
    have h2 := round_half_even_ge _ _ h1
    have h3 : ((n * (2 : Int) ^ (52 - e).toNat : Int) : ℚ) ≤
        (round_half_even (q / 2 ^ (e - 52)) : ℚ) := by exact_mod_cast h2
    rw [Int.cast_mul, ← hcast] at h3
    calc (n : ℚ) = (n : ℚ) * 2 ^ (52 - e) * 2 ^ (e - 52) := by
          rw [mul_assoc, mul_comm ((2 : ℚ) ^ (52 - e)), hinv, mul_one]
      _ ≤ round_half_even (q / 2 ^ (e - 52)) * 2 ^ (e - 52) :=
          mul_le_mul_of_nonneg_right h3 (le_of_lt hpos)
  · intro hn
    have h1 : q / 2 ^ (e - 52) ≤ ((n * (2 : Int) ^ (52 - e).toNat : Int) : ℚ) := by
      rw [hdiv, Int.cast_mul, ← hcast]
      exact mul_le_mul_of_nonneg_right hn (le_of_lt hKpos)
    have h2 := round_half_even_le _ _ h1
    have h3 : (round_half_even (q / 2 ^ (e - 52)) : ℚ) ≤
        ((n * (2 : Int) ^ (52 - e).toNat : Int) : ℚ) := by exact_mod_cast h2
    rw [Int.cast_mul, ← hcast] at h3
    calc (round_half_even (q / 2 ^ (e - 52)) : ℚ) * 2 ^ (e - 52)
        ≤ (n : ℚ) * 2 ^ (52 - e) * 2 ^ (e - 52) :=
          mul_le_mul_of_nonneg_right h3 (le_of_lt hpos)
      _ = (n : ℚ) := by
          rw [mul_assoc, mul_comm ((2 : ℚ) ^ (52 - e)), hinv, mul_one]

/-- The quotient that the arithmetic of `double` gives for an exact quotient
`q` with `0 < q ≤ 2 ^ 32 - 1` is finite and lies between the integers next to
`q`. -/
theorem round_finite (q : ℚ) (hq : 0 < q) (hle : q ≤ 2 ^ 32 - 1) :
    ∃ r : ℚ, double.round q = double.finite r ∧ ((⌊q⌋ : Int) : ℚ) ≤ r ∧
      r ≤ ((⌊q⌋ + 1 : Int) : ℚ) ∧ (q ≤ 1 → r ≤ 1) ∧ (1 ≤ q → 1 ≤ r) ∧ r ≤ 2 ^ 32 - 1 := by
  have hlog : Int.log 2 q ≤ 52 := by
    have h1 : q < ((2 : Nat) : ℚ) ^ (32 : Int) := by
      have : (((2 : Nat) : ℚ) ^ (32 : Int)) = 2 ^ 32 := by norm_num
      rw [this]
      linarith
    have := (Int.lt_zpow_iff_log_lt (by norm_num : 1 < 2) hq).mp h1
    omega
  have hb := round_between q hlog
  have hcast : (((2 ^ 32 - 1 : Int) : Int) : ℚ) = 2 ^ 32 - 1 := by norm_num
  have hmax := (hb (2 ^ 32 - 1)).2 (by rw [hcast]; exact hle)
  rw [hcast] at hmax
  refine ⟨round_half_even (q / 2 ^ (max (Int.log 2 q) (-1022) - 52)) *
    2 ^ (max (Int.log 2 q) (-1022) - 52), ?_, ?_, ?_, ?_, ?_, ?_⟩
  · rw [round_pos q hq]
    have hlt : ¬ (2 : ℚ) ^ (1024 : Nat) ≤
        round_half_even (q / 2 ^ (max (Int.log 2 q) (-1022) - 52)) *
          2 ^ (max (Int.log 2 q) (-1022) - 52) := by
      intro h
      have h3 : (2 : ℚ) ^ (1024 : Nat) ≤ 2 ^ 32 - 1 := le_trans h hmax
      norm_num at h3
    rw [if_neg hlt]
  · exact (hb ⌊q⌋).1 (Int.floor_le q)
  · exact (hb (⌊q⌋ + 1)).2 (le_of_lt (by push_cast; exact Int.lt_floor_add_one q))
  · intro h1
    have := (hb 1).2 (by push_cast; exact h1)
    simpa using this
  · intro h1
    have := (hb 1).1 (by push_cast; exact h1)
    simpa using this
  · exact hmax

/-! ## The interval of a section -/

/-- C25: for every section node that has an `<interval>` child, of value `n`,
`get_interval` returns `n` milliseconds when `n` is positive and fails with
`SEC_INVALID_INTERVAL` otherwise, whatever `<freq>` is: absent or of any value,
a NaN included. -/
theorem interval_overrides_freq (nsection : xml_section) (n : Int)
    (h : nsection.interval = some n) :
    (0 < n → get_interval nsection = some (.ok n)) ∧
    (n ≤ 0 → get_interval nsection = some (.error ⟨cfg_error_code.SEC_INVALID_INTERVAL⟩)) ∧
    (∀ freq : Option double,
      get_interval { nsection with freq := freq } = get_interval nsection) := by
  refine ⟨?_, ?_, ?_⟩
  · intro hn
    unfold get_interval
    rw [h]
    simp only [not_le.mpr hn, if_false]
  · intro hn
    unfold get_interval
    rw [h]
    simp only [hn, if_true]
  · intro freq
    unfold get_interval
    simp only [h]

/-- The preceding property on the section of the first scenario of the spec,
`<interval>10</interval>`, to which a `<freq>` of value zero is added. -/
theorem interval_overrides_freq_witness :
    (interval_section 10 5).interval = some 10 ∧
    get_interval (interval_section 10 5) = some (.ok 10) ∧
    get_interval { interval_section 10 5 with freq := some (double.finite 0) } =
      get_interval (interval_section 10 5) :=
  ⟨rfl, (interval_overrides_freq (interval_section 10 5) 10 rfl).1 (by decide),
    (interval_overrides_freq (interval_section 10 5) 10 rfl).2.2 (some (double.finite 0))⟩

/-- An interval that `get_interval` returns is at least one millisecond. -/
theorem get_interval_pos (nsection : xml_section) (i : Int)
    (h : get_interval nsection = some (.ok i)) : 1 ≤ i := by
  unfold get_interval at h
  cases hint : nsection.interval with
  | some interval =>
    rw [hint] at h
    simp only at h
    split at h
    · cases h
    · have := Except.ok.inj (Option.some.inj h)
      omega
  | none =>
    rw [hint] at h
    simp only at h
    cases hfreq : nsection.freq with
    | none => rw [hfreq] at h; cases h
    | some freq =>
      rw [hfreq] at h
      simp only at h
      split at h
      · cases h
      · split at h
        · have := Except.ok.inj (Option.some.inj h)
          omega
        · rename_i hle
          cases hq : double.div 1000 freq with
          | nan => rw [hq] at h; cases h
          | inf negative => rw [hq] at h; cases h
          | finite r =>
            rw [hq] at h hle
            simp only [double.le, decide_eq_true_eq, not_le] at hle
            simp only [double.to_unsigned] at h
            by_cases hr : -1 < r ∧ r < 2 ^ 32
            · rw [if_pos hr] at h
              have hi := Except.ok.inj (Option.some.inj h)
              have h1 : (1 : Int) ≤ ⌊r⌋ := Int.le_floor.mpr (by push_cast; exact le_of_lt hle)
              rw [← hi, Int.toNat_of_nonneg (by omega)]
              exact h1
            · rw [if_neg hr] at h
              cases h

/-- The interval that `get_interval` derives from a positive finite `<freq>`
when there is no `<interval>`. -/
theorem get_interval_freq (nsection : xml_section) (f : ℚ) (hint : nsection.interval = none)
    (hfreq : nsection.freq = some (double.finite f)) (hpos : 0 < f) :
    get_interval nsection =
      if (double.round (1000 / f)).le 1 then some (.ok 1)
      else
        match (double.round (1000 / f)).to_unsigned with
        | some v => some (.ok (v : Int))
        | none => none := by
  unfold get_interval
  rw [hint, hfreq]
  have hle : (double.finite f).le 0 = false := by
    simp only [double.le, decide_eq_false_iff_not, not_le]
    exact hpos
  have hdiv : double.div 1000 (double.finite f) = double.round (1000 / f) := by
    simp only [double.div, ne_of_gt hpos, if_false]
  simp only [hle, Bool.false_eq_true, if_false, hdiv]

/-- C26 (amended): for every section node with no `<interval>` and a `<freq>`
of finite value `f > 0`, an interval that `get_interval` returns is never below
1 ms; when `1000 / f` is at most `2 ^ 32 - 1`, the interval returned is
`max(1, floor(r))` ms for the quotient `r = 1000.0 / f` of the arithmetic of
`double`, which is `max(1, floor(1000 / f))` or one more; and every `f >= 1000`
yields exactly 1 ms. -/
theorem freq_interval_clamped (nsection : xml_section) (f : ℚ)
    (hint : nsection.interval = none) (hfreq : nsection.freq = some (double.finite f))
    (hpos : 0 < f) :
    (∀ i, get_interval nsection = some (.ok i) → 1 ≤ i) ∧
    (1000 / f ≤ 2 ^ 32 - 1 →
      ∃ r : ℚ, double.div 1000 (double.finite f) = double.finite r ∧
        get_interval nsection = some (.ok (max 1 ⌊r⌋)) ∧
        max 1 ⌊1000 / f⌋ ≤ max 1 ⌊r⌋ ∧ max 1 ⌊r⌋ ≤ max 1 ⌊1000 / f⌋ + 1) ∧
    (1000 ≤ f → get_interval nsection = some (.ok 1)) := by
  have hx : (0 : ℚ) < 1000 / f := div_pos (by norm_num) hpos
  have hdiv : double.div 1000 (double.finite f) = double.round (1000 / f) := by
    simp only [double.div, ne_of_gt hpos, if_false]
  have hget := get_interval_freq nsection f hint hfreq hpos
  refine ⟨fun i h => get_interval_pos nsection i h, ?_, ?_⟩
  · intro hle
    obtain ⟨r, hr, hlow, hhigh, _, _, hmax⟩ := round_finite (1000 / f) hx hle
    have hfl1 : ⌊1000 / f⌋ ≤ ⌊r⌋ := Int.le_floor.mpr hlow
    have hfl2 : ⌊r⌋ ≤ ⌊1000 / f⌋ + 1 := by
      have := le_trans (Int.floor_le r) hhigh
      exact_mod_cast this
    refine ⟨r, by rw [hdiv, hr], ?_, by omega, by omega⟩
    rw [hget, hr]
    by_cases h1 : r ≤ 1
    · have hfl : ⌊r⌋ ≤ 1 := by
        have := le_trans (Int.floor_le r) h1
        exact_mod_cast this
      simp only [double.le, h1, decide_True, if_true]
      rw [max_eq_left hfl]
    · have hgt : 1 < r := not_le.mp h1
      have hfl : (1 : Int) ≤ ⌊r⌋ := Int.le_floor.mpr (by push_cast; exact le_of_lt hgt)
      have hrange : -1 < r ∧ r < 2 ^ 32 := ⟨by linarith, by linarith⟩
      simp only [double.le, h1, decide_False, Bool.false_eq_true, if_false, double.to_unsigned,
        hrange, and_self, if_true]
      rw [max_eq_right hfl, Int.toNat_of_nonneg (by omega)]
  · intro hf
    have hle1 : 1000 / f ≤ 1 := by
      rw [div_le_one hpos]; exact hf
    obtain ⟨r, hr, _, _, hr1, _, _⟩ := round_finite (1000 / f) hx (by linarith)
    rw [hget, hr]
    simp only [double.le, hr1 hle1, decide_True, if_true]

/-- The preceding property on the third scenario of the spec,
`<freq>2000</freq>` with no `<interval>`, which yields 1 ms. -/
theorem freq_interval_clamped_witness :
    (freq_section (double.finite 2000) 5).interval = none ∧
    (freq_section (double.finite 2000) 5).freq = some (double.finite 2000) ∧
    (0 : ℚ) < 2000 ∧ (1000 : ℚ) ≤ 2000 ∧
    get_interval (freq_section (double.finite 2000) 5) = some (.ok 1) :=
  ⟨rfl, rfl, by norm_num, by norm_num,
    (freq_interval_clamped (freq_section (double.finite 2000) 5) 2000 rfl rfl
      (by norm_num)).2.2 (by norm_num)⟩

theorem round_half_even_eq (x : ℚ) (m : Int) (h1 : (m : ℚ) - 1 / 2 < x)
    (h2 : x < (m : ℚ) + 1 / 2) : round_half_even x = m := by
  have hlow : m - 1 ≤ ⌊x⌋ := by
    apply Int.le_floor.mpr
    push_cast
    linarith
  have hhigh : ⌊x⌋ ≤ m := by
    have h3 : ((⌊x⌋ : Int) : ℚ) < ((m + 1 : Int) : ℚ) := by
      have := Int.floor_le x
      push_cast
      linarith
    have : ⌊x⌋ < m + 1 := by exact_mod_cast h3
    omega
  unfold round_half_even
  by_cases hfl : ⌊x⌋ = m
  · have : x - ((⌊x⌋ : Int) : ℚ) < 1 / 2 := by rw [hfl]; linarith
    rw [if_pos this, hfl]
  · have hfl2 : ⌊x⌋ = m - 1 := by omega
    have hc : ((⌊x⌋ : Int) : ℚ) = (m : ℚ) - 1 := by rw [hfl2]; push_cast; ring
    have hn : ¬ x - ((⌊x⌋ : Int) : ℚ) < 1 / 2 := by rw [hc]; intro h; linarith
    have hp : 1 / 2 < x - ((⌊x⌋ : Int) : ℚ) := by rw [hc]; linarith
    rw [if_neg hn, if_pos hp, hfl2]
    ring

/-- The value of `double.round` at a positive number, from its exponent `e` and
the integer `m` nearest to its significand. -/
theorem round_eq (q : ℚ) (e m : Int) (hq : 0 < q) (he1 : (2 : ℚ) ^ e ≤ q)
    (he2 : q < (2 : ℚ) ^ (e + 1)) (hmin : -1022 ≤ e)
    (hm1 : (m : ℚ) - 1 / 2 < q / 2 ^ (e - 52)) (hm2 : q / 2 ^ (e - 52) < (m : ℚ) + 1 / 2)
    (hfin : (m : ℚ) * 2 ^ (e - 52) < 2 ^ (1024 : Nat)) :
    double.round q = double.finite ((m : ℚ) * 2 ^ (e - 52)) := by
  have hlog : Int.log 2 q = e := by
    have h1 : e ≤ Int.log 2 q := by
      rw [← Int.zpow_le_iff_le_log (by norm_num) hq]
      simpa using he1
    have h2 : Int.log 2 q < e + 1 := by
      rw [← Int.lt_zpow_iff_log_lt (by norm_num) hq]
      simpa using he2
    omega
  rw [round_pos q hq, hlog, max_eq_left hmin, round_half_even_eq _ m hm1 hm2,
    if_neg (not_le.mpr hfin)]

/-- C26, as stated, fails: for the `<freq>` value 142.85714285714286, the
double 5026338869833143 / 2 ^ 45, the quotient `1000.0 / freq` is 7 in the
arithmetic of `double` and the interval is 7 ms, while `floor(1000 / f)` is 6;
and for the value 125 / 2 ^ 29 the quotient is `2 ^ 32`, which is no value of
`unsigned int`, so that no interval is defined. -/
theorem freq_interval_counterexample :
    (0 : ℚ) < 5026338869833143 / 2 ^ 45 ∧
    get_interval (freq_section (double.finite (5026338869833143 / 2 ^ 45)) 5) = some (.ok 7) ∧
    max 1 ⌊(1000 : ℚ) / (5026338869833143 / 2 ^ 45)⌋ = 6 ∧
    (0 : ℚ) < 125 / 2 ^ 29 ∧
    get_interval (freq_section (double.finite (125 / 2 ^ 29)) 5) = none := by
  have hr1 : double.round (1000 / (5026338869833143 / 2 ^ 45)) = double.finite 7 := by
    have := round_eq (1000 / (5026338869833143 / 2 ^ 45)) 2 (7 * 2 ^ 50) (by norm_num)
      (by norm_num) (by norm_num) (by norm_num) (by norm_num) (by norm_num) (by norm_num)
    rw [this]
    norm_num
  have hr2 : double.round (1000 / (125 / 2 ^ 29)) = double.finite (2 ^ 32) := by
    have := round_eq (1000 / (125 / 2 ^ 29)) 32 (2 ^ 52) (by norm_num)
      (by norm_num) (by norm_num) (by norm_num) (by norm_num) (by norm_num) (by norm_num)
    rw [this]
    norm_num
  refine ⟨by norm_num, ?_, ?_, by norm_num, ?_⟩
  · rw [get_interval_freq _ (5026338869833143 / 2 ^ 45) rfl rfl (by norm_num), hr1]
    have h1 : ¬ (7 : ℚ) ≤ 1 := by norm_num
    have h2 : (-1 : ℚ) < 7 ∧ (7 : ℚ) < 2 ^ 32 := by norm_num
    have h3 : ⌊(7 : ℚ)⌋ = 7 := by
      rw [Int.floor_eq_iff]; norm_num
    simp only [double.le, h1, decide_False, Bool.false_eq_true, if_false, double.to_unsigned, h2,
      and_self, if_true, h3]
    rfl
  · have : ⌊(1000 : ℚ) / (5026338869833143 / 2 ^ 45)⌋ = 6 := by
      rw [Int.floor_eq_iff]; norm_num
    rw [this]
    rfl
  · rw [get_interval_freq _ (125 / 2 ^ 29) rfl rfl (by norm_num), hr2]
    have h1 : ¬ ((2 : ℚ) ^ 32 ≤ 1) := by norm_num
    have h2 : ¬ ((-1 : ℚ) < 2 ^ 32 ∧ (2 : ℚ) ^ 32 < 2 ^ 32) := by norm_num
    simp only [double.le, h1, decide_False, Bool.false_eq_true, if_false, double.to_unsigned, h2]

/-! ## The sections of a configuration -/

/-- A section that `get_section` returns holds the interval that `get_interval`
returns and the number of samples that `get_samples` returns for it. -/
theorem get_section_ok (nsection : xml_section) (s : config_data.section)
    (h : get_section nsection = some (.ok s)) :
    get_target nsection = .ok s._target ∧ nsection.name ≠ some [] ∧ nsection.extra ≠ some [] ∧
    get_interval nsection = some (.ok s._interval) ∧
    get_samples nsection s._interval = some (.ok s._samples) ∧
    ∃ nbounds, nsection.bounds = some nbounds ∧ get_bounds nbounds = .ok s._bounds := by
  unfold get_section at h
  cases ht : get_target nsection with
  | error e => rw [ht] at h; cases h
  | ok target =>
    rw [ht] at h
    simp only at h
    by_cases hname : nsection.name = some []
    · rw [if_pos hname] at h; cases h
    · rw [if_neg hname] at h
      by_cases hextra : nsection.extra = some []
      · rw [if_pos hextra] at h; cases h
      · rw [if_neg hextra] at h
        cases hi : get_interval nsection with
        | none => rw [hi] at h; cases h
        | some ri =>
          cases ri with
          | error e => rw [hi] at h; cases h
          | ok interval =>
            rw [hi] at h
            simp only at h
            split at h
            · cases h
            · split at h
              · cases h
              · cases hs : get_samples nsection interval with
                | none => rw [hs] at h; cases h
                | some rs =>
                  rw [hs] at h
                  simp only at h
                  cases hb : nsection.bounds with
                  | none => rw [hb] at h; cases h
                  | some nbounds =>
                    rw [hb] at h
                    simp only at h
                    cases hgb : get_bounds nbounds with
                    | error e => rw [hgb] at h; cases h
                    | ok bounds =>
                      rw [hgb] at h
                      simp only at h
                      cases rs with
                      | error e => cases h
                      | ok samples_value =>
                        simp only at h
                        have hsec := Except.ok.inj (Option.some.inj h)
                        subst hsec
                        exact ⟨rfl, hname, hextra, rfl, hs, nbounds, rfl, hgb⟩

/-- The interval test of `get_section`: when the target, the name and the
extra data are valid, a failure of `get_interval` is the failure of
`get_section`, and an undefined interval leaves the section undefined. -/
theorem get_section_interval (nsection : xml_section) (target : config_data.target)
    (ht : get_target nsection = .ok target) (hname : nsection.name ≠ some [])
    (hextra : nsection.extra ≠ some []) :
    (∀ e, get_interval nsection = some (.error e) → get_section nsection = some (.error e)) ∧
    (get_interval nsection = none → get_section nsection = none) := by
  constructor
  · intro e hi
    unfold get_section
    rw [ht]
    simp only [hname, hextra, if_false, hi]
  · intro hi
    unfold get_section
    rw [ht]
    simp only [hname, hextra, if_false, hi]

/-- The loop of `load_config` stops at the first section that fails, with its
error, when the sections before it are returned. -/
theorem load_sections_error (e : cfg_error) (nsection : xml_section) (post : List xml_section)
    (he : get_section nsection = some (.error e)) :
    ∀ (pre : List xml_section) (sections : List config_data.section),
      (∀ n ∈ pre, ∃ s, get_section n = some (.ok s)) →
      load_sections (pre ++ nsection :: post) sections = some (.error e) := by
  intro pre
  induction pre with
  | nil =>
    intro sections _
    simp only [List.nil_append, load_sections, he]
  | cons n rest ih =>
    intro sections hall
    obtain ⟨s, hs⟩ := hall n (List.mem_cons_self _ _)
    simp only [List.cons_append, load_sections, hs]
    exact ih _ (fun m hm => hall m (List.mem_cons_of_mem _ hm))

/-- For every section node with no `<interval>` whose target, name and extra
data are valid and whose `<freq>` value is at most zero (which is what an
unparsable text gives), `get_section` fails with `SEC_INVALID_FREQ`, and so
does the loop over the sections when the sections before it are returned. -/
theorem get_section_invalid_freq (nsection : xml_section) (target : config_data.target)
    (freq : double) (ht : get_target nsection = .ok target) (hname : nsection.name ≠ some [])
    (hextra : nsection.extra ≠ some []) (hint : nsection.interval = none)
    (hfreq : nsection.freq = some freq) (hle : freq.le 0 = true) :
    get_section nsection = some (.error ⟨cfg_error_code.SEC_INVALID_FREQ⟩) ∧
    ∀ (pre post : List xml_section) (sections : List config_data.section),
      (∀ n ∈ pre, ∃ s, get_section n = some (.ok s)) →
      load_sections (pre ++ nsection :: post) sections =
        some (.error ⟨cfg_error_code.SEC_INVALID_FREQ⟩) := by
  have hi : get_interval nsection = some (.error ⟨cfg_error_code.SEC_INVALID_FREQ⟩) := by
    unfold get_interval
    rw [hint, hfreq]
    simp only [hle, if_true]
  have hs := (get_section_interval nsection target ht hname hextra).1 _ hi
  exact ⟨hs, fun pre post sections hall => load_sections_error _ nsection post hs pre sections hall⟩

/-- C27: the second scenario of the spec, `<freq>0</freq>`, fails with
`SEC_INVALID_FREQ`; for `<freq>nan</freq>`, whose value is a NaN and no positive
number, the test `freq <= 0.0` is false, the quotient `1000.0 / freq` is a NaN
and its conversion to `unsigned int` is undefined: loading does not fail with
`SEC_INVALID_FREQ`. -/
theorem nan_freq_not_rejected :
    get_section (freq_section (double.finite 0) 5) =
      some (.error ⟨cfg_error_code.SEC_INVALID_FREQ⟩) ∧
    load_config (sections_document [freq_section (double.finite 0) 5]) =
      some (.error ⟨cfg_error_code.SEC_INVALID_FREQ⟩) ∧
    get_target (freq_section double.nan 5) = .ok config_data.target.cpu ∧
    double.le double.nan 0 = false ∧
    double.div 1000 double.nan = double.nan ∧
    get_interval (freq_section double.nan 5) = none ∧
    get_section (freq_section double.nan 5) = none ∧
    load_config (sections_document [freq_section double.nan 5]) = none := by
  have h0 : get_section (freq_section (double.finite 0) 5) =
      some (.error ⟨cfg_error_code.SEC_INVALID_FREQ⟩) :=
    (get_section_invalid_freq (freq_section (double.finite 0) 5) config_data.target.cpu
      (double.finite 0) rfl (by decide) (by decide) rfl rfl
      (by simp only [double.le, le_refl, decide_True])).1
  have hnan : get_section (freq_section double.nan 5) = none :=
    (get_section_interval (freq_section double.nan 5) config_data.target.cpu rfl (by decide)
      (by decide)).2 rfl
  refine ⟨h0, ?_, rfl, rfl, rfl, rfl, hnan, ?_⟩
  · simp only [load_config, sections_document, load_sections, h0]
    rfl
  · simp only [load_config, sections_document, load_sections, hnan]
    rfl

/-! ## The number of samples of a section -/

/-- The quotient of the language plus one when the remainder is not zero is the
quotient rounded up, for a positive dividend and divisor. -/
theorem ceil_division (d i : Int) (hd : 0 < d) (hi : 1 ≤ i) :
    Int.tdiv d i + (if Int.tmod d i ≠ 0 then 1 else 0) = ⌈(d : ℚ) / (i : ℚ)⌉ := by
  rw [Int.tdiv_eq_ediv (le_of_lt hd) (by omega), Int.tmod_eq_emod (le_of_lt hd) (by omega)]
  symm
  rw [Int.ceil_eq_iff]
  have hipos : (0 : ℚ) < (i : ℚ) := by exact_mod_cast (by omega : 0 < i)
  have hdecomp := Int.ediv_add_emod d i
  have hr0 := Int.emod_nonneg d (by omega : i ≠ 0)
  have hr1 := Int.emod_lt_of_pos d (by omega : 0 < i)
  have hq : (d : ℚ) = (i : ℚ) * ((d / i : Int) : ℚ) + ((d % i : Int) : ℚ) := by
    exact_mod_cast hdecomp.symm
  have hr0q : (0 : ℚ) ≤ ((d % i : Int) : ℚ) := by exact_mod_cast hr0
  have hr1q : ((d % i : Int) : ℚ) < (i : ℚ) := by exact_mod_cast hr1
  by_cases hz : d % i = 0
  · have hzq : ((d % i : Int) : ℚ) = 0 := by exact_mod_cast hz
    simp only [hz, ne_eq, not_true_eq_false, if_false, add_zero]
    constructor
    · rw [lt_div_iff₀ hipos]
      nlinarith
    · rw [div_le_iff₀ hipos]
      nlinarith
  · have hpos : (0 : ℚ) < ((d % i : Int) : ℚ) := by
      have : 0 < d % i := lt_of_le_of_ne hr0 (Ne.symm hz)
      exact_mod_cast this
    simp only [ne_eq, hz, not_false_eq_true, if_true]
    push_cast
    constructor
    · rw [lt_div_iff₀ hipos]
      nlinarith
    · rw [div_le_iff₀ hipos]
      nlinarith

theorem to_uint32_of_lt (v : Int) (h0 : 0 ≤ v) (h1 : v < 2 ^ 32) : to_uint32 v = v.toNat := by
  unfold to_uint32
  rw [Int.emod_eq_of_lt h0 h1]

/-- C28: for every section node with a `<duration>` of positive value `d`,
`get_samples` returns `ceil(d / i)` for every interval `i >= 1`, whether or not
a `<samples>` element is also present, and a section that `get_section` returns
for the node has an interval `i >= 1` and `ceil(d / i)` samples. -/
theorem duration_samples (nsection : xml_section) (d : Int)
    (hd : nsection.duration = some d) (hpos : 0 < d) (hrange : d < 2 ^ 31) :
    (∀ i : Int, 1 ≤ i → get_samples nsection i = some (.ok ⌈(d : ℚ) / (i : ℚ)⌉.toNat)) ∧
    (∀ s, get_section nsection = some (.ok s) →
      1 ≤ s._interval ∧ s._samples = ⌈(d : ℚ) / (s._interval : ℚ)⌉.toNat) ∧
    (∀ (samples : Option Nat) (i : Int),
      get_samples { nsection with samples := samples } i = get_samples nsection i) := by
  have hsamp : ∀ i : Int, 1 ≤ i →
      get_samples nsection i = some (.ok ⌈(d : ℚ) / (i : ℚ)⌉.toNat) := by
    intro i hi
    unfold get_samples
    rw [hd]
    have hne : i ≠ 0 := by omega
    simp only [not_le.mpr hpos, if_false, hne]
    have hceil := ceil_division d i hpos hi
    rw [hceil]
    have h0 : 0 ≤ ⌈(d : ℚ) / (i : ℚ)⌉ := by
      rw [← hceil, Int.tdiv_eq_ediv (le_of_lt hpos) (by omega)]
      have := Int.ediv_nonneg (le_of_lt hpos) (by omega : 0 ≤ i)
      split <;> omega
    have h1 : ⌈(d : ℚ) / (i : ℚ)⌉ < 2 ^ 32 := by
      rw [← hceil, Int.tdiv_eq_ediv (le_of_lt hpos) (by omega)]
      have := Int.ediv_le_self i (le_of_lt hpos)
      split <;> omega
    rw [to_uint32_of_lt _ h0 h1]
  refine ⟨hsamp, ?_, ?_⟩
  · intro s hs
    obtain ⟨_, _, _, hi, hsm, _⟩ := get_section_ok nsection s hs
    have hint := get_interval_pos nsection s._interval hi
    rw [hsamp s._interval hint] at hsm
    exact ⟨hint, (Except.ok.inj (Option.some.inj hsm)).symm⟩
  · intro samples i
    unfold get_samples
    simp only [hd]

/-- The preceding property on a section with `<interval>10</interval>` and
`<duration>105</duration>`, which gives 11 samples, also when
`<samples>5</samples>` is present. -/
theorem duration_samples_witness :
    (duration_section 10 105 (some 5)).duration = some 105 ∧
    get_samples (duration_section 10 105 (some 5)) 10 =
      some (.ok ⌈((105 : Int) : ℚ) / ((10 : Int) : ℚ)⌉.toNat) ∧
    ⌈((105 : Int) : ℚ) / ((10 : Int) : ℚ)⌉ = 11 :=
  ⟨rfl,
    (duration_samples (duration_section 10 105 (some 5)) 105 rfl (by decide) (by decide)).1 10
      (by decide),
    by rw [Int.ceil_eq_iff]; norm_num⟩

/-! ## The first scenario of the spec -/

theorem to_int_of_lt (k : Nat) (h : k < 2 ^ 31) : to_int k = (k : Int) := by
  unfold to_int
  have h1 : (k + 2 ^ 31) % 2 ^ 32 = k + 2 ^ 31 := Nat.mod_eq_of_lt (by omega)
  rw [h1]
  push_cast
  ring

/-- C29 (amended): for every section node with no target attribute, a `<name>`
and an `<extra>` that are absent or not empty, `<interval>` of value `n > 0`,
`<method>profile</method>`, `<samples>` of value `k` with `0 < k < 2 ^ 31`, no
`<duration>`, no `<execs>` and valid bounds, `get_section` succeeds with
interval `n` ms, method `energy_profile`, `k` samples, target `cpu`, 0
executions and the bounds as given; `load_config` of a document that holds this
section only, with valid or absent `<threads>` and `<params>`, returns exactly
this section. -/
theorem default_target_section (nsection : xml_section) (n : Int) (k : Nat)
    (nbounds : xml_bounds) (bounds : config_data.bounds)
    (htarget : nsection.target = none) (hname : nsection.name ≠ some [])
    (hextra : nsection.extra ≠ some []) (hint : nsection.interval = some n) (hn : 0 < n)
    (hmethod : nsection.method = some "profile".toList) (hsamples : nsection.samples = some k)
    (hk : 0 < k) (hk31 : k < 2 ^ 31) (hdur : nsection.duration = none)
    (hexecs : nsection.execs = none) (hb : nsection.bounds = some nbounds)
    (hbounds : get_bounds nbounds = .ok bounds) :
    get_section nsection = some (.ok
      { _name := nsection.name.getD [], _extra := nsection.extra.getD [],
        _target := config_data.target.cpu,
        _method := config_data.profiling_method.energy_profile,
        _bounds := bounds, _interval := n, _executions := 0, _samples := k }) ∧
    ∀ (doc : xml_document) (nconfig : xml_config),
      doc.status = xml_parse_status.status_ok → doc.config = some nconfig →
      (∀ t, nconfig.threads = some t → 0 < t) →
      (∀ nparams, nconfig.params = some nparams → ∃ p, get_params nparams = .ok p) →
      nconfig.sections = some [nsection] →
      ∃ cfg, load_config doc = some (.ok cfg) ∧ cfg._sections =
        [{ _name := nsection.name.getD [], _extra := nsection.extra.getD [],
           _target := config_data.target.cpu,
           _method := config_data.profiling_method.energy_profile,
           _bounds := bounds, _interval := n, _executions := 0, _samples := k }] := by
  have ht : get_target nsection = .ok config_data.target.cpu := by
    unfold get_target; rw [htarget]
  have hi : get_interval nsection = some (.ok n) := by
    unfold get_interval; rw [hint]
    simp only [not_le.mpr hn, if_false]
  have hm : get_method "profile".toList = .ok config_data.profiling_method.energy_profile := by
    decide
  have hs : get_samples nsection n = some (.ok k) := by
    unfold get_samples
    rw [hdur, hsamples]
    have hpos : ¬ (k : Int) ≤ 0 := by omega
    have hu : to_uint32 (k : Int) = k := by
      rw [to_uint32_of_lt _ (by omega) (by omega)]
      exact Int.toNat_ofNat k
    simp only [to_int_of_lt k hk31, hpos, if_false, hu]
  have hsec : get_section nsection = some (.ok
      { _name := nsection.name.getD [], _extra := nsection.extra.getD [],
        _target := config_data.target.cpu,
        _method := config_data.profiling_method.energy_profile,
        _bounds := bounds, _interval := n, _executions := 0, _samples := k }) := by
    unfold get_section
    rw [ht]
    simp only [hname, hextra, if_false, hi, hmethod, hm, if_true, hexecs, Option.isSome_none,
      Bool.false_eq_true, false_and, hs, hb, hbounds]
    rfl
  refine ⟨hsec, ?_⟩
  intro doc nconfig hstatus hconfig hthreads hparams hsections
  unfold load_config
  rw [hstatus]
  simp only [hconfig]
  have hth : ¬ (nconfig.threads.isSome = true ∧
      (match nconfig.threads with
        | some v => v
        | none => 0) ≤ 0) := by
    cases hc : nconfig.threads with
    | none => simp
    | some t =>
      have := hthreads t hc
      simp only [Option.isSome_some, true_and, not_le]
      exact this
  rw [if_neg hth]
  cases hp : nconfig.params with
  | none =>
    simp only [hsections, load_sections, hsec, List.nil_append, List.length_singleton,
      Nat.succ_ne_zero, if_false]
    exact ⟨_, rfl, rfl⟩
  | some nparams =>
    obtain ⟨p, hgp⟩ := hparams nparams hp
    simp only [hgp, hsections, load_sections, hsec, List.nil_append, List.length_singleton,
      Nat.succ_ne_zero, if_false]
    exact ⟨_, rfl, rfl⟩

/-- The preceding property on the first scenario of the spec: one section,
`interval = 10 ms`, `method = energy_profile`, `samples = 5`, `target = cpu`. -/
theorem default_target_section_witness :
    get_bounds example_bounds = .ok ⟨⟨"main.c".toList, 10⟩, ⟨"main.c".toList, 20⟩⟩ ∧
    get_section (interval_section 10 5) = some (.ok
      { _name := [], _extra := [], _target := config_data.target.cpu,
        _method := config_data.profiling_method.energy_profile,
        _bounds := ⟨⟨"main.c".toList, 10⟩, ⟨"main.c".toList, 20⟩⟩,
        _interval := 10, _executions := 0, _samples := 5 }) ∧
    ∃ cfg, load_config (sections_document [interval_section 10 5]) = some (.ok cfg) ∧
      cfg._sections =
        [{ _name := [], _extra := [], _target := config_data.target.cpu,
           _method := config_data.profiling_method.energy_profile,
           _bounds := ⟨⟨"main.c".toList, 10⟩, ⟨"main.c".toList, 20⟩⟩,
           _interval := 10, _executions := 0, _samples := 5 }] :=
  ⟨by decide,
    (default_target_section (interval_section 10 5) 10 5 example_bounds
      ⟨⟨"main.c".toList, 10⟩, ⟨"main.c".toList, 20⟩⟩ rfl (by decide) (by decide) rfl
      (by decide) rfl rfl (by decide) (by decide) rfl rfl rfl (by decide)).1,
    (default_target_section (interval_section 10 5) 10 5 example_bounds
      ⟨⟨"main.c".toList, 10⟩, ⟨"main.c".toList, 20⟩⟩ rfl (by decide) (by decide) rfl
      (by decide) rfl rfl (by decide) (by decide) rfl rfl rfl (by decide)).2
      (sections_document [interval_section 10 5])
      { threads := none, params := none, sections := some [interval_section 10 5] }
      rfl rfl (fun t h => by cases h) (fun p h => by cases h) rfl⟩

/-- C29, as stated, fails: the section of the first scenario with an empty
`<name>` added has every feature that the claim names and fails with
`SEC_INVALID_NAME`; and with `<samples>2147483648</samples>`, a value of
`unsigned int` that is negative as an `int`, `get_samples` fails with
`SEC_INVALID_SAMPLES` and no section with 2147483648 samples is returned. -/
theorem default_target_section_counterexample :
    get_section { interval_section 10 5 with name := some [] } =
      some (.error ⟨cfg_error_code.SEC_INVALID_NAME⟩) ∧
    get_samples (interval_section 10 2147483648) 10 =
      some (.error ⟨cfg_error_code.SEC_INVALID_SAMPLES⟩) ∧
    get_section (interval_section 10 2147483648) = none := by
  decide

/-! ## The interval of the sections returned -/

/-- Every section that the loop of `load_config` returns was pushed before or
is what `get_section` returns for one of the nodes. -/
theorem load_sections_ok (children : List xml_section) :
    ∀ (sections result : List config_data.section),
      load_sections children sections = some (.ok result) →
      ∀ s ∈ result, s ∈ sections ∨ ∃ n ∈ children, get_section n = some (.ok s) := by
  induction children with
  | nil =>
    intro sections result h s hs
    simp only [load_sections] at h
    have := Except.ok.inj (Option.some.inj h)
    rw [← this] at hs
    exact Or.inl hs
  | cons n rest ih =>
    intro sections result h s hs
    simp only [load_sections] at h
    cases hn : get_section n with
    | none => rw [hn] at h; cases h
    | some r =>
      cases r with
      | error e => rw [hn] at h; cases h
      | ok sv =>
        rw [hn] at h
        simp only at h
        rcases ih _ _ h s hs with hmem | ⟨m, hm, hget⟩
        · rcases List.mem_append.mp hmem with h1 | h1
          · exact Or.inl h1
          · rw [List.mem_singleton] at h1
            exact Or.inr ⟨n, List.mem_cons_self _ _, by rw [h1]; exact hn⟩
        · exact Or.inr ⟨m, List.mem_cons_of_mem _ hm, hget⟩

/-- Wherever the behaviour of `load_config` is defined, every section returned
has an interval of at least 1 ms, and `get_samples` is given no zero divisor. -/
theorem returned_sections_interval (doc : xml_document) (cfg : config_data)
    (h : load_config doc = some (.ok cfg)) :
    ∀ s ∈ cfg._sections, 1 ≤ s._interval ∧
      ∃ n, get_section n = some (.ok s) ∧ get_interval n = some (.ok s._interval) ∧
        get_samples n s._interval = some (.ok s._samples) := by
  intro s hs
  unfold load_config at h
  cases hst : doc.status <;> rw [hst] at h <;> simp only at h <;> try cases h
  cases hc : doc.config with
  | none => rw [hc] at h; cases h
  | some nconfig =>
    rw [hc] at h
    simp only at h
    split at h
    · cases h
    · split at h
      · cases h
      · cases hsec : nconfig.sections with
        | none =>
          rw [hsec] at h
          simp only at h
          have := Except.ok.inj (Option.some.inj h)
          rw [← this] at hs
          cases hs
        | some children =>
          rw [hsec] at h
          simp only at h
          cases hl : load_sections children [] with
          | none => rw [hl] at h; cases h
          | some r =>
            cases r with
            | error e => rw [hl] at h; cases h
            | ok sections =>
              rw [hl] at h
              simp only at h
              split at h
              · cases h
              · have := Except.ok.inj (Option.some.inj h)
                rw [← this] at hs
                rcases load_sections_ok children [] sections hl s hs with h0 | ⟨n, _, hget⟩
                · cases h0
                · obtain ⟨_, _, _, hi, hsm, _⟩ := get_section_ok n s hget
                  exact ⟨get_interval_pos n s._interval hi, n, hget, hi, hsm⟩

/-- C30: for a section with `<freq>nan</freq>` and `<duration>100</duration>`,
the test `freq <= 0.0` is false, the quotient `1000.0 / freq` is a NaN, the test
`interval <= 1.0` is false and the conversion of the quotient to `unsigned int`
is undefined: no interval of at least 1 ms is established before `get_samples`
divides by it. -/
theorem nan_freq_interval_undefined :
    double.le double.nan 0 = false ∧
    double.le (double.div 1000 double.nan) 1 = false ∧
    double.to_unsigned (double.div 1000 double.nan) = none ∧
    get_interval { freq_section double.nan 5 with duration := some 100 } = none ∧
    get_section { freq_section double.nan 5 with duration := some 100 } = none ∧
    load_config (sections_document [{ freq_section double.nan 5 with duration := some 100 }]) =
      none := by
  have hnan : get_section { freq_section double.nan 5 with duration := some 100 } = none :=
    (get_section_interval { freq_section double.nan 5 with duration := some 100 }
      config_data.target.cpu rfl (by decide) (by decide)).2 rfl
  refine ⟨rfl, rfl, rfl, rfl, hnan, ?_⟩
  simp only [load_config, sections_document, load_sections, hnan]
  rfl

/-! ## Positions -/

/-- The positions of a section that `get_section` returns are what
`get_position` returns for the nodes `<start>` and `<end>` of its bounds. -/
theorem get_bounds_ok (nbounds : xml_bounds) (b : config_data.bounds)
    (h : get_bounds nbounds = .ok b) :
    ∃ start end_node, nbounds.start_node = some start ∧ nbounds.end_node = some end_node ∧
      get_position start = .ok b._start ∧ get_position end_node = .ok b._end := by
  unfold get_bounds at h
  cases hs : nbounds.start_node with
  | none => rw [hs] at h; cases h
  | some start =>
    rw [hs] at h
    simp only at h
    cases he : nbounds.end_node with
    | none => rw [he] at h; cases h
    | some end_node =>
      rw [he] at h
      simp only at h
      cases hps : get_position start with
      | error e => rw [hps] at h; cases h
      | ok pstart =>
        rw [hps] at h
        simp only at h
        cases hpe : get_position end_node with
        | error e => rw [hpe] at h; cases h
        | ok pend =>
          rw [hpe] at h
          simp only at h
          have := Except.ok.inj h
          subst this
          exact ⟨start, end_node, rfl, rfl, hps, hpe⟩

/-- The line of a position that `get_position` returns, for a line value of
type `int`. -/
theorem get_position_line (pos_node : xml_position) (p : config_data.position)
    (h : get_position pos_node = .ok p) :
    ∃ cu lineno, pos_node.cu = some cu ∧ cu ≠ [] ∧ pos_node.line = some lineno ∧ 1 ≤ lineno ∧
      p = ⟨cu, to_uint32 lineno⟩ := by
  unfold get_position at h
  cases hcu : pos_node.cu with
  | none => rw [hcu] at h; cases h
  | some cu =>
    rw [hcu] at h
    simp only at h
    by_cases hempty : cu = []
    · rw [if_pos hempty] at h; cases h
    · rw [if_neg hempty] at h
      cases hl : pos_node.line with
      | none => rw [hl] at h; cases h
      | some lineno =>
        rw [hl] at h
        simp only at h
        by_cases hle : lineno ≤ 0
        · rw [if_pos hle] at h; cases h
        · rw [if_neg hle] at h
          exact ⟨cu, lineno, rfl, hempty, rfl, by omega, (Except.ok.inj h).symm⟩

/-- Every section that `load_config` returns is what `get_section` returns for
one of the children of `<sections>`. -/
theorem load_config_sections (doc : xml_document) (cfg : config_data)
    (h : load_config doc = some (.ok cfg)) :
    ∀ s ∈ cfg._sections, ∃ nconfig children nsection, doc.config = some nconfig ∧
      nconfig.sections = some children ∧ nsection ∈ children ∧
      get_section nsection = some (.ok s) := by
  intro s hs
  unfold load_config at h
  cases hst : doc.status <;> rw [hst] at h <;> simp only at h <;> try cases h
  cases hc : doc.config with
  | none => rw [hc] at h; cases h
  | some nconfig =>
    rw [hc] at h
    simp only at h
    split at h
    · cases h
    · split at h
      · cases h
      · cases hsec : nconfig.sections with
        | none =>
          rw [hsec] at h
          simp only at h
          have := Except.ok.inj (Option.some.inj h)
          rw [← this] at hs
          cases hs
        | some children =>
          rw [hsec] at h
          simp only at h
          cases hl : load_sections children [] with
          | none => rw [hl] at h; cases h
          | some r =>
            cases r with
            | error e => rw [hl] at h; cases h
            | ok sections =>
              rw [hl] at h
              simp only at h
              split at h
              · cases h
              · have := Except.ok.inj (Option.some.inj h)
                rw [← this] at hs
                rcases load_sections_ok children [] sections hl s hs with h0 | ⟨n, hn, hget⟩
                · cases h0
                · exact ⟨nconfig, children, n, rfl, hsec, hn, hget⟩

/-- C31: for every position node, `get_position` succeeds iff `<cu>` is present
and not empty and `<line>` is present with a value of at least 1, and then
returns that compilation unit and that line (for a line value of type `int`);
it fails with `POS_NO_COMP_UNIT` iff there is no `<cu>`, with
`POS_INVALID_COMP_UNIT` iff `<cu>` is empty, with `POS_NO_LINE` iff `<cu>` is
valid and there is no `<line>`, and with `POS_INVALID_LINE` iff `<cu>` is valid
and the line value is at most 0. Hence every position of every section that
`load_config` returns has a line of at least 1. -/
theorem get_position_outcomes :
    (∀ (pos_node : xml_position),
      ((∃ p, get_position pos_node = .ok p) ↔
        ∃ cu lineno, pos_node.cu = some cu ∧ cu ≠ [] ∧ pos_node.line = some lineno ∧
          1 ≤ lineno) ∧
      (∀ cu lineno, pos_node.cu = some cu → cu ≠ [] → pos_node.line = some lineno →
        1 ≤ lineno → lineno < 2 ^ 31 → get_position pos_node = .ok ⟨cu, lineno.toNat⟩) ∧
      (get_position pos_node = .error ⟨cfg_error_code.POS_NO_COMP_UNIT⟩ ↔
        pos_node.cu = none) ∧
      (get_position pos_node = .error ⟨cfg_error_code.POS_INVALID_COMP_UNIT⟩ ↔
        pos_node.cu = some []) ∧
      (get_position pos_node = .error ⟨cfg_error_code.POS_NO_LINE⟩ ↔
        ∃ cu, pos_node.cu = some cu ∧ cu ≠ [] ∧ pos_node.line = none) ∧
      (get_position pos_node = .error ⟨cfg_error_code.POS_INVALID_LINE⟩ ↔
        ∃ cu lineno, pos_node.cu = some cu ∧ cu ≠ [] ∧ pos_node.line = some lineno ∧
          lineno ≤ 0)) ∧
    (∀ (doc : xml_document) (cfg : config_data), load_config doc = some (.ok cfg) →
      (∀ nconfig children, doc.config = some nconfig → nconfig.sections = some children →
        ∀ nsection ∈ children, nsection.lines_are_int) →
      ∀ s ∈ cfg._sections, 1 ≤ s._bounds._start._line ∧ 1 ≤ s._bounds._end._line) := by
  constructor
  · intro pos_node
    have hcases : ∀ (cu : List Char), pos_node.cu = some cu → cu ≠ [] →
        ∀ lineno, pos_node.line = some lineno →
        get_position pos_node =
          if lineno ≤ 0 then .error ⟨cfg_error_code.POS_INVALID_LINE⟩
          else .ok ⟨cu, to_uint32 lineno⟩ := by
      intro cu hcu hne lineno hl
      unfold get_position
      rw [hcu]
      simp only [hne, if_false, hl]
    refine ⟨⟨?_, ?_⟩, ?_, ?_, ?_, ?_, ?_⟩
    · rintro ⟨p, hp⟩
      obtain ⟨cu, lineno, h1, h2, h3, h4, _⟩ := get_position_line pos_node p hp
      exact ⟨cu, lineno, h1, h2, h3, h4⟩
    · rintro ⟨cu, lineno, h1, h2, h3, h4⟩
      rw [hcases cu h1 h2 lineno h3, if_neg (by omega)]
      exact ⟨_, rfl⟩
    · intro cu lineno h1 h2 h3 h4 h5
      rw [hcases cu h1 h2 lineno h3, if_neg (by omega), to_uint32_of_lt _ (by omega) (by omega)]
    · unfold get_position
      cases hcu : pos_node.cu with
      | none => simp
      | some cu =>
        simp only
        by_cases hempty : cu = []
        · simp [hempty]
        · simp only [hempty, if_false]
          cases hl : pos_node.line with
          | none => simp
          | some lineno => simp only; split <;> simp
    · unfold get_position
      cases hcu : pos_node.cu with
      | none => simp
      | some cu =>
        simp only
        by_cases hempty : cu = []
        · simp [hempty]
        · simp only [hempty, if_false]
          cases hl : pos_node.line with
          | none => simp [hempty]
          | some lineno => simp only; split <;> simp [hempty]
    · unfold get_position
      cases hcu : pos_node.cu with
      | none => simp
      | some cu =>
        simp only
        by_cases hempty : cu = []
        · simp [hempty]
        · simp only [hempty, if_false]
          cases hl : pos_node.line with
          | none => simp [hempty]
          | some lineno => simp only; split <;> simp [hempty]
    · unfold get_position
      cases hcu : pos_node.cu with
      | none => simp
      | some cu =>
        simp only
        by_cases hempty : cu = []
        · simp [hempty]
        · simp only [hempty, if_false]
          cases hl : pos_node.line with
          | none => simp
          | some lineno =>
            simp only
            split
            · simp [hempty]; assumption
            · simp [hempty]; omega
  · intro doc cfg hload hint s hs
    obtain ⟨nconfig, children, nsection, hc, hch, hmem, hget⟩ :=
      load_config_sections doc cfg hload s hs
    obtain ⟨_, _, _, _, _, nbounds, hb, hgb⟩ := get_section_ok nsection s hget
    obtain ⟨start, end_node, hst, hen, hps, hpe⟩ := get_bounds_ok nbounds s._bounds hgb
    have hrange := hint nconfig children hc hch nsection hmem
    obtain ⟨cu1, l1, _, _, hl1, h1, hp1⟩ := get_position_line start _ hps
    obtain ⟨cu2, l2, _, _, hl2, h2, hp2⟩ := get_position_line end_node _ hpe
    have hr1 := hrange nbounds start l1 hb (Or.inl hst) hl1
    have hr2 := hrange nbounds end_node l2 hb (Or.inr hen) hl2
    rw [hp1, hp2]
    simp only
    rw [to_uint32_of_lt _ (by omega) (by omega), to_uint32_of_lt _ (by omega) (by omega)]
    omega

/-- The preceding property on the node `<cu>main.c</cu><line>10</line>`. -/
theorem get_position_outcomes_witness :
    get_position { cu := some "main.c".toList, line := some 10 } =
      .ok ⟨"main.c".toList, 10⟩ :=
  (get_position_outcomes.1 { cu := some "main.c".toList, line := some 10 }).2.1
    "main.c".toList 10 rfl (by decide) rfl (by decide) (by decide)

/-! ## Unchecked results and defaults of `get_section` -/

/-- When the target, the name, the extra data, the interval, the method, the
executions and the bounds of a section node are valid and `get_samples` fails,
`get_section` reads the value of the failed result: no error is returned. -/
theorem get_section_samples_error (nsection : xml_section) (target : config_data.target)
    (interval : Int) (e : cfg_error) (nbounds : xml_bounds) (bounds : config_data.bounds)
    (ht : get_target nsection = .ok target) (hname : nsection.name ≠ some [])
    (hextra : nsection.extra ≠ some []) (hi : get_interval nsection = some (.ok interval))
    (hmethod : nsection.method = none) (hexecs : nsection.execs = none)
    (hs : get_samples nsection interval = some (.error e))
    (hb : nsection.bounds = some nbounds) (hgb : get_bounds nbounds = .ok bounds) :
    get_section nsection = none := by
  unfold get_section
  rw [ht]
  simp only [hname, hextra, if_false, hi, hmethod, hexecs, Option.isSome_none,
    Bool.false_eq_true, false_and, hs, hb, hgb]

/-- C32: the section of the first scenario with `<samples>0</samples>`, and
the same section with `<duration>0</duration>` instead: `get_samples` fails with
`SEC_INVALID_SAMPLES` and with `SEC_INVALID_DURATION`, `get_section` does not
test the result and reads its value, and neither `get_section` nor
`load_config` fails with the error. -/
theorem samples_error_not_returned :
    get_samples (interval_section 10 0) 10 =
      some (.error ⟨cfg_error_code.SEC_INVALID_SAMPLES⟩) ∧
    get_section (interval_section 10 0) = none ∧
    load_config (sections_document [interval_section 10 0]) = none ∧
    get_samples (duration_section 10 0 none) 10 =
      some (.error ⟨cfg_error_code.SEC_INVALID_DURATION⟩) ∧
    get_section (duration_section 10 0 none) = none ∧
    load_config (sections_document [duration_section 10 0 none]) = none := by
  decide

/-- A section returned for a node without `<method>` has the method
`energy_profile`. -/
theorem get_section_no_method (nsection : xml_section) (s : config_data.section)
    (hmethod : nsection.method = none) (h : get_section nsection = some (.ok s)) :
    s._method = config_data.profiling_method.energy_profile := by
  unfold get_section at h
  cases ht : get_target nsection with
  | error e => rw [ht] at h; cases h
  | ok target =>
    rw [ht] at h
    simp only [hmethod] at h
    split at h
    · cases h
    · split at h
      · cases h
      · cases hi : get_interval nsection with
        | none => rw [hi] at h; cases h
        | some ri =>
          cases ri with
          | error e => rw [hi] at h; cases h
          | ok interval =>
            rw [hi] at h
            simp only at h
            split at h
            · cases h
            · cases hs : get_samples nsection interval with
              | none => rw [hs] at h; cases h
              | some rs =>
                rw [hs] at h
                simp only at h
                cases hb : nsection.bounds with
                | none => rw [hb] at h; cases h
                | some nbounds =>
                  rw [hb] at h
                  simp only at h
                  cases hgb : get_bounds nbounds with
                  | error e => rw [hgb] at h; cases h
                  | ok bounds =>
                    rw [hgb] at h
                    simp only at h
                    cases rs with
                    | error e => cases h
                    | ok samples_value =>
                      simp only at h
                      have hsec := Except.ok.inj (Option.some.inj h)
                      rw [← hsec]

/-- C35: the section of the first scenario without its `<method>` element is
parsed with the method `energy_profile`, not `energy_total`. -/
theorem default_method_is_profile :
    ({ interval_section 10 5 with method := none } : xml_section).method = none ∧
    (get_section { interval_section 10 5 with method := none }).map
      (fun r => r.map (fun s => s._method)) =
        some (.ok config_data.profiling_method.energy_profile) ∧
    config_data.profiling_method.energy_profile ≠ config_data.profiling_method.energy_total := by
  decide

/-- C36: for every section node whose target is `gpu` and whose `<method>` has
one of the valid values `profile` and `total`, `get_section` returns what it
returns for the same node with `<method>` removed. -/
theorem gpu_method_no_effect (nsection : xml_section) (method_str : List Char)
    (ht : get_target nsection = .ok config_data.target.gpu)
    (hm : nsection.method = some method_str)
    (hvalid : method_str = "profile".toList ∨ method_str = "total".toList) :
    get_section nsection = get_section { nsection with method := none } := by
  have hgm : ∃ m, get_method method_str = .ok m := by
    rcases hvalid with h | h <;> rw [h]
    · exact ⟨config_data.profiling_method.energy_profile, by decide⟩
    · exact ⟨config_data.profiling_method.energy_total, by decide⟩
  obtain ⟨m, hgm⟩ := hgm
  have ht2 : get_target { nsection with method := none } = .ok config_data.target.gpu := ht
  have hi2 : get_interval { nsection with method := none } = get_interval nsection := rfl
  have hs2 : ∀ i, get_samples { nsection with method := none } i = get_samples nsection i :=
    fun _ => rfl
  have hne : ¬ config_data.target.gpu = config_data.target.cpu := by decide
  unfold get_section
  rw [ht, ht2, hi2]
  simp only [hm, hgm, hne, if_false, hs2]

/-- The preceding property on a GPU section with `<method>total</method>`. -/
theorem gpu_method_no_effect_witness :
    get_target (gpu_section 10 (some "total".toList)) = .ok config_data.target.gpu ∧
    get_section (gpu_section 10 (some "total".toList)) =
      get_section { gpu_section 10 (some "total".toList) with method := none } :=
  ⟨by decide,
    gpu_method_no_effect (gpu_section 10 (some "total".toList)) "total".toList (by decide) rfl
      (Or.inr rfl)⟩

/-! ## Wait statuses -/

/-- C33: for every wait status, `is_clone_event`, `is_fork_event` and
`is_vfork_event` each hold iff `status >> 8` equals
`SIGTRAP | (PTRACE_EVENT_x << 8)` for their own event constant, which is 773
for `CLONE = 3`, 261 for `FORK = 1` and 517 for `VFORK = 2` with `SIGTRAP = 5`,
that is iff the status lies in the 256 values from `256 * 773`, `256 * 261` or
`256 * 517` on; at most one of the three holds for any status. -/
theorem fork_event_classification (wait_status : Int) :
    (is_clone_event wait_status = true ↔
      wait_status >>> (8 : Nat) = ((SIGTRAP ||| (PTRACE_EVENT_CLONE <<< 8) : Nat) : Int)) ∧
    (is_fork_event wait_status = true ↔
      wait_status >>> (8 : Nat) = ((SIGTRAP ||| (PTRACE_EVENT_FORK <<< 8) : Nat) : Int)) ∧
    (is_vfork_event wait_status = true ↔
      wait_status >>> (8 : Nat) = ((SIGTRAP ||| (PTRACE_EVENT_VFORK <<< 8) : Nat) : Int)) ∧
    (SIGTRAP = 5 ∧ PTRACE_EVENT_CLONE = 3 ∧ PTRACE_EVENT_FORK = 1 ∧ PTRACE_EVENT_VFORK = 2) ∧
    (SIGTRAP ||| (PTRACE_EVENT_CLONE <<< 8) = 773 ∧ SIGTRAP ||| (PTRACE_EVENT_FORK <<< 8) = 261 ∧
      SIGTRAP ||| (PTRACE_EVENT_VFORK <<< 8) = 517) ∧
    (is_clone_event wait_status = true ↔ 256 * 773 ≤ wait_status ∧ wait_status < 256 * 774) ∧
    (is_fork_event wait_status = true ↔ 256 * 261 ≤ wait_status ∧ wait_status < 256 * 262) ∧
    (is_vfork_event wait_status = true ↔ 256 * 517 ≤ wait_status ∧ wait_status < 256 * 518) ∧
    ¬ (is_clone_event wait_status = true ∧ is_fork_event wait_status = true) ∧
    ¬ (is_clone_event wait_status = true ∧ is_vfork_event wait_status = true) ∧
    ¬ (is_fork_event wait_status = true ∧ is_vfork_event wait_status = true) := by
  have hshift : wait_status >>> (8 : Nat) = wait_status / 256 := by
    rw [Int.shiftRight_eq_div_pow]
    norm_num
  have hc : (SIGTRAP ||| (PTRACE_EVENT_CLONE <<< 8) : Nat) = 773 := by decide
  have hf : (SIGTRAP ||| (PTRACE_EVENT_FORK <<< 8) : Nat) = 261 := by decide
  have hv : (SIGTRAP ||| (PTRACE_EVENT_VFORK <<< 8) : Nat) = 517 := by decide
  have h1 : is_clone_event wait_status = true ↔ wait_status / 256 = 773 := by
    simp only [is_clone_event, beq_iff_eq, hc, hshift, Nat.cast_ofNat]
  have h2 : is_fork_event wait_status = true ↔ wait_status / 256 = 261 := by
    simp only [is_fork_event, beq_iff_eq, hf, hshift, Nat.cast_ofNat]
  have h3 : is_vfork_event wait_status = true ↔ wait_status / 256 = 517 := by
    simp only [is_vfork_event, beq_iff_eq, hv, hshift, Nat.cast_ofNat]
  rw [h1, h2, h3, hshift, hc, hf, hv]
  refine ⟨by norm_num, by norm_num, by norm_num, ⟨rfl, rfl, rfl, rfl⟩, ⟨rfl, rfl, rfl⟩,
    ?_, ?_, ?_, ?_, ?_, ?_⟩ <;> omega

end tep

namespace tep.dbg

/-- The predicate of the exact search reads the name only through
`remove_spaces`. -/
theorem exact_pred_spaces (demangle : demangler) (n1 n2 : List Char)
    (h : remove_spaces n1 = remove_spaces n2) :
    exact_pred demangle n1 = exact_pred demangle n2 := by
  funext sym
  unfold exact_pred
  rw [h]

/-- The first search of the exact lookup reads the name only through
`remove_spaces`. -/
theorem find_if_exact_spaces (demangle : demangler) (n1 n2 : List Char)
    (h : remove_spaces n1 = remove_spaces n2) (syms : List function_symbol) (it : Nat) :
    find_if_exact demangle n1 syms it = find_if_exact demangle n2 syms it := by
  induction syms generalizing it with
  | nil => rfl
  | cons sym rest ih =>
    unfold find_if_exact
    rw [h]
    cases demangle sym.name with
    | error ec => rfl
    | ok demangled =>
      simp only
      rw [ih]

/-- C39: exact symbol lookup is whitespace-insensitive. For every
demangler, object info and suffix flag, and every two non-empty names that
are equal once `remove_spaces` has removed their whitespace characters,
`find_function_symbol` with `exact_name = yes` returns the same result for
both (the same symbol index or the same error); and `remove_spaces` is
idempotent. -/
theorem exact_lookup_ignores_spaces (demangle : demangler) (oi : object_info)
    (n1 n2 : List Char) (no_suffix : ignore_symbol_suffix_flag)
    (h1 : n1 ≠ []) (h2 : n2 ≠ []) (h : remove_spaces n1 = remove_spaces n2) :
    find_function_symbol demangle oi n1 exact_symbol_name_flag.yes no_suffix =
        find_function_symbol demangle oi n2 exact_symbol_name_flag.yes no_suffix ∧
      ∀ s : List Char, remove_spaces (remove_spaces s) = remove_spaces s := by
  refine ⟨?_, ?_⟩
  · have e1 : n1.isEmpty = false := by cases n1 <;> simp_all
    have e2 : n2.isEmpty = false := by cases n2 <;> simp_all
    unfold find_function_symbol find_function_symbol_exact find_function_symbol_exact_impl
    rw [e1, e2, find_if_exact_spaces demangle n1 n2 h, exact_pred_spaces demangle n1 n2 h]
    simp
  · intro s
    unfold remove_spaces
    rw [List.filter_filter]
    congr 1
    funext c
    simp

/-- The preceding property on the names `foo ()` and `foo()` and the object
whose only symbol is the mangled name of `foo()`. -/
theorem exact_lookup_ignores_spaces_witness :
    "foo ()".toList ≠ [] ∧ "foo()".toList ≠ [] ∧
      remove_spaces "foo ()".toList = remove_spaces "foo()".toList ∧
      (find_function_symbol example_demangler mangled_symbol_info "foo ()".toList
          exact_symbol_name_flag.yes ignore_symbol_suffix_flag.no =
        find_function_symbol example_demangler mangled_symbol_info "foo()".toList
          exact_symbol_name_flag.yes ignore_symbol_suffix_flag.no ∧
      ∀ s : List Char, remove_spaces (remove_spaces s) = remove_spaces s) :=
  ⟨by decide, by decide, by decide,
    exact_lookup_ignores_spaces _ _ _ _ _ (by decide) (by decide) (by decide)⟩

/-- The truth value of the predicate of the lookup by declaration location is
that of the match of file, line and column, whatever the flags. -/
theorem find_function_pred_fst (file : path) (lineno colno : Nat) (flags : decl_flags)
    (f : function) :
    (find_function_pred file lineno colno flags f).1 = declaration_matches file lineno colno f := by
  unfold find_function_pred declaration_matches
  cases f.decl_loc with
  | none => rfl
  | some loc =>
    simp only
    by_cases h1 : loc.file = file <;> by_cases h2 : loc.line_number = lineno <;>
      by_cases h3 : colno = 0 <;> by_cases h4 : loc.line_column = colno <;> simp [h1, h2, h3, h4]

/-- The index that the first search of the lookup by declaration location
returns. -/
theorem find_if_pred_fst (file : path) (lineno colno : Nat) (l : List function) :
    ∀ (it : Nat) (flags : decl_flags),
      (find_if_pred file lineno colno l it flags).1 =
        it + l.findIdx (declaration_matches file lineno colno) := by
  induction l with
  | nil => intro it flags; rfl
  | cons f rest ih =>
    intro it flags
    unfold find_if_pred
    simp only [List.findIdx_cons, find_function_pred_fst]
    cases declaration_matches file lineno colno f
    · simp only [Bool.false_eq_true, if_false, ih, cond_false]; omega
    · simp

/-- The flags that the first search of the lookup by declaration location
leaves when no function matches. -/
theorem find_if_pred_snd (file : path) (lineno colno : Nat) (l : List function) :
    ∀ (it : Nat) (flags : decl_flags),
      (∀ f ∈ l, declaration_matches file lineno colno f = false) →
      (find_if_pred file lineno colno l it flags).2 =
        { file_found := flags.file_found || l.any (declared_in_file file),
          line_found := flags.line_found || l.any (declared_at_line file lineno),
          col_found := flags.col_found,
          decl_loc_found := flags.decl_loc_found || l.any (fun f => f.decl_loc.isSome) } := by
  induction l with
  | nil => intro it flags _; simp [find_if_pred]
  | cons f rest ih =>
    intro it flags hnone
    have hf := hnone f (List.mem_cons_self _ _)
    have hrest : ∀ g ∈ rest, declaration_matches file lineno colno g = false :=
      fun g hg => hnone g (List.mem_cons_of_mem _ hg)
    unfold find_if_pred
    simp only [find_function_pred_fst, hf, Bool.false_eq_true, if_false]
    rw [ih _ _ hrest]
    unfold declaration_matches at hf
    unfold find_function_pred declared_in_file declared_at_line
    simp only [List.any_cons]
    cases hloc : f.decl_loc with
    | none => simp
    | some loc =>
      rw [hloc] at hf
      simp only at hf
      by_cases h1 : loc.file = file <;> by_cases h2 : loc.line_number = lineno <;>
        by_cases h3 : colno = 0 <;> by_cases h4 : loc.line_column = colno <;>
        simp_all

/-- The lookup by declaration location in terms of the first match and of the
search for a second one. -/
theorem find_function_cu_decl_eq (cu : compilation_unit) (file : path) (lineno colno : Nat) :
    find_function_cu_decl cu file lineno colno =
      if cu.funcs.findIdx (declaration_matches file lineno colno) = cu.funcs.length then
        .error (error_code.util
          (if cu.funcs.all (fun f => f.decl_loc.isNone) then util_errc.decl_location_not_found
           else if cu.funcs.all (fun f => !declared_in_file file f) then util_errc.file_not_found
           else if cu.funcs.all (fun f => !declared_at_line file lineno f) then
             util_errc.line_not_found
           else util_errc.column_not_found))
      else if find_if (declaration_matches file lineno colno) cu.funcs
          (cu.funcs.findIdx (declaration_matches file lineno colno) + 1) cu.funcs.length ≠
          cu.funcs.length then
        .error (error_code.util util_errc.function_ambiguous)
      else .ok (cu.funcs.findIdx (declaration_matches file lineno colno)) := by
  unfold find_function_cu_decl
  simp only [find_if_pred_fst, Nat.zero_add, find_function_pred_fst]
  by_cases hI : cu.funcs.findIdx (declaration_matches file lineno colno) = cu.funcs.length
  · have hnone : ∀ f ∈ cu.funcs, declaration_matches file lineno colno f = false := by
      intro f hf
      have := (List.findIdx_eq_length.mp hI) f hf
      simpa using this
    rw [if_pos hI, if_pos hI, find_if_pred_snd file lineno colno cu.funcs 0 {} hnone]
    simp only [Bool.false_or]
    cases h1 : cu.funcs.any (fun f => f.decl_loc.isSome)
    · have : cu.funcs.all (fun f => f.decl_loc.isNone) = true := by
        rw [List.all_eq_true]
        intro f hf
        have := List.any_eq_false.mp h1 f hf
        cases hl : f.decl_loc <;> simp_all
      simp [this]
    · have : cu.funcs.all (fun f => f.decl_loc.isNone) = false := by
        rw [List.all_eq_false]
        obtain ⟨f, hf, hp⟩ := List.any_eq_true.mp h1
        exact ⟨f, hf, by cases hl : f.decl_loc <;> simp_all⟩
      simp only [this]
      cases h2 : cu.funcs.any (declared_in_file file)
      · have : cu.funcs.all (fun f => !declared_in_file file f) = true := by
          rw [List.all_eq_true]
          intro f hf
          have := List.any_eq_false.mp h2 f hf
          simpa using this
        simp [this]
      · have : cu.funcs.all (fun f => !declared_in_file file f) = false := by
          rw [List.all_eq_false]
          obtain ⟨f, hf, hp⟩ := List.any_eq_true.mp h2
          exact ⟨f, hf, by simp [hp]⟩
        simp only [this]
        cases h3 : cu.funcs.any (declared_at_line file lineno)
        · have : cu.funcs.all (fun f => !declared_at_line file lineno f) = true := by
            rw [List.all_eq_true]
            intro f hf
            have := List.any_eq_false.mp h3 f hf
            simpa using this
          simp [this]
        · have : cu.funcs.all (fun f => !declared_at_line file lineno f) = false := by
            rw [List.all_eq_false]
            obtain ⟨f, hf, hp⟩ := List.any_eq_true.mp h3
            exact ⟨f, hf, by simp [hp]⟩
          simp [this]
  · rw [if_neg hI, if_neg hI]

/-- C37: for every compilation unit and declaration location,
`find_function(cu, file, lineno, colno)` returns the function of index `i`
if and only if that function is the only one of `cu.funcs` whose declaration
location matches the file, the line and, when `colno` is not zero, the
column; it fails with `function_ambiguous` if and only if two functions
match; when none matches it fails with `decl_location_not_found` if no
function has a declaration location, otherwise with `file_not_found` if none
is declared in the file, otherwise with `line_not_found` if none is declared
at the line of the file, otherwise with `column_not_found`; and it never
fails with `function_not_found`. -/
theorem find_function_decl_outcomes (cu : compilation_unit) (file : path)
    (lineno colno : Nat) :
    (∀ i : Nat, find_function_cu_decl cu file lineno colno = .ok i ↔
      (∃ f, cu.funcs[i]? = some f ∧ declaration_matches file lineno colno f = true) ∧
        ∀ (j : Nat) (g : function), cu.funcs[j]? = some g →
          declaration_matches file lineno colno g = true → j = i) ∧
    (find_function_cu_decl cu file lineno colno =
        .error (error_code.util util_errc.function_ambiguous) ↔
      ∃ (i j : Nat) (f g : function), i < j ∧ cu.funcs[i]? = some f ∧ cu.funcs[j]? = some g ∧
        declaration_matches file lineno colno f = true ∧
        declaration_matches file lineno colno g = true) ∧
    ((∀ f ∈ cu.funcs, declaration_matches file lineno colno f = false) →
      ((∀ f ∈ cu.funcs, f.decl_loc = none) →
        find_function_cu_decl cu file lineno colno =
          .error (error_code.util util_errc.decl_location_not_found)) ∧
      ((∃ f ∈ cu.funcs, f.decl_loc ≠ none) →
        (∀ f ∈ cu.funcs, declared_in_file file f = false) →
        find_function_cu_decl cu file lineno colno =
          .error (error_code.util util_errc.file_not_found)) ∧
      ((∃ f ∈ cu.funcs, declared_in_file file f = true) →
        (∀ f ∈ cu.funcs, declared_at_line file lineno f = false) →
        find_function_cu_decl cu file lineno colno =
          .error (error_code.util util_errc.line_not_found)) ∧
      ((∃ f ∈ cu.funcs, declared_at_line file lineno f = true) →
        find_function_cu_decl cu file lineno colno =
          .error (error_code.util util_errc.column_not_found))) ∧
    find_function_cu_decl cu file lineno colno ≠
      .error (error_code.util util_errc.function_not_found) := by
  rw [find_function_cu_decl_eq]
  have hle := @List.findIdx_le_length _ (declaration_matches file lineno colno) cu.funcs
  have hfirst : ∀ j g, j < cu.funcs.findIdx (declaration_matches file lineno colno) →
      cu.funcs[j]? = some g → declaration_matches file lineno colno g = false := by
    intro j g hj hg
    have hjl : j < cu.funcs.length := by omega
    have := List.not_of_lt_findIdx hj
    rw [List.getElem?_eq_getElem hjl] at hg
    rw [Option.some.inj hg] at this
    simpa using this
  by_cases hI : cu.funcs.findIdx (declaration_matches file lineno colno) = cu.funcs.length
  · have hnone : ∀ f ∈ cu.funcs, declaration_matches file lineno colno f = false := by
      intro f hf
      have := (List.findIdx_eq_length.mp hI) f hf
      simpa using this
    have hnone2 : ∀ j g, cu.funcs[j]? = some g →
        declaration_matches file lineno colno g = false :=
      fun j g hg => hnone g (List.getElem?_mem hg)
    rw [if_pos hI]
    refine ⟨?_, ?_, ?_, ?_⟩
    · intro i
      constructor
      · intro h; cases h
      · rintro ⟨⟨f, hf, hm⟩, _⟩
        rw [hnone2 i f hf] at hm; cases hm
    · constructor
      · intro h
        injection h with h
        injection h with h
        split at h
        · cases h
        · split at h
          · cases h
          · split at h <;> cases h
      · rintro ⟨i, j, f, g, _, hf, _, hm, _⟩
        rw [hnone2 i f hf] at hm; cases hm
    · intro _
      refine ⟨?_, ?_, ?_, ?_⟩
      · intro h
        have : cu.funcs.all (fun f => f.decl_loc.isNone) = true := by
          rw [List.all_eq_true]
          intro f hf
          rw [h f hf]; rfl
        rw [if_pos this]
      · rintro ⟨f, hf, hne⟩ h
        have h1 : ¬ cu.funcs.all (fun f => f.decl_loc.isNone) = true := by
          rw [List.all_eq_true]
          intro hall
          have := hall f hf
          cases hl : f.decl_loc <;> simp_all
        have h2 : cu.funcs.all (fun f => !declared_in_file file f) = true := by
          rw [List.all_eq_true]
          intro g hg
          rw [h g hg]; rfl
        rw [if_neg h1, if_pos h2]
      · rintro ⟨f, hf, hin⟩ h
        have h1 : ¬ cu.funcs.all (fun f => f.decl_loc.isNone) = true := by
          rw [List.all_eq_true]
          intro hall
          have := hall f hf
          unfold declared_in_file at hin
          cases hl : f.decl_loc <;> simp_all
        have h2 : ¬ cu.funcs.all (fun f => !declared_in_file file f) = true := by
          rw [List.all_eq_true]
          intro hall
          have := hall f hf
          simp_all
        have h3 : cu.funcs.all (fun f => !declared_at_line file lineno f) = true := by
          rw [List.all_eq_true]
          intro g hg
          rw [h g hg]; rfl
        rw [if_neg h1, if_neg h2, if_pos h3]
      · rintro ⟨f, hf, hat⟩
        have h1 : ¬ cu.funcs.all (fun f => f.decl_loc.isNone) = true := by
          rw [List.all_eq_true]
          intro hall
          have := hall f hf
          unfold declared_at_line at hat
          cases hl : f.decl_loc <;> simp_all
        have h2 : ¬ cu.funcs.all (fun f => !declared_in_file file f) = true := by
          rw [List.all_eq_true]
          intro hall
          have := hall f hf
          unfold declared_at_line at hat
          unfold declared_in_file at this
          cases hl : f.decl_loc <;> simp_all
        have h3 : ¬ cu.funcs.all (fun f => !declared_at_line file lineno f) = true := by
          rw [List.all_eq_true]
          intro hall
          have := hall f hf
          simp_all
        rw [if_neg h1, if_neg h2, if_neg h3]
    · intro h
      injection h with h
      injection h with h
      split at h
      · cases h
      · split at h
        · cases h
        · split at h <;> cases h
  · have hlt : cu.funcs.findIdx (declaration_matches file lineno colno) < cu.funcs.length := by
      omega
    have hat := List.findIdx_getElem (p := declaration_matches file lineno colno) (w := hlt)
    have hsome : cu.funcs[cu.funcs.findIdx (declaration_matches file lineno colno)]? =
        some (cu.funcs[cu.funcs.findIdx (declaration_matches file lineno colno)]) :=
      List.getElem?_eq_getElem hlt
    have hsecond := find_if_eq_last_iff (declaration_matches file lineno colno) cu.funcs
      (cu.funcs.findIdx (declaration_matches file lineno colno) + 1) cu.funcs.length
      (by omega) (le_refl _)
    rw [if_neg hI]
    by_cases hS : find_if (declaration_matches file lineno colno) cu.funcs
        (cu.funcs.findIdx (declaration_matches file lineno colno) + 1) cu.funcs.length =
        cu.funcs.length
    · have hafter := hsecond.mp hS
      rw [if_neg (by simpa using hS)]
      have huniq : ∀ j g, cu.funcs[j]? = some g →
          declaration_matches file lineno colno g = true →
          j = cu.funcs.findIdx (declaration_matches file lineno colno) := by
        intro j g hg hm
        have hjl := getElem?_lt_length _ _ _ hg
        rcases Nat.lt_trichotomy j (cu.funcs.findIdx (declaration_matches file lineno colno))
          with h | h | h
        · rw [hfirst j g h hg] at hm; cases hm
        · exact h
        · rw [hafter j g (by omega) hjl hg] at hm; cases hm
      refine ⟨?_, ?_, ?_, ?_⟩
      · intro i
        constructor
        · intro h
          injection h with h
          subst h
          exact ⟨⟨_, hsome, hat⟩, huniq⟩
        · rintro ⟨⟨f, hf, hm⟩, _⟩
          rw [huniq i f hf hm]
      · constructor
        · intro h; cases h
        · rintro ⟨i, j, f, g, hij, hf, hg, hmf, hmg⟩
          have := huniq i f hf hmf
          have := huniq j g hg hmg
          omega
      · intro hnone
        rw [hnone _ (List.getElem_mem hlt)] at hat
        cases hat
      · intro h; cases h
    · rw [if_pos (by simpa using hS)]
      obtain ⟨s1, s2, s3, s4⟩ := find_if_spec (declaration_matches file lineno colno) cu.funcs
        (cu.funcs.findIdx (declaration_matches file lineno colno) + 1) cu.funcs.length
        (by omega) (le_refl _)
      obtain ⟨g, hg, hmg⟩ := s4 (by omega)
      refine ⟨?_, ?_, ?_, ?_⟩
      · intro i
        constructor
        · intro h; cases h
        · rintro ⟨_, huniq⟩
          have h1 := huniq _ _ hsome hat
          have h2 := huniq _ _ hg hmg
          omega
      · constructor
        · intro _
          exact ⟨_, _, _, g, s1, hsome, hg, hat, hmg⟩
        · intro _; rfl
      · intro hnone
        rw [hnone _ (List.getElem_mem hlt)] at hat
        cases hat
      · intro h
        injection h with h
        injection h with h
        cases h

/-- C38: `find_function(oi, cu, name, exact_name)`
evaluates `**sym` on a failed symbol lookup. For every object info,
compilation unit, name and flag, the function reaches the read of the value
of the failed result (the model has no result there) if and only if the
symbol lookup failed with an error of cause `not_found`; and on the object
with no function symbol the lookup of the name `f` fails with
`symbol_not_found`, of cause `not_found`, so that the read is reached. -/
theorem find_function_reads_failed_lookup (demangle : demangler) (oi : object_info)
    (cu : compilation_unit) (name : List Char) (exact_name : exact_symbol_name_flag) :
    (find_function_cu_name demangle oi cu name exact_name = none ↔
      ∃ e, find_function_symbol_cu demangle oi cu name exact_name
          ignore_symbol_suffix_flag.yes = .error e ∧
        e.to_std.eq_cause util_errcause.not_found = true) ∧
    find_function_symbol_cu demangle (no_symbol_info cu) cu "f".toList exact_name
        ignore_symbol_suffix_flag.yes = .error (error_code.util util_errc.symbol_not_found) ∧
    (error_code.util util_errc.symbol_not_found).to_std.eq_cause util_errcause.not_found = true ∧
    find_function_cu_name demangle (no_symbol_info cu) cu "f".toList exact_name = none := by
  have hsym : find_function_symbol_cu demangle (no_symbol_info cu) cu "f".toList exact_name
      ignore_symbol_suffix_flag.yes = .error (error_code.util util_errc.symbol_not_found) := by
    cases exact_name <;> rfl
  refine ⟨?_, hsym, by decide, ?_⟩
  · unfold find_function_cu_name
    cases h : find_function_symbol_cu demangle oi cu name exact_name
        ignore_symbol_suffix_flag.yes with
    | error e =>
      simp only
      cases hc : e.to_std.eq_cause util_errcause.not_found
      · simp [hc]
      · simp [hc]
    | ok sym =>
      simp only
      constructor
      · intro h2
        split at h2 <;> cases h2
      · rintro ⟨e, he, _⟩
        cases he
  · unfold find_function_cu_name
    rw [hsym]
    rfl

end tep.dbg

namespace tep

/-- C40: the serialisation passes timed executions of
fewer than two samples to `readings_output_dev<Reader>::output`, whose
assertion `exec.size() > 1` is then violated. For a device output, `to_json`
of an `idle_output` keeps every assertion if and only if the execution does
not have exactly one sample (the guard of the source is `!empty()`), and
`to_json` of a `section_output` does if and only if every execution has more
than one sample (the source has no guard); so the serialisation of the
results whose only content is an idle output of one sample, or a section
with an execution of no sample, violates the assertion. -/
theorem to_json_violates_assertion (s : timed_sample) (interval : position_interval)
    (label extra : String) :
    (∀ exec : timed_execution,
      (to_json_idle_output ⟨readings_output.dev_rapl, exec⟩ = true ↔ exec.length ≠ 1) ∧
      (to_json_idle_output ⟨readings_output.dev_gpu, exec⟩ = true ↔ exec.length ≠ 1)) ∧
    (∀ execs : List position_exec,
      (to_json_section_output ⟨readings_output.dev_rapl, label, extra, execs⟩ = true ↔
        ∀ pe ∈ execs, pe.exec.length > 1) ∧
      (to_json_section_output ⟨readings_output.dev_gpu, label, extra, execs⟩ = true ↔
        ∀ pe ∈ execs, pe.exec.length > 1)) ∧
    to_json_profiling_results ⟨[⟨readings_output.dev_rapl, [s]⟩], []⟩ = false ∧
    to_json_profiling_results
      ⟨[], [⟨label, extra, [⟨readings_output.dev_gpu, label, extra, [⟨interval, []⟩]⟩]⟩]⟩ =
      false ∧
    to_json_profiling_results
      ⟨[], [⟨label, extra,
        [⟨readings_output.holder
            (readings_outputs.cons readings_output.dev_rapl readings_outputs.nil),
          label, extra, [⟨interval, [s]⟩]⟩]⟩]⟩ = false := by
  refine ⟨?_, ?_, rfl, rfl, rfl⟩
  · intro exec
    cases exec with
    | nil => simp [to_json_idle_output]
    | cons a rest =>
      cases rest <;>
        simp [to_json_idle_output, readings_output.output, readings_output_dev.output]
  · intro execs
    simp [to_json_section_output, readings_output.output, readings_output_dev.output]

theorem control_run_from_append (a b : List trap) :
    ∀ (s : control_state) (t : Nat),
      control_run_from s t (a ++ b) =
        control_run_from (control_run_from s t a) (t + a.length) b := by
  induction a with
  | nil => intro s t; rfl
  | cons x rest ih =>
    intro s t
    have ht : t + (x :: rest).length = t + 1 + rest.length := by
      simp only [List.length_cons]; omega
    rw [ht]
    exact ih (control_step s t x) (t + 1)

theorem control_run_from_singleton (s : control_state) (t : Nat) (x : trap) :
    control_run_from s t [x] = control_step s t x := rfl

theorem control_step_exit_match (s : control_state) (t id p : Nat) (rest : List (Nat × Nat))
    (h : s.stack = (id, p) :: rest) :
    control_step s t (trap.exit id) =
      { stack := rest, records := s.records ++ [⟨id, p, t⟩] } := by
  simp [control_step, h]

theorem control_step_exit_other (s : control_state) (t id top p : Nat)
    (rest : List (Nat × Nat)) (h : s.stack = (top, p) :: rest) (hne : top ≠ id) :
    control_step s t (trap.exit id) = s := by
  simp [control_step, h, hne]

theorem control_step_exit_nil (s : control_state) (t id : Nat) (h : s.stack = []) :
    control_step s t (trap.exit id) = s := by
  simp [control_step, h]

/-- The records made so far are kept by every transition. -/
theorem control_step_records (s : control_state) (t : Nat) (x : trap) :
    ∃ new, (control_step s t x).records = s.records ++ new := by
  cases x with
  | entry id => exact ⟨[], by simp [control_step]⟩
  | exit id =>
    cases hst : s.stack with
    | nil => exact ⟨[], by simp [control_step, hst]⟩
    | cons top rest =>
      by_cases h : top.1 = id
      · exact ⟨[⟨id, top.2, t⟩], by simp [control_step, hst, h]⟩
      · exact ⟨[], by simp [control_step, hst, h]⟩

theorem control_run_from_records (l : List trap) :
    ∀ (s : control_state) (t : Nat),
      ∃ new, (control_run_from s t l).records = s.records ++ new := by
  induction l with
  | nil => intro s t; exact ⟨[], by simp [control_run_from]⟩
  | cons x rest ih =>
    intro s t
    obtain ⟨n1, h1⟩ := control_step_records s t x
    obtain ⟨n2, h2⟩ := ih (control_step s t x) (t + 1)
    exact ⟨n1 ++ n2, by simp only [control_run_from]; rw [h2, h1, List.append_assoc]⟩

/-- A sequence that can occur inside the region on the top of the stack
leaves the stack as it is. -/
theorem inner_segment_stack (id : Nat) (v : List trap) (h : inner_segment id v) :
    ∀ (s : control_state) (t p : Nat) (rest : List (Nat × Nat)),
      s.stack = (id, p) :: rest → (control_run_from s t v).stack = (id, p) :: rest := by
  induction h with
  | nil id => intro s t p rest hs; exact hs
  | unmatched_exit id j w _ hj ih =>
    intro s t p rest hs
    have h1 := ih s t p rest hs
    rw [control_run_from_append, control_run_from_singleton,
      control_step_exit_other _ _ j id p rest h1 (fun h => hj h.symm)]
    exact h1
  | nested id k w v _ _ ihw ihv =>
    intro s t p rest hs
    have h1 := ihw s t p rest hs
    have h2 := ihv (control_step (control_run_from s t w) (t + w.length) (trap.entry k))
      (t + w.length + 1) (t + w.length) ((id, p) :: rest) (by simp [control_step, h1])
    rw [control_run_from_append, control_run_from_append, control_run_from_singleton]
    simp only [control_run_from]
    rw [control_step_exit_match _ _ k (t + w.length) ((id, p) :: rest) h2]

theorem matched_pair_append (u xs : List trap) (id p q : Nat) (h : matched_pair u id p q) :
    matched_pair (u ++ xs) id p q := by
  obtain ⟨a, v, w, hu, hp, hq, hv⟩ := h
  exact ⟨a, v, w ++ xs, by rw [hu]; simp, hp, hq, hv⟩

/-- What the loop has made of the traps processed so far: the stack agrees
with them, every record is a matched pair of them that ended before now, and
no two records end at the same time. -/
theorem control_step_invariant (u : List trap) (s : control_state) (x : trap)
    (hstack : stack_agrees u s.stack)
    (hrec : ∀ r ∈ s.records, matched_pair u r.region_id r.start_time r.end_time)
    (hend : ∀ r ∈ s.records, r.end_time < u.length)
    (hnodup : (s.records.map (fun r => r.end_time)).Nodup) :
    stack_agrees (u ++ [x]) (control_step s u.length x).stack ∧
    (∀ r ∈ (control_step s u.length x).records,
      matched_pair (u ++ [x]) r.region_id r.start_time r.end_time) ∧
    (∀ r ∈ (control_step s u.length x).records, r.end_time < (u ++ [x]).length) ∧
    ((control_step s u.length x).records.map (fun r => r.end_time)).Nodup := by
  have hrec2 : ∀ r ∈ s.records, matched_pair (u ++ [x]) r.region_id r.start_time r.end_time :=
    fun r hr => matched_pair_append u [x] _ _ _ (hrec r hr)
  have hend2 : ∀ r ∈ s.records, r.end_time < (u ++ [x]).length := by
    intro r hr
    have := hend r hr
    simp only [List.length_append, List.length_singleton]
    omega
  cases x with
  | entry id =>
    refine ⟨?_, hrec2, hend2, hnodup⟩
    show stack_agrees (u ++ [trap.entry id]) ((id, u.length) :: s.stack)
    exact ⟨u, [], rfl, rfl, inner_segment.nil id, hstack⟩
  | exit id =>
    cases hst : s.stack with
    | nil =>
      rw [control_step_exit_nil s _ id hst]
      refine ⟨?_, hrec2, hend2, hnodup⟩
      rw [hst]
      trivial
    | cons top rest =>
      rw [hst] at hstack
      obtain ⟨u0, v, hu, hp, hv, hrest⟩ := hstack
      by_cases htop : top.1 = id
      · have hst2 : s.stack = (id, top.2) :: rest := by rw [hst, ← htop]
        rw [control_step_exit_match s _ id top.2 rest hst2]
        rw [htop] at hu hv
        refine ⟨?_, ?_, ?_, ?_⟩
        · show stack_agrees (u ++ [trap.exit id]) rest
          cases rest with
          | nil => trivial
          | cons top2 rest2 =>
            obtain ⟨u1, v1, hu1, hp1, hv1, hrest1⟩ := hrest
            refine ⟨u1, v1 ++ trap.entry id :: v ++ [trap.exit id], ?_, hp1, ?_, hrest1⟩
            · rw [hu, hu1]; simp
            · exact inner_segment.nested top2.1 id v1 v hv1 hv
        · intro r hr
          rcases List.mem_append.mp hr with h | h
          · exact hrec2 r h
          · rw [List.mem_singleton.mp h]
            exact ⟨u0, v, [], by rw [hu], hp, by rw [hu, ← hp]; simp; omega, hv⟩
        · intro r hr
          rcases List.mem_append.mp hr with h | h
          · exact hend2 r h
          · rw [List.mem_singleton.mp h]
            simp
        · rw [List.map_append, List.nodup_append]
          refine ⟨hnodup, by simp, ?_⟩
          intro a ha hb
          obtain ⟨r, hr, hra⟩ := List.mem_map.mp ha
          have := hend r hr
          simp only [List.map_cons, List.map_nil, List.mem_singleton] at hb
          omega
      · rw [control_step_exit_other s _ id top.1 top.2 rest hst htop]
        refine ⟨?_, hrec2, hend2, hnodup⟩
        rw [hst]
        refine ⟨u0, v ++ [trap.exit id], ?_, hp, ?_, hrest⟩
        · rw [hu]; simp
        · exact inner_segment.unmatched_exit top.1 id v hv (fun h => htop h.symm)

theorem control_run_from_invariant (xs : List trap) :
    ∀ (u : List trap) (s : control_state),
      stack_agrees u s.stack →
      (∀ r ∈ s.records, matched_pair u r.region_id r.start_time r.end_time) →
      (∀ r ∈ s.records, r.end_time < u.length) →
      (s.records.map (fun r => r.end_time)).Nodup →
      (∀ r ∈ (control_run_from s u.length xs).records,
        matched_pair (u ++ xs) r.region_id r.start_time r.end_time) ∧
      ((control_run_from s u.length xs).records.map (fun r => r.end_time)).Nodup := by
  induction xs with
  | nil =>
    intro u s _ hrec _ hnodup
    rw [List.append_nil]
    exact ⟨hrec, hnodup⟩
  | cons x rest ih =>
    intro u s hstack hrec hend hnodup
    obtain ⟨h1, h2, h3, h4⟩ := control_step_invariant u s x hstack hrec hend hnodup
    have := ih (u ++ [x]) (control_step s u.length x) h1 h2 h3 h4
    simp only [List.length_append, List.length_singleton, List.append_assoc,
      List.singleton_append] at this
    exact this

/-- Every record of the loop is a matched pair of the sequence of traps, and
no two records end at the same time. -/
theorem control_run_sound (traps : List trap) :
    (∀ r ∈ (control_run traps).records,
      matched_pair traps r.region_id r.start_time r.end_time) ∧
    ((control_run traps).records.map (fun r => r.end_time)).Nodup := by
  have := control_run_from_invariant traps [] ⟨[], []⟩ trivial (by simp) (by simp) (by simp)
  simpa [control_run] using this

/-- Every matched pair of the sequence of traps is recorded by the loop. -/
theorem control_run_complete (traps : List trap) (id p q : Nat)
    (h : matched_pair traps id p q) : ⟨id, p, q⟩ ∈ (control_run traps).records := by
  obtain ⟨u, v, w, hu, hp, hq, hv⟩ := h
  unfold control_run
  rw [hu, control_run_from_append, control_run_from_append]
  simp only [control_run_from]
  have hstack := inner_segment_stack id v hv
    (control_step (control_run_from ⟨[], []⟩ 0 u) (0 + u.length) (trap.entry id))
    (0 + u.length + 1) p (control_run_from ⟨[], []⟩ 0 u).stack
    (by simp [control_step, hp])
  rw [control_step_exit_match _ _ id p _ hstack]
  obtain ⟨new, hnew⟩ := control_run_from_records w
    { stack := (control_run_from ⟨[], []⟩ 0 u).stack,
      records := (control_run_from
        (control_step (control_run_from ⟨[], []⟩ 0 u) (0 + u.length) (trap.entry id))
        (0 + u.length + 1) v).records ++
        [⟨id, p, 0 + (u ++ trap.entry id :: v).length⟩] }
    (0 + (u ++ trap.entry id :: v).length + 1)
  rw [hnew]
  have hq2 : 0 + (u ++ trap.entry id :: v).length = q := by
    simp only [List.length_append, List.length_cons]
    omega
  rw [hq2]
  simp

theorem records_of_append (id : Nat) (a b : List execution_record) :
    records_of id (a ++ b) = records_of id a ++ records_of id b := by
  simp [records_of]

/-- A well-nested sequence of traps leaves the stack as it is and adds, for
each region, one record per entry of the region. -/
theorem well_nested_run (v : List trap) (h : well_nested v) :
    ∀ (s : control_state) (t : Nat),
      (control_run_from s t v).stack = s.stack ∧
      ∀ id, (records_of id (control_run_from s t v).records).length =
          (records_of id s.records).length + v.count (trap.entry id) ∧
        v.count (trap.entry id) = v.count (trap.exit id) := by
  induction h with
  | nil => intro s t; simp [control_run_from]
  | append w v _ _ ihw ihv =>
    intro s t
    obtain ⟨h1, h2⟩ := ihw s t
    obtain ⟨h3, h4⟩ := ihv (control_run_from s t w) (t + w.length)
    rw [control_run_from_append]
    refine ⟨by rw [h3, h1], ?_⟩
    intro id
    obtain ⟨h5, h6⟩ := h2 id
    obtain ⟨h7, h8⟩ := h4 id
    simp only [List.count_append]
    omega
  | region k w _ ih =>
    intro s t
    obtain ⟨h1, h2⟩ := ih (control_step s t (trap.entry k)) (t + 1)
    have hst : (control_run_from (control_step s t (trap.entry k)) (t + 1) w).stack =
        (k, t) :: s.stack := by rw [h1]; rfl
    have hrun : control_run_from s t (trap.entry k :: w ++ [trap.exit k]) =
        { stack := s.stack,
          records := (control_run_from (control_step s t (trap.entry k)) (t + 1) w).records ++
            [⟨k, t, t + 1 + w.length⟩] } := by
      rw [List.cons_append]
      simp only [control_run_from]
      rw [control_run_from_append, control_run_from_singleton,
        control_step_exit_match _ _ k t s.stack hst]
    rw [hrun]
    refine ⟨rfl, ?_⟩
    intro id
    obtain ⟨h3, h4⟩ := h2 id
    have h5 : (records_of id (control_step s t (trap.entry k)).records).length =
        (records_of id s.records).length := rfl
    simp only [records_of_append, List.length_append, List.cons_append, List.count_cons,
      List.count_append, List.count_nil]
    by_cases hk : k = id
    · subst hk
      simp [records_of] at h3 h5 ⊢
      omega
    · have hk2 : ¬ id = k := fun h => hk h.symm
      simp [records_of, hk, hk2] at h3 h5 ⊢
      omega

/-- C34: nesting correctness of the execution control loop. For every
sequence of entry and exit traps over region ids and every region `id`, the
execution records of the loop for `id` are the matched entry/exit pairs for
`id`: there is a record with the start time `p` and the end time `q` if and
only if the traps at `p` and `q` are a matched pair, and the number of
records for `id` is the number of matched pairs for `id`. When the sequence
is well nested, the stack is empty at its end and the number of records for
`id` is the number of entries of `id`, which is the number of exits of `id`. -/
theorem control_loop_nesting (traps : List trap) (id : Nat) :
    (∀ p q : Nat, ⟨id, p, q⟩ ∈ (control_run traps).records ↔ matched_pair traps id p q) ∧
    (records_of id (control_run traps).records).length =
      Set.ncard {pq : Nat × Nat | matched_pair traps id pq.1 pq.2} ∧
    (well_nested traps →
      (control_run traps).stack = [] ∧
      (records_of id (control_run traps).records).length = traps.count (trap.entry id) ∧
      (records_of id (control_run traps).records).length = traps.count (trap.exit id)) := by
  obtain ⟨hsound, hnodup⟩ := control_run_sound traps
  have hiff : ∀ p q : Nat,
      ⟨id, p, q⟩ ∈ (control_run traps).records ↔ matched_pair traps id p q :=
    fun p q => ⟨fun h => hsound _ h, control_run_complete traps id p q⟩
  refine ⟨hiff, ?_, ?_⟩
  · have hsub : ((records_of id (control_run traps).records).map
        (fun r => r.end_time)).Nodup :=
      hnodup.sublist (List.Sublist.map _ (List.filter_sublist _))
    have hnd : ((records_of id (control_run traps).records).map
        (fun r => (r.start_time, r.end_time))).Nodup := by
      apply List.Nodup.of_map Prod.snd
      rw [List.map_map]
      exact hsub
    have hset : {pq : Nat × Nat | matched_pair traps id pq.1 pq.2} =
        ↑((records_of id (control_run traps).records).map
          (fun r => (r.start_time, r.end_time))).toFinset := by
      ext pq
      simp only [Set.mem_setOf_eq, List.coe_toFinset, List.mem_map]
      rw [← hiff]
      constructor
      · intro h
        exact ⟨⟨id, pq.1, pq.2⟩, by simp [records_of, h], rfl⟩
      · rintro ⟨r, hr, hpq⟩
        simp only [records_of, List.mem_filter, beq_iff_eq] at hr
        obtain ⟨hr1, hr2⟩ := hr
        rw [← hpq, ← hr2]
        exact hr1
    rw [hset, Set.ncard_coe_Finset, List.toFinset_card_of_nodup hnd, List.length_map]
  · intro hwn
    obtain ⟨h1, h2⟩ := well_nested_run traps hwn ⟨[], []⟩ 0
    obtain ⟨h3, h4⟩ := h2 id
    refine ⟨h1, ?_, ?_⟩
    · rw [control_run, h3]; simp [records_of]
    · rw [control_run, h3, ← h4]; simp [records_of]

/-- The preceding property on the sequence of a region 1 that holds an execution of the
region 2, followed by a second execution of the region 1: the sequence is
well nested, and the loop ends with an empty stack and two records for the
region 1. -/
theorem control_loop_nesting_witness :
    well_nested [trap.entry 1, trap.entry 2, trap.exit 2, trap.exit 1, trap.entry 1,
      trap.exit 1] ∧
    (control_run [trap.entry 1, trap.entry 2, trap.exit 2, trap.exit 1, trap.entry 1,
      trap.exit 1]).stack = [] ∧
    (records_of 1 (control_run [trap.entry 1, trap.entry 2, trap.exit 2, trap.exit 1,
      trap.entry 1, trap.exit 1]).records).length = 2 :=
  have hwn : well_nested [trap.entry 1, trap.entry 2, trap.exit 2, trap.exit 1, trap.entry 1,
      trap.exit 1] :=
    well_nested.append _ _
      (well_nested.region 1 _ (well_nested.region 2 [] well_nested.nil))
      (well_nested.region 1 [] well_nested.nil)
  ⟨hwn, ((control_loop_nesting _ 1).2.2 hwn).1, ((control_loop_nesting _ 1).2.2 hwn).2.1⟩

end tep
